import Mathlib

/-!
# A verification development for the ZIM archive reader (package `zim`)

Shallow embedding of the Go sources `reader.go`, `entry.go`, `content_entry.go`,
`entry_iterator.go`, `uncompressed_blob_reader.go`, `compressed_blob_reader.go`
and `util.go`.

Conventions of the embedding
* a byte is a `Fin 256`; a Go `string` or `[]byte` is a `List Byte`;
* `uint16/32/64` values are natural numbers, reduced modulo `2^w` wherever the Go
  code can wrap; `int` and `int64` are integers (`int` is 64 bits wide);
* a function returning `(T, error)` returns `Except Error T`; a run-time panic
  (index or slice bound out of range) is the outcome `Error.panic`, and a loop that
  never exits is the outcome `Error.hang`;
* the byte source (`RangeReadCloser`) is a finite in-memory file whose `ReadAt`
  follows the `io.ReaderAt` contract as `os.File` implements it;
* the `*Reader` back-reference held by entries and blob readers is passed as an
  explicit argument; the LRU entry cache, the only state mutated after opening, is
  threaded as a separate value of type `Cache`;
* recursion that the Go code does not bound (`Redirect`, the loop of
  `parseMimeTypes`) takes an explicit fuel argument and returns `none` when the
  fuel runs out.
-/

namespace Zim

/-- One octet. -/
abbrev Byte := Fin 256

/-- Go `string` values are byte sequences. -/
abbrev GoString := List Byte

/-- Error values returned by the package (`error.go`), the error values of the
libraries it calls, and the two abnormal outcomes of the embedding. -/
inductive Error where
  /-- Go `io.EOF` -/
  | eof
  /-- Go `io.ErrUnexpectedEOF` -/
  | unexpectedEOF
  /-- any other failure of the byte source (a negative offset) -/
  | io
  /-- Go `ErrInvalidIndex` -/
  | invalidIndex
  /-- Go `ErrNotFound` -/
  | notFound
  /-- Go `ErrInvalidRedirect` -/
  | invalidRedirect
  /-- Go `ErrCompressionAlgorithmNotSupported` -/
  | compressionNotSupported
  /-- an anonymous `errors.Errorf` value (bad magic number, bad MIME index) -/
  | malformed
  /-- Go `os.ErrClosed` -/
  | closed
  /-- failure reported by a decoder factory -/
  | decoder
  /-- Go `lru.New` rejecting a non-positive size -/
  | lruSize
  /-- the two anonymous error values of `bytes.Reader.Seek` (invalid whence, negative
  position) -/
  | seek
  /-- run-time panic -/
  | panic
  /-- the Go code loops forever -/
  | hang
  deriving DecidableEq, Repr

/-! ## Machine integers -/

/-- Wrap to `uint32`. -/
def u32 (n : Nat) : Nat := n % 4294967296

/-- Wrap to `uint64`. -/
def u64 (n : Nat) : Nat := n % 18446744073709551616

/-- Subtraction of two `uint64` values, wrapping. -/
def subU64 (a b : Nat) : Nat := (a + 18446744073709551616 - b % 18446744073709551616) % 18446744073709551616

/-- Subtraction of two `uint32` values, wrapping. -/
def subU32 (a b : Nat) : Nat := (a + 4294967296 - b % 4294967296) % 4294967296

/-- The conversion `int64(x)` of a `uint64`. -/
def toInt64 (x : Nat) : Int :=
  if x % 18446744073709551616 < 9223372036854775808 then ((x % 18446744073709551616 : Nat) : Int)
  else ((x % 18446744073709551616 : Nat) : Int) - 18446744073709551616

/-- Wrap an integer to `int64` (two's complement). -/
def wrapInt64 (i : Int) : Int :=
  (i + 9223372036854775808) % 18446744073709551616 - 9223372036854775808

/-! ## `util.go`: fixed-width integer decoders -/

/-- Byte order argument of the decoders. -/
inductive ByteOrder where
  | LittleEndian
  | BigEndian
  deriving DecidableEq, Repr

/-- Little-endian value of a byte sequence. -/
def leValue : List Byte → Nat
  | [] => 0
  | b :: bs => b.val + 256 * leValue bs

/-- Big-endian value of a byte sequence. -/
def beValue (bs : List Byte) : Nat := leValue bs.reverse

/-- The call `binary.Read(bytes.NewBuffer(b), order, &v)` for a `v` of `size` bytes: the
first `size` bytes of `b` are decoded; an empty buffer gives `io.EOF`, a short one
`io.ErrUnexpectedEOF`. -/
def binaryRead (size : Nat) (b : List Byte) (order : ByteOrder) : Except Error Nat :=
  if b.length < size then
    (if b.length = 0 then .error .eof else .error .unexpectedEOF)
  else
    match order with
    | .LittleEndian => .ok (leValue (b.take size))
    | .BigEndian => .ok (beValue (b.take size))

/-- Go `readUint64` of `util.go`. -/
def readUint64 (b : List Byte) (order : ByteOrder) : Except Error Nat := binaryRead 8 b order

/-- Go `readUint32` of `util.go`. -/
def readUint32 (b : List Byte) (order : ByteOrder) : Except Error Nat := binaryRead 4 b order

/-- Go `readUint16` of `util.go`. -/
def readUint16 (b : List Byte) (order : ByteOrder) : Except Error Nat := binaryRead 2 b order

/-- Go `readUint8` of `util.go`. -/
def readUint8 (b : List Byte) (order : ByteOrder) : Except Error Nat := binaryRead 1 b order

/-- The Go slice expression `b[lo:hi]` on a slice whose capacity is its length. -/
def slice (b : List Byte) (lo hi : Nat) : List Byte := (b.take hi).drop lo

/-! ## Byte source -/

/-- Go `ReadAt(data, offset)` on a finite file `src`, for a zeroed buffer `data` of `len`
bytes: the buffer after the call, the number of bytes read and the error. A negative
offset is an error; a read that stops at the end of the file reports `io.EOF`. -/
def ReadAt (src : List Byte) (len : Nat) (offset : Int) : List Byte × Nat × Option Error :=
  if offset < 0 then (List.replicate len 0, 0, some .io)
  else
    let got := (src.drop offset.toNat).take len
    (got ++ List.replicate (len - got.length) 0, got.length,
      if got.length < len then some .eof else none)

/-! ## Data model -/

/-- Go `Namespace` of `namespace.go` (a string type). -/
abbrev Namespace := GoString

/-- Go `BaseEntry` of `entry.go` (without the reader back-reference). -/
structure BaseEntry where
  mimeTypeIndex : Nat := 0
  namespace_ : Namespace := []
  url : GoString := []
  title : GoString := []
  deriving DecidableEq, Repr

/-- Go `RedirectEntry` of `entry.go`. -/
structure RedirectEntry where
  base : BaseEntry
  redirectIndex : Nat := 0
  deriving DecidableEq, Repr

/-- Go `ContentEntry` of `content_entry.go`. -/
structure ContentEntry where
  base : BaseEntry
  mimeType : GoString := []
  clusterIndex : Nat := 0
  blobIndex : Nat := 0
  deriving DecidableEq, Repr

/-- The two implementations of the `Entry` interface. -/
inductive Entry where
  | content (e : ContentEntry)
  | redirect (e : RedirectEntry)
  deriving DecidableEq, Repr

/-- Go `Reader` of `reader.go`: header fields, parsed tables, URL map and byte source.
The `cache` field is the separate value `Cache`. -/
structure Reader where
  majorVersion : Nat := 0
  minorVersion : Nat := 0
  uuid : GoString := []
  entryCount : Nat := 0
  clusterCount : Nat := 0
  urlPtrPos : Nat := 0
  titlePtrPos : Nat := 0
  clusterPtrPos : Nat := 0
  mimeListPos : Nat := 0
  mainPage : Nat := 0
  layoutPage : Nat := 0
  checksumPos : Nat := 0
  mimeTypes : List GoString := []
  urlIndex : List Nat := []
  clusterIndex : List Nat := []
  urls : List (GoString × Int) := []
  rangeReader : List Byte := []
  deriving DecidableEq, Repr

/-- The LRU cache `lru.Cache[string, Entry]`: capacity and items, most recently used
first. -/
structure Cache where
  size : Nat
  items : List (GoString × Entry) := []
  deriving DecidableEq, Repr

/-- Go `Options` of `option.go`. -/
structure Options where
  CacheSize : Int := 2048
  deriving DecidableEq, Repr

/-! ## `reader.go`: accessors and primitive reads -/

/-- Go `Reader.Version`. -/
def Reader.Version (r : Reader) : Nat × Nat := (r.majorVersion, r.minorVersion)

/-- Go `Reader.EntryCount`. -/
def Reader.EntryCount (r : Reader) : Nat := r.entryCount

/-- Go `Reader.ClusterCount`. -/
def Reader.ClusterCount (r : Reader) : Nat := r.clusterCount

/-- Go `Reader.UUID`. -/
def Reader.UUID (r : Reader) : GoString := r.uuid

/-- Go `Reader.readRange(offset, v)` for a fresh buffer `v` of `len` bytes: the buffer after
the call and the returned error (`io.EOF` on a short read). -/
def Reader.readRange (r : Reader) (offset : Int) (len : Nat) : List Byte × Option Error :=
  match ReadAt r.rangeReader len offset with
  | (data, read, err) =>
    match err with
    | some e => (data, some e)
    | none => if read ≠ len then (data, some .eof) else (data, none)

/-- A `readRange` whose caller returns on any error. -/
def Reader.readRangeE (r : Reader) (offset : Int) (len : Nat) : Except Error (List Byte) :=
  match r.readRange offset len with
  | (_, some e) => .error e
  | (data, none) => .ok data

/-- Go `strings.TrimRight(s, "\x00")`. -/
def trimRightNul (s : GoString) : GoString :=
  (s.reverse.dropWhile (fun b => b = 0)).reverse

/-- Loop state of `readStringsAt`: the string builder, the bytes consumed, the strings
produced and the flag `wasNullByte`. -/
structure ScanState where
  sb : GoString := []
  read : Int := 0
  values : List GoString := []
  wasNullByte : Bool := false
  deriving DecidableEq, Repr

/-- The inner `for idx` loop of `readStringsAt` over one chunk `data`; `eof` tells whether
the read of the chunk reported `io.EOF`. Returns `Sum.inl` with the function result when
the loop returns, `Sum.inr` with the state when the chunk is used up. -/
def scanChunk (count : Int) (eof : Bool) : List Byte → ScanState → (List GoString × Int) ⊕ ScanState
  | [], st => .inr st
  | d :: ds, st =>
    let sb := st.sb ++ [d]
    let read := st.read + 1
    if d = 0 then
      if st.wasNullByte then .inl (st.values, read)
      else
        let values := st.values ++ [trimRightNul sb]
        if (values.length : Int) = count ∨ eof then .inl (values, read)
        else scanChunk count eof ds { sb := [], read := read, values := values, wasNullByte := true }
    else
      scanChunk count eof ds { sb := sb, read := read, values := st.values, wasNullByte := false }

/-- The outer `for` loop of `readStringsAt`, at most `fuel` chunks. -/
def readStringsLoop (r : Reader) (offset : Int) (count : Int) (bufferSize : Nat) :
    Nat → ScanState → Except Error (List GoString × Int)
  | 0, _ => .error .hang
  | fuel + 1, st =>
    match r.readRange (wrapInt64 (offset + st.read)) bufferSize with
    | (data, err) =>
      if err.isSome ∧ err ≠ some .eof then .error (err.getD .io)
      else
        match scanChunk count (err = some .eof) data st with
        | .inl res => .ok res
        | .inr st' => readStringsLoop r offset count bufferSize fuel st'

/-- Go `Reader.readStringsAt(offset, count, bufferSize)`. Every chunk but the last one lies
inside the file, so `len(file) + 1` chunks are enough whenever `bufferSize > 0`; with an
empty buffer the Go loop never exits. -/
def Reader.readStringsAt (r : Reader) (offset : Int) (count : Int) (bufferSize : Nat) :
    Except Error (List GoString × Int) :=
  if count < 0 then .error .panic
  else readStringsLoop r offset count bufferSize (r.rangeReader.length + 1) {}

/-! ## `entry.go` and `content_entry.go`: entries -/

/-- The conversion `string(b)` of an integer `b < 256` to a string type: the UTF-8
encoding of the code point `b`. -/
def runeString (b : Nat) : GoString :=
  if b < 128 then [Fin.ofNat b] else [Fin.ofNat (192 + b / 64), Fin.ofNat (128 + b % 64)]

/-- Go `toFullURL` of `entry.go`. -/
def toFullURL (ns : Namespace) (url : GoString) : GoString :=
  if ns = [0] then url else ns ++ [47] ++ url

/-- Go `BaseEntry.Namespace`. -/
def BaseEntry.Namespace (e : BaseEntry) : Namespace := e.namespace_

/-- Go `BaseEntry.Title`. -/
def BaseEntry.Title (e : BaseEntry) : GoString := if e.title = [] then e.url else e.title

/-- Go `BaseEntry.URL`. -/
def BaseEntry.URL (e : BaseEntry) : GoString := e.url

/-- Go `BaseEntry.FullURL`. -/
def BaseEntry.FullURL (e : BaseEntry) : GoString := toFullURL e.Namespace e.URL

/-- The embedded `*BaseEntry` of an entry. -/
def Entry.base : Entry → BaseEntry
  | .content e => e.base
  | .redirect e => e.base

/-- Go `Entry.Namespace`. -/
def Entry.Namespace (e : Entry) : Namespace := e.base.Namespace

/-- Go `Entry.URL`. -/
def Entry.URL (e : Entry) : GoString := e.base.URL

/-- Go `Entry.FullURL`. -/
def Entry.FullURL (e : Entry) : GoString := e.base.FullURL

/-- Go `Entry.Title`. -/
def Entry.Title (e : Entry) : GoString := e.base.Title

/-- Go `ContentEntry.MimeType`. -/
def ContentEntry.MimeType (e : ContentEntry) : GoString := e.mimeType

/-- Go `Reader.parseBaseEntry`. -/
def Reader.parseBaseEntry (r : Reader) (offset : Int) : Except Error BaseEntry := do
  let data ← r.readRangeE offset 3
  let mimeTypeIndex ← readUint16 (slice data 0 2) .LittleEndian
  pure { mimeTypeIndex := mimeTypeIndex, namespace_ := runeString (data.getD 2 0).val }

/-- The two assignments `entry.url = strs[0]` and `entry.title = strs[1]`, each guarded by
the length of `strs`. -/
def setStrings (base : BaseEntry) (strs : List GoString) : BaseEntry :=
  let base := if strs.length > 0 then { base with url := strs.getD 0 [] } else base
  if strs.length > 1 then { base with title := strs.getD 1 [] } else base

/-- Go `Reader.parseRedirectEntry`. -/
def Reader.parseRedirectEntry (r : Reader) (offset : Int) (base : BaseEntry) :
    Except Error RedirectEntry := do
  let data ← r.readRangeE (wrapInt64 (offset + 8)) 4
  let redirectIndex ← readUint32 data .LittleEndian
  let strs ← r.readStringsAt (wrapInt64 (offset + 12)) 2 1024
  pure { base := setStrings base strs.1, redirectIndex := redirectIndex }

/-- Go `Reader.parseContentEntry`. -/
def Reader.parseContentEntry (r : Reader) (offset : Int) (base : BaseEntry) :
    Except Error ContentEntry := do
  let data ← r.readRangeE offset 16
  let mimeTypeIndex ← readUint16 (slice data 0 2) .LittleEndian
  if mimeTypeIndex ≥ r.mimeTypes.length % 65536 then throw Error.malformed
  let mimeType := r.mimeTypes.getD mimeTypeIndex []
  let base := { base with namespace_ := slice data 3 4 }
  let clusterIndex ← readUint32 (slice data 8 12) .LittleEndian
  let blobIndex ← readUint32 (slice data 12 16) .LittleEndian
  let strs ← r.readStringsAt (wrapInt64 (offset + 16)) 2 1024
  pure { base := setStrings base strs.1, mimeType := mimeType,
         clusterIndex := clusterIndex, blobIndex := blobIndex }

/-- The constant `zimRedirect`. -/
def zimRedirect : Nat := 65535

/-- Go `Reader.parseEntryAt`. -/
def Reader.parseEntryAt (r : Reader) (offset : Int) : Except Error Entry := do
  let base ← r.parseBaseEntry offset
  if base.mimeTypeIndex = zimRedirect then
    let entry ← r.parseRedirectEntry offset base
    pure (Entry.redirect entry)
  else
    let entry ← r.parseContentEntry offset base
    pure (Entry.content entry)

/-! ## The entry cache -/

/-- Go `lru.Cache.Peek`: look a key up without touching the recency order. -/
def Cache.Peek (c : Cache) (key : GoString) : Option Entry := c.items.lookup key

/-- Go `lru.Cache.Add`: a present key is updated and moved to the front; a new key is put at
the front and the oldest item is evicted when the capacity is exceeded. -/
def Cache.Add (c : Cache) (key : GoString) (value : Entry) : Cache :=
  if (c.items.lookup key).isSome then
    { c with items := (key, value) :: c.items.filter (fun p => p.1 ≠ key) }
  else
    let items := (key, value) :: c.items
    { c with items := if items.length > c.size then items.dropLast else items }

/-- Go `lru.Cache.Get`: look a key up and move it to the front. -/
def Cache.Get (c : Cache) (key : GoString) : Option Entry × Cache :=
  match c.items.lookup key with
  | none => (none, c)
  | some v => (some v, { c with items := (key, v) :: c.items.filter (fun p => p.1 ≠ key) })

/-- Go `Reader.getURLCacheKey`: `"url:" + fullURL`. -/
def getURLCacheKey (fullURL : GoString) : GoString := [117, 114, 108, 58] ++ fullURL

/-- Go `Reader.getTitleCacheKey`: `"title:%s/%s"`. -/
def getTitleCacheKey (ns : Namespace) (title : GoString) : GoString :=
  [116, 105, 116, 108, 101, 58] ++ ns ++ [47] ++ title

/-- Go `Reader.cacheEntry`. -/
def cacheEntry (c : Cache) (entry : Entry) : Cache :=
  let urlKey := getURLCacheKey entry.FullURL
  let titleKey := getTitleCacheKey entry.Namespace entry.Title
  if (c.Peek urlKey).isSome ∧ (c.Peek titleKey).isSome then c
  else (c.Add urlKey entry).Add titleKey entry

/-- Go `Reader.getEntryByTitleFromCache`. -/
def getEntryByTitleFromCache (c : Cache) (ns : Namespace) (title : GoString) : Option Entry × Cache :=
  c.Get (getTitleCacheKey ns title)

/-! ## `reader.go`: lookups -/

/-- Go `Reader.EntryAt`. -/
def Reader.EntryAt (r : Reader) (c : Cache) (idx : Int) : Except Error Entry × Cache :=
  if idx ≥ r.urlIndex.length ∨ idx < 0 then (.error .invalidIndex, c)
  else
    let entryPtr := r.urlIndex.getD idx.toNat 0
    match r.parseEntryAt (toInt64 entryPtr) with
    | .error e => (.error e, c)
    | .ok entry => (.ok entry, cacheEntry c entry)

/-- Go `Reader.EntryWithFullURL`. -/
def Reader.EntryWithFullURL (r : Reader) (c : Cache) (url : GoString) : Except Error Entry × Cache :=
  match r.urls.lookup url with
  | none => (.error .notFound, c)
  | some urlNum => r.EntryAt c urlNum

/-- Go `EntryIterator`. -/
structure EntryIterator where
  index : Int := 0
  entry : Option Entry := none
  err : Option Error := none
  deriving DecidableEq, Repr

/-- Go `Reader.Entries`. -/
def Reader.Entries (_r : Reader) : EntryIterator := {}

/-- Go `EntryIterator.Next`; the bound is `int(entryCount-1)` with the subtraction done on
`uint32`. -/
def EntryIterator.Next (r : Reader) (c : Cache) (it : EntryIterator) :
    Bool × EntryIterator × Cache :=
  if it.err.isSome then (false, it, c)
  else
    let entryCount := r.EntryCount
    if it.index ≥ ((subU32 entryCount 1 : Nat) : Int) then (false, it, c)
    else
      match r.EntryAt c it.index with
      | (.error e, c') => (false, { it with err := some e }, c')
      | (.ok entry, c') => (true, { it with entry := some entry, index := it.index + 1 }, c')

/-- Go `EntryIterator.Err`. -/
def EntryIterator.Err (it : EntryIterator) : Option Error := it.err

/-- Go `EntryIterator.Index`. -/
def EntryIterator.Index (it : EntryIterator) : Int := it.index - 1

/-- Go `EntryIterator.Entry`. -/
def EntryIterator.Entry (it : EntryIterator) : Option Entry := it.entry

/-! ## `reader.go`: opening an archive -/

/-- The assignment `m[key] = value` on a Go map, kept as an association list without
duplicate keys. -/
def mapInsert (m : List (GoString × Int)) (key : GoString) (value : Int) : List (GoString × Int) :=
  if (m.lookup key).isSome then m.map (fun p => if p.1 = key then (key, value) else p)
  else m ++ [(key, value)]

/-- The loop `for iterator.Next() ...` of `preload`, at most `fuel` iterations. -/
def preloadLoop (r : Reader) :
    Nat → EntryIterator → Cache → List (GoString × Int) → Option (EntryIterator × Cache × List (GoString × Int))
  | 0, _, _, _ => none
  | fuel + 1, it, c, urls =>
    match it.Next r c with
    | (false, it', c') => some (it', c', urls)
    | (true, it', c') =>
      match it'.Entry with
      | none => none
      | some entry => preloadLoop r fuel it' c' (mapInsert urls entry.FullURL it'.Index)

/-- The end of `Reader.preload`, after the loop: the error of the iterator, if any, is
returned; otherwise the reader with the URL map that the loop has filled. -/
def preloadFinish (r : Reader) :
    Option (EntryIterator × Cache × List (GoString × Int)) → Except Error (Reader × Cache)
  | none => .error .hang
  | some (it, c', urls) =>
    match it.Err with
    | some e => .error e
    | none => .ok ({ r with urls := urls }, c')

/-- Go `Reader.preload`. `Next` succeeds at most `len(urlIndex)` times, which bounds the
loop. -/
def Reader.preload (r : Reader) (c : Cache) : Except Error (Reader × Cache) :=
  preloadFinish r (preloadLoop r (r.urlIndex.length + 1) r.Entries c [])

/-- The constant `zimFormatMagicNumber`. -/
def zimFormatMagicNumber : Nat := 0x44D495A

/-- The verb `%x` of `fmt` for an unsigned integer. -/
def fmtHex (n : Nat) : GoString := (Nat.toDigits 16 n).map (fun ch => Fin.ofNat ch.toNat)

/-- The verbs `%04x` and `%08x` of `fmt`: `%x` padded with zeros on the left to `width`. -/
def fmtHexPad (width : Nat) (n : Nat) : GoString :=
  let s := fmtHex n
  List.replicate (width - s.length) 48 ++ s

/-- Go `Reader.parseUUID(data)`. The argument stands for the slice `header[8:16]` together
with its capacity (the header bytes from offset 8 to the end), which the function
re-slices up to index 16. -/
def Reader.parseUUID (r : Reader) (data : List Byte) : Except Error Reader := do
  let v1 ← readUint32 (slice data 0 4) .BigEndian
  let v2 ← readUint16 (slice data 4 6) .BigEndian
  let v3 ← readUint16 (slice data 6 8) .BigEndian
  let v4 ← readUint16 (slice data 8 10) .BigEndian
  let val32 ← readUint32 (slice data 10 14) .BigEndian
  let val16 ← readUint16 (slice data 14 16) .BigEndian
  pure { r with uuid := fmtHexPad 8 v1 ++ [45] ++ fmtHexPad 4 v2 ++ [45] ++ fmtHexPad 4 v3 ++ [45]
                          ++ fmtHexPad 4 v4 ++ [45] ++ (fmtHex val32 ++ fmtHex val16) }

/-- Go `Reader.parseHeader`. -/
def Reader.parseHeader (r : Reader) : Except Error Reader := do
  let header ← r.readRangeE 0 80
  let magicNumber ← readUint32 (slice header 0 4) .LittleEndian
  if magicNumber ≠ zimFormatMagicNumber then throw Error.malformed
  let majorVersion ← readUint16 (slice header 4 6) .LittleEndian
  let r := { r with majorVersion := majorVersion }
  let minorVersion ← readUint16 (slice header 6 8) .LittleEndian
  let r := { r with minorVersion := minorVersion }
  let r ← r.parseUUID (header.drop 8)
  let entryCount ← readUint32 (slice header 24 28) .LittleEndian
  let r := { r with entryCount := entryCount }
  let clusterCount ← readUint32 (slice header 28 32) .LittleEndian
  let r := { r with clusterCount := clusterCount }
  let urlPtrPos ← readUint64 (slice header 32 40) .LittleEndian
  let r := { r with urlPtrPos := urlPtrPos }
  let titlePtrPos ← readUint64 (slice header 40 48) .LittleEndian
  let r := { r with titlePtrPos := titlePtrPos }
  let clusterPtrPos ← readUint64 (slice header 48 56) .LittleEndian
  let r := { r with clusterPtrPos := clusterPtrPos }
  let mimeListPos ← readUint64 (slice header 56 64) .LittleEndian
  let r := { r with mimeListPos := mimeListPos }
  let mainPage ← readUint32 (slice header 64 68) .LittleEndian
  let r := { r with mainPage := mainPage }
  let layoutPage ← readUint32 (slice header 68 72) .LittleEndian
  let r := { r with layoutPage := layoutPage }
  let checksumPos ← readUint64 (slice header 72 80) .LittleEndian
  pure { r with checksumPos := checksumPos }

/-- The loop of `Reader.parseMimeTypes`, at most `fuel` calls of `readStringsAt`; `read`
is the byte count of the previous call. -/
def parseMimeTypesLoop (r : Reader) (offset : Int) :
    Nat → Int → List GoString → Option (Except Error (List GoString))
  | 0, _, _ => none
  | fuel + 1, read, mimeTypes =>
    match r.readStringsAt (wrapInt64 (offset + read)) 64 1024 with
    | .error e =>
      if e ≠ .eof then some (.error e) else some (.ok mimeTypes)
    | .ok (found, read') =>
      if found.length = 0 ∨ found.head? = some [] then some (.ok mimeTypes)
      else parseMimeTypesLoop r offset fuel read' (mimeTypes ++ found)

/-- Go `Reader.parseMimeTypes`. -/
def Reader.parseMimeTypes (r : Reader) (fuel : Nat) : Option (Except Error Reader) :=
  match parseMimeTypesLoop r (toInt64 r.mimeListPos) fuel 0 [] with
  | none => none
  | some (.error e) => some (.error e)
  | some (.ok mimeTypes) => some (.ok { r with mimeTypes := mimeTypes })

/-- The decoding loop of `parsePointerIndex`: `remaining` pointers still to decode, the
next one being number `i`. -/
def parsePointerLoop (data : List Byte) : Nat → Nat → List Nat → Except Error (List Nat)
  | 0, _, index => .ok index
  | remaining + 1, i, index =>
    match readUint64 (slice data (i * 8) (i * 8 + 8)) .LittleEndian with
    | .error e => .error e
    | .ok ptr => parsePointerLoop data remaining (i + 1) (index ++ [ptr])

/-- Go `Reader.parsePointerIndex`. -/
def Reader.parsePointerIndex (r : Reader) (startAddr : Int) (count : Nat) : Except Error (List Nat) := do
  let data ← r.readRangeE startAddr (count * 8)
  parsePointerLoop data count 0 []

/-- Go `Reader.parseURLIndex`. -/
def Reader.parseURLIndex (r : Reader) : Except Error Reader := do
  let urlIndex ← r.parsePointerIndex (toInt64 r.urlPtrPos) r.entryCount
  pure { r with urlIndex := urlIndex }

/-- Go `Reader.parseClusterIndex`; `clusterCount+1` is computed on `uint32`. -/
def Reader.parseClusterIndex (r : Reader) : Except Error Reader := do
  let clusterIndex ← r.parsePointerIndex (toInt64 r.clusterPtrPos) (u32 (r.clusterCount + 1))
  pure { r with clusterIndex := clusterIndex }

/-- Go `Reader.parse`. -/
def Reader.parse (r : Reader) (fuel : Nat) : Option (Except Error Reader) :=
  match r.parseHeader with
  | .error e => some (.error e)
  | .ok r =>
    match r.parseMimeTypes fuel with
    | none => none
    | some (.error e) => some (.error e)
    | some (.ok r) =>
      match r.parseURLIndex with
      | .error e => some (.error e)
      | .ok r =>
        match r.parseClusterIndex with
        | .error e => some (.error e)
        | .ok r => some (.ok r)

/-- Go `NewReader(rangeReader, funcs...)`, the options already applied to the defaults;
`fuel` bounds the loop of `parseMimeTypes`. -/
def NewReader (fuel : Nat) (rangeReader : List Byte) (opts : Options) :
    Option (Except Error (Reader × Cache)) :=
  if opts.CacheSize ≤ 0 then some (.error .lruSize)
  else
    match Reader.parse { rangeReader := rangeReader } fuel with
    | none => none
    | some (.error e) => some (.error e)
    | some (.ok reader) => some (reader.preload { size := opts.CacheSize.toNat })

/-! ## `entry.go`: redirect resolution -/

/-- The methods `RedirectEntry.Redirect` and `ContentEntry.Redirect` behind
`Entry.Redirect`. The Go recursion has no depth bound; `fuel` is the number of nested calls
allowed and `none` means that it was used up. The type assertion on the result of the
nested call cannot fail, so its `ErrInvalidRedirect` branch has no counterpart. -/
def Redirect (r : Reader) : Nat → Entry → Option (Except Error ContentEntry)
  | _, .content e => some (.ok e)
  | 0, .redirect _ => none
  | fuel + 1, .redirect e =>
    if e.redirectIndex ≥ u32 r.urlIndex.length then some (.error .invalidIndex)
    else
      let entryPtr := r.urlIndex.getD e.redirectIndex 0
      match r.parseEntryAt (toInt64 entryPtr) with
      | .error err => some (.error err)
      | .ok entry =>
        match Redirect r fuel entry with
        | none => none
        | some (.error err) => some (.error err)
        | some (.ok contentEntry) => some (.ok contentEntry)

/-! ## `reader.go` and `content_entry.go`: cluster addressing -/

/-- Go `Reader.getClusterOffsets`. Indexing `clusterIndex` out of range panics. -/
def Reader.getClusterOffsets (r : Reader) (clusterNum : Int) : Except Error (Nat × Nat) :=
  if clusterNum > (r.clusterIndex.length : Int) - 1 ∨ clusterNum < 0 then .error .invalidIndex
  else
    match r.clusterIndex[clusterNum.toNat]?, r.clusterIndex[clusterNum.toNat + 1]? with
    | some clusterStart, some next => .ok (clusterStart, subU64 next 1)
    | _, _ => .error .panic

/-- Go `ContentEntry.readClusterInfo`: header byte, cluster start, cluster end. -/
def ContentEntry.readClusterInfo (r : Reader) (e : ContentEntry) : Except Error (Nat × Nat × Nat) := do
  let offsets ← r.getClusterOffsets (e.clusterIndex : Int)
  let data ← r.readRangeE (toInt64 offsets.1) 1
  pure ((data.getD 0 0).val, offsets.1, offsets.2)

/-- The `uint8` expression `(clusterHeader << 4) >> 4`. -/
def compressionOf (clusterHeader : Nat) : Nat := (clusterHeader * 16 % 256) / 16

/-- The `uint8` expression `(clusterHeader<<3)>>7 == 1`. -/
def extendedOf (clusterHeader : Nat) : Bool := (clusterHeader * 8 % 256) / 128 == 1

/-- Go `ContentEntry.Compression`. -/
def ContentEntry.Compression (r : Reader) (e : ContentEntry) : Except Error Int := do
  let info ← e.readClusterInfo r
  pure ((compressionOf info.1 : Nat) : Int)

/-! ## Blob readers -/

/-- The type `bytes.Reader`: the bytes and the read position. -/
structure BytesReader where
  s : List Byte
  i : Int := 0
  deriving DecidableEq, Repr

/-- Go `bytes.Reader.Size`. -/
def BytesReader.Size (b : BytesReader) : Int := b.s.length

/-- Go `bytes.Reader.Read` into a buffer of `n` bytes: the bytes copied, the error and the
reader afterwards. -/
def BytesReader.Read (b : BytesReader) (n : Nat) : List Byte × Option Error × BytesReader :=
  if b.i ≥ b.s.length then ([], some .eof, b)
  else
    let got := (b.s.drop b.i.toNat).take n
    (got, none, { b with i := b.i + got.length })

/-- Go `io.ReadAll` on a `bytes.Reader`: all bytes from the read position to the end. -/
def BytesReader.ReadAll (b : BytesReader) : List Byte × BytesReader :=
  (b.s.drop b.i.toNat, { b with i := max b.i b.s.length })

/-- A Go byte slice together with the rest of its backing array: `data` holds the bytes up
to the length of the slice, `slack` the bytes of the array between the length and the
capacity. -/
structure Buffer where
  data : List Byte
  slack : List Byte := []
  deriving DecidableEq, Repr

/-- The capacity `cap(b)` of a slice. -/
def Buffer.cap (b : Buffer) : Nat := b.data.length + b.slack.length

/-- The type `BlobDecoderFactory`, applied to the compressed bytes and read to the end by
the `io.ReadAll` of `loadClusterData`: the slice that `io.ReadAll` returns, which is the
decoded bytes together with the rest of the buffer that `io.ReadAll` has grown, or an
error. -/
abbrev BlobDecoderFactory := List Byte → Except Error Buffer

/-- The two decoders of the package, `xz.NewReader` and `zstd.NewReader`, which are
library code. -/
structure Codecs where
  xz : BlobDecoderFactory
  zstd : BlobDecoderFactory

/-- Go `UncompressedBlobReader`; `loadBlobOnce` is the done flag of the `sync.Once`. -/
structure UncompressedBlobReader where
  blobStartOffset : Nat
  blobEndOffset : Nat
  blobSize : Nat
  readOffset : Int := 0
  blob : Option BytesReader := none
  loadBlobOnce : Bool := false
  loadBlobErr : Option Error := none
  deriving DecidableEq, Repr

/-- Go `CompressedBlobReader`; `loadCluster` is the done flag of the `sync.Once`. -/
structure CompressedBlobReader where
  decoderFactory : BlobDecoderFactory
  clusterStartOffset : Nat
  clusterEndOffset : Nat
  blobIndex : Nat
  blobSize : Nat
  readOffset : Nat := 0
  loadCluster : Bool := false
  loadClusterErr : Option Error := none
  data : Option BytesReader := none
  closed : Bool := false

/-- The two implementations of the `BlobReader` interface. -/
inductive BlobReader where
  | uncompressed (b : UncompressedBlobReader)
  | compressed (b : CompressedBlobReader)

/-- Go `NewUncompressedBlobReader`. -/
def NewUncompressedBlobReader (blobStartOffset blobEndOffset : Nat) (blobSize : Nat) :
    UncompressedBlobReader :=
  { blobStartOffset := blobStartOffset, blobEndOffset := blobEndOffset, blobSize := blobSize,
    readOffset := 0 }

/-- Go `NewCompressedBlobReader`. -/
def NewCompressedBlobReader (decoderFactory : BlobDecoderFactory)
    (clusterStartOffset clusterEndOffset : Nat) (blobIndex : Nat) (blobSize : Nat) :
    CompressedBlobReader :=
  { decoderFactory := decoderFactory, clusterStartOffset := clusterStartOffset,
    clusterEndOffset := clusterEndOffset, blobIndex := blobIndex, blobSize := blobSize,
    readOffset := 0 }

/-- Go `NewXZBlobReader`. -/
def NewXZBlobReader (codecs : Codecs) (clusterStartOffset clusterEndOffset : Nat)
    (blobIndex : Nat) (blobSize : Nat) : CompressedBlobReader :=
  NewCompressedBlobReader codecs.xz clusterStartOffset clusterEndOffset blobIndex blobSize

/-- Go `NewZStdBlobReader`. -/
def NewZStdBlobReader (codecs : Codecs) (clusterStartOffset clusterEndOffset : Nat)
    (blobIndex : Nat) (blobSize : Nat) : CompressedBlobReader :=
  NewCompressedBlobReader codecs.zstd clusterStartOffset clusterEndOffset blobIndex blobSize

/-- The two offsets `(blobStart, blobEnd)` decoded from a buffer `data` of `2*blobSize`
bytes: `readUint64` on both halves when `extended`, `readUint32` otherwise. -/
def decodeOffsetPair (extended : Bool) (blobSize : Nat) (data : List Byte) : Except Error (Nat × Nat) :=
  if extended then do
    let blobStart64 ← readUint64 (slice data 0 blobSize) .LittleEndian
    let blobEnd64 ← readUint64 (slice data blobSize (blobSize * 2)) .LittleEndian
    pure (blobStart64, blobEnd64)
  else do
    let blobStart32 ← readUint32 (slice data 0 blobSize) .LittleEndian
    let blobEnd32 ← readUint32 (slice data blobSize (blobSize * 2)) .LittleEndian
    pure (blobStart32, blobEnd32)

/-- Go `ContentEntry.Reader`. -/
def ContentEntry.Reader (codecs : Codecs) (r : Reader) (e : ContentEntry) : Except Error BlobReader := do
  let info ← e.readClusterInfo r
  let clusterHeader := info.1
  let clusterStartOffset := info.2.1
  let clusterEndOffset := info.2.2
  let compression := compressionOf clusterHeader
  let extended := extendedOf clusterHeader
  let blobSize := if extended then 8 else 4
  if compression = 0 ∨ compression = 1 then
    let startPos := u64 (clusterStartOffset + 1)
    let blobOffset := u32 (e.blobIndex * u32 blobSize)
    let data ← r.readRangeE (toInt64 (u64 (startPos + blobOffset))) (2 * blobSize)
    let offsets ← decodeOffsetPair extended blobSize data
    pure (BlobReader.uncompressed
      (NewUncompressedBlobReader (u64 (startPos + offsets.1)) (u64 (startPos + offsets.2)) blobSize))
  else if compression = 4 then
    pure (BlobReader.compressed
      (NewXZBlobReader codecs clusterStartOffset clusterEndOffset e.blobIndex blobSize))
  else if compression = 5 then
    pure (BlobReader.compressed
      (NewZStdBlobReader codecs clusterStartOffset clusterEndOffset e.blobIndex blobSize))
  else
    throw Error.compressionNotSupported

/-- The allocation limit `maxAlloc` of the Go runtime with 48 bits of heap address (linux
on amd64 and arm64), `1 << 48` bytes: `make([]byte, n)` panics for a larger `n`, which
includes every `n` that is negative as an `int`. A length up to the limit is taken to be
allocated: running out of memory below the limit ends the program and is not modelled. -/
def maxAlloc : Nat := 281474976710656

/-- The function passed to `loadBlobOnce.Do` in `UncompressedBlobReader.loadBlob`. -/
def UncompressedBlobReader.loadBody (r : Reader) (b : UncompressedBlobReader) :
    Except Error (List Byte) :=
  let n := subU64 b.blobEndOffset b.blobStartOffset
  if n > maxAlloc then .error .panic
  else r.readRangeE (toInt64 b.blobStartOffset) n

/-- Go `UncompressedBlobReader.loadBlob`: the `*bytes.Reader` or the error, and the blob
reader afterwards. -/
def UncompressedBlobReader.loadBlob (r : Reader) (b : UncompressedBlobReader) :
    Except Error BytesReader × UncompressedBlobReader :=
  if b.loadBlobOnce then
    match b.loadBlobErr, b.blob with
    | some e, _ => (.error e, b)
    | none, some blob => (.ok blob, b)
    | none, none => (.error .panic, b)
  else
    match b.loadBody r with
    | .ok data => (.ok { s := data }, { b with loadBlobOnce := true, blob := some { s := data } })
    | .error .panic => (.error .panic, { b with loadBlobOnce := true })
    | .error e => (.error e, { b with loadBlobOnce := true, loadBlobErr := some e })

/-- Go `UncompressedBlobReader.Size`. -/
def UncompressedBlobReader.Size (b : UncompressedBlobReader) : Except Error Int :=
  .ok (toInt64 (subU64 b.blobEndOffset b.blobStartOffset))

/-- Go `UncompressedBlobReader.Read` into a buffer of `n` bytes. -/
def UncompressedBlobReader.Read (r : Reader) (b : UncompressedBlobReader) (n : Nat) :
    (List Byte × Option Error) × UncompressedBlobReader :=
  match b.loadBlob r with
  | (.error e, b') => (([], some e), b')
  | (.ok blobData, b') =>
    match blobData.Read n with
    | (got, err, blobData') => ((got, err), { b' with blob := some blobData' })

/-- Go `UncompressedBlobReader.Close`. -/
def UncompressedBlobReader.Close (b : UncompressedBlobReader) : Option Error × UncompressedBlobReader :=
  (none, b)

/-- The Go slice expression `b[lo:hi]` with its bounds check `lo ≤ hi ≤ cap(b)`: the bytes
past the length of `b` are those of the rest of its backing array. -/
def goSlice (b : Buffer) (lo hi : Nat) : Except Error (List Byte) :=
  if lo ≤ hi ∧ hi ≤ b.cap then .ok (slice (b.data ++ b.slack) lo hi) else .error .panic

/-- The block `if r.blobSize == 8 ... else ...` of `loadClusterData`: the two offsets
decoded from the decoded cluster, `readUint64` for the width 8 and `readUint32` otherwise.
The three slice indices are computed on `uint32`. -/
def CompressedBlobReader.decodeOffsets (b : CompressedBlobReader) (uncompressedData : Buffer) :
    Except Error (Nat × Nat) :=
  let lo := u32 (b.blobIndex * u32 b.blobSize)
  let mid := u32 (lo + u32 b.blobSize)
  let hi := u32 (mid + u32 b.blobSize)
  if b.blobSize = 8 then do
    let s1 ← goSlice uncompressedData lo mid
    let blobStart64 ← readUint64 s1 .LittleEndian
    let s2 ← goSlice uncompressedData mid hi
    let blobEnd64 ← readUint64 s2 .LittleEndian
    pure (blobStart64, blobEnd64)
  else do
    let s1 ← goSlice uncompressedData lo mid
    let blobStart32 ← readUint32 s1 .LittleEndian
    let s2 ← goSlice uncompressedData mid hi
    let blobEnd32 ← readUint32 s2 .LittleEndian
    pure (blobStart32, blobEnd32)

/-- The calls that the function passed to `loadCluster.Do` makes outside the blob reader:
the read of the cluster from the byte source, `r.reader.readRange(offset, compressedData)`
with a buffer of `len` bytes, and the call `r.decoderFactory(blobBuffer)` on the bytes
read. -/
inductive LoadEvent where
  | readCluster (offset : Int) (len : Nat)
  | decode (compressedData : List Byte)
  deriving DecidableEq, Repr

/-- The part of the function passed to `loadCluster.Do` that follows the read of the
cluster: the decoder, the offsets and the copy of the blob. -/
def CompressedBlobReader.decodeBody (b : CompressedBlobReader) (compressedData : List Byte) :
    Except Error (List Byte) := do
  let uncompressedData ← b.decoderFactory compressedData
  let offsets ← b.decodeOffsets uncompressedData
  if subU64 offsets.2 offsets.1 > maxAlloc then .error .panic
  else goSlice uncompressedData offsets.1 offsets.2

/-- The function passed to `loadCluster.Do` in `CompressedBlobReader.loadClusterData`: the
calls it makes outside the blob reader, in their order, and the blob, or the error stored
in `loadClusterErr`, or a panic. The decoder factory is called when the cluster has been
read. -/
def CompressedBlobReader.loadBodyTraced (r : Reader) (b : CompressedBlobReader) :
    List LoadEvent × Except Error (List Byte) :=
  let n := subU64 b.clusterEndOffset b.clusterStartOffset
  if n > maxAlloc then ([], .error .panic)
  else
    match r.readRangeE (toInt64 (u64 (b.clusterStartOffset + 1))) n with
    | .error e => ([.readCluster (toInt64 (u64 (b.clusterStartOffset + 1))) n], .error e)
    | .ok compressedData =>
      ([.readCluster (toInt64 (u64 (b.clusterStartOffset + 1))) n, .decode compressedData],
       b.decodeBody compressedData)

/-- The result of the function passed to `loadCluster.Do`. -/
def CompressedBlobReader.loadBody (r : Reader) (b : CompressedBlobReader) : Except Error (List Byte) :=
  (b.loadBodyTraced r).2

/-- Go `CompressedBlobReader.loadClusterData`: the calls made outside the blob reader, the
returned error and the blob reader afterwards. -/
def CompressedBlobReader.loadClusterDataTraced (r : Reader) (b : CompressedBlobReader) :
    List LoadEvent × Option Error × CompressedBlobReader :=
  if b.closed then ([], some .closed, b)
  else if b.loadCluster then ([], b.loadClusterErr, b)
  else
    match b.loadBodyTraced r with
    | (events, .ok data) =>
      (events, none, { b with loadCluster := true, data := some { s := data } })
    | (events, .error .panic) => (events, some .panic, { b with loadCluster := true })
    | (events, .error e) =>
      (events, some e, { b with loadCluster := true, loadClusterErr := some e })

/-- Go `CompressedBlobReader.loadClusterData`: the returned error and the blob reader
afterwards. -/
def CompressedBlobReader.loadClusterData (r : Reader) (b : CompressedBlobReader) :
    Option Error × CompressedBlobReader :=
  (b.loadClusterDataTraced r).2

/-- Go `CompressedBlobReader.Size`. -/
def CompressedBlobReader.Size (r : Reader) (b : CompressedBlobReader) :
    Except Error Int × CompressedBlobReader :=
  match b.loadClusterData r with
  | (some e, b') => (.error e, b')
  | (none, b') =>
    match b'.data with
    | none => (.error .panic, b')
    | some data => (.ok data.Size, b')

/-- Go `CompressedBlobReader.Read` into a buffer of `n` bytes. -/
def CompressedBlobReader.Read (r : Reader) (b : CompressedBlobReader) (n : Nat) :
    (List Byte × Option Error) × CompressedBlobReader :=
  match b.loadClusterData r with
  | (some e, b') => (([], some e), b')
  | (none, b') =>
    match b'.data with
    | none => (([], some .panic), b')
    | some data =>
      match data.Read n with
      | (got, err, data') => ((got, err), { b' with data := some data' })

/-- Go `CompressedBlobReader.Close`. -/
def CompressedBlobReader.Close (b : CompressedBlobReader) : Option Error × CompressedBlobReader :=
  (none, b)

/-- Go `BlobReader.Size`. -/
def BlobReader.Size (r : Reader) : BlobReader → Except Error Int × BlobReader
  | .uncompressed b => (b.Size, .uncompressed b)
  | .compressed b => ((b.Size r).1, .compressed (b.Size r).2)

/-- Go `BlobReader.Read` into a buffer of `n` bytes. -/
def BlobReader.Read (r : Reader) : BlobReader → Nat → (List Byte × Option Error) × BlobReader
  | .uncompressed b, n => ((b.Read r n).1, .uncompressed (b.Read r n).2)
  | .compressed b, n => ((b.Read r n).1, .compressed (b.Read r n).2)

/-- Go `io.ReadAll` on a blob reader: the first `Read` loads the blob, the reads that
follow drain the `bytes.Reader` behind it, and the end of the stream is not an error. -/
def BlobReader.ReadAll (r : Reader) : BlobReader → Except Error (List Byte)
  | .uncompressed b =>
    match b.loadBlob r with
    | (.error e, _) => .error e
    | (.ok blob, _) => .ok blob.ReadAll.1
  | .compressed b =>
    match b.loadClusterData r with
    | (some e, _) => .error e
    | (none, b') =>
      match b'.data with
      | none => .error .panic
      | some data => .ok data.ReadAll.1

/-! ## A concrete archive -/

/-- A small archive: 11 entries, 3 clusters, one MIME type. Layout (offset: content):
  0: header
  80: MIME type list
  92: URL pointer table
  180: cluster pointer table
  212: entry 0 (content, full URL A/a)
  232: entry 1 (redirect, full URL r)
  247: entry 2 (content, full URL A/big)
  268: entry 3 (content, full URL A/z)
  287: entry 4 (content, full URL A/c)
  306: entry 5 (content, full URL A/t)
  325: entry 6 (redirect, full URL r2)
  341: entry 7 (redirect, full URL r3)
  357: entry 8 (redirect, full URL bad)
  374: entry 9 (content, full URL A/z0)
  394: entry 10 (content, full URL A/last)
  416: cluster 0
  431: cluster 1
  451: cluster 2
  470: checksum
  486: end of file -/
def sampleArchive : List Byte :=
  [90, 73, 77, 4, 5, 0, 0, 0, 1, 2, 3, 4, 5, 6, 7, 8, 9, 10, 11, 12, 13, 14, 15, 16,
   11, 0, 0, 0, 3, 0, 0, 0, 92, 0, 0, 0, 0, 0, 0, 0, 92, 0, 0, 0, 0, 0, 0, 0,
   180, 0, 0, 0, 0, 0, 0, 0, 80, 0, 0, 0, 0, 0, 0, 0, 0, 0, 0, 0, 255, 255, 255, 255,
   214, 1, 0, 0, 0, 0, 0, 0,
   116, 101, 120, 116, 47, 112, 108, 97, 105, 110, 0, 0,
   212, 0, 0, 0, 0, 0, 0, 0, 232, 0, 0, 0, 0, 0, 0, 0, 247, 0, 0, 0, 0, 0, 0, 0,
   12, 1, 0, 0, 0, 0, 0, 0, 31, 1, 0, 0, 0, 0, 0, 0, 50, 1, 0, 0, 0, 0, 0, 0,
   69, 1, 0, 0, 0, 0, 0, 0, 85, 1, 0, 0, 0, 0, 0, 0, 101, 1, 0, 0, 0, 0, 0, 0,
   118, 1, 0, 0, 0, 0, 0, 0, 138, 1, 0, 0, 0, 0, 0, 0,
   160, 1, 0, 0, 0, 0, 0, 0, 175, 1, 0, 0, 0, 0, 0, 0, 195, 1, 0, 0, 0, 0, 0, 0,
   214, 1, 0, 0, 0, 0, 0, 0,
   0, 0, 0, 65, 0, 0, 0, 0, 0, 0, 0, 0, 0, 0, 0, 0, 97, 0, 84, 0,
   255, 255, 0, 65, 0, 0, 0, 0, 1, 0, 0, 0, 114, 0, 0,
   0, 0, 0, 65, 0, 0, 0, 0, 1, 0, 0, 0, 0, 0, 0, 32, 98, 105, 103, 0, 0,
   0, 0, 0, 65, 0, 0, 0, 0, 2, 0, 0, 0, 0, 0, 0, 32, 122, 0, 0,
   0, 0, 0, 65, 0, 0, 0, 0, 3, 0, 0, 0, 0, 0, 0, 0, 99, 0, 0,
   0, 0, 0, 65, 0, 0, 0, 0, 0, 0, 0, 0, 1, 0, 0, 0, 116, 0, 0,
   255, 255, 0, 65, 0, 0, 0, 0, 0, 0, 0, 0, 114, 50, 0, 0,
   255, 255, 0, 65, 0, 0, 0, 0, 6, 0, 0, 0, 114, 51, 0, 0,
   255, 255, 0, 65, 0, 0, 0, 0, 100, 0, 0, 0, 98, 97, 100, 0, 0,
   0, 0, 0, 65, 0, 0, 0, 0, 2, 0, 0, 0, 0, 0, 0, 0, 122, 48, 0, 0,
   0, 0, 0, 65, 0, 0, 0, 0, 0, 0, 0, 0, 0, 0, 0, 0, 108, 97, 115, 116, 0, 0,
   1, 12, 0, 0, 0, 14, 0, 0, 0, 136, 19, 0, 0, 104, 105,
   17, 16, 0, 0, 0, 0, 0, 0, 0, 19, 0, 0, 0, 0, 0, 0, 0, 120, 121, 122,
   21, 16, 0, 0, 0, 0, 0, 0, 0, 18, 0, 0, 0, 0, 0, 0, 0, 111, 107,
   0, 0, 0, 0, 0, 0, 0, 0, 0, 0, 0, 0, 0, 0, 0, 0]

/-- The reader that `NewReader` builds from `sampleArchive` (see `sampleArchive_opens`). -/
def sampleReader : Reader :=
  { majorVersion := 5, minorVersion := 0,
    uuid := [48, 49, 48, 50, 48, 51, 48, 52, 45, 48, 53, 48, 54, 45, 48, 55, 48, 56, 45, 48, 57, 48, 97, 45, 98, 48, 99, 48, 100, 48, 101, 102, 49, 48],
    entryCount := 11, clusterCount := 3, urlPtrPos := 92, titlePtrPos := 92,
    clusterPtrPos := 180, mimeListPos := 80, mainPage := 0, layoutPage := 4294967295,
    checksumPos := 470,
    mimeTypes := [[116, 101, 120, 116, 47, 112, 108, 97, 105, 110]],
    urlIndex := [212, 232, 247, 268, 287, 306, 325, 341, 357, 374, 394],
    clusterIndex := [416, 431, 451, 470],
    urls := [([65, 47, 97], 0), ([114], 1), ([65, 47, 98, 105, 103], 2), ([65, 47, 122], 3), ([65, 47, 99], 4), ([65, 47, 116], 5), ([114, 50], 6), ([114, 51], 7), ([98, 97, 100], 8), ([65, 47, 122, 48], 9)],
    rangeReader := sampleArchive }

/-- A decoder factory that returns its input unchanged, as a `bytes.Reader`; `slack n` is
the number of bytes that `io.ReadAll` leaves between the length and the capacity of the
slice it returns for `n` bytes read. These bytes are zero. -/
def identityDecoderWith (slack : Nat → Nat) : BlobDecoderFactory :=
  fun b => .ok { data := b, slack := List.replicate (slack b.length) 0 }

/-- A decoder factory that returns its input unchanged, for the clusters of the sample
archives, which are shorter than 512 bytes: `io.ReadAll` returns them in its first buffer,
`make([]byte, 0, 512)`, so the capacity is 512. For inputs of 512 bytes and more the
capacity depends on how the runtime grows the buffer, which the source does not fix; the
theorems on such inputs are stated for `identityDecoderWith` with every `slack`. -/
def identityDecoder : BlobDecoderFactory := identityDecoderWith (fun n => 512 - n)

/-- Codecs used with `sampleArchive`, whose compressed cluster is stored as is. -/
def sampleCodecs : Codecs := { xz := identityDecoder, zstd := identityDecoder }

/-- The errors that parsing a directory entry can return. -/
def Error.isParseError (e : Error) : Prop :=
  e = .eof ∨ e = .unexpectedEOF ∨ e = .io ∨ e = .malformed ∨ e = .hang ∨ e = .panic

/-- The relation `Hops r a k b`: starting from the entry `a`, following the redirect
target `k` times leads to the entry `b`. Every hop starts at a redirect entry whose target
lies inside the URL pointer table and whose target record parses. -/
inductive Hops (r : Reader) : Entry → Nat → Entry → Prop where
  | zero (a : Entry) : Hops r a 0 a
  | succ (e : RedirectEntry) (next : Entry) (k : Nat) (b : Entry)
      (hidx : e.redirectIndex < r.urlIndex.length)
      (hparse : r.parseEntryAt (toInt64 (r.urlIndex.getD e.redirectIndex 0)) = .ok next)
      (hrest : Hops r next k b) : Hops r (.redirect e) (k + 1) b

/-- The MIME type `text/plain` of `sampleArchive`. -/
def sampleMime : GoString := [116, 101, 120, 116, 47, 112, 108, 97, 105, 110]

/-- Entry 0 of `sampleArchive` as the reader parses it: content `A/a` (the record holds the
title `T`). -/
def sampleContentA : ContentEntry :=
  { base := { mimeTypeIndex := 0, namespace_ := [65], url := [97], title := [] },
    mimeType := sampleMime, clusterIndex := 0, blobIndex := 0 }

/-- Entry 1 of `sampleArchive`: a redirect whose target is its own index. -/
def sampleSelfRedirect : RedirectEntry :=
  { base := { mimeTypeIndex := 65535, namespace_ := [0], url := [114], title := [] },
    redirectIndex := 1 }

/-- Entry 2 of `sampleArchive`: content in the uncompressed extended cluster 1, blob
index `2^29`. -/
def sampleContentBig : ContentEntry :=
  { base := { mimeTypeIndex := 0, namespace_ := [65], url := [98, 105, 103], title := [] },
    mimeType := sampleMime, clusterIndex := 1, blobIndex := 536870912 }

/-- Entry 3 of `sampleArchive`: content in the compressed extended cluster 2, blob index
`2^29`. -/
def sampleContentZ : ContentEntry :=
  { base := { mimeTypeIndex := 0, namespace_ := [65], url := [122], title := [] },
    mimeType := sampleMime, clusterIndex := 2, blobIndex := 536870912 }

/-- Entry 4 of `sampleArchive`: content whose cluster index is the cluster count 3. -/
def sampleContentC : ContentEntry :=
  { base := { mimeTypeIndex := 0, namespace_ := [65], url := [99], title := [] },
    mimeType := sampleMime, clusterIndex := 3, blobIndex := 0 }

/-- Entry 5 of `sampleArchive`: content in cluster 0, blob 1, whose offsets are `14` and
`5000`. -/
def sampleContentT : ContentEntry :=
  { base := { mimeTypeIndex := 0, namespace_ := [65], url := [116], title := [] },
    mimeType := sampleMime, clusterIndex := 0, blobIndex := 1 }

/-- Entry 6 of `sampleArchive`: a redirect to entry 0. -/
def sampleRedirect2 : RedirectEntry :=
  { base := { mimeTypeIndex := 65535, namespace_ := [0], url := [114, 50], title := [] },
    redirectIndex := 0 }

/-- Entry 7 of `sampleArchive`: a redirect to entry 6. -/
def sampleRedirect3 : RedirectEntry :=
  { base := { mimeTypeIndex := 65535, namespace_ := [0], url := [114, 51], title := [] },
    redirectIndex := 6 }

/-- Entry 8 of `sampleArchive`: a redirect to the index 100, outside the table. -/
def sampleRedirectBad : RedirectEntry :=
  { base := { mimeTypeIndex := 65535, namespace_ := [0], url := [98, 97, 100], title := [] },
    redirectIndex := 100 }

/-- Entry 9 of `sampleArchive`: content in the compressed cluster 2, blob 0. -/
def sampleContentZ0 : ContentEntry :=
  { base := { mimeTypeIndex := 0, namespace_ := [65], url := [122, 48], title := [] },
    mimeType := sampleMime, clusterIndex := 2, blobIndex := 0 }

/-- Entry 10 of `sampleArchive`, the last one: content `A/last`. -/
def sampleContentLast : ContentEntry :=
  { base := { mimeTypeIndex := 0, namespace_ := [65], url := [108, 97, 115, 116], title := [] },
    mimeType := sampleMime, clusterIndex := 0, blobIndex := 0 }

/-- The entries of `sampleArchive` in index order, as the reader parses them. -/
def sampleEntries : List Entry :=
  [.content sampleContentA, .redirect sampleSelfRedirect, .content sampleContentBig,
   .content sampleContentZ, .content sampleContentC, .content sampleContentT,
   .redirect sampleRedirect2, .redirect sampleRedirect3, .redirect sampleRedirectBad,
   .content sampleContentZ0, .content sampleContentLast]

/-- An empty entry cache of the default capacity. -/
def emptyCache : Cache := { size := 2048 }

/-- Go `Reader.MainPage`. An error value of `EntryAt` is replaced by `ErrNotFound`; a panic
or a loop that does not end is not an error value and is passed on. -/
def Reader.MainPage (r : Reader) (c : Cache) : Except Error Entry × Cache :=
  if r.mainPage = 4294967295 then (.error .notFound, c)
  else
    match r.EntryAt c (r.mainPage : Int) with
    | (.error e, c') => (.error (if e = .panic ∨ e = .hang then e else .notFound), c')
    | (.ok entry, c') => (.ok entry, c')

/-- The value of one hexadecimal digit `0-9a-f`. -/
def hexDigitVal (b : Byte) : Nat := if b.val ≤ 57 then b.val - 48 else b.val - 87

/-- The number that a string of hexadecimal digits writes, most significant digit first. -/
def hexVal (s : GoString) : Nat := s.foldl (fun acc b => acc * 16 + hexDigitVal b) 0

/-- The lowercase hexadecimal digits `0-9` and `a-f`. -/
def isLowerHex (b : Byte) : Bool := (48 ≤ b.val && b.val ≤ 57) || (97 ≤ b.val && b.val ≤ 102)

/-- An archive whose header gives the cluster count `0xFFFFFFFF`: one entry,
one MIME type. Layout (offset: content):
  0: header
  80: MIME type list
  83: URL pointer table
  91: cluster pointer table
  107: entry 0 (content, full URL A/a)
  126: cluster 0
  137: checksum
  153: end of file -/
def wrapArchive : List Byte :=
  [90, 73, 77, 4, 5, 0, 0, 0, 1, 2, 3, 4, 5, 6, 7, 8, 9, 10, 11, 12, 13, 14, 15, 16,
   1, 0, 0, 0, 255, 255, 255, 255, 83, 0, 0, 0, 0, 0, 0, 0, 83, 0, 0, 0, 0, 0, 0, 0,
   91, 0, 0, 0, 0, 0, 0, 0, 80, 0, 0, 0, 0, 0, 0, 0, 0, 0, 0, 0, 255, 255, 255, 255,
   137, 0, 0, 0, 0, 0, 0, 0,
   97, 0, 0,
   107, 0, 0, 0, 0, 0, 0, 0,
   126, 0, 0, 0, 0, 0, 0, 0, 137, 0, 0, 0, 0, 0, 0, 0,
   0, 0, 0, 65, 0, 0, 0, 0, 0, 0, 0, 0, 0, 0, 0, 0, 97, 0, 0,
   1, 8, 0, 0, 0, 10, 0, 0, 0, 104, 105,
   0, 0, 0, 0, 0, 0, 0, 0, 0, 0, 0, 0, 0, 0, 0, 0]

/-- An archive whose MIME type list holds the two types `a` and `b`, then the
empty string. Layout (offset: content):
  0: header
  80: MIME type list
  85: URL pointer table
  93: cluster pointer table
  109: entry 0 (content, full URL A/a)
  128: cluster 0
  139: checksum
  155: end of file -/
def mimeArchive : List Byte :=
  [90, 73, 77, 4, 5, 0, 0, 0, 1, 2, 3, 4, 5, 6, 7, 8, 9, 10, 11, 12, 13, 14, 15, 16,
   1, 0, 0, 0, 1, 0, 0, 0, 85, 0, 0, 0, 0, 0, 0, 0, 85, 0, 0, 0, 0, 0, 0, 0,
   93, 0, 0, 0, 0, 0, 0, 0, 80, 0, 0, 0, 0, 0, 0, 0, 0, 0, 0, 0, 255, 255, 255, 255,
   139, 0, 0, 0, 0, 0, 0, 0,
   97, 0, 98, 0, 0,
   109, 0, 0, 0, 0, 0, 0, 0,
   128, 0, 0, 0, 0, 0, 0, 0, 139, 0, 0, 0, 0, 0, 0, 0,
   0, 0, 0, 65, 0, 0, 0, 0, 0, 0, 0, 0, 0, 0, 0, 0, 97, 0, 0,
   1, 8, 0, 0, 0, 10, 0, 0, 0, 104, 105,
   0, 0, 0, 0, 0, 0, 0, 0, 0, 0, 0, 0, 0, 0, 0, 0]

/-- An archive whose entry 0 is a redirect with the title `T` and the byte `0xC8` at offset 2
of its record. Layout (offset: content):
  0: header
  80: MIME type list
  83: URL pointer table
  99: cluster pointer table
  115: entry 0 (redirect to 1, URL r, title T)
  131: entry 1 (content, full URL A/a)
  150: cluster 0
  161: checksum
  177: end of file -/
def redirectArchive : List Byte :=
  [90, 73, 77, 4, 5, 0, 0, 0, 1, 2, 3, 4, 5, 6, 7, 8, 9, 10, 11, 12, 13, 14, 15, 16,
   2, 0, 0, 0, 1, 0, 0, 0, 83, 0, 0, 0, 0, 0, 0, 0, 83, 0, 0, 0, 0, 0, 0, 0,
   99, 0, 0, 0, 0, 0, 0, 0, 80, 0, 0, 0, 0, 0, 0, 0, 0, 0, 0, 0, 255, 255, 255, 255,
   161, 0, 0, 0, 0, 0, 0, 0,
   97, 0, 0,
   115, 0, 0, 0, 0, 0, 0, 0, 131, 0, 0, 0, 0, 0, 0, 0,
   150, 0, 0, 0, 0, 0, 0, 0, 161, 0, 0, 0, 0, 0, 0, 0,
   255, 255, 200, 65, 0, 0, 0, 0, 1, 0, 0, 0, 114, 0, 84, 0,
   0, 0, 0, 65, 0, 0, 0, 0, 0, 0, 0, 0, 0, 0, 0, 0, 97, 0, 0,
   1, 8, 0, 0, 0, 10, 0, 0, 0, 104, 105,
   0, 0, 0, 0, 0, 0, 0, 0, 0, 0, 0, 0, 0, 0, 0, 0]

/-- The bytes of a sequence of NUL-terminated strings. -/
def encodeStrings : List GoString → List Byte
  | [] => []
  | s :: ss => s ++ 0 :: encodeStrings ss

/-- The number of bytes of a sequence of NUL-terminated strings: the sum of `len(s) + 1`. -/
def encodedLength : List GoString → Nat
  | [] => 0
  | s :: ss => s.length + 1 + encodedLength ss

/-- An archive whose header gives the entry count 0: an empty URL pointer table, one cluster,
one MIME type. Layout (offset: content):
  0: header
  80: MIME type list
  83: URL pointer table
  83: cluster pointer table
  99: cluster 0
  110: checksum
  126: end of file -/
def emptyArchive : List Byte :=
  [90, 73, 77, 4, 5, 0, 0, 0, 1, 2, 3, 4, 5, 6, 7, 8, 9, 10, 11, 12, 13, 14, 15, 16,
   0, 0, 0, 0, 1, 0, 0, 0, 83, 0, 0, 0, 0, 0, 0, 0, 83, 0, 0, 0, 0, 0, 0, 0,
   83, 0, 0, 0, 0, 0, 0, 0, 80, 0, 0, 0, 0, 0, 0, 0, 255, 255, 255, 255, 255, 255, 255, 255,
   110, 0, 0, 0, 0, 0, 0, 0,
   97, 0, 0,
   99, 0, 0, 0, 0, 0, 0, 0, 110, 0, 0, 0, 0, 0, 0, 0,
   1, 8, 0, 0, 0, 10, 0, 0, 0, 104, 105,
   0, 0, 0, 0, 0, 0, 0, 0, 0, 0, 0, 0, 0, 0, 0, 0]

/-! ## Blob readers: `Seek`, sequences of calls, concurrent first calls -/

/-- Go `bytes.Reader.Seek`: the new position or an error, and the reader afterwards. -/
def BytesReader.Seek (b : BytesReader) (offset whence : Int) : Except Error Int × BytesReader :=
  let abs : Option Int :=
    if whence = 0 then some offset
    else if whence = 1 then some (wrapInt64 (b.i + offset))
    else if whence = 2 then some (wrapInt64 ((b.s.length : Int) + offset))
    else none
  match abs with
  | none => (.error .seek, b)
  | some a => if a < 0 then (.error .seek, b) else (.ok a, { b with i := a })

/-- Go `UncompressedBlobReader.Seek`. -/
def UncompressedBlobReader.Seek (r : Reader) (b : UncompressedBlobReader) (offset whence : Int) :
    Except Error Int × UncompressedBlobReader :=
  match b.loadBlob r with
  | (.error e, b') => (.error e, b')
  | (.ok blob, b') =>
    match blob.Seek offset whence with
    | (res, blob') => (res, { b' with blob := some blob' })

/-- Go `CompressedBlobReader.Seek`. -/
def CompressedBlobReader.Seek (r : Reader) (b : CompressedBlobReader) (offset whence : Int) :
    Except Error Int × CompressedBlobReader :=
  match b.loadClusterData r with
  | (some e, b') => (.error e, b')
  | (none, b') =>
    match b'.data with
    | none => (.error .panic, b')
    | some data =>
      match data.Seek offset whence with
      | (res, data') => (res, { b' with data := some data' })

/-- One call on a blob reader: `Read` into a buffer of `n` bytes, `Size`, or `Seek`. -/
inductive BlobOp where
  | read (n : Nat)
  | size
  | seek (offset whence : Int)
  deriving DecidableEq, Repr

/-- What a call on a blob reader returns. -/
inductive BlobResult where
  | read (got : List Byte) (err : Option Error)
  | size (res : Except Error Int)
  | seek (res : Except Error Int)

/-- The result of a call that failed with the error `e`. -/
def BlobOp.failure (e : Error) : BlobOp → BlobResult
  | .read _ => .read [] (some e)
  | .size => .size (.error e)
  | .seek _ _ => .seek (.error e)

/-- The result of a call served by a `bytes.Reader`, and the `bytes.Reader` afterwards. -/
def BlobOp.serve (data : BytesReader) : BlobOp → BlobResult × BytesReader
  | .read n => (.read (data.Read n).1 (data.Read n).2.1, (data.Read n).2.2)
  | .size => (.size (.ok data.Size), data)
  | .seek offset whence => (.seek (data.Seek offset whence).1, (data.Seek offset whence).2)

/-- One call on a compressed blob reader. -/
def CompressedBlobReader.call (r : Reader) (b : CompressedBlobReader) :
    BlobOp → BlobResult × CompressedBlobReader
  | .read n => (.read (b.Read r n).1.1 (b.Read r n).1.2, (b.Read r n).2)
  | .size => (.size (b.Size r).1, (b.Size r).2)
  | .seek offset whence => (.seek (b.Seek r offset whence).1, (b.Seek r offset whence).2)

/-- A sequence of calls on a compressed blob reader, made one after another: the results
and the reader afterwards. -/
def CompressedBlobReader.calls (r : Reader) :
    CompressedBlobReader → List BlobOp → List BlobResult × CompressedBlobReader
  | b, [] => ([], b)
  | b, op :: ops =>
    ((b.call r op).1 :: (calls r (b.call r op).2 ops).1, (calls r (b.call r op).2 ops).2)

/-- The number of reads of the cluster in a list of calls. -/
def clusterReadCount : List LoadEvent → Nat
  | [] => 0
  | .readCluster _ _ :: es => clusterReadCount es + 1
  | .decode _ :: es => clusterReadCount es

/-- The number of calls of the decoder factory in a list of calls. -/
def decoderCallCount : List LoadEvent → Nat
  | [] => 0
  | .readCluster _ _ :: es => decoderCallCount es
  | .decode _ :: es => decoderCallCount es + 1

/-- The number of times a call of `loadClusterData` in the state `b` reads the cluster from
the byte source, and the number of times it calls the decoder factory: the calls that
`loadClusterDataTraced` records. -/
def CompressedBlobReader.loadEvents (r : Reader) (b : CompressedBlobReader) : Nat × Nat :=
  (clusterReadCount (b.loadClusterDataTraced r).1, decoderCallCount (b.loadClusterDataTraced r).1)

/-- The cluster reads and the decoder invocations of a sequence of calls: every `Read`,
`Size` and `Seek` calls `loadClusterData` once. -/
def CompressedBlobReader.callsEvents (r : Reader) : CompressedBlobReader → List BlobOp → Nat × Nat
  | _, [] => (0, 0)
  | b, op :: ops =>
    ((b.loadEvents r).1 + (callsEvents r (b.call r op).2 ops).1,
     (b.loadEvents r).2 + (callsEvents r (b.call r op).2 ops).2)

/-- A sequence of calls served by one `bytes.Reader`: the results and the `bytes.Reader`
afterwards. -/
def BlobOp.serveAll : BytesReader → List BlobOp → List BlobResult × BytesReader
  | data, [] => ([], data)
  | data, op :: ops =>
    ((op.serve data).1 :: (serveAll (op.serve data).2 ops).1, (serveAll (op.serve data).2 ops).2)

/-! ## Driving an iterator -/

/-- The first `k` calls of `Next()` on an iterator, one after another: the values they
return, and the iterator and the entry cache afterwards. -/
def EntryIterator.nexts (r : Reader) : Nat → Cache → EntryIterator → List Bool × EntryIterator × Cache
  | 0, c, it => ([], it, c)
  | k + 1, c, it =>
    ((it.Next r c).1 :: (nexts r k (it.Next r c).2.2 (it.Next r c).2.1).1,
     (nexts r k (it.Next r c).2.2 (it.Next r c).2.1).2)

/-! ## `reader.go`: lookup by title -/

/-- The loop `for iterator.Next() ...` of `EntryWithTitle` and the two returns after it, at
most `fuel` iterations. -/
def entryWithTitleLoop (r : Reader) (ns : Namespace) (title : GoString) :
    Nat → EntryIterator → Cache → Option (Except Error Entry × Cache)
  | 0, _, _ => none
  | fuel + 1, it, c =>
    match it.Next r c with
    | (false, it', c') =>
      match it'.Err with
      | some e => some (.error e, c')
      | none => some (.error .notFound, c')
    | (true, it', c') =>
      match it'.Entry with
      | none => none
      | some entry =>
        if entry.Title = title ∧ entry.Namespace = ns then some (.ok entry, c')
        else entryWithTitleLoop r ns title fuel it' c'

/-- The result of the scan of `EntryWithTitle`; a loop that has not ended is not a
return. -/
def entryWithTitleFinish (c : Cache) :
    Option (Except Error Entry × Cache) → Except Error Entry × Cache
  | none => (.error .hang, c)
  | some res => res

/-- Go `Reader.EntryWithTitle`. `Next` succeeds at most `len(urlIndex)` times, which bounds
the loop. -/
def Reader.EntryWithTitle (r : Reader) (c : Cache) (ns : Namespace) (title : GoString) :
    Except Error Entry × Cache :=
  match getEntryByTitleFromCache c ns title with
  | (some entry, c') => (.ok entry, c')
  | (none, c') =>
    entryWithTitleFinish c' (entryWithTitleLoop r ns title (r.urlIndex.length + 1) r.Entries c')

/-- An archive with two entries of the same title: the content entries `A/x` and `A/y`, both
with the title `T`, then the content entry `A/z`; one MIME type, its list followed by a NUL
byte; one uncompressed cluster with a blob of 1100 bytes. Layout (offset: content):
  0: header
  80: MIME type list, and one NUL byte
  84: URL pointer table
  108: cluster pointer table
  124: entry 0 (content, full URL A/x, title T)
  144: entry 1 (content, full URL A/y, title T)
  164: entry 2 (content, full URL A/z)
  183: cluster 0: header byte, offsets 8 and 1108
  192: the blob, 1100 bytes
  1292: checksum
  1308: end of file -/
def titleArchive : List Byte :=
  [90, 73, 77, 4, 5, 0, 0, 0, 1, 2, 3, 4, 5, 6, 7, 8, 9, 10, 11, 12, 13, 14, 15, 16,
   3, 0, 0, 0, 1, 0, 0, 0, 84, 0, 0, 0, 0, 0, 0, 0, 84, 0, 0, 0, 0, 0, 0, 0,
   108, 0, 0, 0, 0, 0, 0, 0, 80, 0, 0, 0, 0, 0, 0, 0, 0, 0, 0, 0, 255, 255, 255, 255,
   12, 5, 0, 0, 0, 0, 0, 0,
   97, 0, 0, 0,
   124, 0, 0, 0, 0, 0, 0, 0, 144, 0, 0, 0, 0, 0, 0, 0, 164, 0, 0, 0, 0, 0, 0, 0,
   183, 0, 0, 0, 0, 0, 0, 0, 12, 5, 0, 0, 0, 0, 0, 0,
   0, 0, 0, 65, 0, 0, 0, 0, 0, 0, 0, 0, 0, 0, 0, 0, 120, 0, 84, 0,
   0, 0, 0, 65, 0, 0, 0, 0, 0, 0, 0, 0, 0, 0, 0, 0, 121, 0, 84, 0,
   0, 0, 0, 65, 0, 0, 0, 0, 0, 0, 0, 0, 0, 0, 0, 0, 122, 0, 0,
   1, 8, 0, 0, 0, 84, 4, 0, 0]
    ++ List.replicate 1100 120 ++ List.replicate 16 0

/-! ## A cluster payload of more than 4 GiB -/

/-- A reader over a source that holds one cluster: the header byte `0x11` (uncompressed,
offsets of 8 bytes) at offset 0 and the payload `P` behind it, for a payload of
`2^32 + 8` bytes; the cluster pointer table holds the start 0 and the end `2^32 + 9`. -/
def payloadReader (P : List Byte) : Reader :=
  { clusterCount := 1, clusterIndex := [0, 4294967305], rangeReader := 17 :: P }

/-- A content entry for the blob `2^29 - 1` of cluster 0. -/
def payloadEntry : ContentEntry :=
  { base := { mimeTypeIndex := 0, namespace_ := [65], url := [97] }, clusterIndex := 0,
    blobIndex := 536870911 }

/-! ## `namespace.go`, `metadata.go` and `favicon.go` -/

/-- An archive with one MIME type and more than 1024 bytes behind the MIME type list: one
content entry, one uncompressed cluster with a blob of 1100 bytes. The byte behind the
terminator of the MIME type list is the first byte of the URL pointer table, `0x6B`.
Layout (offset: content):
  0: header
  80: MIME type list
  83: URL pointer table
  91: cluster pointer table
  107: entry 0 (content, full URL A/a)
  126: cluster 0: header byte, offsets 8 and 1108
  135: the blob, 1100 bytes
  1235: checksum
  1251: end of file -/
def loopArchive : List Byte :=
  [90, 73, 77, 4, 5, 0, 0, 0, 1, 2, 3, 4, 5, 6, 7, 8, 9, 10, 11, 12, 13, 14, 15, 16,
   1, 0, 0, 0, 1, 0, 0, 0, 83, 0, 0, 0, 0, 0, 0, 0, 83, 0, 0, 0, 0, 0, 0, 0,
   91, 0, 0, 0, 0, 0, 0, 0, 80, 0, 0, 0, 0, 0, 0, 0, 0, 0, 0, 0, 255, 255, 255, 255,
   211, 4, 0, 0, 0, 0, 0, 0,
   97, 0, 0,
   107, 0, 0, 0, 0, 0, 0, 0,
   126, 0, 0, 0, 0, 0, 0, 0, 211, 4, 0, 0, 0, 0, 0, 0,
   0, 0, 0, 65, 0, 0, 0, 0, 0, 0, 0, 0, 0, 0, 0, 0, 97, 0, 0,
   1, 8, 0, 0, 0, 84, 4, 0, 0]
    ++ List.replicate 1100 120 ++ List.replicate 16 0

/-- Where a caller of `Read`, `Size` or `Seek` on a compressed blob reader stands, statement
by statement of `loadClusterData` and of `sync.Once.Do`:
`start` before the test of `r.closed`; `onceCheck` before the first `o.done.Load()` of
`Do`; `onceLock` before `o.m.Lock()` of `doSlow`; `onceLocked` with the mutex held, before
the second `o.done.Load()`; `loadRead` at the start of the function passed to `Do`, before
`make` and `readRange`; `loadDecode` with the cluster read, before the decoder factory;
`onceStore` with the function left (by a return, or by a panic), before the deferred
`o.done.Store(1)`; `onceUnlock` before the deferred `o.m.Unlock()`; `afterDo` before
the test of `r.loadClusterErr`; `operate` with `loadClusterData` returned without an
error, before the call on `r.data`; `returned` with the result of the call.
The calls `Read` and `Seek` of `bytes.Reader`, which has no synchronisation, are taken
statement by statement as well: `readCopy` in `Read` into a buffer of `n` bytes, past the
test `r.i >= int64(len(r.s))` and before `copy(b, r.s[r.i:])`; `readLoad` with the bytes
copied, before the load of `r.i` in `r.i += int64(n)`; `readStore` before the store of
that statement; `seekStore` in `Seek` with the new position computed and found not
negative, before `r.i = abs`. -/
inductive Pc where
  | start
  | onceCheck
  | onceLock
  | onceLocked
  | loadRead
  | loadDecode (compressedData : List Byte)
  | onceStore (panicked : Bool)
  | onceUnlock (panicked : Bool)
  | afterDo
  | operate
  | readCopy (n : Nat)
  | readLoad (got : List Byte)
  | readStore (got : List Byte) (i : Int)
  | seekStore (abs : Int)
  | returned (res : BlobResult)

/-- The statements at which a caller holds the mutex of the `sync.Once`. -/
def Pc.holds : Pc → Bool
  | .onceLocked => true
  | .loadRead => true
  | .loadDecode _ => true
  | .onceStore _ => true
  | .onceUnlock _ => true
  | _ => false

/-- The number of steps that a caller has at most before it has returned. -/
def Pc.rank : Pc → Nat
  | .start => 14
  | .onceCheck => 13
  | .onceLock => 12
  | .onceLocked => 11
  | .loadRead => 10
  | .loadDecode _ => 9
  | .onceStore _ => 8
  | .onceUnlock _ => 7
  | .afterDo => 6
  | .operate => 5
  | .readCopy _ => 4
  | .readLoad _ => 3
  | .readStore _ _ => 2
  | .seekStore _ => 1
  | .returned _ => 0

/-- One caller: the call it makes and where it stands. -/
structure Caller where
  op : BlobOp
  pc : Pc

/-- Several callers on one compressed blob reader: the reader they share (its field
`loadCluster` is the flag `done` of the `sync.Once`), the mutex of the `sync.Once` with the
caller that holds it, the callers, and the calls made so far outside the blob reader, in
their order. -/
structure FirstCalls where
  b : CompressedBlobReader
  mutex : Option Nat
  callers : List Caller
  trace : List LoadEvent

/-- The callers with the calls `ops`, before any of them has made a step. -/
def FirstCalls.init (b : CompressedBlobReader) (ops : List BlobOp) : FirstCalls :=
  { b := b, mutex := none, callers := ops.map (fun op => { op := op, pc := .start }),
    trace := [] }

/-- The caller `t` goes on to `pc`. -/
def FirstCalls.move (w : FirstCalls) (t : Nat) (c : Caller) (pc : Pc) : FirstCalls :=
  { w with callers := w.callers.set t { c with pc := pc } }

/-- One step of the caller `t`: the next statement of `Read`, `Size` or `Seek`, of
`loadClusterData`, of `sync.Once.Do`, of the function passed to it, or of the call on the
shared `bytes.Reader`. A caller at `o.m.Lock()` does not move while another caller holds
the mutex, and a caller that has returned does not move. A panic is the result of the
call in which it occurs: a panic of the function passed to `Do` runs the two deferred
calls of `doSlow` first, a call on `r.data` panics when `r.data` is nil, and the slice
expression `r.s[r.i:]` of `Read` panics when the read position is past the end. Every
load and every store of the read position `r.i` is a step of its own. -/
def FirstCalls.step (r : Reader) (w : FirstCalls) (t : Nat) : FirstCalls :=
  match w.callers[t]? with
  | none => w
  | some c =>
    match c.pc with
    | .start =>
      if w.b.closed then w.move t c (.returned (c.op.failure .closed))
      else w.move t c .onceCheck
    | .onceCheck =>
      if w.b.loadCluster then w.move t c .afterDo else w.move t c .onceLock
    | .onceLock =>
      match w.mutex with
      | some _ => w
      | none => { w.move t c .onceLocked with mutex := some t }
    | .onceLocked =>
      if w.b.loadCluster then w.move t c (.onceUnlock false) else w.move t c .loadRead
    | .loadRead =>
      if subU64 w.b.clusterEndOffset w.b.clusterStartOffset > maxAlloc then
        w.move t c (.onceStore true)
      else
        match r.readRangeE (toInt64 (u64 (w.b.clusterStartOffset + 1)))
            (subU64 w.b.clusterEndOffset w.b.clusterStartOffset) with
        | .error .panic =>
          { w.move t c (.onceStore true) with
            trace := w.trace ++ [.readCluster (toInt64 (u64 (w.b.clusterStartOffset + 1)))
              (subU64 w.b.clusterEndOffset w.b.clusterStartOffset)] }
        | .error e =>
          { w.move t c (.onceStore false) with
            b := { w.b with loadClusterErr := some e },
            trace := w.trace ++ [.readCluster (toInt64 (u64 (w.b.clusterStartOffset + 1)))
              (subU64 w.b.clusterEndOffset w.b.clusterStartOffset)] }
        | .ok compressedData =>
          { w.move t c (.loadDecode compressedData) with
            trace := w.trace ++ [.readCluster (toInt64 (u64 (w.b.clusterStartOffset + 1)))
              (subU64 w.b.clusterEndOffset w.b.clusterStartOffset)] }
    | .loadDecode compressedData =>
      match w.b.decodeBody compressedData with
      | .ok data =>
        { w.move t c (.onceStore false) with
          b := { w.b with data := some { s := data } },
          trace := w.trace ++ [.decode compressedData] }
      | .error .panic =>
        { w.move t c (.onceStore true) with trace := w.trace ++ [.decode compressedData] }
      | .error e =>
        { w.move t c (.onceStore false) with
          b := { w.b with loadClusterErr := some e },
          trace := w.trace ++ [.decode compressedData] }
    | .onceStore panicked =>
      { w.move t c (.onceUnlock panicked) with b := { w.b with loadCluster := true } }
    | .onceUnlock panicked =>
      { w.move t c (if panicked then .returned (c.op.failure .panic) else .afterDo) with
        mutex := none }
    | .afterDo =>
      match w.b.loadClusterErr with
      | some e => w.move t c (.returned (c.op.failure e))
      | none => w.move t c .operate
    | .operate =>
      match w.b.data with
      | none => w.move t c (.returned (c.op.failure .panic))
      | some data =>
        match c.op with
        | .size => w.move t c (.returned (.size (.ok data.Size)))
        | .seek offset whence =>
          match (data.Seek offset whence).1 with
          | .error e => w.move t c (.returned (.seek (.error e)))
          | .ok abs => w.move t c (.seekStore abs)
        | .read n =>
          if data.i ≥ data.s.length then w.move t c (.returned (.read [] (some .eof)))
          else w.move t c (.readCopy n)
    | .readCopy n =>
      match w.b.data with
      | none => w.move t c (.returned (c.op.failure .panic))
      | some data =>
        if data.i < 0 ∨ data.i > data.s.length then
          w.move t c (.returned (.read [] (some .panic)))
        else w.move t c (.readLoad ((data.s.drop data.i.toNat).take n))
    | .readLoad got =>
      match w.b.data with
      | none => w.move t c (.returned (c.op.failure .panic))
      | some data => w.move t c (.readStore got (data.i + got.length))
    | .readStore got i =>
      match w.b.data with
      | none => w.move t c (.returned (c.op.failure .panic))
      | some data =>
        { w.move t c (.returned (.read got none)) with
          b := { w.b with data := some { data with i := i } } }
    | .seekStore abs =>
      match w.b.data with
      | none => w.move t c (.returned (c.op.failure .panic))
      | some data =>
        { w.move t c (.returned (.seek (.ok abs))) with
          b := { w.b with data := some { data with i := abs } } }
    | .returned _ => w

/-- The callers run under a schedule: at each step the caller named makes its next
step. -/
def FirstCalls.run (r : Reader) (w : FirstCalls) : List Nat → FirstCalls
  | [] => w
  | t :: ts => run r (w.step r t) ts

/-- The results of the callers that have returned, in the order of the callers. -/
def FirstCalls.results (w : FirstCalls) : List (Option BlobResult) :=
  w.callers.map (fun c => match c.pc with | .returned res => some res | _ => none)

/-- Every caller has returned. -/
def FirstCalls.allReturned (w : FirstCalls) : Bool :=
  w.callers.all (fun c => match c.pc with | .returned _ => true | _ => false)

/-- The steps that the callers have at most before all of them have returned. -/
def FirstCalls.rank (w : FirstCalls) : Nat := (w.callers.map (fun c => c.pc.rank)).sum

/-- How far the one run of the function passed to `loadCluster.Do` has got: not started;
the cluster read and the decoder not yet called; the function left and the flag `done`
not yet stored; the flag `done` stored. -/
inductive Phase where
  | idle
  | read (compressedData : List Byte)
  | ran (panicked : Bool)
  | done

/-- What a call returns that is served by a `bytes.Reader` over the blob `s` whose read
position other callers move at the same time. `Size` returns the length of `s`. `Seek`
returns what it returns at some read position that is not negative. `Read` into a buffer
of `n` bytes returns `io.EOF`, or up to `n` bytes of `s` from some position inside `s` or
at its end, which are no bytes and no error at the end, or it panics in `r.s[r.i:]` when
another caller has stored a position past the end after the test of `Read`. -/
def BlobOp.ObservesBlob (s : List Byte) : BlobOp → BlobResult → Prop
  | .size, res => res = .size (.ok s.length)
  | .seek offset whence, res =>
    ∃ i : Int, 0 ≤ i ∧ res = .seek (({ s := s, i := i } : BytesReader).Seek offset whence).1
  | .read n, res =>
    res = .read [] (some .eof) ∨ res = .read [] (some .panic) ∨
    ∃ i : Int, 0 ≤ i ∧ i ≤ s.length ∧ res = .read ((s.drop i.toNat).take n) none

/-- What a caller may get from a reader whose one load is that of the fresh reader `b0`:
the error of the load when it fails, and what a `bytes.Reader` over the blob of the load
returns when it returns the blob. -/
def BlobOp.Observes (r : Reader) (b0 : CompressedBlobReader) (op : BlobOp) (res : BlobResult) :
    Prop :=
  (∀ e, b0.loadBody r = .error e → res = op.failure e) ∧
  (∀ s, b0.loadBody r = .ok s → op.ObservesBlob s res)

/-- The fields of the shared reader and the calls made outside it, for each stage of the
one run of the function passed to `loadCluster.Do` on the fresh reader `b0`. -/
def Phase.fields (r : Reader) (b0 : CompressedBlobReader) (ph : Phase)
    (b : CompressedBlobReader) (trace : List LoadEvent) : Prop :=
  match ph with
  | .idle => b = b0 ∧ trace = []
  | .read c0 =>
    b = b0 ∧ ¬ subU64 b0.clusterEndOffset b0.clusterStartOffset > maxAlloc ∧
    r.readRangeE (toInt64 (u64 (b0.clusterStartOffset + 1)))
      (subU64 b0.clusterEndOffset b0.clusterStartOffset) = .ok c0 ∧
    trace = [.readCluster (toInt64 (u64 (b0.clusterStartOffset + 1)))
      (subU64 b0.clusterEndOffset b0.clusterStartOffset)]
  | .ran p =>
    trace = (b0.loadBodyTraced r).1 ∧
    (∀ s, b0.loadBody r = .ok s → p = false ∧ b = { b0 with data := some { s := s } }) ∧
    (b0.loadBody r = .error .panic → p = true ∧ b = b0) ∧
    (∀ e, e ≠ .panic → b0.loadBody r = .error e →
      p = false ∧ b = { b0 with loadClusterErr := some e })
  | .done =>
    trace = (b0.loadBodyTraced r).1 ∧
    (∀ s, b0.loadBody r = .ok s →
      ∃ i : Int, 0 ≤ i ∧
        b = { b0 with loadCluster := true, data := some { s := s, i := i } }) ∧
    (b0.loadBody r = .error .panic → b = { b0 with loadCluster := true }) ∧
    (∀ e, e ≠ .panic → b0.loadBody r = .error e →
      b = { b0 with loadCluster := true, loadClusterErr := some e })

/-- Where a caller can stand at each stage of the one run of the function passed to
`loadCluster.Do`, and what a caller that has returned has got. -/
def Phase.pcOK (r : Reader) (b0 : CompressedBlobReader) (ph : Phase) (op : BlobOp) :
    Pc → Prop
  | .start => True
  | .onceCheck => True
  | .onceLock => True
  | .onceLocked => ph = .idle ∨ ph = .done
  | .loadRead => ph = .idle
  | .loadDecode c => ph = .read c
  | .onceStore p => ph = .ran p
  | .onceUnlock p => ph = .done ∧ (p = true → b0.loadBody r = .error .panic)
  | .afterDo => ph = .done
  | .operate => ph = .done ∧ ∀ e, b0.loadBody r = .error e → e = .panic
  | .readCopy n => ph = .done ∧ (∃ s, b0.loadBody r = .ok s) ∧ op = .read n
  | .readLoad got =>
    ph = .done ∧ ∃ (s : List Byte) (i : Int) (n : Nat), b0.loadBody r = .ok s ∧
      op = .read n ∧ 0 ≤ i ∧ i ≤ s.length ∧ got = (s.drop i.toNat).take n
  | .readStore got v =>
    ph = .done ∧ 0 ≤ v ∧ ∃ (s : List Byte) (i : Int) (n : Nat), b0.loadBody r = .ok s ∧
      op = .read n ∧ 0 ≤ i ∧ i ≤ s.length ∧ got = (s.drop i.toNat).take n
  | .seekStore abs =>
    ph = .done ∧ 0 ≤ abs ∧ ∃ (s : List Byte) (i : Int) (offset whence : Int),
      b0.loadBody r = .ok s ∧ op = .seek offset whence ∧ 0 ≤ i ∧
      (({ s := s, i := i } : BytesReader).Seek offset whence).1 = .ok abs
  | .returned res => ph = .done ∧ op.Observes r b0 res

/-- The invariant of the callers of a reader that was the fresh reader `b0`: the mutex is
held by the one caller that stands between `Lock` and `Unlock`, the shared fields and the
places of the callers are those of one stage of the one run of the function passed to
`loadCluster.Do`, and while that function runs the mutex is held. -/
def FirstCalls.Inv (r : Reader) (b0 : CompressedBlobReader) (w : FirstCalls) : Prop :=
  (∀ (t : Nat) (c : Caller), w.callers[t]? = some c →
    (c.pc.holds = true ↔ w.mutex = some t)) ∧
  (∀ t : Nat, w.mutex = some t → ∃ c : Caller, w.callers[t]? = some c) ∧
  ∃ ph : Phase, ph.fields r b0 w.b w.trace ∧
    (w.mutex = none → ph = .idle ∨ ph = .done) ∧
    ∀ (t : Nat) (c : Caller), w.callers[t]? = some c → ph.pcOK r b0 c.op c.pc

/-- A schedule of three callers: all of them get to `o.m.Lock()`, the caller 1 takes the
mutex and runs the load while the callers 0 and 2 wait, then the caller 2 gets through
and makes its call on the `bytes.Reader`, the caller 1 makes its call after it, and the
caller 0 gets through last. -/
def sampleSchedule : List Nat :=
  [0, 1, 2, 0, 1, 2, 1, 0, 2, 1, 1, 0, 1, 1, 2, 1, 2, 2, 1, 2, 0, 2, 2, 2, 2, 2, 1, 1,
   0, 0, 0, 0]

/-- A schedule of two callers that take their steps in turn. -/
def alternateSchedule : List Nat :=
  [0, 1, 0, 1, 0, 1, 0, 1, 0, 1, 0, 1, 0, 1, 0, 1, 0, 1, 0, 1, 0, 1, 0, 1]

/-- A schedule that takes the caller 0 through the load and the callers 0, 1 and 2 to their
calls on the `bytes.Reader`. -/
def toOperate : List Nat := [0, 0, 0, 0, 0, 0, 0, 0, 0, 1, 1, 1, 2, 2, 2]

/-! ## Basic facts -/

deriving instance DecidableEq for Except

set_option maxRecDepth 1000000 in
/-- The sample archive opens, and `sampleReader` is the reader obtained. -/
theorem sampleArchive_opens : ∃ c, NewReader 4 sampleArchive {} = some (.ok (sampleReader, c)) :=
  ⟨_, rfl⟩

/-- What `readRangeE` returns, case by case. -/
theorem readRangeE_eq (r : Reader) (off : Int) (n : Nat) :
    r.readRangeE off n =
      if off < 0 then .error .io
      else if r.rangeReader.length - off.toNat < n then .error .eof
      else .ok ((r.rangeReader.drop off.toNat).take n) := by
  unfold Reader.readRangeE Reader.readRange ReadAt
  have hlen : ((r.rangeReader.drop off.toNat).take n).length = min n (r.rangeReader.length - off.toNat) := by
    simp [List.length_take, List.length_drop]
  by_cases h : off < 0
  · simp [h]
  · by_cases h2 : r.rangeReader.length - off.toNat < n
    · have h3 : ((r.rangeReader.drop off.toNat).take n).length < n := by omega
      simp only [h, h2, h3, if_true, if_false]
    · have h3 : ((r.rangeReader.drop off.toNat).take n).length = n := by omega
      simp only [h, h2, if_false, h3, Nat.sub_self, List.replicate_zero, List.append_nil, ne_eq,
        not_true_eq_false, lt_self_iff_false]

/-- A read that lies inside the file succeeds and returns the bytes of the range. -/
theorem readRangeE_inside (r : Reader) (off n : Nat) (h : off + n ≤ r.rangeReader.length) :
    r.readRangeE (off : Int) n = .ok ((r.rangeReader.drop off).take n) := by
  rw [readRangeE_eq]
  have h1 : ¬ ((off : Int) < 0) := by omega
  have h2 : ¬ (r.rangeReader.length - off < n) := by omega
  simp [h1, h2]

/-- A successful read returns exactly `n` bytes taken from a range inside the file. -/
theorem readRangeE_ok (r : Reader) (off : Int) (n : Nat) (data : List Byte)
    (h : r.readRangeE off n = .ok data) :
    0 ≤ off ∧ data = (r.rangeReader.drop off.toNat).take n ∧ data.length = n ∧
      (0 < n → off.toNat + n ≤ r.rangeReader.length) := by
  rw [readRangeE_eq] at h
  by_cases h1 : off < 0
  · simp [h1] at h
  · by_cases h2 : r.rangeReader.length - off.toNat < n
    · simp [h1, h2] at h
    · simp only [h1, h2, if_false, Except.ok.injEq] at h
      refine ⟨by omega, h.symm, ?_, ?_⟩
      · rw [← h]; simp [List.length_take, List.length_drop]; omega
      · intro hn; omega

/-- The only errors of `readRangeE` are `io.EOF` and the failure of the byte source. -/
theorem readRangeE_error (r : Reader) (off : Int) (n : Nat) (e : Error)
    (h : r.readRangeE off n = .error e) : e = .io ∨ e = .eof := by
  rw [readRangeE_eq] at h
  by_cases h1 : off < 0
  · simp [h1] at h; exact Or.inl h.symm
  · by_cases h2 : r.rangeReader.length - off.toNat < n
    · simp [h1, h2] at h; exact Or.inr h.symm
    · simp [h1, h2] at h


/-- What `readRange` returns, case by case. -/
theorem readRange_eq (r : Reader) (off : Int) (n : Nat) :
    r.readRange off n =
      if off < 0 then (List.replicate n 0, some .io)
      else if r.rangeReader.length - off.toNat < n then
        ((r.rangeReader.drop off.toNat).take n ++
          List.replicate (n - ((r.rangeReader.drop off.toNat).take n).length) 0, some .eof)
      else ((r.rangeReader.drop off.toNat).take n, none) := by
  unfold Reader.readRange ReadAt
  have hlen : ((r.rangeReader.drop off.toNat).take n).length = min n (r.rangeReader.length - off.toNat) := by
    simp [List.length_take, List.length_drop]
  by_cases h : off < 0
  · simp [h]
  · by_cases h2 : r.rangeReader.length - off.toNat < n
    · have h3 : ((r.rangeReader.drop off.toNat).take n).length < n := by omega
      simp only [h, h2, h3, if_true, if_false]
    · have h3 : ((r.rangeReader.drop off.toNat).take n).length = n := by omega
      simp only [h, h2, if_false, h3, Nat.sub_self, List.replicate_zero, List.append_nil, ne_eq,
        not_true_eq_false, lt_self_iff_false]

/-- The errors of the integer decoders. -/
theorem binaryRead_error (size : Nat) (b : List Byte) (order : ByteOrder) (e : Error)
    (h : binaryRead size b order = .error e) : e = .eof ∨ e = .unexpectedEOF := by
  unfold binaryRead at h
  split at h
  · split at h
    · simp at h; exact Or.inl h.symm
    · simp at h; exact Or.inr h.symm
  · cases order <;> simp at h

/-- A buffer of at least `size` bytes is decoded without error. -/
theorem binaryRead_ok (size : Nat) (b : List Byte) (order : ByteOrder) (h : size ≤ b.length) :
    binaryRead size b order =
      .ok (match order with
        | .LittleEndian => leValue (b.take size)
        | .BigEndian => beValue (b.take size)) := by
  unfold binaryRead
  have : ¬ b.length < size := by omega
  cases order <;> simp [this]

/-- The errors of `readStringsLoop`. -/
theorem readStringsLoop_error (r : Reader) (offset count : Int) (bufferSize : Nat) (fuel : Nat)
    (st : ScanState) (e : Error)
    (h : readStringsLoop r offset count bufferSize fuel st = .error e) : e = .hang ∨ e = .io := by
  induction fuel generalizing st with
  | zero => simp [readStringsLoop] at h; exact Or.inl h.symm
  | succ fuel ih =>
    unfold readStringsLoop at h
    rw [readRange_eq] at h
    by_cases hneg : wrapInt64 (offset + st.read) < 0
    · simp [hneg] at h
      exact Or.inr h.symm
    · by_cases hshort : r.rangeReader.length - (wrapInt64 (offset + st.read)).toNat < bufferSize
      · simp only [hneg, hshort, if_false, if_true] at h
        simp at h
        split at h
        · simp at h
        · exact ih _ h
      · simp only [hneg, hshort, if_false] at h
        simp at h
        split at h
        · simp at h
        · exact ih _ h

/-- The errors of `readStringsAt`. -/
theorem readStringsAt_error (r : Reader) (offset count : Int) (bufferSize : Nat) (e : Error)
    (h : r.readStringsAt offset count bufferSize = .error e) : e.isParseError := by
  unfold Reader.readStringsAt at h
  split at h
  · simp at h; subst h; simp [Error.isParseError]
  · rcases readStringsLoop_error _ _ _ _ _ _ _ h with h | h <;> subst h <;> simp [Error.isParseError]

/-- A bind in `Except` fails exactly when one of its two steps fails. -/
theorem bind_eq_error_iff {α β : Type} (x : Except Error α) (f : α → Except Error β) (e : Error) :
    (x >>= f) = .error e ↔ x = .error e ∨ ∃ a, x = .ok a ∧ f a = .error e := by
  cases x <;> simp [bind, Except.bind]

/-- A bind in `Except` succeeds exactly when both steps succeed. -/
theorem bind_eq_ok_iff {α β : Type} (x : Except Error α) (f : α → Except Error β) (b : β) :
    (x >>= f) = .ok b ↔ ∃ a, x = .ok a ∧ f a = .ok b := by
  cases x <;> simp [bind, Except.bind]

/-- The errors of `readRangeE` are parse errors. -/
theorem readRangeE_isParseError (r : Reader) (off : Int) (n : Nat) (e : Error)
    (h : r.readRangeE off n = .error e) : e.isParseError := by
  rcases readRangeE_error _ _ _ _ h with h | h <;> subst h <;> simp [Error.isParseError]

/-- The errors of the integer decoders are parse errors. -/
theorem binaryRead_isParseError (size : Nat) (b : List Byte) (order : ByteOrder) (e : Error)
    (h : binaryRead size b order = .error e) : e.isParseError := by
  rcases binaryRead_error _ _ _ _ h with h | h <;> subst h <;> simp [Error.isParseError]

/-- The errors of `parseBaseEntry`. -/
theorem parseBaseEntry_error (r : Reader) (offset : Int) (e : Error)
    (h : r.parseBaseEntry offset = .error e) : e.isParseError := by
  simp only [Reader.parseBaseEntry, bind_eq_error_iff, pure, Except.pure] at h
  rcases h with h | ⟨data, -, h | ⟨v, -, h⟩⟩
  · exact readRangeE_isParseError _ _ _ _ h
  · exact binaryRead_isParseError _ _ _ _ h
  · simp at h

/-- The errors of `parseRedirectEntry`. -/
theorem parseRedirectEntry_error (r : Reader) (offset : Int) (base : BaseEntry) (e : Error)
    (h : r.parseRedirectEntry offset base = .error e) : e.isParseError := by
  simp only [Reader.parseRedirectEntry, bind_eq_error_iff, pure, Except.pure] at h
  rcases h with h | ⟨data, -, h | ⟨v, -, h | ⟨strs, -, h⟩⟩⟩
  · exact readRangeE_isParseError _ _ _ _ h
  · exact binaryRead_isParseError _ _ _ _ h
  · exact readStringsAt_error _ _ _ _ _ h
  · simp at h

/-- The errors of `parseContentEntry`. -/
theorem parseContentEntry_error (r : Reader) (offset : Int) (base : BaseEntry) (e : Error)
    (h : r.parseContentEntry offset base = .error e) : e.isParseError := by
  simp only [Reader.parseContentEntry, bind_eq_error_iff, pure, Except.pure] at h
  rcases h with h | ⟨data, -, h | ⟨v, -, h⟩⟩
  · exact readRangeE_isParseError _ _ _ _ h
  · exact binaryRead_isParseError _ _ _ _ h
  · split at h
    · simp only [bind_eq_error_iff, throw, throwThe, MonadExceptOf.throw] at h
      rcases h with h | ⟨_, h, -⟩
      · injection h with h; subst h; simp [Error.isParseError]
      · simp at h
    · simp only [bind_eq_error_iff, pure, Except.pure] at h
      rcases h with h | ⟨_, -, h | ⟨c, -, h | ⟨b, -, h | ⟨strs, -, h⟩⟩⟩⟩
      · simp at h
      · exact binaryRead_isParseError _ _ _ _ h
      · exact binaryRead_isParseError _ _ _ _ h
      · exact readStringsAt_error _ _ _ _ _ h
      · simp at h

/-- The errors of `parseEntryAt`. -/
theorem parseEntryAt_error (r : Reader) (offset : Int) (e : Error)
    (h : r.parseEntryAt offset = .error e) : e.isParseError := by
  simp only [Reader.parseEntryAt, bind_eq_error_iff] at h
  rcases h with h | ⟨base, -, h⟩
  · exact parseBaseEntry_error _ _ _ h
  · split at h
    · simp only [bind_eq_error_iff, pure, Except.pure] at h
      rcases h with h | ⟨_, -, h⟩
      · exact parseRedirectEntry_error _ _ _ _ h
      · simp at h
    · simp only [bind_eq_error_iff, pure, Except.pure] at h
      rcases h with h | ⟨_, -, h⟩
      · exact parseContentEntry_error _ _ _ _ h
      · simp at h


/-! ## Redirect resolution -/

/-- One successful hop costs one unit of fuel. -/
theorem Redirect_step (r : Reader) (hlen : r.urlIndex.length < 4294967296) (e : RedirectEntry)
    (next : Entry) (hidx : e.redirectIndex < r.urlIndex.length)
    (hparse : r.parseEntryAt (toInt64 (r.urlIndex.getD e.redirectIndex 0)) = .ok next) (fuel : Nat) :
    Redirect r (fuel + 1) (.redirect e) = Redirect r fuel next := by
  have hguard : ¬ (e.redirectIndex ≥ u32 r.urlIndex.length) := by
    unfold u32; omega
  rw [Redirect]
  simp only [hguard, if_false, hparse]
  cases h : Redirect r fuel next with
  | none => rfl
  | some res => cases res <;> rfl

/-- Following `k` hops costs `k` units of fuel. -/
theorem Redirect_hops (r : Reader) (hlen : r.urlIndex.length < 4294967296) (a b : Entry) (k : Nat)
    (h : Hops r a k b) (fuel : Nat) : Redirect r (fuel + k) a = Redirect r fuel b := by
  induction h with
  | zero a => rfl
  | succ e next k b hidx hparse _ ih =>
    rw [← Nat.add_assoc, Redirect_step r hlen e next hidx hparse, ih]

/-- With at most `k` units of fuel the recursion cannot get past `k` hops that end at a
redirect entry. -/
theorem Redirect_short (r : Reader) (hlen : r.urlIndex.length < 4294967296) (a : Entry)
    (t : RedirectEntry) (k : Nat) (h : Hops r a k (.redirect t)) (fuel : Nat) (hf : fuel ≤ k) :
    Redirect r fuel a = none := by
  generalize hb : Entry.redirect t = b at h
  induction h generalizing fuel with
  | zero a =>
    subst hb
    have : fuel = 0 := by omega
    subst this
    rfl
  | succ e next k b hidx hparse _ ih =>
    cases fuel with
    | zero => rfl
    | succ fuel =>
      rw [Redirect_step r hlen e next hidx hparse]
      exact ih fuel (by omega) hb

/-- No call of `Redirect` fails with `ErrInvalidRedirect`. -/
theorem Redirect_never_invalidRedirect (r : Reader) (fuel : Nat) (a : Entry) :
    Redirect r fuel a ≠ some (.error .invalidRedirect) := by
  induction fuel generalizing a with
  | zero => cases a <;> simp [Redirect]
  | succ fuel ih =>
    cases a with
    | content e => simp [Redirect]
    | redirect e =>
      rw [Redirect]
      split
      · simp
      · simp only []
        split
        · rename_i err herr
          have := parseEntryAt_error _ _ _ herr
          intro h
          simp only [Option.some.injEq, Except.error.injEq] at h
          subst h
          simp [Error.isParseError] at this
        · rename_i entry _
          have := ih entry
          split
          · simp
          · rename_i err herr
            rw [herr] at this
            simpa using this
          · simp


set_option maxRecDepth 1000000 in
/-- The entries of the sample archive are those listed in `sampleEntries`. -/
theorem sampleReader_entries :
    (List.range 11).map (fun i => (sampleReader.EntryAt emptyCache i).1) =
      sampleEntries.map Except.ok := by
  decide

set_option maxRecDepth 1000000 in
/-- The record of every entry of the sample archive parses to the listed entry. -/
theorem sampleReader_parse :
    sampleReader.urlIndex.map (fun p => sampleReader.parseEntryAt (toInt64 p)) =
      sampleEntries.map Except.ok := by
  decide

/-- C6. Redirect resolution: when following the redirect targets from a redirect entry
reaches a content entry after `k` hops, every hop being inside the URL pointer table and
parseable, `Redirect()` returns exactly that content entry, with no error, as soon as the
recursion depth `k` is available; and `k ≥ 1`. The URL pointer table has fewer than `2^32`
elements, as it has in every reader that `NewReader` builds (`NewReader_ok`). -/
theorem Redirect_reaches_content (r : Reader) (hlen : r.urlIndex.length < 4294967296)
    (e : RedirectEntry) (k : Nat) (c : ContentEntry)
    (h : Hops r (.redirect e) k (.content c)) :
    1 ≤ k ∧ ∀ fuel, k ≤ fuel → Redirect r fuel (.redirect e) = some (.ok c) := by
  constructor
  · cases h with
    | succ _ _ k _ _ _ _ => omega
  · intro fuel hk
    obtain ⟨d, rfl⟩ : ∃ d, fuel = d + k := ⟨fuel - k, by omega⟩
    rw [Redirect_hops r hlen _ _ k h d]
    cases d <;> rfl

set_option maxRecDepth 1000000 in
/-- Witness for C6 on the sample archive: entry 7 redirects to entry 6, which redirects to
the content entry 0. -/
theorem Redirect_reaches_content_witness :
    1 ≤ 2 ∧ Redirect sampleReader 2 (.redirect sampleRedirect3) = some (.ok sampleContentA) :=
  ⟨(Redirect_reaches_content sampleReader (by decide) sampleRedirect3 2 sampleContentA
      (Hops.succ sampleRedirect3 (.redirect sampleRedirect2) 1 _ (by decide) (by decide)
        (Hops.succ sampleRedirect2 (.content sampleContentA) 0 _ (by decide) (by decide)
          (Hops.zero _)))).1,
   (Redirect_reaches_content sampleReader (by decide) sampleRedirect3 2 sampleContentA
      (Hops.succ sampleRedirect3 (.redirect sampleRedirect2) 1 _ (by decide) (by decide)
        (Hops.succ sampleRedirect2 (.content sampleContentA) 0 _ (by decide) (by decide)
          (Hops.zero _)))).2 2 (by decide)⟩


/-- On a redirect cycle the recursion of `Redirect` never returns, whatever the depth. -/
theorem Redirect_cycle_none (r : Reader) (hlen : r.urlIndex.length < 4294967296)
    (e : RedirectEntry) (k : Nat) (hk : 1 ≤ k) (h : Hops r (.redirect e) k (.redirect e))
    (fuel : Nat) : Redirect r fuel (.redirect e) = none := by
  induction fuel using Nat.strong_induction_on with
  | _ fuel ih =>
    by_cases hf : fuel ≤ k
    · exact Redirect_short r hlen _ e k h fuel hf
    · obtain ⟨d, rfl⟩ : ∃ d, fuel = d + k := ⟨fuel - k, by omega⟩
      rw [Redirect_hops r hlen _ _ k h d]
      exact ih d (by omega)

set_option maxRecDepth 1000000 in
/-- C7, counterexample. The sample archive opens and its entry 1 is a redirect whose
target is its own index, a cycle of length one; `Redirect()` on it fails with
`ErrInvalidRedirect` at no recursion depth, and in fact returns at none. -/
theorem Redirect_cycle_not_rejected :
    (∃ c, NewReader 4 sampleArchive {} = some (.ok (sampleReader, c))) ∧
    (sampleReader.EntryAt emptyCache 1).1 = .ok (.redirect sampleSelfRedirect) ∧
    sampleSelfRedirect.redirectIndex = 1 ∧
    (¬ ∃ fuel, Redirect sampleReader fuel (.redirect sampleSelfRedirect)
        = some (.error .invalidRedirect)) ∧
    (∀ fuel, Redirect sampleReader fuel (.redirect sampleSelfRedirect) = none) := by
  have hnone : ∀ fuel, Redirect sampleReader fuel (.redirect sampleSelfRedirect) = none :=
    Redirect_cycle_none sampleReader (by decide) sampleSelfRedirect 1 (by decide)
      (Hops.succ sampleSelfRedirect (.redirect sampleSelfRedirect) 0 _ (by decide) (by decide)
        (Hops.zero _))
  refine ⟨sampleArchive_opens, by decide, rfl, ?_, hnone⟩
  rintro ⟨fuel, hf⟩
  rw [hnone fuel] at hf
  exact Option.noConfusion hf

/-- C7, amended. `Redirect()` has no depth bound and no cycle detection: on a redirect
entry that lies on a redirect cycle (following `k ≥ 1` hops, all inside the URL pointer
table and parseable, leads back to the entry) it returns at no recursion depth, and no
call of `Redirect()`, on any entry, fails with `ErrInvalidRedirect`. The URL pointer table
has fewer than `2^32` elements, as it has in every reader that `NewReader` builds
(`NewReader_ok`). -/
theorem Redirect_cycle_never_returns (r : Reader) (hlen : r.urlIndex.length < 4294967296)
    (e : RedirectEntry) (k : Nat) (hk : 1 ≤ k) (h : Hops r (.redirect e) k (.redirect e)) :
    (∀ fuel, Redirect r fuel (.redirect e) = none) ∧
    (∀ fuel a, Redirect r fuel a ≠ some (.error .invalidRedirect)) :=
  ⟨Redirect_cycle_none r hlen e k hk h, fun fuel a => Redirect_never_invalidRedirect r fuel a⟩

set_option maxRecDepth 1000000 in
/-- Witness for C7 (amended) on the self-redirecting entry 1 of the sample archive. -/
theorem Redirect_cycle_never_returns_witness :
    sampleReader.urlIndex.length < 4294967296 ∧ 1 ≤ 1 ∧
    Hops sampleReader (.redirect sampleSelfRedirect) 1 (.redirect sampleSelfRedirect) ∧
    Redirect sampleReader 1000 (.redirect sampleSelfRedirect) = none :=
  ⟨by decide, by decide,
   Hops.succ sampleSelfRedirect (.redirect sampleSelfRedirect) 0 _ (by decide) (by decide)
     (Hops.zero _),
   (Redirect_cycle_never_returns sampleReader (by decide) sampleSelfRedirect 1 (by decide)
     (Hops.succ sampleSelfRedirect (.redirect sampleSelfRedirect) 0 _ (by decide) (by decide)
       (Hops.zero _))).1 1000⟩

/-- Index bounds in terms of the URL pointer table, for a table of fewer than `2^32`
elements: `EntryAt(i)` fails with `ErrInvalidIndex` exactly when `i < 0` or
`i ≥ len(urlIndex)`, with a result that does not depend on the byte source; otherwise it
returns what `parseEntryAt` returns at `urlIndex[i]`; and `Redirect()` fails with
`ErrInvalidIndex` when, after `k` valid hops, the next target is `≥ len(urlIndex)`. -/
theorem EntryAt_bounds_of_length (r : Reader) (c : Cache) (hlen : r.urlIndex.length < 4294967296) :
    (∀ i : Int, (r.EntryAt c i).1 = .error .invalidIndex ↔ (i < 0 ∨ i ≥ r.urlIndex.length)) ∧
    (∀ i : Int, (i < 0 ∨ i ≥ r.urlIndex.length) → ∀ src : List Byte,
        ({ r with rangeReader := src } : Reader).EntryAt c i = (.error .invalidIndex, c)) ∧
    (∀ i : Int, 0 ≤ i → i < r.urlIndex.length →
        (r.EntryAt c i).1 = r.parseEntryAt (toInt64 (r.urlIndex.getD i.toNat 0))) ∧
    (∀ (e t : RedirectEntry) (k fuel : Nat), Hops r (.redirect e) k (.redirect t) →
        t.redirectIndex ≥ r.urlIndex.length → k < fuel →
        Redirect r fuel (.redirect e) = some (.error .invalidIndex)) := by
  refine ⟨?_, ?_, ?_, ?_⟩
  · intro i
    unfold Reader.EntryAt
    by_cases hg : i ≥ r.urlIndex.length ∨ i < 0
    · simp only [hg, if_true, true_iff]
      omega
    · simp only [hg, if_false]
      have hn : ¬ (i < 0 ∨ i ≥ r.urlIndex.length) := by omega
      simp only [hn, iff_false]
      cases hp : r.parseEntryAt (toInt64 (r.urlIndex.getD i.toNat 0)) with
      | error e =>
        have := parseEntryAt_error _ _ _ hp
        intro h
        simp only [Except.error.injEq] at h
        subst h
        simp [Error.isParseError] at this
      | ok entry => simp
  · intro i hi src
    unfold Reader.EntryAt
    have hg : i ≥ r.urlIndex.length ∨ i < 0 := by omega
    simp only [hg, if_true]
  · intro i h0 h1
    unfold Reader.EntryAt
    have hg : ¬ (i ≥ r.urlIndex.length ∨ i < 0) := by omega
    simp only [hg, if_false]
    cases r.parseEntryAt (toInt64 (r.urlIndex.getD i.toNat 0)) <;> rfl
  · intro e t k fuel h ht hk
    obtain ⟨d, rfl⟩ : ∃ d, fuel = (d + 1) + k := ⟨fuel - k - 1, by omega⟩
    rw [Redirect_hops r hlen _ _ k h (d + 1), Redirect]
    have hguard : t.redirectIndex ≥ u32 r.urlIndex.length := by
      unfold u32; omega
    simp only [hguard, if_true]

/-! ## Cluster addressing -/

/-- The three cases of `getClusterOffsets` on a cluster pointer table of `n + 1` offsets:
an index below `n` gives the offsets, an index above `n` or below zero gives
`ErrInvalidIndex`, and the index `n` itself passes the guard and panics. -/
theorem getClusterOffsets_cases (r : Reader) (n : Nat) (hn : r.clusterIndex.length = n + 1)
    (c : Int) :
    (0 ≤ c → c < n → r.getClusterOffsets c =
        .ok (r.clusterIndex.getD c.toNat 0, subU64 (r.clusterIndex.getD (c.toNat + 1) 0) 1)) ∧
    (c < 0 ∨ c > n → r.getClusterOffsets c = .error .invalidIndex) ∧
    (c = n → r.getClusterOffsets c = .error .panic) := by
  unfold Reader.getClusterOffsets
  refine ⟨?_, ?_, ?_⟩
  · intro h0 h1
    have hg : ¬ (c > (r.clusterIndex.length : Int) - 1 ∨ c < 0) := by omega
    have ha : c.toNat < r.clusterIndex.length := by omega
    have hb : c.toNat + 1 < r.clusterIndex.length := by omega
    simp only [hg, if_false]
    rw [List.getElem?_eq_getElem ha, List.getElem?_eq_getElem hb]
    simp [List.getD_eq_getElem?_getD, List.getElem?_eq_getElem ha, List.getElem?_eq_getElem hb]
  · intro h
    have hg : c > (r.clusterIndex.length : Int) - 1 ∨ c < 0 := by omega
    simp only [hg, if_true]
  · intro h
    have hg : ¬ (c > (r.clusterIndex.length : Int) - 1 ∨ c < 0) := by omega
    have ha : c.toNat < r.clusterIndex.length := by omega
    have hb : r.clusterIndex.length ≤ c.toNat + 1 := by omega
    simp only [hg, if_false]
    rw [List.getElem?_eq_getElem ha, List.getElem?_eq_none hb]

set_option maxRecDepth 1000000 in
/-- C9, the code at the failing input. The sample archive has 3 clusters and a cluster
pointer table of 4 offsets; its entry 4 is a content entry whose cluster index is 3.
`getClusterOffsets(3)` passes the guard `clusterNum > len(clusterIndex)-1` and panics on
`clusterIndex[4]`, and so do `Reader()` and `Compression()` of that entry; the indices 0 and
4 behave as the claim says. -/
theorem getClusterOffsets_at_cluster_count :
    (∃ c, NewReader 4 sampleArchive {} = some (.ok (sampleReader, c))) ∧
    sampleReader.ClusterCount = 3 ∧ sampleReader.clusterIndex.length = 3 + 1 ∧
    (sampleReader.EntryAt emptyCache 4).1 = .ok (.content sampleContentC) ∧
    sampleContentC.clusterIndex = 3 ∧
    sampleReader.getClusterOffsets 3 = .error .panic ∧
    sampleContentC.Reader sampleCodecs sampleReader = .error .panic ∧
    sampleContentC.Compression sampleReader = .error .panic ∧
    sampleReader.getClusterOffsets 0 = .ok (416, 430) ∧
    sampleReader.getClusterOffsets 4 = .error .invalidIndex :=
  ⟨sampleArchive_opens, rfl, rfl, by decide, rfl, by decide, rfl, by decide, by decide,
   by decide⟩


/-- The conversion `int64(x)` leaves a value below `2^63` unchanged. -/
theorem toInt64_small (x : Nat) (h : x < 9223372036854775808) : toInt64 x = (x : Int) := by
  unfold toInt64
  have h1 : x % 18446744073709551616 = x := Nat.mod_eq_of_lt (by omega)
  simp [h1, h]

/-- The shift expression for the compression kind keeps the low four bits. -/
theorem compressionOf_eq (h : Nat) : compressionOf h = h % 16 := by
  unfold compressionOf; omega

/-- The shift expression for the extended flag tests bit 4. -/
theorem extendedOf_eq (h : Nat) : extendedOf h = decide (h / 16 % 2 = 1) := by
  unfold extendedOf
  by_cases hb : h / 16 % 2 = 1
  · have : h * 8 % 256 / 128 = 1 := by omega
    simp [hb, this]
  · have : h * 8 % 256 / 128 ≠ 1 := by omega
    simp [hb, this]

/-- Reading one byte that lies inside the file. -/
theorem readRangeE_byte (r : Reader) (pos : Nat) (b : Byte) (hb : r.rangeReader[pos]? = some b) :
    r.readRangeE (pos : Int) 1 = .ok [b] := by
  have hlt : pos < r.rangeReader.length := by
    by_contra hcon
    rw [List.getElem?_eq_none (by omega)] at hb
    exact Option.noConfusion hb
  rw [readRangeE_inside r pos 1 (by omega)]
  rw [List.getElem?_eq_getElem hlt] at hb
  injection hb with hb
  rw [List.drop_eq_getElem_cons hlt, hb]
  simp

/-- The cluster header and offsets of a content entry whose cluster index is valid and
whose header byte lies inside the file. -/
theorem readClusterInfo_ok (r : Reader) (e : ContentEntry) (cs next : Nat) (h : Byte)
    (hc1 : r.clusterIndex[e.clusterIndex]? = some cs)
    (hc2 : r.clusterIndex[e.clusterIndex + 1]? = some next)
    (hcs : cs < 9223372036854775808) (hh : r.rangeReader[cs]? = some h) :
    e.readClusterInfo r = .ok (h.val, cs, subU64 next 1) := by
  have hlen : e.clusterIndex + 1 < r.clusterIndex.length := by
    by_contra hcon
    rw [List.getElem?_eq_none (by omega)] at hc2
    exact Option.noConfusion hc2
  have hoff : r.getClusterOffsets (e.clusterIndex : Int) = .ok (cs, subU64 next 1) := by
    unfold Reader.getClusterOffsets
    have hg : ¬ ((e.clusterIndex : Int) > (r.clusterIndex.length : Int) - 1 ∨ (e.clusterIndex : Int) < 0) := by
      omega
    simp only [hg, if_false, Int.toNat_ofNat, hc1, hc2]
  unfold ContentEntry.readClusterInfo
  simp only [hoff, bind, Except.bind, toInt64_small cs hcs, readRangeE_byte r cs h hh, pure,
    Except.pure, List.getD_cons_zero]

/-- C5. Compression dispatch. For a content entry whose cluster index is valid (the
cluster pointer table has the offsets `cs` and `next` at positions `clusterIndex` and
`clusterIndex + 1`) and whose cluster header byte `h` can be read at `cs`: `Reader()` fails
with `ErrCompressionAlgorithmNotSupported` if and only if `h & 0x0F` is none of 0, 1, 4, 5;
for the kinds 4 and 5 it returns the xz, respectively zstd, compressed reader over
`(cs, next - 1, blobIndex, width)`, a value that depends on no byte of the source other
than `h`. -/
theorem Reader_compression_dispatch (codecs : Codecs) (r : Reader) (e : ContentEntry)
    (cs next : Nat) (h : Byte)
    (hc1 : r.clusterIndex[e.clusterIndex]? = some cs)
    (hc2 : r.clusterIndex[e.clusterIndex + 1]? = some next)
    (hcs : cs < 9223372036854775808) (hh : r.rangeReader[cs]? = some h) :
    (e.Reader codecs r = .error .compressionNotSupported ↔
      ¬ (h.val % 16 = 0 ∨ h.val % 16 = 1 ∨ h.val % 16 = 4 ∨ h.val % 16 = 5)) ∧
    (h.val % 16 = 4 → e.Reader codecs r = .ok (.compressed
      (NewXZBlobReader codecs cs (subU64 next 1) e.blobIndex (if extendedOf h.val then 8 else 4)))) ∧
    (h.val % 16 = 5 → e.Reader codecs r = .ok (.compressed
      (NewZStdBlobReader codecs cs (subU64 next 1) e.blobIndex (if extendedOf h.val then 8 else 4)))) := by
  have hinfo := readClusterInfo_ok r e cs next h hc1 hc2 hcs hh
  have hcomp := compressionOf_eq h.val
  unfold ContentEntry.Reader
  simp only [hinfo, bind, Except.bind, hcomp]
  refine ⟨?_, ?_, ?_⟩
  · by_cases h01 : h.val % 16 = 0 ∨ h.val % 16 = 1
    · simp only [h01, if_true]
      have hr : (h.val % 16 = 0 ∨ h.val % 16 = 1 ∨ h.val % 16 = 4 ∨ h.val % 16 = 5) := by omega
      simp only [hr, not_true_eq_false, iff_false]
      cases hd : r.readRangeE (toInt64 (u64 (u64 (cs + 1) +
          u32 (e.blobIndex * u32 (if extendedOf h.val = true then 8 else 4)))))
          (2 * if extendedOf h.val = true then 8 else 4) with
      | error err =>
        simp only [Except.error.injEq]
        rcases readRangeE_error _ _ _ _ hd with h1 | h1 <;> subst h1 <;> simp
      | ok data =>
        simp only []
        cases ho : decodeOffsetPair (extendedOf h.val) (if extendedOf h.val = true then 8 else 4) data with
        | error err =>
          simp only [Except.error.injEq]
          unfold decodeOffsetPair at ho
          split at ho
          · simp only [bind_eq_error_iff, readUint64, pure, Except.pure] at ho
            rcases ho with h1 | ⟨_, -, h1 | ⟨_, -, h1⟩⟩
            · rcases binaryRead_error _ _ _ _ h1 with h2 | h2 <;> subst h2 <;> simp
            · rcases binaryRead_error _ _ _ _ h1 with h2 | h2 <;> subst h2 <;> simp
            · simp at h1
          · simp only [bind_eq_error_iff, readUint32, pure, Except.pure] at ho
            rcases ho with h1 | ⟨_, -, h1 | ⟨_, -, h1⟩⟩
            · rcases binaryRead_error _ _ _ _ h1 with h2 | h2 <;> subst h2 <;> simp
            · rcases binaryRead_error _ _ _ _ h1 with h2 | h2 <;> subst h2 <;> simp
            · simp at h1
        | ok offsets => simp [pure, Except.pure]
    · simp only [h01, if_false]
      by_cases h4 : h.val % 16 = 4
      · simp [h4, pure, Except.pure]
      · by_cases h5 : h.val % 16 = 5
        · simp [h5, pure, Except.pure]
        · have hr : ¬ (h.val % 16 = 0 ∨ h.val % 16 = 1 ∨ h.val % 16 = 4 ∨ h.val % 16 = 5) := by omega
          simp [h4, h5, hr, throw, throwThe, MonadExceptOf.throw]
          omega
  · intro h4
    have h01 : ¬ (h.val % 16 = 0 ∨ h.val % 16 = 1) := by omega
    simp [h01, h4, pure, Except.pure]
  · intro h5
    have h01 : ¬ (h.val % 16 = 0 ∨ h.val % 16 = 1) := by omega
    simp [h01, h5, pure, Except.pure]

set_option maxRecDepth 1000000 in
/-- Witness for C5: entry 9 of the sample archive lies in cluster 2, whose header byte at
offset 451 is `0x15` (zstd, extended). -/
theorem Reader_compression_dispatch_witness :
    sampleReader.clusterIndex[sampleContentZ0.clusterIndex]? = some 451 ∧
    sampleReader.rangeReader[451]? = some 21 ∧
    sampleContentZ0.Reader sampleCodecs sampleReader = .ok (.compressed
      (NewZStdBlobReader sampleCodecs 451 (subU64 470 1) sampleContentZ0.blobIndex
        (if extendedOf (21 : Byte).val then 8 else 4))) :=
  ⟨by decide, by decide,
   (Reader_compression_dispatch sampleCodecs sampleReader sampleContentZ0 451 470 21
     (by decide) (by decide) (by decide) (by decide)).2.2 (by decide)⟩


/-! ## The code at concrete inputs -/

set_option maxRecDepth 1000000 in
/-- C1, the code at the failing input. The sample archive opens, its entry count is 11 and
its 11 entries have pairwise distinct full URLs, but the URL map built by `preload` has 10
keys: it sends the full URL of entry `i` to `i` for `i < 10` only, the full URL `A/last`
of entry 10 is not a key, and `EntryWithFullURL` does not find that entry. -/
theorem preload_skips_last_entry :
    (∃ c, NewReader 4 sampleArchive {} = some (.ok (sampleReader, c))) ∧
    sampleReader.EntryCount = 11 ∧
    ((List.range 11).map
      (fun i => (sampleReader.EntryAt emptyCache i).1.toOption.map Entry.FullURL)).Nodup ∧
    sampleReader.urls.length = 10 ∧
    (∀ i ∈ List.range 10,
      ((sampleReader.EntryAt emptyCache i).1.toOption.map Entry.FullURL).bind
        (fun u => sampleReader.urls.lookup u) = some (i : Int)) ∧
    (sampleReader.EntryAt emptyCache 10).1 = .ok (.content sampleContentLast) ∧
    (Entry.content sampleContentLast).FullURL = [65, 47, 108, 97, 115, 116] ∧
    sampleReader.urls.lookup [65, 47, 108, 97, 115, 116] = none ∧
    (sampleReader.EntryWithFullURL emptyCache [65, 47, 108, 97, 115, 116]).1 = .error .notFound :=
  ⟨sampleArchive_opens, rfl, by decide, by decide, by decide, by decide, by decide, by decide,
   by decide⟩

set_option maxRecDepth 1000000 in
/-- C3, the code at the failing input. Entry 2 of the sample archive lies in cluster 1
(start 431, header `0x11`: uncompressed, extended, width 8) and has blob index `2^29`. The
position `cluster_start + 1 + b*w = 431 + 1 + 2^32` is past the end of the file, so nothing
can be read there; the code computes `b*w` on `uint32`, gets 0, reads the 16 bytes at
offset 432 (the offsets 16 and 19 of blob 0) and returns a reader over the file range
`[448, 451)`, the bytes `xyz`. -/
theorem Reader_blob_offset_wraps :
    (sampleReader.EntryAt emptyCache 2).1 = .ok (.content sampleContentBig) ∧
    sampleContentBig.blobIndex = 536870912 ∧
    sampleContentBig.readClusterInfo sampleReader = .ok (17, 431, 450) ∧
    compressionOf 17 = 1 ∧ extendedOf 17 = true ∧
    sampleReader.readRangeE (431 + 1 + 536870912 * 8) (2 * 8) = .error .eof ∧
    u32 (536870912 * u32 8) = 0 ∧
    sampleReader.readRangeE (431 + 1 + 0) (2 * 8)
      = .ok [16, 0, 0, 0, 0, 0, 0, 0, 19, 0, 0, 0, 0, 0, 0, 0] ∧
    sampleContentBig.Reader sampleCodecs sampleReader
      = .ok (.uncompressed (NewUncompressedBlobReader 448 451 8)) ∧
    BlobReader.ReadAll sampleReader (.uncompressed (NewUncompressedBlobReader 448 451 8))
      = .ok [120, 121, 122] :=
  ⟨by decide, rfl, by decide, by decide, by decide, by decide, by decide, by decide, rfl,
   by decide⟩

set_option maxRecDepth 1000000 in
/-- C4, the code at the failing input. Entry 3 of the sample archive lies in cluster 2
(start 451, end 469, header `0x15`: zstd, extended, width 8) and has blob index `2^29`; the
decoder is the identity, so the decoded payload is the 18 file bytes `[452, 470)`. The
slice `decoded[b*w .. (b+2)*w]` starts at `2^32`, far outside the payload; the code computes
the indices on `uint32`, gets 0, 8 and 16, decodes the offsets 16 and 18 of blob 0 and
serves `decoded[16 .. 18]`, the bytes `ok`, with `Size() = 2`. -/
theorem loadClusterData_blob_offset_wraps :
    (sampleReader.EntryAt emptyCache 3).1 = .ok (.content sampleContentZ) ∧
    sampleContentZ.blobIndex = 536870912 ∧
    sampleContentZ.Reader sampleCodecs sampleReader
      = .ok (.compressed (NewZStdBlobReader sampleCodecs 451 469 536870912 8)) ∧
    sampleReader.readRangeE (451 + 1) (469 - 451)
      = .ok [16, 0, 0, 0, 0, 0, 0, 0, 18, 0, 0, 0, 0, 0, 0, 0, 111, 107] ∧
    ¬ (536870912 * 8 ≤ 18) ∧
    u32 (536870912 * u32 8) = 0 ∧
    (NewZStdBlobReader sampleCodecs 451 469 536870912 8).loadBody sampleReader = .ok [111, 107] ∧
    ((NewZStdBlobReader sampleCodecs 451 469 536870912 8).Size sampleReader).1 = .ok 2 ∧
    BlobReader.ReadAll sampleReader
      (.compressed (NewZStdBlobReader sampleCodecs 451 469 536870912 8)) = .ok [111, 107] :=
  ⟨by decide, rfl, rfl, by decide, by decide, by decide, by decide, by decide, by decide⟩

set_option maxRecDepth 1000000 in
/-- C10, the code at the failing input. In the sample archive the content record at offset
212 (MIME index 0, namespace `A`, cluster 0, blob 0) is followed at offset 228 by the two
NUL-terminated strings `a` and `T`, all inside the 486-byte source. `parseEntryAt(212)`
returns a content entry with the URL `a` and an empty title, so that `Title()` is `a`: the
chunk read at offset 228 reaches the end of the file and `readStringsAt` returns after the
first string. -/
theorem parseEntryAt_drops_title :
    sampleArchive.length = 486 ∧
    slice sampleArchive 212 228 = [0, 0, 0, 65, 0, 0, 0, 0, 0, 0, 0, 0, 0, 0, 0, 0] ∧
    slice sampleArchive 228 232 = [97, 0, 84, 0] ∧
    sampleReader.readStringsAt 228 2 1024 = .ok ([[97]], 2) ∧
    sampleReader.parseEntryAt 212 = .ok (.content sampleContentA) ∧
    sampleContentA.base.url = [97] ∧ sampleContentA.base.title = [] ∧
    sampleContentA.base.title ≠ [84] ∧
    (Entry.content sampleContentA).Title = [97] :=
  ⟨by decide, by decide, by decide, by decide, by decide, rfl, rfl, by decide, by decide⟩


/-! ## Blob readers -/

/-- The result of the function passed to `loadCluster.Do`, step by step. -/
theorem loadBody_eq (r : Reader) (b : CompressedBlobReader) :
    b.loadBody r =
      (if subU64 b.clusterEndOffset b.clusterStartOffset > maxAlloc then .error .panic
      else do
        let compressedData ← r.readRangeE (toInt64 (u64 (b.clusterStartOffset + 1)))
          (subU64 b.clusterEndOffset b.clusterStartOffset)
        let uncompressedData ← b.decoderFactory compressedData
        let offsets ← b.decodeOffsets uncompressedData
        if subU64 offsets.2 offsets.1 > maxAlloc then .error .panic
        else goSlice uncompressedData offsets.1 offsets.2) := by
  unfold CompressedBlobReader.loadBody CompressedBlobReader.loadBodyTraced
  simp only []
  by_cases hn : subU64 b.clusterEndOffset b.clusterStartOffset > maxAlloc
  · rw [if_pos hn, if_pos hn]
  · rw [if_neg hn, if_neg hn]
    cases r.readRangeE (toInt64 (u64 (b.clusterStartOffset + 1)))
      (subU64 b.clusterEndOffset b.clusterStartOffset) with
    | error e => rfl
    | ok compressedData => rfl

/-- The error that `loadClusterData` returns and the reader it leaves, case by case. -/
theorem loadClusterData_eq (r : Reader) (b : CompressedBlobReader) :
    b.loadClusterData r =
      if b.closed then (some .closed, b)
      else if b.loadCluster then (b.loadClusterErr, b)
      else
        match b.loadBody r with
        | .ok data => (none, { b with loadCluster := true, data := some { s := data } })
        | .error .panic => (some .panic, { b with loadCluster := true })
        | .error e => (some e, { b with loadCluster := true, loadClusterErr := some e }) := by
  unfold CompressedBlobReader.loadClusterData CompressedBlobReader.loadClusterDataTraced
    CompressedBlobReader.loadBody
  by_cases hc : b.closed = true
  · rw [if_pos hc, if_pos hc]
  · rw [if_neg hc, if_neg hc]
    by_cases hl : b.loadCluster = true
    · rw [if_pos hl, if_pos hl]
    · rw [if_neg hl, if_neg hl]
      cases hb : b.loadBodyTraced r with
      | mk events res =>
        cases res with
        | ok data => rfl
        | error e => cases e <;> rfl

/-- Wrapping subtraction agrees with subtraction on ordered `uint64` values. -/
theorem subU64_of_le (a b : Nat) (hab : b ≤ a) (ha : a < 18446744073709551616) :
    subU64 a b = a - b := by
  unfold subU64
  have hb : b % 18446744073709551616 = b := Nat.mod_eq_of_lt (by omega)
  rw [hb]
  omega

/-- The length of a Go slice expression inside the bounds. -/
theorem slice_length (b : List Byte) (lo hi : Nat) (h1 : lo ≤ hi) (h2 : hi ≤ b.length) :
    (slice b lo hi).length = hi - lo := by
  unfold slice
  simp [List.length_drop, List.length_take]
  omega

/-- A fresh uncompressed blob reader over a file range inside the source and no longer
than the allocation limit: `Size()` is the length of the range and reading to the end of
the stream returns the bytes of the range. -/
theorem uncompressed_round_trip (r : Reader) (hsz : r.rangeReader.length < 9223372036854775808)
    (bs be w : Nat) (h1 : bs ≤ be) (h2 : be ≤ r.rangeReader.length)
    (h3 : be - bs ≤ maxAlloc) :
    (NewUncompressedBlobReader bs be w).Size = .ok ((be - bs : Nat) : Int) ∧
    BlobReader.ReadAll r (.uncompressed (NewUncompressedBlobReader bs be w))
      = .ok (slice r.rangeReader bs be) ∧
    (slice r.rangeReader bs be).length = be - bs := by
  have hsub : subU64 be bs = be - bs := subU64_of_le be bs h1 (by omega)
  refine ⟨?_, ?_, slice_length _ _ _ h1 h2⟩
  · unfold UncompressedBlobReader.Size NewUncompressedBlobReader
    simp only [hsub]
    rw [toInt64_small _ (by omega)]
  · have hbody : (NewUncompressedBlobReader bs be w).loadBody r = .ok (slice r.rangeReader bs be) := by
      unfold UncompressedBlobReader.loadBody NewUncompressedBlobReader
      simp only [hsub]
      have hn : ¬ (be - bs > maxAlloc) := by omega
      simp only [hn, if_false]
      rw [toInt64_small _ (by omega), readRangeE_inside r bs (be - bs) (by omega)]
      unfold slice
      rw [List.drop_take]
    unfold BlobReader.ReadAll UncompressedBlobReader.loadBlob
    have hfresh : (NewUncompressedBlobReader bs be w).loadBlobOnce = false := rfl
    simp only [hfresh, hbody, Bool.false_eq_true, if_false]
    simp [BytesReader.ReadAll]

/-- A Go slice expression of a Go slice expression. -/
theorem slice_take (b : List Byte) (lo hi n : Nat) (h : hi - lo ≤ n) :
    (slice b lo hi).take n = slice b lo hi := by
  apply List.take_of_length_le
  unfold slice
  simp only [List.length_drop, List.length_take]
  omega

/-- The bytes read by a `readRangeE` inside the file, as a Go slice expression. -/
theorem readRangeE_slice (r : Reader) (off n : Nat) (h : off + n ≤ r.rangeReader.length) :
    r.readRangeE (off : Int) n = .ok (slice r.rangeReader off (off + n)) := by
  rw [readRangeE_inside r off n h]
  unfold slice
  rw [List.drop_take]
  simp

/-- A slice of a slice. -/
theorem slice_slice (b : List Byte) (off n lo hi : Nat) (h : hi ≤ n) :
    slice (slice b off (off + n)) lo hi = slice b (off + lo) (off + hi) := by
  unfold slice
  rw [List.take_drop, List.take_take, List.drop_drop, Nat.min_eq_left (by omega)]

/-- Decoding the pair of offsets from a buffer of `2*w` bytes never fails. -/
theorem decodeOffsetPair_ok (ext : Bool) (data : List Byte)
    (hlen : data.length = 2 * (if ext then 8 else 4)) :
    decodeOffsetPair ext (if ext then 8 else 4) data =
      .ok (leValue (slice data 0 (if ext then 8 else 4)),
           leValue (slice data (if ext then 8 else 4) ((if ext then 8 else 4) * 2))) := by
  cases ext
  · simp only [Bool.false_eq_true, if_false] at hlen ⊢
    unfold decodeOffsetPair readUint32
    have h1 : (slice data 0 4).length = 4 := by rw [slice_length _ _ _ (by omega) (by omega)]
    have h2 : (slice data 4 (4 * 2)).length = 4 := by rw [slice_length _ _ _ (by omega) (by omega)]
    simp only [Bool.false_eq_true, if_false, binaryRead_ok 4 _ _ (le_of_eq h1.symm),
      binaryRead_ok 4 _ _ (le_of_eq h2.symm), bind, Except.bind, pure, Except.pure,
      slice_take data 0 4 4 (by omega), slice_take data 4 (4 * 2) 4 (by omega)]
  · simp only [if_true] at hlen ⊢
    unfold decodeOffsetPair readUint64
    have h1 : (slice data 0 8).length = 8 := by rw [slice_length _ _ _ (by omega) (by omega)]
    have h2 : (slice data 8 (8 * 2)).length = 8 := by rw [slice_length _ _ _ (by omega) (by omega)]
    simp only [if_true, binaryRead_ok 8 _ _ (le_of_eq h1.symm),
      binaryRead_ok 8 _ _ (le_of_eq h2.symm), bind, Except.bind, pure, Except.pure,
      slice_take data 0 8 8 (by omega), slice_take data 8 (8 * 2) 8 (by omega)]

/-- Uncompressed blob addressing when `b*w` fits 32 bits. For a content entry in a cluster
of kind 0 or 1 with start `cs`, width `w` and blob index `b` with `b*w < 2^32`, the offset
pair of the blob lying inside a source of fewer than `2^63` bytes: `Reader()` decodes the
little-endian offsets `start` and `end` from the `2*w` bytes at file position
`cs + 1 + b*w` and returns the uncompressed reader over the file range
`[cs + 1 + start, cs + 1 + end)` (both ends taken modulo `2^64`). -/
theorem Reader_uncompressed_in_range (codecs : Codecs) (r : Reader) (e : ContentEntry)
    (cs next : Nat) (h : Byte)
    (hc1 : r.clusterIndex[e.clusterIndex]? = some cs)
    (hc2 : r.clusterIndex[e.clusterIndex + 1]? = some next)
    (hh : r.rangeReader[cs]? = some h)
    (hk : h.val % 16 = 0 ∨ h.val % 16 = 1)
    (hsz : r.rangeReader.length < 9223372036854775808)
    (hb : e.blobIndex * (if extendedOf h.val then 8 else 4) < 4294967296)
    (hin : cs + 1 + e.blobIndex * (if extendedOf h.val then 8 else 4)
      + 2 * (if extendedOf h.val then 8 else 4) ≤ r.rangeReader.length) :
    e.Reader codecs r = .ok (.uncompressed (NewUncompressedBlobReader
      (u64 (cs + 1 + leValue (slice r.rangeReader
        (cs + 1 + e.blobIndex * (if extendedOf h.val then 8 else 4))
        (cs + 1 + e.blobIndex * (if extendedOf h.val then 8 else 4)
          + (if extendedOf h.val then 8 else 4)))))
      (u64 (cs + 1 + leValue (slice r.rangeReader
        (cs + 1 + e.blobIndex * (if extendedOf h.val then 8 else 4)
          + (if extendedOf h.val then 8 else 4))
        (cs + 1 + e.blobIndex * (if extendedOf h.val then 8 else 4)
          + 2 * (if extendedOf h.val then 8 else 4)))))
      (if extendedOf h.val then 8 else 4))) := by
  have hcs : cs < 9223372036854775808 := by omega
  have hinfo := readClusterInfo_ok r e cs next h hc1 hc2 hcs hh
  have hcomp := compressionOf_eq h.val
  generalize hw : (if extendedOf h.val = true then 8 else 4) = w at *
  have hw48 : w = 4 ∨ w = 8 := by
    rw [← hw]; split <;> simp
  have hu32w : u32 w = w := by
    unfold u32; omega
  have hu32 : u32 (e.blobIndex * w) = e.blobIndex * w := by
    unfold u32; exact Nat.mod_eq_of_lt hb
  have hsp : u64 (cs + 1) = cs + 1 := by
    unfold u64; exact Nat.mod_eq_of_lt (by omega)
  have hpos : u64 (cs + 1 + e.blobIndex * w) = cs + 1 + e.blobIndex * w := by
    unfold u64; exact Nat.mod_eq_of_lt (by omega)
  have hread := readRangeE_slice r (cs + 1 + e.blobIndex * w) (2 * w) (by omega)
  have hdlen : (slice r.rangeReader (cs + 1 + e.blobIndex * w) (cs + 1 + e.blobIndex * w + 2 * w)).length
      = 2 * w := by
    rw [slice_length _ _ _ (by omega) (by omega)]; omega
  have hdec := decodeOffsetPair_ok (extendedOf h.val) _ (by rw [hw]; exact hdlen)
  rw [hw] at hdec
  unfold ContentEntry.Reader
  simp only [hinfo, bind, Except.bind, hcomp, hk, if_true, hw, hu32w, hu32, hpos,
    toInt64_small _ (show cs + 1 + e.blobIndex * w < 9223372036854775808 by omega), hread, hdec,
    pure, Except.pure, hsp]
  rw [slice_slice _ _ (2 * w) 0 w (by omega), slice_slice _ _ (2 * w) w (w * 2) (by omega)]
  simp only [Nat.add_zero, Nat.mul_comm w 2]

/-- A Go slice expression inside the length of the slice: the bytes come from the slice
itself, whatever its capacity. -/
theorem goSlice_data (b : Buffer) (lo hi : Nat) (h1 : lo ≤ hi) (h2 : hi ≤ b.data.length) :
    goSlice b lo hi = .ok (slice b.data lo hi) := by
  unfold goSlice Buffer.cap
  rw [if_pos ⟨h1, by omega⟩]
  unfold slice
  rw [List.take_append_of_le_length h2]

/-- Offsets of a compressed blob when the indices fit 32 bits: for a width 4 or 8 and
`(b+2)*w` both below `2^32` and inside the decoded payload, the two offsets are the
little-endian integers at `decoded[b*w .. b*w+w]` and `decoded[b*w+w .. b*w+2*w]`. -/
theorem decodeOffsets_in_range (cb : CompressedBlobReader) (buf : Buffer)
    (hw : cb.blobSize = 4 ∨ cb.blobSize = 8)
    (hb : cb.blobIndex * cb.blobSize + 2 * cb.blobSize < 4294967296)
    (hlen : cb.blobIndex * cb.blobSize + 2 * cb.blobSize ≤ buf.data.length) :
    cb.decodeOffsets buf =
      .ok (leValue (slice buf.data (cb.blobIndex * cb.blobSize)
             (cb.blobIndex * cb.blobSize + cb.blobSize)),
           leValue (slice buf.data (cb.blobIndex * cb.blobSize + cb.blobSize)
             (cb.blobIndex * cb.blobSize + 2 * cb.blobSize))) := by
  generalize hdd : buf.data = decoded at hlen ⊢
  have hu32w : u32 cb.blobSize = cb.blobSize := by
    unfold u32; exact Nat.mod_eq_of_lt (by omega)
  have hlo : u32 (cb.blobIndex * cb.blobSize) = cb.blobIndex * cb.blobSize := by
    unfold u32; exact Nat.mod_eq_of_lt (by omega)
  have hmid : u32 (cb.blobIndex * cb.blobSize + cb.blobSize)
      = cb.blobIndex * cb.blobSize + cb.blobSize := by
    unfold u32; exact Nat.mod_eq_of_lt (by omega)
  have hhi : u32 (cb.blobIndex * cb.blobSize + cb.blobSize + cb.blobSize)
      = cb.blobIndex * cb.blobSize + 2 * cb.blobSize := by
    unfold u32; rw [Nat.mod_eq_of_lt (by omega)]; omega
  unfold CompressedBlobReader.decodeOffsets
  simp only [hu32w, hlo, hmid, hhi]
  have hs1 : goSlice buf (cb.blobIndex * cb.blobSize) (cb.blobIndex * cb.blobSize + cb.blobSize)
      = .ok (slice decoded (cb.blobIndex * cb.blobSize) (cb.blobIndex * cb.blobSize + cb.blobSize)) := by
    rw [goSlice_data buf _ _ (by omega) (by rw [hdd]; omega), hdd]
  have hs2 : goSlice buf (cb.blobIndex * cb.blobSize + cb.blobSize)
      (cb.blobIndex * cb.blobSize + 2 * cb.blobSize)
      = .ok (slice decoded (cb.blobIndex * cb.blobSize + cb.blobSize)
          (cb.blobIndex * cb.blobSize + 2 * cb.blobSize)) := by
    rw [goSlice_data buf _ _ (by omega) (by rw [hdd]; omega), hdd]
  have hl1 : (slice decoded (cb.blobIndex * cb.blobSize)
      (cb.blobIndex * cb.blobSize + cb.blobSize)).length = cb.blobSize := by
    rw [slice_length _ _ _ (by omega) (by omega)]; omega
  have hl2 : (slice decoded (cb.blobIndex * cb.blobSize + cb.blobSize)
      (cb.blobIndex * cb.blobSize + 2 * cb.blobSize)).length = cb.blobSize := by
    rw [slice_length _ _ _ (by omega) (by omega)]; omega
  rcases hw with h4 | h8
  · have hne : ¬ cb.blobSize = 8 := by omega
    simp only [hne, if_false, hs1, hs2, bind, Except.bind, readUint32, pure, Except.pure]
    rw [binaryRead_ok 4 _ _ (by omega), binaryRead_ok 4 _ _ (by omega)]
    simp only [List.take_of_length_le (le_of_eq (hl1.trans h4)),
      List.take_of_length_le (le_of_eq (hl2.trans h4))]
  · simp only [h8, if_true, bind, Except.bind, readUint64, pure, Except.pure] at hs1 hs2 hl1 hl2 ⊢
    simp only [hs1, hs2]
    rw [binaryRead_ok 8 _ _ (by omega), binaryRead_ok 8 _ _ (by omega)]
    simp only [List.take_of_length_le (le_of_eq hl1), List.take_of_length_le (le_of_eq hl2)]


/-- Compressed blob loading when the indices fit 32 bits. For a fresh compressed reader
over a cluster `[cs, ce]` of at most `maxAlloc` bytes lying inside a source of fewer than
`2^63` bytes, whose decoder turns the file bytes `[cs + 1, ce + 1)` into at most `maxAlloc`
bytes `decoded`, whatever the capacity of the buffer that holds them, with width 4 or 8 and
`(b+2)*w` below `2^32` and inside `decoded`, and with decoded offsets
`start ≤ end ≤ len(decoded)`:
the first operation serves exactly `decoded[start .. end]`, and `Size()` is `end - start`. -/
theorem compressed_in_range (r : Reader) (cb : CompressedBlobReader) (buf : Buffer)
    (decoded : List Byte) (hbuf : buf.data = decoded)
    (hsz : r.rangeReader.length < 9223372036854775808)
    (hc : cb.closed = false) (hl : cb.loadCluster = false)
    (hcl : cb.clusterStartOffset ≤ cb.clusterEndOffset)
    (hcm : cb.clusterEndOffset - cb.clusterStartOffset ≤ maxAlloc)
    (hin : cb.clusterEndOffset + 1 ≤ r.rangeReader.length)
    (hD : cb.decoderFactory
      (slice r.rangeReader (cb.clusterStartOffset + 1) (cb.clusterEndOffset + 1)) = .ok buf)
    (hdl : decoded.length ≤ maxAlloc)
    (hw : cb.blobSize = 4 ∨ cb.blobSize = 8)
    (hb : cb.blobIndex * cb.blobSize + 2 * cb.blobSize < 4294967296)
    (hlen : cb.blobIndex * cb.blobSize + 2 * cb.blobSize ≤ decoded.length)
    (hse : leValue (slice decoded (cb.blobIndex * cb.blobSize)
        (cb.blobIndex * cb.blobSize + cb.blobSize))
      ≤ leValue (slice decoded (cb.blobIndex * cb.blobSize + cb.blobSize)
        (cb.blobIndex * cb.blobSize + 2 * cb.blobSize)))
    (hend : leValue (slice decoded (cb.blobIndex * cb.blobSize + cb.blobSize)
        (cb.blobIndex * cb.blobSize + 2 * cb.blobSize)) ≤ decoded.length) :
    cb.loadBody r = .ok (slice decoded
      (leValue (slice decoded (cb.blobIndex * cb.blobSize)
        (cb.blobIndex * cb.blobSize + cb.blobSize)))
      (leValue (slice decoded (cb.blobIndex * cb.blobSize + cb.blobSize)
        (cb.blobIndex * cb.blobSize + 2 * cb.blobSize)))) ∧
    (cb.Size r).1 = .ok (((leValue (slice decoded (cb.blobIndex * cb.blobSize + cb.blobSize)
        (cb.blobIndex * cb.blobSize + 2 * cb.blobSize))
      - leValue (slice decoded (cb.blobIndex * cb.blobSize)
        (cb.blobIndex * cb.blobSize + cb.blobSize)) : Nat) : Int)) ∧
    BlobReader.ReadAll r (.compressed cb) = .ok (slice decoded
      (leValue (slice decoded (cb.blobIndex * cb.blobSize)
        (cb.blobIndex * cb.blobSize + cb.blobSize)))
      (leValue (slice decoded (cb.blobIndex * cb.blobSize + cb.blobSize)
        (cb.blobIndex * cb.blobSize + 2 * cb.blobSize)))) := by
  generalize hs : leValue (slice decoded (cb.blobIndex * cb.blobSize)
        (cb.blobIndex * cb.blobSize + cb.blobSize)) = s at *
  generalize ht : leValue (slice decoded (cb.blobIndex * cb.blobSize + cb.blobSize)
        (cb.blobIndex * cb.blobSize + 2 * cb.blobSize)) = t at *
  have hoff := decodeOffsets_in_range cb buf hw hb (by rw [hbuf]; exact hlen)
  rw [hbuf, hs, ht] at hoff
  have hn : subU64 cb.clusterEndOffset cb.clusterStartOffset
      = cb.clusterEndOffset - cb.clusterStartOffset := subU64_of_le _ _ hcl (by omega)
  have hnmax : ¬ (cb.clusterEndOffset - cb.clusterStartOffset > maxAlloc) := by omega
  have hsp : u64 (cb.clusterStartOffset + 1) = cb.clusterStartOffset + 1 := by
    unfold u64; exact Nat.mod_eq_of_lt (by omega)
  have hread := readRangeE_slice r (cb.clusterStartOffset + 1)
    (cb.clusterEndOffset - cb.clusterStartOffset) (by omega)
  have hadd : cb.clusterStartOffset + 1 + (cb.clusterEndOffset - cb.clusterStartOffset)
      = cb.clusterEndOffset + 1 := by omega
  rw [hadd] at hread
  have hma : maxAlloc = 281474976710656 := rfl
  have hst : subU64 t s = t - s := subU64_of_le _ _ hse (by omega)
  have htmax : ¬ (t - s > maxAlloc) := by omega
  have hbody : cb.loadBody r = .ok (slice decoded s t) := by
    rw [loadBody_eq]
    simp only [hn, hnmax, if_false, hsp, toInt64_small _ (show cb.clusterStartOffset + 1
      < 9223372036854775808 by omega), hread, bind, Except.bind, hD, hoff, hst, htmax]
    rw [goSlice_data buf s t hse (by rw [hbuf]; exact hend), hbuf]
  refine ⟨hbody, ?_, ?_⟩
  · unfold CompressedBlobReader.Size
    rw [loadClusterData_eq]
    simp only [hc, hl, Bool.false_eq_true, if_false, hbody, BytesReader.Size,
      slice_length _ _ _ hse hend]
  · unfold BlobReader.ReadAll
    simp only [loadClusterData_eq, hc, hl, Bool.false_eq_true, if_false, hbody]
    simp [BytesReader.ReadAll]

/-- The fields of a content entry that `parseContentEntry` returns: the MIME type is the
table string at the 16-bit index of the record, the namespace is the byte 3 of the record,
the cluster and blob indices are the little-endian integers at `[8..12]` and `[12..16]`,
and URL and title are set from the strings that `readStringsAt(offset+16, 2, 1024)`
returns. -/
theorem parseContentEntry_fields (r : Reader) (offset : Int) (base : BaseEntry) (e : ContentEntry)
    (h : r.parseContentEntry offset base = .ok e) :
    ∃ (data : List Byte) (strs : List GoString × Int),
      r.readRangeE offset 16 = .ok data ∧
      r.readStringsAt (wrapInt64 (offset + 16)) 2 1024 = .ok strs ∧
      leValue (slice data 0 2) < r.mimeTypes.length % 65536 ∧
      e.mimeType = r.mimeTypes.getD (leValue (slice data 0 2)) [] ∧
      e.base.namespace_ = slice data 3 4 ∧
      e.clusterIndex = leValue (slice data 8 12) ∧
      e.blobIndex = leValue (slice data 12 16) ∧
      e.base = setStrings { base with namespace_ := slice data 3 4 } strs.1 := by
  unfold Reader.parseContentEntry at h
  simp only [bind_eq_ok_iff] at h
  obtain ⟨data, hdata, idx, hidx, h⟩ := h
  have hlen : data.length = 16 := (readRangeE_ok _ _ _ _ hdata).2.2.1
  have hs2 : (slice data 0 2).length = 2 := by rw [slice_length _ _ _ (by omega) (by omega)]
  have hs8 : (slice data 8 12).length = 4 := by rw [slice_length _ _ _ (by omega) (by omega)]
  have hs12 : (slice data 12 16).length = 4 := by rw [slice_length _ _ _ (by omega) (by omega)]
  unfold readUint16 at hidx
  rw [binaryRead_ok 2 _ _ (by omega)] at hidx
  simp only [Except.ok.injEq, List.take_of_length_le (le_of_eq hs2)] at hidx
  subst hidx
  split at h
  · simp [bind, Except.bind, throw, throwThe, MonadExceptOf.throw] at h
  · rename_i hlt
    simp only [bind_eq_ok_iff, pure, Except.pure, Except.ok.injEq, readUint32] at h
    obtain ⟨_, -, c, hcl, b, hbl, strs, hstrs, he⟩ := h
    rw [binaryRead_ok 4 _ _ (by omega)] at hcl hbl
    simp only [Except.ok.injEq, List.take_of_length_le (le_of_eq hs8),
      List.take_of_length_le (le_of_eq hs12)] at hcl hbl
    subst hcl hbl he
    refine ⟨data, strs, hdata, hstrs, by omega, rfl, ?_, rfl, rfl, rfl⟩
    unfold setStrings
    simp only []
    split <;> split <;> rfl


/-! ## Readers built by `NewReader` -/

/-- A little-endian value of `n` bytes is below `256^n`. -/
theorem leValue_lt (bs : List Byte) : leValue bs < 256 ^ bs.length := by
  induction bs with
  | nil => simp [leValue]
  | cons b bs ih =>
    have hb := b.isLt
    simp only [leValue, List.length_cons, Nat.pow_succ]
    omega

/-- A successful 32-bit decode is below `2^32`. -/
theorem readUint32_lt (b : List Byte) (order : ByteOrder) (v : Nat)
    (h : readUint32 b order = .ok v) : v < 4294967296 := by
  unfold readUint32 binaryRead at h
  split at h
  · split at h <;> exact Except.noConfusion h
  · have hl : (b.take 4).length ≤ 4 := by simp [List.length_take]
    have hp : ∀ l : List Byte, l.length ≤ 4 → leValue l < 4294967296 := by
      intro l hl
      have h1 := leValue_lt l
      have h2 : 256 ^ l.length ≤ 256 ^ 4 := Nat.pow_le_pow_right (by omega) hl
      omega
    cases order
    · simp only [Except.ok.injEq] at h
      subst h
      exact hp _ hl
    · simp only [Except.ok.injEq] at h
      subst h
      unfold beValue
      exact hp _ (by simp)

/-- The header parser keeps the byte source and the tables, and the two counts it sets are
32-bit values. -/
theorem parseHeader_ok (r r' : Reader) (h : r.parseHeader = .ok r') :
    r'.entryCount < 4294967296 ∧ r'.clusterCount < 4294967296 ∧
    r'.rangeReader = r.rangeReader ∧ r'.urlIndex = r.urlIndex ∧
    r'.clusterIndex = r.clusterIndex ∧ r'.mimeTypes = r.mimeTypes ∧ r'.urls = r.urls := by
  unfold Reader.parseHeader at h
  simp only [bind_eq_ok_iff] at h
  obtain ⟨header, -, magic, -, h⟩ := h
  split at h
  · simp [bind, Except.bind, throw, throwThe, MonadExceptOf.throw] at h
  · simp only [bind_eq_ok_iff, pure, Except.pure, Except.ok.injEq, Reader.parseUUID] at h
    obtain ⟨_, -, major, -, minor, -, r1, ⟨v1, -, v2, -, v3, -, v4, -, v5, -, v6, -, hr1⟩,
      ec, hec, cc, hcc, up, -, tp, -, cp, -, mp, -, mpg, -, lp, -, cs, -, hr'⟩ := h
    subst hr' hr1
    exact ⟨readUint32_lt _ _ _ hec, readUint32_lt _ _ _ hcc, rfl, rfl, rfl, rfl, rfl⟩

/-- The decoding loop of `parsePointerIndex` appends one pointer per round. -/
theorem parsePointerLoop_length (data : List Byte) (remaining i : Nat) (index res : List Nat)
    (h : parsePointerLoop data remaining i index = .ok res) :
    res.length = index.length + remaining := by
  induction remaining generalizing i index with
  | zero =>
    simp only [parsePointerLoop, Except.ok.injEq] at h
    subst h
    rfl
  | succ n ih =>
    unfold parsePointerLoop at h
    split at h
    · exact Except.noConfusion h
    · have := ih _ _ h
      simp only [List.length_append, List.length_singleton] at this
      omega

/-- A pointer table parsed for `count` elements has `count` elements. -/
theorem parsePointerIndex_length (r : Reader) (startAddr : Int) (count : Nat) (res : List Nat)
    (h : r.parsePointerIndex startAddr count = .ok res) : res.length = count := by
  unfold Reader.parsePointerIndex at h
  simp only [bind_eq_ok_iff] at h
  obtain ⟨data, -, h⟩ := h
  have := parsePointerLoop_length _ _ _ _ _ h
  simpa using this

/-- The tables of a reader that `parse` returns: the URL pointer table has `entryCount`
elements, the cluster pointer table has `clusterCount + 1` elements (the sum taken on
`uint32`), both counts are 32-bit values, and the byte source is the one given. -/
theorem parse_ok (r r' : Reader) (fuel : Nat) (h : r.parse fuel = some (.ok r')) :
    r'.urlIndex.length = r'.entryCount ∧ r'.entryCount < 4294967296 ∧
    r'.clusterIndex.length = u32 (r'.clusterCount + 1) ∧ r'.clusterCount < 4294967296 ∧
    r'.rangeReader = r.rangeReader := by
  unfold Reader.parse at h
  cases h1 : r.parseHeader with
  | error e => simp [h1] at h
  | ok r1 =>
    obtain ⟨a1, a2, a3, -⟩ := parseHeader_ok r r1 h1
    simp only [h1] at h
    unfold Reader.parseMimeTypes at h
    cases h2 : parseMimeTypesLoop r1 (toInt64 r1.mimeListPos) fuel 0 [] with
    | none => simp [h2] at h
    | some res =>
      cases res with
      | error e => simp [h2] at h
      | ok mimeTypes =>
        simp only [h2] at h
        unfold Reader.parseURLIndex at h
        simp only [bind, Except.bind, pure, Except.pure] at h
        cases h3 : Reader.parsePointerIndex { r1 with mimeTypes := mimeTypes }
            (toInt64 r1.urlPtrPos) r1.entryCount with
        | error e => simp [h3] at h
        | ok urlIndex =>
          have l3 := parsePointerIndex_length _ _ _ _ h3
          simp only [h3] at h
          unfold Reader.parseClusterIndex at h
          simp only [bind, Except.bind, pure, Except.pure] at h
          cases h4 : Reader.parsePointerIndex { r1 with mimeTypes := mimeTypes, urlIndex := urlIndex }
              (toInt64 r1.clusterPtrPos) (u32 (r1.clusterCount + 1)) with
          | error e => simp [h4] at h
          | ok clusterIndex =>
            have l4 := parsePointerIndex_length _ _ _ _ h4
            simp only [h4, Option.some.injEq, Except.ok.injEq] at h
            subst h
            exact ⟨l3, a1, l4, a2, a3⟩

/-- The reader that `preloadFinish` returns differs from the given one in the URL map
only. -/
theorem preloadFinish_ok (r : Reader)
    (res : Option (EntryIterator × Cache × List (GoString × Int))) (r' : Reader) (c' : Cache)
    (h : preloadFinish r res = .ok (r', c')) : ∃ urls, r' = { r with urls := urls } := by
  cases res with
  | none => exact Except.noConfusion h
  | some p =>
    obtain ⟨it, c2, urls⟩ := p
    unfold preloadFinish at h
    cases hE : it.Err with
    | some e =>
      simp only [hE] at h
      exact Except.noConfusion h
    | none =>
      simp only [hE, Except.ok.injEq, Prod.mk.injEq] at h
      exact ⟨urls, h.1.symm⟩

/-- The reader that `preload` returns differs from the given one in the URL map only. -/
theorem preload_ok (r : Reader) (c : Cache) (r' : Reader) (c' : Cache)
    (h : r.preload c = .ok (r', c')) : ∃ urls, r' = { r with urls := urls } :=
  preloadFinish_ok r _ r' c' h

/-- The tables of a reader that `NewReader` returns: see `parse_ok`. -/
theorem NewReader_ok (fuel : Nat) (src : List Byte) (opts : Options) (r : Reader) (c : Cache)
    (h : NewReader fuel src opts = some (.ok (r, c))) :
    r.urlIndex.length = r.entryCount ∧ r.entryCount < 4294967296 ∧
    r.clusterIndex.length = u32 (r.clusterCount + 1) ∧ r.clusterCount < 4294967296 ∧
    r.rangeReader = src := by
  unfold NewReader at h
  by_cases hcs : opts.CacheSize ≤ 0
  · rw [if_pos hcs] at h
    injection h with h
    exact Except.noConfusion h
  · rw [if_neg hcs] at h
    cases hparse : Reader.parse { rangeReader := src } fuel with
    | none =>
      rw [hparse] at h
      exact Option.noConfusion h
    | some res =>
      cases res with
      | error e =>
        rw [hparse] at h
        injection h with h
        exact Except.noConfusion h
      | ok r1 =>
        rw [hparse] at h
        have hp := parse_ok _ _ _ hparse
        injection h with hpre
        obtain ⟨urls, hr⟩ := preload_ok _ _ _ _ hpre
        rw [hr]
        exact hp


/-! ## The bounded loops of the embedding never run out of fuel -/

/-- A chunk that is used up has advanced the byte count by its length. -/
theorem scanChunk_read (count : Int) (eof : Bool) (data : List Byte) (st st' : ScanState)
    (h : scanChunk count eof data st = .inr st') : st'.read = st.read + data.length := by
  induction data generalizing st with
  | nil =>
    simp only [scanChunk, Sum.inr.injEq] at h
    subst h
    simp
  | cons d ds ih =>
    unfold scanChunk at h
    simp only [] at h
    split at h
    · split at h
      · exact Sum.noConfusion h
      · split at h
        · exact Sum.noConfusion h
        · have := ih _ h
          simp only [List.length_cons, Nat.cast_add, Nat.cast_one] at this ⊢
          omega
    · have := ih _ h
      simp only [List.length_cons, Nat.cast_add, Nat.cast_one] at this ⊢
      omega

/-- A chunk read at the end of the file that holds a NUL byte makes the scan return. -/
theorem scanChunk_eof (count : Int) (data : List Byte) (st : ScanState) (h0 : (0 : Byte) ∈ data) :
    ∃ res, scanChunk count true data st = .inl res := by
  induction data generalizing st with
  | nil => simp at h0
  | cons d ds ih =>
    unfold scanChunk
    simp only []
    by_cases hd : d = 0
    · simp only [hd, if_true]
      split
      · exact ⟨_, rfl⟩
      · simp
    · simp only [hd, if_false]
      have h1 : (0 : Byte) ∈ ds := by
        rcases List.mem_cons.mp h0 with h | h
        · exact absurd h.symm hd
        · exact h
      exact ih _ h1

/-- The loop of `readStringsAt` does not run out of fuel when the fuel exceeds the number
of bytes between the current position and the end of the file. -/
theorem readStringsLoop_no_hang (r : Reader) (offset count : Int) (bufferSize : Nat)
    (hb : 0 < bufferSize) (hb2 : bufferSize < 9223372036854775808) (fuel : Nat) (st : ScanState)
    (hf : wrapInt64 (offset + st.read) < 0 ∨
      (r.rangeReader.length : Int) - wrapInt64 (offset + st.read) < fuel)
    (hf1 : 0 < fuel) :
    readStringsLoop r offset count bufferSize fuel st ≠ .error .hang := by
  induction fuel generalizing st with
  | zero => omega
  | succ fuel ih =>
    unfold readStringsLoop
    rw [readRange_eq]
    by_cases hneg : wrapInt64 (offset + st.read) < 0
    · simp [hneg]
    · by_cases hshort : r.rangeReader.length - (wrapInt64 (offset + st.read)).toNat < bufferSize
      · simp only [hneg, hshort, if_false, if_true]
        have hlen : ((r.rangeReader.drop (wrapInt64 (offset + st.read)).toNat).take bufferSize).length
            < bufferSize := by
          simp only [List.length_take, List.length_drop]
          omega
        have h0 : (0 : Byte) ∈ (r.rangeReader.drop (wrapInt64 (offset + st.read)).toNat).take bufferSize
            ++ List.replicate (bufferSize - ((r.rangeReader.drop
              (wrapInt64 (offset + st.read)).toNat).take bufferSize).length) 0 := by
          apply List.mem_append_right
          rw [List.mem_replicate]
          exact ⟨by omega, rfl⟩
        generalize (r.rangeReader.drop (wrapInt64 (offset + st.read)).toNat).take bufferSize
            ++ List.replicate (bufferSize - ((r.rangeReader.drop
              (wrapInt64 (offset + st.read)).toNat).take bufferSize).length) 0 = data at h0 ⊢
        obtain ⟨res, hres⟩ := scanChunk_eof count data st h0
        simp only [Option.isSome_some, ne_eq, not_true_eq_false, and_false, if_false,
          decide_True, hres]
        exact fun h => Except.noConfusion h
      · simp only [hneg, hshort, if_false]
        simp only [Option.isSome_none, Bool.false_eq_true, ne_eq, false_and, if_false]
        split
        · simp
        · rename_i st' hst'
          have hread := scanChunk_read _ _ _ _ _ hst'
          have hdl : ((r.rangeReader.drop (wrapInt64 (offset + st.read)).toNat).take bufferSize).length
              = bufferSize := by
            simp only [List.length_take, List.length_drop]
            omega
          rw [hdl] at hread
          have hpos : wrapInt64 (offset + st'.read) < 0 ∨
              wrapInt64 (offset + st'.read) = wrapInt64 (offset + st.read) + bufferSize := by
            rw [hread]
            unfold wrapInt64 at *
            omega
          have hfuel : 0 < fuel := by
            rcases hf with h | h
            · exact absurd h hneg
            · omega
          apply ih st' _ hfuel
          rcases hpos with h | h
          · exact Or.inl h
          · right
            rw [h]
            rcases hf with h' | h'
            · exact absurd h' hneg
            · omega

/-- For a buffer size between 1 and `2^63 - 1`, `readStringsAt` does not run out of fuel:
the outcome `hang` stands for an empty buffer only. -/
theorem readStringsAt_no_hang (r : Reader) (offset count : Int) (bufferSize : Nat)
    (hb : 0 < bufferSize) (hb2 : bufferSize < 9223372036854775808) :
    r.readStringsAt offset count bufferSize ≠ .error .hang := by
  unfold Reader.readStringsAt
  split
  · simp
  · apply readStringsLoop_no_hang r offset count bufferSize hb hb2
    · by_cases hneg : wrapInt64 (offset + ({} : ScanState).read) < 0
      · exact Or.inl hneg
      · right
        omega
    · omega

/-- What a successful `Next` has done: the iterator had no error, `EntryAt(index)`
returned an entry, which is stored, and the index went up by one. -/
theorem Next_true (r : Reader) (c : Cache) (it it' : EntryIterator) (c' : Cache)
    (h : it.Next r c = (true, it', c')) :
    ∃ entry, r.EntryAt c it.index = (.ok entry, c') ∧
      it' = { it with entry := some entry, index := it.index + 1 } ∧ it.err = none ∧
      it.index < ((subU32 r.EntryCount 1 : Nat) : Int) := by
  unfold EntryIterator.Next at h
  by_cases herr : it.err.isSome
  · rw [if_pos herr] at h
    exact absurd (congrArg Prod.fst h) (by simp)
  · rw [if_neg herr] at h
    simp only [] at h
    by_cases hidx : it.index ≥ ((subU32 r.EntryCount 1 : Nat) : Int)
    · rw [if_pos hidx] at h
      exact absurd (congrArg Prod.fst h) (by simp)
    · rw [if_neg hidx] at h
      cases hE : r.EntryAt c it.index with
      | mk res c2 =>
        rw [hE] at h
        cases res with
        | error e => exact absurd (congrArg Prod.fst h) (by simp)
        | ok entry =>
          simp only [Prod.mk.injEq, true_and] at h
          refine ⟨entry, ?_, h.1.symm, ?_, by omega⟩
          · rw [h.2]
          · cases hn : it.err with
            | none => rfl
            | some e => simp [hn] at herr

/-- The loop of `preload` does not run out of fuel when the fuel exceeds the number of
entries from the current index to the end of the URL pointer table. -/
theorem preloadLoop_some (r : Reader) (fuel : Nat) (it : EntryIterator) (c : Cache)
    (urls : List (GoString × Int)) (h0 : 0 ≤ it.index)
    (hf : r.urlIndex.length - it.index.toNat < fuel) :
    ∃ res, preloadLoop r fuel it c urls = some res := by
  induction fuel generalizing it c urls with
  | zero => omega
  | succ fuel ih =>
    unfold preloadLoop
    cases hN : it.Next r c with
    | mk b rest =>
      obtain ⟨it', c'⟩ := rest
      cases b with
      | false => exact ⟨_, rfl⟩
      | true =>
        obtain ⟨entry, hentry, hit, -, -⟩ := Next_true r c it it' c' hN
        have hin : it.index < r.urlIndex.length := by
          unfold Reader.EntryAt at hentry
          by_contra hcon
          have hg : it.index ≥ r.urlIndex.length ∨ it.index < 0 := by omega
          rw [if_pos hg] at hentry
          exact Except.noConfusion (congrArg Prod.fst hentry)
        subst hit
        simp only [EntryIterator.Entry]
        apply ih
        · simp only []
          omega
        · simp only []
          omega

/-- The fuel that `preload` gives to its loop is enough: `preload` never reports `hang`
out of the loop. -/
theorem preloadLoop_enough (r : Reader) (c : Cache) :
    ∃ res, preloadLoop r (r.urlIndex.length + 1) r.Entries c [] = some res :=
  preloadLoop_some r _ _ c [] (by simp [Reader.Entries]) (by simp [Reader.Entries])


/-! ## Entry index bounds -/

/-- C8. Entry index bounds. For every archive that `NewReader` opens, the URL pointer table
has `entry_count` elements, and: `EntryAt(i)` fails with `ErrInvalidIndex` exactly when
`i < 0` or `i ≥ entry_count`; in that case the result is the same whatever the bytes of the
source are, and the cache is left as it was; otherwise `EntryAt(i)` returns what
`parseEntryAt` returns at the file offset `urlIndex[i]`; and `Redirect()` on a redirect
entry fails with `ErrInvalidIndex` whenever, after `k ≥ 0` hops that are in bounds and
parse, the target of the next hop is `≥ entry_count`. -/
theorem EntryAt_index_bounds (fuel : Nat) (src : List Byte) (opts : Options) (r : Reader)
    (c0 : Cache) (hopen : NewReader fuel src opts = some (.ok (r, c0))) (c : Cache) :
    r.urlIndex.length = r.EntryCount ∧
    (∀ i : Int, (r.EntryAt c i).1 = .error .invalidIndex ↔ (i < 0 ∨ i ≥ r.EntryCount)) ∧
    (∀ i : Int, (i < 0 ∨ i ≥ r.EntryCount) → ∀ bytes : List Byte,
        ({ r with rangeReader := bytes } : Reader).EntryAt c i = (.error .invalidIndex, c)) ∧
    (∀ i : Int, 0 ≤ i → i < r.EntryCount →
        (r.EntryAt c i).1 = r.parseEntryAt (toInt64 (r.urlIndex.getD i.toNat 0))) ∧
    (∀ (e t : RedirectEntry) (k depth : Nat), Hops r (.redirect e) k (.redirect t) →
        t.redirectIndex ≥ r.EntryCount → k < depth →
        Redirect r depth (.redirect e) = some (.error .invalidIndex)) := by
  obtain ⟨hlen, hcount, -⟩ := NewReader_ok fuel src opts r c0 hopen
  obtain ⟨hb1, hb2, hb3, hb4⟩ := EntryAt_bounds_of_length r c (by omega)
  unfold Reader.EntryCount
  refine ⟨hlen, fun i => ?_, fun i hi bytes => ?_, fun i h0 h1 => ?_,
    fun e t k depth hh ht hk => ?_⟩
  · rw [hb1 i]
    omega
  · exact hb2 i (by omega) bytes
  · exact hb3 i h0 (by omega)
  · exact hb4 e t k depth hh (by omega) hk

set_option maxRecDepth 1000000 in
/-- Witness for C8 on the sample archive (11 entries): the indices `-1` and `11` are
rejected, index 7 parses the record at offset 341, and entry 8 redirects to index 100. -/
theorem EntryAt_index_bounds_witness :
    (∃ c0, NewReader 4 sampleArchive {} = some (.ok (sampleReader, c0))) ∧
    sampleReader.EntryCount = 11 ∧
    (sampleReader.EntryAt emptyCache (-1)).1 = .error .invalidIndex ∧
    (sampleReader.EntryAt emptyCache 11).1 = .error .invalidIndex ∧
    (sampleReader.EntryAt emptyCache 7).1 = sampleReader.parseEntryAt 341 ∧
    Redirect sampleReader 1 (.redirect sampleRedirectBad) = some (.error .invalidIndex) :=
  sampleArchive_opens.elim fun c0 hopen =>
    ⟨⟨c0, hopen⟩, rfl,
     ((EntryAt_index_bounds 4 sampleArchive {} sampleReader c0 hopen emptyCache).2.1 (-1)).2
       (by decide),
     ((EntryAt_index_bounds 4 sampleArchive {} sampleReader c0 hopen emptyCache).2.1 11).2
       (by decide),
     (EntryAt_index_bounds 4 sampleArchive {} sampleReader c0 hopen emptyCache).2.2.2.1 7
       (by decide) (by decide),
     (EntryAt_index_bounds 4 sampleArchive {} sampleReader c0 hopen emptyCache).2.2.2.2
       sampleRedirectBad sampleRedirectBad 0 1 (Hops.zero _) (by decide) (by decide)⟩

/-- The two shift expressions agree with the masks on every byte value, and depend on the
low five bits only. -/
theorem header_bits (h : Nat) :
    compressionOf h = h &&& 15 ∧
    extendedOf h = ((h >>> 4) &&& 1 == 1) ∧
    (∀ h2 : Nat, h2 % 32 = h % 32 →
      compressionOf h2 = compressionOf h ∧ extendedOf h2 = extendedOf h) := by
  have hand : ∀ x : Nat, x &&& 15 = x % 16 := fun x => Nat.and_pow_two_sub_one_eq_mod x 4
  have hone : ∀ x : Nat, x &&& 1 = x % 2 := fun x => Nat.and_pow_two_sub_one_eq_mod x 1
  refine ⟨?_, ?_, ?_⟩
  · rw [compressionOf_eq, hand]
  · rw [extendedOf_eq, hone, Nat.shiftRight_eq_div_pow]
    by_cases hb : h / 16 % 2 = 1 <;> simp [hb]
  · intro h2 h32
    rw [compressionOf_eq, compressionOf_eq, extendedOf_eq, extendedOf_eq]
    have h1 : h2 % 16 = h % 16 := by omega
    have h2 : h2 / 16 % 2 = h / 16 % 2 := by omega
    rw [h1, h2]
    exact ⟨rfl, rfl⟩

/-- C19. Cluster header decoding. For every header byte `h` read at the start of the cluster
of a content entry (cluster index valid, header byte inside the file): the shift
expression `(h << 4) >> 4` equals `h & 0x0F`, the test `(h << 3) >> 7 == 1` equals
`(h >> 4) & 1 == 1`, a byte with the same low five bits gives the same two values,
`Compression()` returns `h & 0x0F`, and every blob reader that `Reader()` returns has offset
width 8 when bit 4 is set and 4 otherwise. -/
theorem cluster_header_decoding (codecs : Codecs) (r : Reader) (e : ContentEntry)
    (cs next : Nat) (h : Byte)
    (hc1 : r.clusterIndex[e.clusterIndex]? = some cs)
    (hc2 : r.clusterIndex[e.clusterIndex + 1]? = some next)
    (hcs : cs < 9223372036854775808) (hh : r.rangeReader[cs]? = some h) :
    compressionOf h.val = h.val &&& 15 ∧
    extendedOf h.val = ((h.val >>> 4) &&& 1 == 1) ∧
    (∀ h2 : Byte, h2.val % 32 = h.val % 32 →
      compressionOf h2.val = compressionOf h.val ∧ extendedOf h2.val = extendedOf h.val) ∧
    e.Compression r = .ok ((h.val &&& 15 : Nat) : Int) ∧
    (∀ b, e.Reader codecs r = .ok (.uncompressed b) →
      b.blobSize = if (h.val >>> 4) &&& 1 = 1 then 8 else 4) ∧
    (∀ b, e.Reader codecs r = .ok (.compressed b) →
      b.blobSize = if (h.val >>> 4) &&& 1 = 1 then 8 else 4) := by
  have hinfo := readClusterInfo_ok r e cs next h hc1 hc2 hcs hh
  obtain ⟨hb1, hb2, hb3⟩ := header_bits h.val
  have hw : (if extendedOf h.val = true then 8 else 4)
      = if (h.val >>> 4) &&& 1 = 1 then 8 else 4 := by
    rw [hb2]
    by_cases hbit : (h.val >>> 4) &&& 1 = 1 <;> simp [hbit]
  refine ⟨hb1, hb2, fun h2 h32 => hb3 h2.val h32, ?_, ?_, ?_⟩
  · unfold ContentEntry.Compression
    simp only [hinfo, bind, Except.bind, pure, Except.pure, hb1]
  · intro b hb
    unfold ContentEntry.Reader at hb
    simp only [hinfo, bind_eq_ok_iff, Prod.mk.injEq, Except.ok.injEq, exists_eq_left'] at hb
    rw [← hw]
    by_cases h01 : compressionOf h.val = 0 ∨ compressionOf h.val = 1
    · simp only [h01, if_true, bind_eq_ok_iff, pure, Except.pure, Except.ok.injEq,
        BlobReader.uncompressed.injEq] at hb
      obtain ⟨_, _, _, _, hb⟩ := hb
      subst hb
      rfl
    · simp only [h01, if_false] at hb
      split at hb
      · simp [pure, Except.pure] at hb
      · split at hb
        · simp [pure, Except.pure] at hb
        · simp [throw, throwThe, MonadExceptOf.throw] at hb
  · intro b hb
    unfold ContentEntry.Reader at hb
    simp only [hinfo, bind_eq_ok_iff, Prod.mk.injEq, Except.ok.injEq, exists_eq_left'] at hb
    rw [← hw]
    by_cases h01 : compressionOf h.val = 0 ∨ compressionOf h.val = 1
    · simp only [h01, if_true, bind_eq_ok_iff, pure, Except.pure, Except.ok.injEq] at hb
      obtain ⟨_, _, _, _, hb⟩ := hb
      exact BlobReader.noConfusion hb
    · simp only [h01, if_false] at hb
      split at hb
      · simp only [pure, Except.pure, Except.ok.injEq, BlobReader.compressed.injEq] at hb
        subst hb
        rfl
      · split at hb
        · simp only [pure, Except.pure, Except.ok.injEq, BlobReader.compressed.injEq] at hb
          subst hb
          rfl
        · simp [throw, throwThe, MonadExceptOf.throw] at hb

set_option maxRecDepth 1000000 in
/-- Witness for C19: entry 3 of the sample archive lies in cluster 2, whose header byte at
offset 451 is `0x15`: compression 5, extended. -/
theorem cluster_header_decoding_witness :
    sampleReader.clusterIndex[sampleContentZ.clusterIndex]? = some 451 ∧
    sampleReader.rangeReader[451]? = some 21 ∧
    sampleContentZ.Compression sampleReader = .ok 5 :=
  ⟨by decide, by decide,
   (cluster_header_decoding sampleCodecs sampleReader sampleContentZ 451 470 21
     (by decide) (by decide) (by decide) (by decide)).2.2.2.1⟩

/-- The errors of `readStringsAt` for a count that is not negative and a buffer size between
1 and `2^63 - 1`: the read error only. -/
theorem readStringsAt_error_io (r : Reader) (offset count : Int) (bufferSize : Nat) (e : Error)
    (hc : 0 ≤ count) (hb : 0 < bufferSize) (hb2 : bufferSize < 9223372036854775808)
    (h : r.readStringsAt offset count bufferSize = .error e) : e = .io := by
  have hh := readStringsAt_no_hang r offset count bufferSize hb hb2
  unfold Reader.readStringsAt at h hh
  have hneg : ¬ count < 0 := by omega
  simp only [hneg, if_false] at h hh
  rcases readStringsLoop_error _ _ _ _ _ _ _ h with h1 | h1
  · subst h1
    exact absurd h hh
  · exact h1

/-- An error of `parseEntryAt` is an error value of a read or of a decode, or `ErrMalformed`:
the parser neither panics nor loops. -/
theorem parseEntryAt_error_kind (r : Reader) (offset : Int) (e : Error)
    (h : r.parseEntryAt offset = .error e) :
    e = .eof ∨ e = .unexpectedEOF ∨ e = .io ∨ e = .malformed := by
  have hrd : ∀ (off : Int) (n : Nat) (e : Error), r.readRangeE off n = .error e →
      e = .eof ∨ e = .unexpectedEOF ∨ e = .io ∨ e = .malformed := by
    intro off n e h
    rcases readRangeE_error _ _ _ _ h with h | h <;> subst h <;> simp
  have hbin : ∀ (size : Nat) (b : List Byte) (o : ByteOrder) (e : Error),
      binaryRead size b o = .error e →
      e = .eof ∨ e = .unexpectedEOF ∨ e = .io ∨ e = .malformed := by
    intro size b o e h
    rcases binaryRead_error _ _ _ _ h with h | h <;> subst h <;> simp
  have hstr : ∀ (off : Int) (e : Error), r.readStringsAt off 2 1024 = .error e →
      e = .eof ∨ e = .unexpectedEOF ∨ e = .io ∨ e = .malformed := by
    intro off e h
    have := readStringsAt_error_io r off 2 1024 e (by omega) (by omega) (by omega) h
    subst this
    simp
  simp only [Reader.parseEntryAt, bind_eq_error_iff] at h
  rcases h with h | ⟨base, -, h⟩
  · simp only [Reader.parseBaseEntry, bind_eq_error_iff, pure, Except.pure] at h
    rcases h with h | ⟨data, -, h | ⟨v, -, h⟩⟩
    · exact hrd _ _ _ h
    · exact hbin _ _ _ _ h
    · simp at h
  · split at h
    · simp only [bind_eq_error_iff, pure, Except.pure] at h
      rcases h with h | ⟨_, -, h⟩
      · simp only [Reader.parseRedirectEntry, bind_eq_error_iff, pure, Except.pure] at h
        rcases h with h | ⟨data, -, h | ⟨v, -, h | ⟨strs, -, h⟩⟩⟩
        · exact hrd _ _ _ h
        · exact hbin _ _ _ _ h
        · exact hstr _ _ h
        · simp at h
      · simp at h
    · simp only [bind_eq_error_iff, pure, Except.pure] at h
      rcases h with h | ⟨_, -, h⟩
      · simp only [Reader.parseContentEntry, bind_eq_error_iff, pure, Except.pure] at h
        rcases h with h | ⟨data, -, h | ⟨v, -, h⟩⟩
        · exact hrd _ _ _ h
        · exact hbin _ _ _ _ h
        · split at h
          · simp only [bind_eq_error_iff, throw, throwThe, MonadExceptOf.throw] at h
            rcases h with h | ⟨_, h, -⟩
            · injection h with h; subst h; simp
            · simp at h
          · simp only [bind_eq_error_iff, pure, Except.pure] at h
            rcases h with h | ⟨_, -, h | ⟨c, -, h | ⟨b, -, h | ⟨strs, -, h⟩⟩⟩⟩
            · simp at h
            · exact hbin _ _ _ _ h
            · exact hbin _ _ _ _ h
            · exact hstr _ _ h
            · simp at h
      · simp at h

/-- The errors of `EntryAt`: `ErrInvalidIndex` or an error of `parseEntryAt`. -/
theorem EntryAt_error_kind (r : Reader) (c : Cache) (idx : Int) (e : Error)
    (h : (r.EntryAt c idx).1 = .error e) :
    e = .invalidIndex ∨ e = .eof ∨ e = .unexpectedEOF ∨ e = .io ∨ e = .malformed := by
  unfold Reader.EntryAt at h
  by_cases hg : idx ≥ r.urlIndex.length ∨ idx < 0
  · rw [if_pos hg] at h
    injection h with h
    exact Or.inl h.symm
  · rw [if_neg hg] at h
    cases hp : r.parseEntryAt (toInt64 (r.urlIndex.getD idx.toNat 0)) with
    | error e' =>
      simp only [hp] at h
      injection h with h
      subst h
      exact Or.inr (parseEntryAt_error_kind _ _ _ hp)
    | ok entry =>
      simp only [hp] at h
      exact Except.noConfusion h

/-- C20. Main page lookup. `MainPage()` returns `ErrNotFound` when the main-page index of
the header is `0xFFFFFFFF`; for any other index it returns the entry of `EntryAt(mainPage)`
when that call succeeds, and `ErrNotFound` when it fails, whatever its error; no call of
`MainPage()` returns another error. -/
theorem MainPage_lookup (r : Reader) (c : Cache) :
    (r.mainPage = 4294967295 → r.MainPage c = (.error .notFound, c)) ∧
    (r.mainPage ≠ 4294967295 → ∀ entry, (r.EntryAt c (r.mainPage : Int)).1 = .ok entry →
      (r.MainPage c).1 = .ok entry) ∧
    (r.mainPage ≠ 4294967295 → ∀ e, (r.EntryAt c (r.mainPage : Int)).1 = .error e →
      (r.MainPage c).1 = .error .notFound) ∧
    (∀ e, (r.MainPage c).1 = .error e → e = .notFound) := by
  have hfail : r.mainPage ≠ 4294967295 → ∀ e, (r.EntryAt c (r.mainPage : Int)).1 = .error e →
      (r.MainPage c).1 = .error .notFound := by
    intro hne e he
    have hk := EntryAt_error_kind r c _ e he
    have hnot : ¬ (e = .panic ∨ e = .hang) := by
      rcases hk with h | h | h | h | h <;> subst h <;> simp
    unfold Reader.MainPage
    rw [if_neg hne]
    cases hres : r.EntryAt c (r.mainPage : Int) with
    | mk res c' =>
      rw [hres] at he
      simp only at he
      subst he
      simp only [hnot, if_false]
  refine ⟨?_, ?_, hfail, ?_⟩
  · intro h
    unfold Reader.MainPage
    rw [if_pos h]
  · intro hne entry he
    unfold Reader.MainPage
    rw [if_neg hne]
    cases hres : r.EntryAt c (r.mainPage : Int) with
    | mk res c' =>
      rw [hres] at he
      simp only at he
      subst he
      rfl
  · intro e he
    by_cases hm : r.mainPage = 4294967295
    · unfold Reader.MainPage at he
      rw [if_pos hm] at he
      injection he with he
      exact he.symm
    · cases hres : (r.EntryAt c (r.mainPage : Int)).1 with
      | error e' =>
        rw [hfail hm e' hres] at he
        injection he with he
        exact he.symm
      | ok entry =>
        have hok : (r.MainPage c).1 = .ok entry := by
          unfold Reader.MainPage
          rw [if_neg hm]
          cases hres2 : r.EntryAt c (r.mainPage : Int) with
          | mk res c' =>
            rw [hres2] at hres
            simp only at hres
            subst hres
            rfl
        rw [hok] at he
        exact Except.noConfusion he

set_option maxRecDepth 1000000 in
/-- Witness for C20: the main page of the sample archive is entry 0, and entry 0 is the
main page returned; with the main-page index `0xFFFFFFFF` or with an index past the URL
pointer table the result is `ErrNotFound`. -/
theorem MainPage_lookup_witness :
    sampleReader.mainPage = 0 ∧
    (sampleReader.MainPage emptyCache).1 = .ok (.content sampleContentA) ∧
    ({ sampleReader with mainPage := 4294967295 } : Reader).MainPage emptyCache
      = (.error .notFound, emptyCache) ∧
    (({ sampleReader with mainPage := 11 } : Reader).EntryAt emptyCache 11).1
      = .error .invalidIndex ∧
    (({ sampleReader with mainPage := 11 } : Reader).MainPage emptyCache).1
      = .error .notFound :=
  ⟨by decide,
   (MainPage_lookup sampleReader emptyCache).2.1 (by decide) _ (by decide),
   (MainPage_lookup { sampleReader with mainPage := 4294967295 } emptyCache).1 (by decide),
   by decide,
   (MainPage_lookup { sampleReader with mainPage := 11 } emptyCache).2.2.1 (by decide) _
     (by decide : (({ sampleReader with mainPage := 11 } : Reader).EntryAt emptyCache
       ((11 : Nat) : Int)).1 = .error .invalidIndex)⟩

/-- Decoding a Go slice expression of exactly `size` bytes. -/
theorem binaryRead_slice (b : List Byte) (lo hi size : Nat) (order : ByteOrder)
    (hs : hi = lo + size) (hhi : hi ≤ b.length) :
    binaryRead size (slice b lo hi) order =
      .ok (match order with
        | .LittleEndian => leValue (slice b lo hi)
        | .BigEndian => beValue (slice b lo hi)) := by
  have hl : (slice b lo hi).length = size := by
    rw [slice_length _ _ _ (by omega) hhi]
    omega
  rw [binaryRead_ok size _ order (by omega), slice_take b lo hi size (by omega)]

/-- A Go slice expression of `b[k:]`. -/
theorem slice_drop (b : List Byte) (k lo hi : Nat) :
    slice (b.drop k) lo hi = slice b (k + lo) (k + hi) := by
  unfold slice
  rw [List.take_drop, List.drop_drop]

/-- A Go slice expression of a prefix. -/
theorem slice_initial (b : List Byte) (n lo hi : Nat) (h : hi ≤ n) :
    slice (slice b 0 n) lo hi = slice b lo hi := by
  have := slice_slice b 0 n lo hi h
  simpa using this

/-- A Go slice expression of a Go slice expression, the outer bounds given as numbers. -/
theorem slice_inner (b : List Byte) (off top lo hi : Nat) (h : off + hi ≤ top) :
    slice (slice b off top) lo hi = slice b (off + lo) (off + hi) := by
  have ht : top = off + (top - off) := by omega
  rw [ht, slice_slice b off (top - off) lo hi (by omega)]

/-- What `parseHeader` returns on a source of at least 80 bytes. -/
theorem parseHeader_eq (r : Reader) (h80 : 80 ≤ r.rangeReader.length) :
    r.parseHeader =
      if leValue (slice r.rangeReader 0 4) ≠ zimFormatMagicNumber then .error .malformed
      else .ok { r with
        majorVersion := leValue (slice r.rangeReader 4 6)
        minorVersion := leValue (slice r.rangeReader 6 8)
        uuid := fmtHexPad 8 (beValue (slice r.rangeReader 8 12)) ++ [45]
          ++ fmtHexPad 4 (beValue (slice r.rangeReader 12 14)) ++ [45]
          ++ fmtHexPad 4 (beValue (slice r.rangeReader 14 16)) ++ [45]
          ++ fmtHexPad 4 (beValue (slice r.rangeReader 16 18)) ++ [45]
          ++ (fmtHex (beValue (slice r.rangeReader 18 22))
            ++ fmtHex (beValue (slice r.rangeReader 22 24)))
        entryCount := leValue (slice r.rangeReader 24 28)
        clusterCount := leValue (slice r.rangeReader 28 32)
        urlPtrPos := leValue (slice r.rangeReader 32 40)
        titlePtrPos := leValue (slice r.rangeReader 40 48)
        clusterPtrPos := leValue (slice r.rangeReader 48 56)
        mimeListPos := leValue (slice r.rangeReader 56 64)
        mainPage := leValue (slice r.rangeReader 64 68)
        layoutPage := leValue (slice r.rangeReader 68 72)
        checksumPos := leValue (slice r.rangeReader 72 80) } := by
  have hread : r.readRangeE 0 80 = .ok (slice r.rangeReader 0 80) := by
    simpa using readRangeE_slice r 0 80 (by omega)
  have hl : (slice r.rangeReader 0 80).length = 80 := by
    rw [slice_length _ _ _ (by omega) h80]
  unfold Reader.parseHeader Reader.parseUUID
  simp only [hread, bind, Except.bind, readUint16, readUint32, readUint64, slice_drop]
  simp (disch := omega) only [slice_initial, binaryRead_slice, Nat.add_zero, Nat.reduceAdd]
  by_cases hm : leValue (slice r.rangeReader 0 4) ≠ zimFormatMagicNumber
  · rw [if_pos hm, if_pos hm]
  · rw [if_neg hm, if_neg hm]
    rfl

/-- On a source shorter than 80 bytes `parseHeader` fails with `io.EOF`. -/
theorem parseHeader_short (r : Reader) (h80 : r.rangeReader.length < 80) :
    r.parseHeader = .error .eof := by
  have hread : r.readRangeE 0 80 = .error .eof := by
    rw [readRangeE_eq]
    have h2 : r.rangeReader.length - (0 : Int).toNat < 80 := by
      simp only [Int.toNat_zero]
      omega
    simp [h2, h80]
  unfold Reader.parseHeader
  simp only [hread, bind, Except.bind]

/-- The little-endian value of the first four bytes is the magic number exactly when the
bytes are `5A 49 4D 04`. -/
theorem magic_bytes (src : List Byte) (h4 : 4 ≤ src.length) :
    leValue (slice src 0 4) = zimFormatMagicNumber ↔ src.take 4 = [90, 73, 77, 4] := by
  match src, h4 with
  | a :: b :: c :: d :: rest, _ =>
    have ha := a.isLt
    have hb := b.isLt
    have hc := c.isLt
    have hd := d.isLt
    simp only [slice, List.take_succ_cons, List.take_zero, List.drop_zero, leValue,
      zimFormatMagicNumber, List.cons.injEq, and_true]
    constructor
    · intro h
      refine ⟨Fin.ext ?_, Fin.ext ?_, Fin.ext ?_, Fin.ext ?_⟩ <;> omega
    · rintro ⟨rfl, rfl, rfl, rfl⟩
      rfl

/-- The steps of a successful `parse`. -/
theorem parse_inv (r r' : Reader) (fuel : Nat) (h : r.parse fuel = some (.ok r')) :
    ∃ (r1 : Reader) (mimeTypes : List GoString) (urlIndex clusterIndex : List Nat),
      r.parseHeader = .ok r1 ∧
      parseMimeTypesLoop r1 (toInt64 r1.mimeListPos) fuel 0 [] = some (.ok mimeTypes) ∧
      Reader.parsePointerIndex { r1 with mimeTypes := mimeTypes }
        (toInt64 r1.urlPtrPos) r1.entryCount = .ok urlIndex ∧
      Reader.parsePointerIndex { r1 with mimeTypes := mimeTypes, urlIndex := urlIndex }
        (toInt64 r1.clusterPtrPos) (u32 (r1.clusterCount + 1)) = .ok clusterIndex ∧
      r' = { r1 with mimeTypes := mimeTypes, urlIndex := urlIndex, clusterIndex := clusterIndex } := by
  unfold Reader.parse at h
  cases h1 : r.parseHeader with
  | error e => simp [h1] at h
  | ok r1 =>
    simp only [h1] at h
    unfold Reader.parseMimeTypes at h
    cases h2 : parseMimeTypesLoop r1 (toInt64 r1.mimeListPos) fuel 0 [] with
    | none => simp [h2] at h
    | some res =>
      cases res with
      | error e => simp [h2] at h
      | ok mimeTypes =>
        simp only [h2] at h
        unfold Reader.parseURLIndex at h
        simp only [bind, Except.bind, pure, Except.pure] at h
        cases h3 : Reader.parsePointerIndex { r1 with mimeTypes := mimeTypes }
            (toInt64 r1.urlPtrPos) r1.entryCount with
        | error e => simp [h3] at h
        | ok urlIndex =>
          simp only [h3] at h
          unfold Reader.parseClusterIndex at h
          simp only [bind, Except.bind, pure, Except.pure] at h
          cases h4 : Reader.parsePointerIndex { r1 with mimeTypes := mimeTypes, urlIndex := urlIndex }
              (toInt64 r1.clusterPtrPos) (u32 (r1.clusterCount + 1)) with
          | error e => simp [h4] at h
          | ok clusterIndex =>
            simp only [h4, Option.some.injEq, Except.ok.injEq] at h
            exact ⟨r1, mimeTypes, urlIndex, clusterIndex, rfl, h2, h3, h4, h.symm⟩

/-- The steps of a successful `NewReader`: `parse` on the fresh reader, then `preload`,
which changes the URL map only. -/
theorem NewReader_inv (fuel : Nat) (src : List Byte) (opts : Options) (r : Reader) (c : Cache)
    (h : NewReader fuel src opts = some (.ok (r, c))) :
    ∃ (r2 : Reader) (urls : List (GoString × Int)),
      Reader.parse { rangeReader := src } fuel = some (.ok r2) ∧ r = { r2 with urls := urls } := by
  unfold NewReader at h
  by_cases hcs : opts.CacheSize ≤ 0
  · rw [if_pos hcs] at h
    injection h with h
    exact Except.noConfusion h
  · rw [if_neg hcs] at h
    cases hparse : Reader.parse { rangeReader := src } fuel with
    | none =>
      rw [hparse] at h
      exact Option.noConfusion h
    | some res =>
      cases res with
      | error e =>
        rw [hparse] at h
        injection h with h
        exact Except.noConfusion h
      | ok r1 =>
        rw [hparse] at h
        injection h with h
        obtain ⟨urls, hu⟩ := preload_ok r1 _ r c h
        exact ⟨r1, urls, rfl, hu⟩

/-- A failure of `parseHeader` is a failure of `NewReader`, whatever the fuel and the
options. -/
theorem NewReader_header_error (src : List Byte) (e : Error)
    (h : Reader.parseHeader { rangeReader := src } = .error e) (fuel : Nat) (opts : Options) :
    ∃ e', NewReader fuel src opts = some (.error e') := by
  unfold NewReader
  by_cases hcs : opts.CacheSize ≤ 0
  · rw [if_pos hcs]
    exact ⟨_, rfl⟩
  · rw [if_neg hcs]
    have hp : Reader.parse { rangeReader := src } fuel = some (.error e) := by
      unfold Reader.parse
      rw [h]
    rw [hp]
    exact ⟨_, rfl⟩

/-- C14. Header magic check. On a finite byte source `parseHeader` succeeds if and only if
the source has at least 80 bytes and its first four bytes are `5A 49 4D 04`; a shorter
source makes it fail with `io.EOF`, another magic with `ErrMalformed`; and in both cases
`NewReader` fails, whatever the options. -/
theorem parseHeader_magic_check (r : Reader) :
    ((∃ r', r.parseHeader = .ok r') ↔
      (80 ≤ r.rangeReader.length ∧ r.rangeReader.take 4 = [90, 73, 77, 4])) ∧
    (r.rangeReader.length < 80 → r.parseHeader = .error .eof) ∧
    (80 ≤ r.rangeReader.length → r.rangeReader.take 4 ≠ [90, 73, 77, 4] →
      r.parseHeader = .error .malformed) ∧
    (¬ (80 ≤ r.rangeReader.length ∧ r.rangeReader.take 4 = [90, 73, 77, 4]) →
      ∀ (fuel : Nat) (opts : Options), ∃ e, NewReader fuel r.rangeReader opts = some (.error e)) := by
  have hbad : ∀ r0 : Reader, 80 ≤ r0.rangeReader.length → r0.rangeReader.take 4 ≠ [90, 73, 77, 4] →
      r0.parseHeader = .error .malformed := by
    intro r0 h80 hne
    rw [parseHeader_eq r0 h80]
    have hm : leValue (slice r0.rangeReader 0 4) ≠ zimFormatMagicNumber := by
      intro hm
      exact hne ((magic_bytes _ (by omega)).1 hm)
    rw [if_pos hm]
  refine ⟨⟨?_, ?_⟩, parseHeader_short r, hbad r, ?_⟩
  · rintro ⟨r', hr'⟩
    by_cases h80 : 80 ≤ r.rangeReader.length
    · refine ⟨h80, ?_⟩
      by_contra hne
      rw [hbad r h80 hne] at hr'
      exact Except.noConfusion hr'
    · rw [parseHeader_short r (by omega)] at hr'
      exact Except.noConfusion hr'
  · rintro ⟨h80, hmagic⟩
    rw [parseHeader_eq r h80]
    have hm : ¬ leValue (slice r.rangeReader 0 4) ≠ zimFormatMagicNumber := by
      intro hm
      exact hm ((magic_bytes _ (by omega)).2 hmagic)
    rw [if_neg hm]
    exact ⟨_, rfl⟩
  · intro hnot fuel opts
    by_cases h80 : 80 ≤ r.rangeReader.length
    · have hne : r.rangeReader.take 4 ≠ [90, 73, 77, 4] := fun hm => hnot ⟨h80, hm⟩
      exact NewReader_header_error _ _ (hbad { rangeReader := r.rangeReader } h80 hne) fuel opts
    · exact NewReader_header_error _ _
        (parseHeader_short { rangeReader := r.rangeReader } (by simpa using h80)) fuel opts

set_option maxRecDepth 1000000 in
/-- Witness for C14: the header of the sample archive is accepted; its first 79 bytes, and
the archive with the first byte replaced by 0, are refused by `NewReader`. -/
theorem parseHeader_magic_check_witness :
    (∃ r', Reader.parseHeader { rangeReader := sampleArchive } = .ok r') ∧
    (∃ e, NewReader 4 (sampleArchive.take 79) {} = some (.error e)) ∧
    (∃ e, NewReader 4 (0 :: sampleArchive.drop 1) {} = some (.error e)) :=
  ⟨(parseHeader_magic_check { rangeReader := sampleArchive }).1.2 ⟨by decide, by decide⟩,
   (parseHeader_magic_check { rangeReader := sampleArchive.take 79 }).2.2.2
     (by decide) 4 {},
   (parseHeader_magic_check { rangeReader := 0 :: sampleArchive.drop 1 }).2.2.2
     (by decide) 4 {}⟩

/-- C15. Header layout. For every source of at least 80 bytes whose first four bytes are
the magic, `parseHeader` succeeds and sets each field to the little-endian integer at its
fixed position: major version `[4..6]`, minor version `[6..8]`, entry count `[24..28]`,
cluster count `[28..32]`, URL pointer position `[32..40]`, title pointer position
`[40..48]`, cluster pointer position `[48..56]`, MIME list position `[56..64]`, main page
`[64..68]`, layout page `[68..72]`, checksum position `[72..80]`; and on every reader that
`NewReader` returns for the source, `Version()`, `EntryCount()` and `ClusterCount()` return
those values. -/
theorem parseHeader_layout (r : Reader) (h80 : 80 ≤ r.rangeReader.length)
    (hmagic : r.rangeReader.take 4 = [90, 73, 77, 4]) :
    (∃ r', r.parseHeader = .ok r' ∧
      r'.majorVersion = leValue (slice r.rangeReader 4 6) ∧
      r'.minorVersion = leValue (slice r.rangeReader 6 8) ∧
      r'.entryCount = leValue (slice r.rangeReader 24 28) ∧
      r'.clusterCount = leValue (slice r.rangeReader 28 32) ∧
      r'.urlPtrPos = leValue (slice r.rangeReader 32 40) ∧
      r'.titlePtrPos = leValue (slice r.rangeReader 40 48) ∧
      r'.clusterPtrPos = leValue (slice r.rangeReader 48 56) ∧
      r'.mimeListPos = leValue (slice r.rangeReader 56 64) ∧
      r'.mainPage = leValue (slice r.rangeReader 64 68) ∧
      r'.layoutPage = leValue (slice r.rangeReader 68 72) ∧
      r'.checksumPos = leValue (slice r.rangeReader 72 80) ∧
      r'.Version = (leValue (slice r.rangeReader 4 6), leValue (slice r.rangeReader 6 8)) ∧
      r'.EntryCount = leValue (slice r.rangeReader 24 28) ∧
      r'.ClusterCount = leValue (slice r.rangeReader 28 32)) ∧
    (∀ (fuel : Nat) (opts : Options) (ro : Reader) (c : Cache),
      NewReader fuel r.rangeReader opts = some (.ok (ro, c)) →
      ro.Version = (leValue (slice r.rangeReader 4 6), leValue (slice r.rangeReader 6 8)) ∧
      ro.EntryCount = leValue (slice r.rangeReader 24 28) ∧
      ro.ClusterCount = leValue (slice r.rangeReader 28 32) ∧
      ro.urlPtrPos = leValue (slice r.rangeReader 32 40) ∧
      ro.titlePtrPos = leValue (slice r.rangeReader 40 48) ∧
      ro.clusterPtrPos = leValue (slice r.rangeReader 48 56) ∧
      ro.mimeListPos = leValue (slice r.rangeReader 56 64) ∧
      ro.mainPage = leValue (slice r.rangeReader 64 68) ∧
      ro.layoutPage = leValue (slice r.rangeReader 68 72) ∧
      ro.checksumPos = leValue (slice r.rangeReader 72 80)) := by
  have hm : ∀ r0 : Reader, r0.rangeReader = r.rangeReader →
      ¬ leValue (slice r0.rangeReader 0 4) ≠ zimFormatMagicNumber := by
    intro r0 h0 hm
    rw [h0] at hm
    exact hm ((magic_bytes _ (by omega)).2 hmagic)
  refine ⟨?_, ?_⟩
  · rw [parseHeader_eq r h80, if_neg (hm r rfl)]
    exact ⟨_, rfl, rfl, rfl, rfl, rfl, rfl, rfl, rfl, rfl, rfl, rfl, rfl, rfl, rfl, rfl⟩
  · intro fuel opts ro c hopen
    obtain ⟨r2, urls, hparse, hro⟩ := NewReader_inv fuel _ opts ro c hopen
    obtain ⟨r1, mimeTypes, urlIndex, clusterIndex, hhead, -, -, -, hr2⟩ := parse_inv _ _ _ hparse
    rw [parseHeader_eq _ (by exact h80), if_neg (hm _ rfl)] at hhead
    injection hhead with hhead
    subst hro hr2 hhead
    exact ⟨rfl, rfl, rfl, rfl, rfl, rfl, rfl, rfl, rfl, rfl⟩

set_option maxRecDepth 1000000 in
/-- Witness for C15: the header of the sample archive gives version 5.0, 11 entries and 3
clusters, and these are the values of the reader obtained for it. -/
theorem parseHeader_layout_witness :
    80 ≤ sampleArchive.length ∧ sampleArchive.take 4 = [90, 73, 77, 4] ∧
    leValue (slice sampleArchive 4 6) = 5 ∧ leValue (slice sampleArchive 6 8) = 0 ∧
    leValue (slice sampleArchive 24 28) = 11 ∧ leValue (slice sampleArchive 28 32) = 3 ∧
    (∃ c, NewReader 4 sampleArchive {} = some (.ok (sampleReader, c))) ∧
    sampleReader.Version = (leValue (slice sampleArchive 4 6), leValue (slice sampleArchive 6 8)) ∧
    sampleReader.EntryCount = leValue (slice sampleArchive 24 28) ∧
    sampleReader.ClusterCount = leValue (slice sampleArchive 28 32) :=
  sampleArchive_opens.elim fun c hopen =>
    ⟨by decide, by decide, by decide, by decide, by decide, by decide, ⟨c, hopen⟩,
     ((parseHeader_layout { rangeReader := sampleArchive } (by decide) (by decide)).2
        4 {} sampleReader c hopen).1,
     ((parseHeader_layout { rangeReader := sampleArchive } (by decide) (by decide)).2
        4 {} sampleReader c hopen).2.1,
     ((parseHeader_layout { rangeReader := sampleArchive } (by decide) (by decide)).2
        4 {} sampleReader c hopen).2.2.1⟩

/-- The sixteen digits that `Nat.digitChar` produces below 16 are lowercase hexadecimal
digits with the right value. -/
theorem digitChar_hex (m : Nat) (h : m < 16) :
    isLowerHex (Fin.ofNat (Nat.digitChar m).toNat) = true ∧
    hexDigitVal (Fin.ofNat (Nat.digitChar m).toNat) = m := by
  have : ∀ k : Fin 16, isLowerHex (Fin.ofNat (Nat.digitChar k.val).toNat) = true ∧
      hexDigitVal (Fin.ofNat (Nat.digitChar k.val).toNat) = k.val := by decide
  exact this ⟨m, h⟩

/-- The digits that `Nat.toDigitsCore 16` puts in front of the accumulator: at least one,
at most `k` for a number below `16^k`, all of them lowercase hexadecimal digits, writing
the number, with a first digit other than zero unless the number is zero. -/
theorem toDigitsCore_hex (fuel : Nat) : ∀ (n : Nat) (ds : List Char), n < fuel →
    ∃ pre : List Char, Nat.toDigitsCore 16 fuel n ds = pre ++ ds ∧
      1 ≤ pre.length ∧
      (∀ k, 1 ≤ k → n < 16 ^ k → pre.length ≤ k) ∧
      (∀ c ∈ pre, isLowerHex (Fin.ofNat c.toNat) = true) ∧
      hexVal (pre.map (fun ch => Fin.ofNat ch.toNat)) = n ∧
      (0 < n → ∀ c, pre.head? = some c → hexDigitVal (Fin.ofNat c.toNat) ≠ 0) := by
  induction fuel with
  | zero => intro n ds h; omega
  | succ fuel ih =>
    intro n ds hn
    have hd := digitChar_hex (n % 16) (Nat.mod_lt _ (by omega))
    unfold Nat.toDigitsCore
    simp only []
    by_cases h0 : n / 16 = 0
    · rw [if_pos h0]
      have hlt : n < 16 := by omega
      have hmod : n % 16 = n := Nat.mod_eq_of_lt hlt
      refine ⟨[Nat.digitChar (n % 16)], rfl, by simp, ?_, ?_, ?_, ?_⟩
      · intro k hk _
        simpa using hk
      · intro c hc
        simp only [List.mem_singleton] at hc
        subst hc
        exact hd.1
      · simp only [hexVal, List.map_cons, List.map_nil, List.foldl_cons, List.foldl_nil, hd.2]
        omega
      · intro hpos c hc
        simp only [List.head?_cons, Option.some.injEq] at hc
        subst hc
        rw [hd.2]
        omega
    · rw [if_neg h0]
      obtain ⟨pre, hpre, hlen, hbound, hchars, hval, hhead⟩ :=
        ih (n / 16) (Nat.digitChar (n % 16) :: ds) (by omega)
      refine ⟨pre ++ [Nat.digitChar (n % 16)], ?_, ?_, ?_, ?_, ?_, ?_⟩
      · rw [hpre]
        simp
      · simp
      · intro k hk hnk
        have hk2 : 2 ≤ k := by
          by_contra hcon
          have : k = 1 := by omega
          subst this
          simp at hnk
          omega
        have hdiv : n / 16 < 16 ^ (k - 1) := by
          have hpow : 16 ^ k = 16 ^ (k - 1) * 16 := by
            rw [← Nat.pow_succ]
            congr 1
            omega
          rw [hpow] at hnk
          exact Nat.div_lt_of_lt_mul (by rw [Nat.mul_comm]; exact hnk)
        have := hbound (k - 1) (by omega) hdiv
        simp only [List.length_append, List.length_singleton]
        omega
      · intro c hc
        simp only [List.mem_append, List.mem_singleton] at hc
        rcases hc with hc | hc
        · exact hchars c hc
        · subst hc
          exact hd.1
      · simp only [hexVal, List.map_append, List.map_cons, List.map_nil, List.foldl_append,
          List.foldl_cons, List.foldl_nil, hd.2] at hval ⊢
        rw [hval]
        omega
      · intro hpos c hc
        have hpos2 : 0 < n / 16 := by omega
        cases pre with
        | nil => simp at hlen
        | cons p ps =>
          simp only [List.cons_append, List.head?_cons, Option.some.injEq] at hc
          exact hhead hpos2 c (by simp [hc])

/-- The verb `%x`: at least one digit, at most `k` digits for a number below `16^k`,
lowercase hexadecimal digits only, writing the number, without a leading zero except for
the number zero. -/
theorem fmtHex_spec (n : Nat) :
    1 ≤ (fmtHex n).length ∧
    (∀ k, 1 ≤ k → n < 16 ^ k → (fmtHex n).length ≤ k) ∧
    (∀ b ∈ fmtHex n, isLowerHex b = true) ∧
    hexVal (fmtHex n) = n ∧
    ((fmtHex n).head? = some 48 → fmtHex n = [48]) := by
  obtain ⟨pre, hpre, hlen, hbound, hchars, hval, hhead⟩ := toDigitsCore_hex (n + 1) n [] (by omega)
  have hfmt : fmtHex n = pre.map (fun ch => Fin.ofNat ch.toNat) := by
    unfold fmtHex Nat.toDigits
    rw [hpre, List.append_nil]
  refine ⟨?_, ?_, ?_, ?_, ?_⟩
  · rw [hfmt, List.length_map]
    exact hlen
  · intro k hk hn
    rw [hfmt, List.length_map]
    exact hbound k hk hn
  · intro b hb
    rw [hfmt, List.mem_map] at hb
    obtain ⟨c, hc, rfl⟩ := hb
    exact hchars c hc
  · rw [hfmt]
    exact hval
  · intro h48
    by_cases hn : 0 < n
    · exfalso
      rw [hfmt] at h48
      cases pre with
      | nil => simp at hlen
      | cons p ps =>
        simp only [List.map_cons, List.head?_cons, Option.some.injEq] at h48
        have := hhead hn p rfl
        rw [h48] at this
        exact this (by decide)
    · have h0 : n = 0 := by omega
      subst h0
      rfl

/-- Zeros on the left do not change the number written. -/
theorem hexVal_zeros (k : Nat) (s : GoString) : hexVal (List.replicate k 48 ++ s) = hexVal s := by
  unfold hexVal
  rw [List.foldl_append]
  have : (List.replicate k (48 : Byte)).foldl (fun acc b => acc * 16 + hexDigitVal b) 0 = 0 := by
    induction k with
    | zero => rfl
    | succ k ih =>
      rw [List.replicate_succ, List.foldl_cons]
      exact ih
  rw [this]

/-- The verbs `%08x` and `%04x` on a number below `16^width`: exactly `width` lowercase
hexadecimal digits writing the number. -/
theorem fmtHexPad_spec (width n : Nat) (hw : 1 ≤ width) (hn : n < 16 ^ width) :
    (fmtHexPad width n).length = width ∧
    (∀ b ∈ fmtHexPad width n, isLowerHex b = true) ∧
    hexVal (fmtHexPad width n) = n := by
  obtain ⟨h1, h2, h3, h4, -⟩ := fmtHex_spec n
  have hle := h2 width hw hn
  unfold fmtHexPad
  refine ⟨?_, ?_, ?_⟩
  · simp only [List.length_append, List.length_replicate]
    omega
  · intro b hb
    simp only [List.mem_append, List.mem_replicate] at hb
    rcases hb with ⟨-, hb⟩ | hb
    · subst hb
      rfl
    · exact h3 b hb
  · simp only []
    rw [hexVal_zeros, h4]

/-- The big-endian value of `k` bytes is below `256^k`. -/
theorem beValue_lt (bs : List Byte) : beValue bs < 256 ^ bs.length := by
  unfold beValue
  have := leValue_lt bs.reverse
  rwa [List.length_reverse] at this

/-- A string of hexadecimal digits has no hyphen. -/
theorem count_hyphen_hex (g : GoString) (h : ∀ b ∈ g, isLowerHex b = true) : g.count 45 = 0 := by
  rw [List.count_eq_zero]
  intro hmem
  have := h 45 hmem
  exact absurd this (by decide)

/-- C17. UUID rendering. For every source of at least 80 bytes with a valid magic, the UUID
of the parsed header is `g1-g2-g3-g4-ab` where `g1` is 8 lowercase hexadecimal digits writing
the big-endian `u32` of header bytes `[8..12]`, `g2`, `g3`, `g4` are 4 digits each writing
the big-endian `u16` of bytes `[12..14]`, `[14..16]`, `[16..18]`, and the fifth group is the
unpadded hexadecimal `a` of the big-endian `u32` of bytes `[18..22]` followed by the unpadded
hexadecimal `b` of the big-endian `u16` of bytes `[22..24]`; the string has exactly four
hyphens, its fifth group has 2 to 12 digits, and it is the `UUID()` of every reader that
`NewReader` returns for the source. -/
theorem UUID_rendering (r : Reader) (h80 : 80 ≤ r.rangeReader.length)
    (hmagic : r.rangeReader.take 4 = [90, 73, 77, 4]) :
    ∃ (r' : Reader) (g1 g2 g3 g4 a b : GoString),
      r.parseHeader = .ok r' ∧
      r'.UUID = g1 ++ [45] ++ g2 ++ [45] ++ g3 ++ [45] ++ g4 ++ [45] ++ (a ++ b) ∧
      g1.length = 8 ∧ g2.length = 4 ∧ g3.length = 4 ∧ g4.length = 4 ∧
      hexVal g1 = beValue (slice r.rangeReader 8 12) ∧
      hexVal g2 = beValue (slice r.rangeReader 12 14) ∧
      hexVal g3 = beValue (slice r.rangeReader 14 16) ∧
      hexVal g4 = beValue (slice r.rangeReader 16 18) ∧
      a = fmtHex (beValue (slice r.rangeReader 18 22)) ∧
      b = fmtHex (beValue (slice r.rangeReader 22 24)) ∧
      hexVal a = beValue (slice r.rangeReader 18 22) ∧
      hexVal b = beValue (slice r.rangeReader 22 24) ∧
      (a.head? = some 48 → a = [48]) ∧ (b.head? = some 48 → b = [48]) ∧
      1 ≤ a.length ∧ a.length ≤ 8 ∧ 1 ≤ b.length ∧ b.length ≤ 4 ∧
      2 ≤ (a ++ b).length ∧ (a ++ b).length ≤ 12 ∧
      (∀ x ∈ g1 ++ g2 ++ g3 ++ g4 ++ a ++ b, isLowerHex x = true) ∧
      r'.UUID.count 45 = 4 ∧
      (∀ (fuel : Nat) (opts : Options) (ro : Reader) (c : Cache),
        NewReader fuel r.rangeReader opts = some (.ok (ro, c)) → ro.UUID = r'.UUID) := by
  have hm : ∀ r0 : Reader, r0.rangeReader = r.rangeReader →
      ¬ leValue (slice r0.rangeReader 0 4) ≠ zimFormatMagicNumber := by
    intro r0 h0 hm
    rw [h0] at hm
    exact hm ((magic_bytes _ (by omega)).2 hmagic)
  have hb : ∀ lo hi k : Nat, hi = lo + k → hi ≤ 80 →
      beValue (slice r.rangeReader lo hi) < 256 ^ k := by
    intro lo hi k hk hhi
    have := beValue_lt (slice r.rangeReader lo hi)
    rwa [slice_length _ _ _ (by omega) (by omega), show hi - lo = k by omega] at this
  obtain ⟨l1, c1, v1⟩ := fmtHexPad_spec 8 (beValue (slice r.rangeReader 8 12)) (by omega)
    (by have := hb 8 12 4 rfl (by omega); omega)
  obtain ⟨l2, c2, v2⟩ := fmtHexPad_spec 4 (beValue (slice r.rangeReader 12 14)) (by omega)
    (by have := hb 12 14 2 rfl (by omega); omega)
  obtain ⟨l3, c3, v3⟩ := fmtHexPad_spec 4 (beValue (slice r.rangeReader 14 16)) (by omega)
    (by have := hb 14 16 2 rfl (by omega); omega)
  obtain ⟨l4, c4, v4⟩ := fmtHexPad_spec 4 (beValue (slice r.rangeReader 16 18)) (by omega)
    (by have := hb 16 18 2 rfl (by omega); omega)
  obtain ⟨la1, la2, ca, va, ha⟩ := fmtHex_spec (beValue (slice r.rangeReader 18 22))
  obtain ⟨lb1, lb2, cb, vb, hb0⟩ := fmtHex_spec (beValue (slice r.rangeReader 22 24))
  have la8 := la2 8 (by omega) (by have := hb 18 22 4 rfl (by omega); omega)
  have lb4 := lb2 4 (by omega) (by have := hb 22 24 2 rfl (by omega); omega)
  refine ⟨_, _, _, _, _, _, _, by rw [parseHeader_eq r h80, if_neg (hm r rfl)], rfl,
    l1, l2, l3, l4, v1, v2, v3, v4, rfl, rfl, va, vb, ha, hb0, la1, la8, lb1, lb4, ?_, ?_, ?_, ?_, ?_⟩
  · rw [List.length_append]
    omega
  · rw [List.length_append]
    omega
  · intro x hx
    simp only [List.mem_append] at hx
    rcases hx with ((((hx | hx) | hx) | hx) | hx) | hx
    · exact c1 x hx
    · exact c2 x hx
    · exact c3 x hx
    · exact c4 x hx
    · exact ca x hx
    · exact cb x hx
  · simp only [Reader.UUID, List.count_append, count_hyphen_hex _ c1, count_hyphen_hex _ c2,
      count_hyphen_hex _ c3, count_hyphen_hex _ c4, count_hyphen_hex _ ca, count_hyphen_hex _ cb]
    rfl
  · intro fuel opts ro c hopen
    obtain ⟨r2, urls, hparse, hro⟩ := NewReader_inv fuel _ opts ro c hopen
    obtain ⟨r1, mimeTypes, urlIndex, clusterIndex, hhead, -, -, -, hr2⟩ := parse_inv _ _ _ hparse
    rw [parseHeader_eq _ (by exact h80), if_neg (hm _ rfl)] at hhead
    injection hhead with hhead
    subst hro hr2 hhead
    rfl

set_option maxRecDepth 1000000 in
/-- Witness for C17: the UUID bytes of the sample archive are `01 02 .. 10`, and the UUID of
its reader is `01020304-0506-0708-090a-b0c0d0ef10`, whose fifth group has 10 digits. -/
theorem UUID_rendering_witness :
    80 ≤ sampleArchive.length ∧ sampleArchive.take 4 = [90, 73, 77, 4] ∧
    slice sampleArchive 8 24 = [1, 2, 3, 4, 5, 6, 7, 8, 9, 10, 11, 12, 13, 14, 15, 16] ∧
    sampleReader.UUID = [48, 49, 48, 50, 48, 51, 48, 52, 45, 48, 53, 48, 54, 45, 48, 55, 48, 56,
      45, 48, 57, 48, 97, 45, 98, 48, 99, 48, 100, 48, 101, 102, 49, 48] ∧
    ∃ (r' : Reader), Reader.parseHeader { rangeReader := sampleArchive } = .ok r' ∧
      r'.UUID.count 45 = 4 ∧ sampleReader.UUID = r'.UUID :=
  ⟨by decide, by decide, by decide, by decide,
   (UUID_rendering { rangeReader := sampleArchive } (by decide) (by decide)).elim
     fun r' hex => hex.elim fun g1 hex => hex.elim fun g2 hex => hex.elim fun g3 hex =>
       hex.elim fun g4 hex => hex.elim fun a hex => hex.elim fun b h =>
         ⟨r', h.1, h.2.2.2.2.2.2.2.2.2.2.2.2.2.2.2.2.2.2.2.2.2.2.2.1,
           sampleArchive_opens.elim fun c hopen =>
             h.2.2.2.2.2.2.2.2.2.2.2.2.2.2.2.2.2.2.2.2.2.2.2.2 4 {} sampleReader c hopen⟩⟩

set_option maxRecDepth 1000000 in
/-- C16, the code at the failing input. The header of `wrapArchive` gives the cluster count
`0xFFFFFFFF`; the archive opens, `ClusterCount()` is `0xFFFFFFFF`, and the cluster pointer
table of the reader is empty: `clusterCount+1` is computed on `uint32` and is 0, so no
pointer is read, while the URL pointer table has its one element. -/
theorem cluster_table_wraps :
    leValue (slice wrapArchive 28 32) = 4294967295 ∧
    (NewReader 4 wrapArchive {}).map (fun res => res.toOption.map
      (fun p => (p.1.ClusterCount, p.1.clusterIndex, p.1.urlIndex)))
      = some (some (4294967295, [], [107])) := by
  decide

set_option maxRecDepth 1000000 in
/-- C18, the code at the failing input. In the sample archive the bytes at offset 228 are the
two NUL-terminated strings `a` and `T`. With a chunk of 1024 bytes, which reaches past the
end of the file, `readStringsAt(228, 2, 1024)` returns the one string `a` and 2 bytes
consumed; with chunks of 1 or 3 bytes it returns both strings and 4 bytes consumed. -/
theorem readStringsAt_stops_at_first_string :
    slice sampleArchive 228 232 = [97, 0, 84, 0] ∧
    sampleReader.readStringsAt 228 2 1024 = .ok ([[97]], 2) ∧
    sampleReader.readStringsAt 228 2 1 = .ok ([[97], [84]], 4) ∧
    sampleReader.readStringsAt 228 2 3 = .ok ([[97], [84]], 4) := by
  decide

set_option maxRecDepth 1000000 in
/-- C11, the code at the failing input. Entry 0 of `redirectArchive` is the 16-byte record
`FF FF C8 41 00 00 00 00 01 00 00 00 'r' 00 'T' 00` at offset 115, inside the source. The
archive opens and `parseEntryAt(115)` returns a redirect entry with target 1 and URL `r`,
but its title is empty, not `T`, and its namespace is the two bytes `C3 88`, not the byte
`C8`. -/
theorem parseEntryAt_redirect_fields :
    slice redirectArchive 115 131 = [255, 255, 200, 65, 0, 0, 0, 0, 1, 0, 0, 0, 114, 0, 84, 0] ∧
    (NewReader 4 redirectArchive {}).map (fun res => res.toOption.map
      (fun p => (p.1.urlIndex, p.1.parseEntryAt 115)))
      = some (some ([115, 131], .ok (.redirect
          { base := { mimeTypeIndex := 65535, namespace_ := [195, 136], url := [114], title := [] },
            redirectIndex := 1 }))) :=
  ⟨by decide, by decide⟩

/-- The MIME index check of `parseContentEntry`, for a record whose 16 bytes `data` can be
read: an index that is not below `len(mimeTypes)` taken modulo `2^16` gives `ErrMalformed`;
below it, the only failure left is a failure of `readStringsAt`, and the MIME type of the
entry returned is the table string at the index. -/
theorem parseContentEntry_mime_check (r : Reader) (offset : Int) (base : BaseEntry)
    (data : List Byte) (hread : r.readRangeE offset 16 = .ok data) :
    (leValue (slice data 0 2) ≥ r.mimeTypes.length % 65536 →
      r.parseContentEntry offset base = .error .malformed) ∧
    (leValue (slice data 0 2) < r.mimeTypes.length % 65536 →
      (∀ e, r.parseContentEntry offset base = .error e →
        r.readStringsAt (wrapInt64 (offset + 16)) 2 1024 = .error e) ∧
      (∀ strs, r.readStringsAt (wrapInt64 (offset + 16)) 2 1024 = .ok strs →
        ∃ e, r.parseContentEntry offset base = .ok e ∧
          e.MimeType = r.mimeTypes.getD (leValue (slice data 0 2)) [])) := by
  have hlen : data.length = 16 := (readRangeE_ok _ _ _ _ hread).2.2.1
  have h2 := binaryRead_slice data 0 2 2 .LittleEndian rfl (by omega)
  have h8 := binaryRead_slice data 8 12 4 .LittleEndian rfl (by omega)
  have h12 := binaryRead_slice data 12 16 4 .LittleEndian rfl (by omega)
  simp only [] at h2 h8 h12
  constructor
  · intro hge
    unfold Reader.parseContentEntry
    simp only [hread, bind, Except.bind, readUint16, h2]
    rw [if_pos hge]
  · intro hlt
    have hng : ¬ (leValue (slice data 0 2) ≥ r.mimeTypes.length % 65536) := by omega
    constructor
    · intro e he
      unfold Reader.parseContentEntry at he
      simp only [hread, bind, Except.bind, readUint16, readUint32, h2, h8, h12] at he
      rw [if_neg hng] at he
      simp only [pure, Except.pure] at he
      cases hs : r.readStringsAt (wrapInt64 (offset + 16)) 2 1024 with
      | error e' =>
        rw [hs] at he
        simp only [Except.error.injEq] at he ⊢
        exact he
      | ok strs =>
        rw [hs] at he
        exact Except.noConfusion he
    · intro strs hs
      unfold Reader.parseContentEntry
      simp only [hread, bind, Except.bind, readUint16, readUint32, h2, h8, h12]
      rw [if_neg hng]
      simp only [pure, Except.pure, hs]
      exact ⟨_, rfl, rfl⟩

set_option maxRecDepth 1000000 in
/-- C13, the code at the failing input. The content record at offset 212 of the sample
archive has the MIME index 0. With a MIME table of 65536 strings, `parseContentEntry` and
`parseEntryAt` fail at this record with `ErrMalformed` although `0 < 65536`: the length is
converted to `uint16` and compared as 0. With the table of the archive itself the record
parses. -/
theorem parseContentEntry_mime_length_wraps :
    leValue (slice sampleArchive 212 214) = 0 ∧
    (List.replicate 65536 sampleMime).length = 65536 ∧
    (∀ base, ({ sampleReader with mimeTypes := List.replicate 65536 sampleMime } : Reader).parseContentEntry
      212 base = .error .malformed) ∧
    ({ sampleReader with mimeTypes := List.replicate 65536 sampleMime } : Reader).parseEntryAt 212
      = .error .malformed ∧
    sampleReader.parseEntryAt 212 = .ok (.content sampleContentA) := by
  have hgen : ∀ mt : List GoString, mt.length = 65536 →
      (∀ base, ({ sampleReader with mimeTypes := mt } : Reader).parseContentEntry 212 base
        = .error .malformed) ∧
      ({ sampleReader with mimeTypes := mt } : Reader).parseEntryAt 212 = .error .malformed := by
    intro mt hmt
    have hread : ({ sampleReader with mimeTypes := mt } : Reader).readRangeE
        212 16 = .ok (slice sampleArchive 212 228) := rfl
    have hidx : leValue (slice (slice sampleArchive 212 228) 0 2) = 0 := by decide
    have hfail : ∀ base, ({ sampleReader with mimeTypes := mt } : Reader).parseContentEntry
        212 base = .error .malformed := by
      intro base
      refine (parseContentEntry_mime_check _ 212 base _ hread).1 ?_
      show leValue (slice (slice sampleArchive 212 228) 0 2) ≥ mt.length % 65536
      rw [hidx, hmt]
    have hbase : ({ sampleReader with mimeTypes := mt } : Reader).parseBaseEntry 212
        = .ok { mimeTypeIndex := 0, namespace_ := [0] } := rfl
    refine ⟨hfail, ?_⟩
    unfold Reader.parseEntryAt
    rw [hbase]
    simp only [bind, Except.bind]
    rw [if_neg (by decide)]
    simp only [bind, Except.bind, hfail]
  exact ⟨by decide, List.length_replicate _ _,
    (hgen (List.replicate 65536 sampleMime) (List.length_replicate _ _)).1,
    (hgen (List.replicate 65536 sampleMime) (List.length_replicate _ _)).2, by decide⟩

/-- The loop of `readStringsAt` reads the byte source of the reader only. -/
theorem readStringsLoop_congr (r r2 : Reader) (h : r.rangeReader = r2.rangeReader)
    (offset count : Int) (bufferSize fuel : Nat) :
    ∀ st, readStringsLoop r offset count bufferSize fuel st
      = readStringsLoop r2 offset count bufferSize fuel st := by
  have hrange : ∀ (off : Int) (n : Nat), r.readRange off n = r2.readRange off n := by
    intro off n
    unfold Reader.readRange
    rw [h]
  induction fuel with
  | zero =>
    intro st
    rfl
  | succ fuel ih =>
    intro st
    rw [readStringsLoop, readStringsLoop, hrange]
    simp only [ih]

/-- The function `readStringsAt` reads the byte source of the reader only. -/
theorem readStringsAt_congr (r r2 : Reader) (h : r.rangeReader = r2.rangeReader)
    (offset count : Int) (bufferSize : Nat) :
    r.readStringsAt offset count bufferSize = r2.readStringsAt offset count bufferSize := by
  unfold Reader.readStringsAt
  rw [readStringsLoop_congr r r2 h, h]

/-- One round of the loop of `parseMimeTypes`. -/
theorem parseMimeTypesLoop_succ (r : Reader) (offset : Int) (fuel : Nat) (read : Int)
    (acc : List GoString) :
    parseMimeTypesLoop r offset (fuel + 1) read acc =
      match r.readStringsAt (wrapInt64 (offset + read)) 64 1024 with
      | .error e => if e ≠ .eof then some (.error e) else some (.ok acc)
      | .ok (found, read') =>
        if found.length = 0 ∨ found.head? = some [] then some (.ok acc)
        else parseMimeTypesLoop r offset fuel read' (acc ++ found) := rfl

set_option maxRecDepth 1000000 in
/-- The two calls of `readStringsAt` that `parseMimeTypes` makes on `mimeArchive`: at the
start of the MIME type list, and 2 bytes further. -/
theorem mimeArchive_steps (r : Reader) (h : r.rangeReader = mimeArchive) :
    r.readStringsAt (wrapInt64 (80 + 0)) 64 1024 = .ok ([[97]], 2) ∧
    r.readStringsAt (wrapInt64 (80 + 2)) 64 1024 = .ok ([[98]], 2) := by
  rw [readStringsAt_congr r { rangeReader := mimeArchive } h,
    readStringsAt_congr r { rangeReader := mimeArchive } h]
  decide

/-- On `mimeArchive`, once the previous call of `readStringsAt` has read 2 bytes, the loop
of `parseMimeTypes` calls it at the same offset again and again: no fuel is enough. -/
theorem mimeArchive_loop (r : Reader) (h : r.rangeReader = mimeArchive) (fuel : Nat) :
    ∀ acc : List GoString, parseMimeTypesLoop r 80 fuel 2 acc = none := by
  induction fuel with
  | zero =>
    intro acc
    rfl
  | succ fuel ih =>
    intro acc
    rw [parseMimeTypesLoop_succ, (mimeArchive_steps r h).2]
    simp only []
    rw [if_neg (by decide)]
    exact ih _

set_option maxRecDepth 10000000 in
/-- C12, the code at the failing inputs. The MIME type list of `mimeArchive`, at offset 80,
is the two strings `a` and `b` followed by the empty string, all inside the source.
(1) On this archive followed by 1100 zero bytes, `parse` returns the MIME table
`a, b, m`: after the terminator has been read, the scanner is called again on the bytes
that follow it, the URL pointer table, and their first string is appended.
(2) On `mimeArchive` itself neither `parseMimeTypes` nor `NewReader` returns, whatever the
fuel: each chunk reaches the end of the file, so each call returns one string, and the
third call and all later ones start at offset 82 again. -/
theorem parseMimeTypes_trailing_bytes :
    slice mimeArchive 80 85 = [97, 0, 98, 0, 0] ∧
    leValue (slice mimeArchive 56 64) = 80 ∧
    (Reader.parse { rangeReader := mimeArchive ++ List.replicate 1100 0 } 4).map
      (fun res => res.toOption.map (fun p => p.mimeTypes)) = some (some [[97], [98], [109]]) ∧
    (∃ r, Reader.parseHeader { rangeReader := mimeArchive } = .ok r ∧
      ∀ fuel, r.parseMimeTypes fuel = none) ∧
    (∀ fuel, NewReader fuel mimeArchive {} = none) := by
  have hhead : ∃ r, Reader.parseHeader { rangeReader := mimeArchive } = .ok r ∧
      r.rangeReader = mimeArchive ∧ toInt64 r.mimeListPos = 80 := by
    rw [parseHeader_eq _ (by decide), if_neg (by decide)]
    exact ⟨_, rfl, rfl, by decide⟩
  obtain ⟨r, hr, hsrc, hpos⟩ := hhead
  have hnone : ∀ fuel, r.parseMimeTypes fuel = none := by
    intro fuel
    unfold Reader.parseMimeTypes
    rw [hpos]
    cases fuel with
    | zero => rfl
    | succ fuel =>
      rw [parseMimeTypesLoop_succ, (mimeArchive_steps r hsrc).1]
      simp only []
      rw [if_neg (by decide), mimeArchive_loop r hsrc fuel]
  refine ⟨by decide, by decide, by decide, ⟨r, hr, hnone⟩, ?_⟩
  intro fuel
  unfold NewReader
  rw [if_neg (by decide)]
  unfold Reader.parse
  rw [hr]
  simp only []
  rw [hnone fuel]

/-- The pointers that the decoding loop of `parsePointerIndex` appends: pointer `j` is the
little-endian integer of the 8 bytes at `8 * (i + j)` of the buffer. -/
theorem parsePointerLoop_elems (data : List Byte) (remaining : Nat) :
    ∀ (i : Nat) (index res : List Nat), parsePointerLoop data remaining i index = .ok res →
      res = index ++ (List.range remaining).map
        (fun j => leValue (slice data ((i + j) * 8) ((i + j) * 8 + 8))) := by
  induction remaining with
  | zero =>
    intro i index res h
    simp only [parsePointerLoop, Except.ok.injEq] at h
    subst h
    simp
  | succ n ih =>
    intro i index res h
    rw [parsePointerLoop] at h
    cases hp : readUint64 (slice data (i * 8) (i * 8 + 8)) ByteOrder.LittleEndian with
    | error e =>
      rw [hp] at h
      exact Except.noConfusion h
    | ok ptr =>
      rw [hp] at h
      simp only [] at h
      have hptr : ptr = leValue (slice data (i * 8) (i * 8 + 8)) := by
        unfold readUint64 binaryRead at hp
        split at hp
        · split at hp <;> exact Except.noConfusion hp
        · simp only [Except.ok.injEq] at hp
          rw [slice_take data (i * 8) (i * 8 + 8) 8 (by omega)] at hp
          exact hp.symm
      rw [ih (i + 1) (index ++ [ptr]) res h, List.range_succ_eq_map, hptr]
      simp only [List.map_cons, List.map_map, List.append_assoc, List.singleton_append,
        Nat.add_zero]
      congr 2
      apply List.map_congr_left
      intro j _
      simp only [Function.comp]
      rw [show i + 1 + j = i + (j + 1) by omega]

/-- A pointer table parsed by `parsePointerIndex`: the start address is not negative, and
pointer `j` is the little-endian integer of the 8 source bytes at `startAddr + 8 * j`. -/
theorem parsePointerIndex_elems (r : Reader) (startAddr : Int) (count : Nat) (res : List Nat)
    (h : r.parsePointerIndex startAddr count = .ok res) :
    0 ≤ startAddr ∧
    res = (List.range count).map (fun j => leValue
      (slice r.rangeReader (startAddr.toNat + 8 * j) (startAddr.toNat + 8 * j + 8))) := by
  unfold Reader.parsePointerIndex at h
  simp only [bind_eq_ok_iff] at h
  obtain ⟨data, hdata, h⟩ := h
  obtain ⟨hnn, hd, -, hin⟩ := readRangeE_ok _ _ _ _ hdata
  refine ⟨hnn, ?_⟩
  rw [parsePointerLoop_elems data count 0 [] res h, List.nil_append]
  apply List.map_congr_left
  intro j hj
  have hjc : j < count := List.mem_range.1 hj
  have hfit := hin (by omega)
  have hds : data = slice r.rangeReader startAddr.toNat (startAddr.toNat + count * 8) := by
    have := readRangeE_slice r startAddr.toNat (count * 8) hfit
    rw [Int.toNat_of_nonneg hnn, hdata] at this
    injection this
  rw [hds, slice_inner _ _ _ _ _ (by omega)]
  congr 2 <;> omega

/-- A `uint64` whose conversion to `int64` is not negative is below `2^63`, and the
conversion keeps it. -/
theorem toInt64_nonneg (x : Nat) (hx : x < 18446744073709551616) (h : 0 ≤ toInt64 x) :
    x < 9223372036854775808 ∧ (toInt64 x).toNat = x := by
  unfold toInt64 at h ⊢
  have h1 : x % 18446744073709551616 = x := Nat.mod_eq_of_lt hx
  rw [h1] at h ⊢
  by_cases hlt : x < 9223372036854775808
  · rw [if_pos hlt]
    exact ⟨hlt, by simp⟩
  · rw [if_neg hlt] at h
    omega

/-- The pointer tables of a reader that `parse` returns. The URL pointer table has
`entryCount` elements, element `i` being the little-endian `u64` at `urlPtrPos + 8 * i` of
the source. The cluster pointer table has `clusterCount + 1` elements, the sum taken on
`uint32`, element `i` being the little-endian `u64` at `clusterPtrPos + 8 * i`; so it has
`clusterCount + 1` elements unless `clusterCount` is `0xFFFFFFFF`. -/
theorem parse_pointer_tables (r r' : Reader) (fuel : Nat) (h : r.parse fuel = some (.ok r')) :
    r'.urlIndex = (List.range r'.entryCount).map
      (fun i => leValue (slice r.rangeReader (r'.urlPtrPos + 8 * i) (r'.urlPtrPos + 8 * i + 8))) ∧
    r'.clusterIndex = (List.range (u32 (r'.clusterCount + 1))).map
      (fun i => leValue (slice r.rangeReader (r'.clusterPtrPos + 8 * i)
        (r'.clusterPtrPos + 8 * i + 8))) ∧
    r'.urlIndex.length = r'.entryCount ∧
    (r'.clusterCount ≠ 4294967295 → r'.clusterIndex.length = r'.clusterCount + 1) ∧
    (r'.clusterCount = 4294967295 → r'.clusterIndex = []) := by
  obtain ⟨r1, mimeTypes, urlIndex, clusterIndex, hhead, -, hurl, hcl, hr'⟩ := parse_inv r r' fuel h
  obtain ⟨-, hcc, hsrc, -⟩ := parseHeader_ok r r1 hhead
  have h80 : 80 ≤ r.rangeReader.length := by
    by_contra hcon
    rw [parseHeader_short r (by omega)] at hhead
    exact Except.noConfusion hhead
  have hpos : r1.urlPtrPos < 18446744073709551616 ∧ r1.clusterPtrPos < 18446744073709551616 := by
    rw [parseHeader_eq r h80] at hhead
    split at hhead
    · exact Except.noConfusion hhead
    · injection hhead with hhead
      subst hhead
      have hb : ∀ lo hi : Nat, hi = lo + 8 → hi ≤ 80 →
          leValue (slice r.rangeReader lo hi) < 18446744073709551616 := by
        intro lo hi hk hhi
        have := leValue_lt (slice r.rangeReader lo hi)
        rw [slice_length _ _ _ (by omega) (by omega), show hi - lo = 8 by omega] at this
        omega
      exact ⟨hb 32 40 rfl (by omega), hb 48 56 rfl (by omega)⟩
  obtain ⟨hu0, hu⟩ := parsePointerIndex_elems _ _ _ _ hurl
  obtain ⟨hc0, hc⟩ := parsePointerIndex_elems _ _ _ _ hcl
  obtain ⟨-, hut⟩ := toInt64_nonneg _ hpos.1 hu0
  obtain ⟨-, hct⟩ := toInt64_nonneg _ hpos.2 hc0
  rw [hut] at hu
  rw [hct] at hc
  simp only [hsrc] at hu hc
  subst hr'
  refine ⟨hu, hc, ?_, ?_, ?_⟩
  · show urlIndex.length = r1.entryCount
    rw [hu, List.length_map, List.length_range]
  · intro hne
    show clusterIndex.length = r1.clusterCount + 1
    have hne' : r1.clusterCount ≠ 4294967295 := hne
    rw [hc, List.length_map, List.length_range]
    unfold u32
    omega
  · intro heq
    show clusterIndex = []
    have heq' : r1.clusterCount = 4294967295 := heq
    rw [hc, heq']
    rfl

/-- What a successful `parseEntryAt` has done. The entry is a redirect entry exactly when the
little-endian `u16` at `offset` is `0xFFFF`. For a redirect entry the target is the
little-endian `u32` of the 4 bytes read at `offset + 8`, the namespace is the conversion
`string(b)` of the byte `b` at `offset + 2`, and URL and title are set from the strings that
`readStringsAt(offset + 12, 2, 1024)` returns: the URL if there is one string, the title if
there are two. -/
theorem parseEntryAt_redirect (r : Reader) (offset : Int) (entry : Entry)
    (h : r.parseEntryAt offset = .ok entry) :
    ∃ data3 : List Byte, r.readRangeE offset 3 = .ok data3 ∧
      ((∃ e, entry = .redirect e) ↔ leValue (slice data3 0 2) = 65535) ∧
      ∀ e, entry = .redirect e →
        ∃ (data4 : List Byte) (strs : List GoString × Int),
          r.readRangeE (wrapInt64 (offset + 8)) 4 = .ok data4 ∧
          r.readStringsAt (wrapInt64 (offset + 12)) 2 1024 = .ok strs ∧
          e.redirectIndex = leValue data4 ∧
          e.base = setStrings { mimeTypeIndex := 65535,
                                namespace_ := runeString (data3.getD 2 0).val } strs.1 := by
  unfold Reader.parseEntryAt at h
  simp only [bind_eq_ok_iff] at h
  obtain ⟨base, hbase, h⟩ := h
  unfold Reader.parseBaseEntry at hbase
  simp only [bind_eq_ok_iff, pure, Except.pure, Except.ok.injEq] at hbase
  obtain ⟨data3, hdata3, idx, hidx, hb⟩ := hbase
  have hlen3 : data3.length = 3 := (readRangeE_ok _ _ _ _ hdata3).2.2.1
  have hidx2 := binaryRead_slice data3 0 2 2 .LittleEndian rfl (by omega)
  unfold readUint16 at hidx
  rw [hidx2] at hidx
  simp only [Except.ok.injEq] at hidx
  subst hidx hb
  refine ⟨data3, hdata3, ?_⟩
  by_cases hred : leValue (slice data3 0 2) = zimRedirect
  · simp only [hred, if_true, bind_eq_ok_iff, pure, Except.pure, Except.ok.injEq] at h
    obtain ⟨e, he, hentry⟩ := h
    subst hentry
    refine ⟨⟨fun _ => hred, fun _ => ⟨e, rfl⟩⟩, ?_⟩
    intro e' he'
    injection he' with he'
    subst he'
    unfold Reader.parseRedirectEntry at he
    simp only [bind_eq_ok_iff, pure, Except.pure, Except.ok.injEq] at he
    obtain ⟨data4, hdata4, idx4, hidx4, strs, hstrs, he⟩ := he
    have hlen4 : data4.length = 4 := (readRangeE_ok _ _ _ _ hdata4).2.2.1
    unfold readUint32 at hidx4
    rw [binaryRead_ok 4 _ _ (by omega), List.take_of_length_le (by omega)] at hidx4
    simp only [Except.ok.injEq] at hidx4
    subst hidx4 he
    exact ⟨data4, strs, hdata4, hstrs, rfl, rfl⟩
  · simp only [hred, if_false, bind_eq_ok_iff, pure, Except.pure, Except.ok.injEq] at h
    obtain ⟨e, -, hentry⟩ := h
    subst hentry
    refine ⟨⟨fun ⟨e', he'⟩ => Entry.noConfusion he', fun hc => absurd hc hred⟩, ?_⟩
    intro e' he'
    exact Entry.noConfusion he'

/-- The loop of `readStringsAt` returns a result when it starts inside the file. -/
theorem readStringsLoop_ok (r : Reader) (offset count : Int) (bufferSize : Nat)
    (hb : 0 < bufferSize)
    (hsz : r.rangeReader.length + bufferSize < 9223372036854775808) (fuel : Nat) (st : ScanState)
    (h0 : 0 ≤ offset + st.read) (h1 : offset + st.read ≤ r.rangeReader.length)
    (hf : (r.rangeReader.length : Int) - (offset + st.read) < fuel) :
    ∃ res, readStringsLoop r offset count bufferSize fuel st = .ok res := by
  induction fuel generalizing st with
  | zero => omega
  | succ fuel ih =>
    have hw : wrapInt64 (offset + st.read) = offset + st.read := by
      unfold wrapInt64
      omega
    unfold readStringsLoop
    rw [readRange_eq, hw]
    have hneg : ¬ (offset + st.read < 0) := by omega
    by_cases hshort : r.rangeReader.length - (offset + st.read).toNat < bufferSize
    · simp only [hneg, hshort, if_false, if_true]
      have hlen : ((r.rangeReader.drop (offset + st.read).toNat).take bufferSize).length
          < bufferSize := by
        simp only [List.length_take, List.length_drop]
        omega
      have hz : (0 : Byte) ∈ (r.rangeReader.drop (offset + st.read).toNat).take bufferSize
          ++ List.replicate (bufferSize - ((r.rangeReader.drop
            (offset + st.read).toNat).take bufferSize).length) 0 := by
        apply List.mem_append_right
        rw [List.mem_replicate]
        exact ⟨by omega, rfl⟩
      generalize (r.rangeReader.drop (offset + st.read).toNat).take bufferSize
          ++ List.replicate (bufferSize - ((r.rangeReader.drop
            (offset + st.read).toNat).take bufferSize).length) 0 = data at hz ⊢
      obtain ⟨res, hres⟩ := scanChunk_eof count data st hz
      simp only [Option.isSome_some, ne_eq, not_true_eq_false, and_false, if_false,
        decide_True, hres]
      exact ⟨res, rfl⟩
    · simp only [hneg, hshort, if_false]
      simp only [Option.isSome_none, Bool.false_eq_true, ne_eq, false_and, if_false]
      split
      · exact ⟨_, rfl⟩
      · rename_i st' hst'
        have hread := scanChunk_read _ _ _ _ _ hst'
        have hdl : ((r.rangeReader.drop (offset + st.read).toNat).take bufferSize).length
            = bufferSize := by
          simp only [List.length_take, List.length_drop]
          omega
        rw [hdl] at hread
        apply ih st'
        · rw [hread]; omega
        · rw [hread]; omega
        · rw [hread]; omega

/-- For a count that is not negative and a buffer of at least one byte, `readStringsAt`
returns a result when it starts inside a file of less than `2^63 - bufferSize` bytes. -/
theorem readStringsAt_ok (r : Reader) (offset count : Int) (bufferSize : Nat)
    (hc : 0 ≤ count) (hb : 0 < bufferSize)
    (hsz : r.rangeReader.length + bufferSize < 9223372036854775808)
    (h0 : 0 ≤ offset) (h1 : offset ≤ r.rangeReader.length) :
    ∃ res, r.readStringsAt offset count bufferSize = .ok res := by
  unfold Reader.readStringsAt
  rw [if_neg (by omega)]
  apply readStringsLoop_ok r offset count bufferSize hb hsz
  · show 0 ≤ offset + 0
    omega
  · show offset + 0 ≤ _
    omega
  · show _ - (offset + 0) < _
    push_cast
    omega

/-- The MIME index check on a record inside the file. For a source of less than
`2^63 - 1024` bytes and a content record whose 16 bytes lie inside it, `parseContentEntry`
fails if and only if the MIME index of the record is not below `len(mimeTypes)` taken
modulo `2^16`, and then with `ErrMalformed`; for a MIME table of less than `2^16` strings
that is: if and only if the index is not below `len(mimeTypes)`. When it succeeds, the MIME
type of the entry is the table string at the index. -/
theorem parseContentEntry_mime_iff (r : Reader) (offset : Nat) (base : BaseEntry)
    (hsz : r.rangeReader.length + 1024 < 9223372036854775808)
    (hin : offset + 16 ≤ r.rangeReader.length) :
    ((∃ e, r.parseContentEntry offset base = .error e) ↔
      leValue (slice r.rangeReader offset (offset + 2)) ≥ r.mimeTypes.length % 65536) ∧
    (∀ e, r.parseContentEntry offset base = .error e → e = .malformed) ∧
    (r.mimeTypes.length < 65536 →
      ((∃ e, r.parseContentEntry offset base = .error e) ↔
        leValue (slice r.rangeReader offset (offset + 2)) ≥ r.mimeTypes.length)) ∧
    (∀ e, r.parseContentEntry offset base = .ok e →
      e.MimeType = r.mimeTypes.getD (leValue (slice r.rangeReader offset (offset + 2))) []) := by
  have hread := readRangeE_slice r offset 16 hin
  have hidx : slice (slice r.rangeReader offset (offset + 16)) 0 2
      = slice r.rangeReader offset (offset + 2) := by
    rw [slice_slice _ _ _ _ _ (by omega)]
    rfl
  obtain ⟨hfail, hok⟩ := parseContentEntry_mime_check r offset base _ hread
  rw [hidx] at hfail hok
  have hw : wrapInt64 ((offset : Int) + 16) = (offset : Int) + 16 := by
    unfold wrapInt64
    omega
  obtain ⟨strs, hstrs⟩ := readStringsAt_ok r ((offset : Int) + 16) 2 1024 (by omega) (by omega) hsz
    (by omega) (by omega)
  rw [← hw] at hstrs
  have hiff : (∃ e, r.parseContentEntry offset base = .error e) ↔
      leValue (slice r.rangeReader offset (offset + 2)) ≥ r.mimeTypes.length % 65536 := by
    constructor
    · rintro ⟨e, he⟩
      by_contra hlt
      have h := (hok (by omega)).1 e he
      rw [hstrs] at h
      exact Except.noConfusion h
    · intro hge
      exact ⟨_, hfail hge⟩
  refine ⟨hiff, ?_, ?_, ?_⟩
  · intro e he
    have hge := hiff.1 ⟨e, he⟩
    rw [hfail hge] at he
    exact (Except.error.inj he).symm
  · intro hlen
    rw [hiff, Nat.mod_eq_of_lt hlen]
  · intro e he
    by_cases hge : leValue (slice r.rangeReader offset (offset + 2)) ≥ r.mimeTypes.length % 65536
    · rw [hfail hge] at he
      exact Except.noConfusion he
    · obtain ⟨e', he', hm⟩ := (hok (by omega)).2 strs hstrs
      rw [he'] at he
      have hee := Except.ok.inj he
      subst hee
      exact hm

/-- The length of `encodeStrings`. -/
theorem encodeStrings_length (ss : List GoString) :
    (encodeStrings ss).length = encodedLength ss := by
  induction ss with
  | nil => rfl
  | cons s ss ih =>
    simp only [encodeStrings, encodedLength, List.length_append, List.length_cons, ih]
    omega

/-- Scanning a chunk in two parts. -/
theorem scanChunk_append (count : Int) (eof : Bool) (a b : List Byte) :
    ∀ st, scanChunk count eof (a ++ b) st =
      match scanChunk count eof a st with
      | .inl res => .inl res
      | .inr st' => scanChunk count eof b st' := by
  induction a with
  | nil =>
    intro st
    rfl
  | cons d ds ih =>
    intro st
    simp only [List.cons_append, scanChunk, List.append_eq]
    by_cases hd : d = 0
    · simp only [hd, if_true]
      by_cases hw : st.wasNullByte = true
      · simp only [hw, if_true]
      · simp only [hw, Bool.false_eq_true, if_false]
        split
        · rfl
        · exact ih _
    · simp only [hd, if_false]
      exact ih _

/-- Scanning the bytes of a string without NUL: they go to the string builder. -/
theorem scanChunk_body (count : Int) (eof : Bool) (s tl : List Byte) (hs : (0 : Byte) ∉ s)
    (hne : s ≠ []) :
    ∀ st, scanChunk count eof (s ++ tl) st =
      scanChunk count eof tl
        { sb := st.sb ++ s, read := st.read + s.length, values := st.values, wasNullByte := false } := by
  induction s with
  | nil => exact absurd rfl hne
  | cons d ds ih =>
    intro st
    have hd : d ≠ 0 := fun h => hs (by rw [h]; exact List.mem_cons_self _ _)
    have hds : (0 : Byte) ∉ ds := fun h => hs (List.mem_cons_of_mem _ h)
    simp only [List.cons_append, scanChunk, hd, if_false, List.append_eq]
    by_cases hnil : ds = []
    · subst hnil
      simp only [List.nil_append, List.length_singleton, Nat.cast_one]
    · rw [ih hds hnil]
      simp only [List.append_assoc, List.singleton_append, List.length_cons, Nat.cast_add,
        Nat.cast_one]
      congr 2
      omega

/-- Trimming the NUL that ends a string without NUL. -/
theorem trimRightNul_terminated (sb s : List Byte) (hs : (0 : Byte) ∉ s) (hne : s ≠ [])
    (hsb : sb = []) : trimRightNul (sb ++ s ++ [0]) = s := by
  subst hsb
  unfold trimRightNul
  simp only [List.nil_append, List.reverse_append, List.reverse_cons, List.reverse_nil,
    List.singleton_append]
  have hlast : ∃ x xs, s.reverse = x :: xs ∧ x ≠ 0 := by
    cases hr : s.reverse with
    | nil =>
      have : s = [] := by simpa using hr
      exact absurd this hne
    | cons x xs =>
      refine ⟨x, xs, rfl, ?_⟩
      intro hx
      apply hs
      have : x ∈ s.reverse := by rw [hr]; exact List.mem_cons_self _ _
      rw [← hx]
      exact List.mem_reverse.1 this
  obtain ⟨x, xs, hr, hx⟩ := hlast
  rw [List.dropWhile_cons_of_pos (by simp), hr, List.dropWhile_cons_of_neg (by simpa using hx),
    ← hr, List.reverse_reverse]

/-- Scanning one NUL-terminated string, the count not being reached: the string is
appended to the values. -/
theorem scanChunk_one (count : Int) (s tl : List Byte) (hs : (0 : Byte) ∉ s) (hne : s ≠ [])
    (vs : List GoString) (n : Int) (w : Bool) (hc : ((vs.length + 1 : Nat) : Int) ≠ count) :
    scanChunk count false (s ++ 0 :: tl) { sb := [], read := n, values := vs, wasNullByte := w }
      = scanChunk count false tl
          { sb := [], read := n + s.length + 1, values := vs ++ [s], wasNullByte := true } := by
  rw [scanChunk_body count false s (0 :: tl) hs hne]
  simp only [scanChunk, if_true, Bool.false_eq_true, if_false]
  rw [trimRightNul_terminated [] s hs hne rfl]
  have hc2 : ¬ (((vs ++ [s]).length : Int) = count ∨ False) := by
    simp only [List.length_append, List.length_singleton, or_false]
    exact hc
  simp only [hc2, if_false]

/-- Scanning one NUL-terminated string that reaches the count: the scan returns. -/
theorem scanChunk_last (count : Int) (s tl : List Byte) (hs : (0 : Byte) ∉ s) (hne : s ≠ [])
    (vs : List GoString) (n : Int) (w : Bool) (hc : ((vs.length + 1 : Nat) : Int) = count) :
    scanChunk count false (s ++ 0 :: tl) { sb := [], read := n, values := vs, wasNullByte := w }
      = .inl (vs ++ [s], n + s.length + 1) := by
  rw [scanChunk_body count false s (0 :: tl) hs hne]
  simp only [scanChunk, if_true, Bool.false_eq_true, if_false]
  rw [trimRightNul_terminated [] s hs hne rfl]
  have hc2 : (((vs ++ [s]).length : Int) = count ∨ False) := by
    simp only [List.length_append, List.length_singleton, or_false]
    exact hc
  simp only [hc2, if_true]

/-- Scanning NUL-terminated strings, fewer than the count asks for: all of them are
appended to the values. -/
theorem scanChunk_strings (count : Int) (tl : List Byte) (ss : List GoString)
    (hss : ∀ s ∈ ss, s ≠ [] ∧ (0 : Byte) ∉ s) :
    ∀ (vs : List GoString) (n : Int) (w : Bool),
      ((vs.length + ss.length : Nat) : Int) < count →
      scanChunk count false (encodeStrings ss ++ tl)
          { sb := [], read := n, values := vs, wasNullByte := w }
        = scanChunk count false tl
            { sb := [], read := n + encodedLength ss, values := vs ++ ss,
              wasNullByte := if ss = [] then w else true } := by
  induction ss with
  | nil =>
    intro vs n w _
    simp [encodeStrings, encodedLength]
  | cons s ss ih =>
    intro vs n w hlt
    obtain ⟨hne, hs⟩ := hss s (List.mem_cons_self _ _)
    have hss' : ∀ t ∈ ss, t ≠ [] ∧ (0 : Byte) ∉ t := fun t ht => hss t (List.mem_cons_of_mem _ ht)
    simp only [List.length_cons] at hlt
    simp only [encodeStrings, List.append_assoc, List.cons_append]
    rw [scanChunk_one count s _ hs hne vs n w (by push_cast at hlt ⊢; omega),
      ih hss' (vs ++ [s]) _ true (by simp only [List.length_append, List.length_singleton]; push_cast at hlt ⊢; omega)]
    simp only [encodedLength, List.append_assoc, List.singleton_append, ite_self, if_false,
      Nat.cast_add, Nat.cast_one]
    congr 2
    omega

/-- Scanning exactly as many NUL-terminated strings as the count asks for: the scan returns
them, with the number of their bytes. -/
theorem scanChunk_strings_count (count : Int) (tl : List Byte) (ss : List GoString)
    (hss : ∀ s ∈ ss, s ≠ [] ∧ (0 : Byte) ∉ s) (hne : ss ≠ []) :
    ∀ (vs : List GoString) (n : Int) (w : Bool),
      ((vs.length + ss.length : Nat) : Int) = count →
      scanChunk count false (encodeStrings ss ++ tl)
          { sb := [], read := n, values := vs, wasNullByte := w }
        = .inl (vs ++ ss, n + encodedLength ss) := by
  induction ss with
  | nil => exact absurd rfl hne
  | cons s ss ih =>
    intro vs n w heq
    obtain ⟨hsne, hs⟩ := hss s (List.mem_cons_self _ _)
    have hss' : ∀ t ∈ ss, t ≠ [] ∧ (0 : Byte) ∉ t := fun t ht => hss t (List.mem_cons_of_mem _ ht)
    simp only [List.length_cons] at heq
    simp only [encodeStrings, List.append_assoc, List.cons_append]
    by_cases hnil : ss = []
    · subst hnil
      rw [scanChunk_last count s _ hs hsne vs n w (by simpa using heq)]
      simp only [encodedLength, Nat.add_zero, Nat.cast_add, Nat.cast_one]
      congr 2
      omega
    · rw [scanChunk_one count s _ hs hsne vs n w (by
          have : 0 < ss.length := List.length_pos.2 hnil
          push_cast at heq ⊢
          omega),
        ih hss' hnil (vs ++ [s]) _ true (by
          simp only [List.length_append, List.length_singleton]
          push_cast at heq ⊢
          omega)]
      simp only [encodedLength, List.append_assoc, List.singleton_append, Nat.cast_add,
        Nat.cast_one]
      congr 2
      omega

/-- Scanning fewer NUL-terminated strings than the count asks for, followed by a second
NUL: the scan returns them, with the number of their bytes plus one. -/
theorem scanChunk_strings_end (count : Int) (tl : List Byte) (ss : List GoString)
    (hss : ∀ s ∈ ss, s ≠ [] ∧ (0 : Byte) ∉ s) (hne : ss ≠ [])
    (vs : List GoString) (n : Int) (w : Bool)
    (hlt : ((vs.length + ss.length : Nat) : Int) < count) :
    scanChunk count false (encodeStrings ss ++ 0 :: tl)
        { sb := [], read := n, values := vs, wasNullByte := w }
      = .inl (vs ++ ss, n + encodedLength ss + 1) := by
  rw [scanChunk_strings count (0 :: tl) ss hss vs n w hlt]
  simp only [scanChunk, hne, if_true, if_false]

/-- The loop of `readStringsAt` over chunks that lie inside the file: if scanning the next
`n` bytes of the source makes the scan return, and `bufferSize` more bytes of the file
follow them, the loop returns that result. -/
theorem readStringsLoop_inside (r : Reader) (offset count : Int) (bufferSize : Nat)
    (hb : 0 < bufferSize) (hsz : r.rangeReader.length < 9223372036854775808) (fuel : Nat) :
    ∀ (n : Nat) (st : ScanState) (pos : Nat) (res : List GoString × Int),
      offset + st.read = (pos : Int) →
      pos + n + bufferSize ≤ r.rangeReader.length →
      scanChunk count false ((r.rangeReader.drop pos).take n) st = .inl res →
      n < fuel →
      readStringsLoop r offset count bufferSize fuel st = .ok res := by
  induction fuel with
  | zero =>
    intro n st pos res _ _ _ hf
    omega
  | succ fuel ih =>
    intro n st pos res hpos hfit hscan hf
    have hw : wrapInt64 (offset + st.read) = (pos : Int) := by
      rw [hpos]
      unfold wrapInt64
      omega
    have hrange : r.readRange (wrapInt64 (offset + st.read)) bufferSize
        = ((r.rangeReader.drop pos).take bufferSize, none) := by
      rw [readRange_eq, hw]
      have h1 : ¬ ((pos : Int) < 0) := by omega
      have h2 : ¬ (r.rangeReader.length - (pos : Int).toNat < bufferSize) := by
        simp only [Int.toNat_ofNat]
        omega
      rw [if_neg h1, if_neg h2, Int.toNat_ofNat]
    have hdl : ((r.rangeReader.drop pos).take bufferSize).length = bufferSize := by
      simp only [List.length_take, List.length_drop]
      omega
    have hdec : decide ((none : Option Error) = some Error.eof) = false := by decide
    rw [readStringsLoop, hrange]
    simp only [Option.isSome_none, Bool.false_eq_true, false_and, if_false, hdec]
    by_cases hn : n ≤ bufferSize
    · have hsplit : (r.rangeReader.drop pos).take bufferSize
          = (r.rangeReader.drop pos).take n
            ++ ((r.rangeReader.drop pos).take bufferSize).drop n := by
        have := (List.take_append_drop n ((r.rangeReader.drop pos).take bufferSize)).symm
        rwa [List.take_take, Nat.min_eq_left hn] at this
      rw [hsplit, scanChunk_append, hscan]
    · have hsplit : (r.rangeReader.drop pos).take n
          = (r.rangeReader.drop pos).take bufferSize
            ++ ((r.rangeReader.drop pos).drop bufferSize).take (n - bufferSize) := by
        have := List.take_add (r.rangeReader.drop pos) bufferSize (n - bufferSize)
        rwa [show bufferSize + (n - bufferSize) = n by omega] at this
      rw [hsplit, scanChunk_append] at hscan
      cases hc : scanChunk count false ((r.rangeReader.drop pos).take bufferSize) st with
      | inl res' =>
        rw [hc] at hscan
        exact congrArg Except.ok (Sum.inl.inj hscan)
      | inr st' =>
        rw [hc] at hscan
        simp only [] at hscan ⊢
        have hread := scanChunk_read _ _ _ _ _ hc
        rw [hdl] at hread
        rw [List.drop_drop] at hscan
        apply ih (n - bufferSize) st' (pos + bufferSize) res
        · rw [hread]
          push_cast
          omega
        · omega
        · exact hscan
        · omega

/-- The bytes of two sequences of NUL-terminated strings, one after the other. -/
theorem encodeStrings_append (a b : List GoString) :
    encodeStrings (a ++ b) = encodeStrings a ++ encodeStrings b := by
  induction a with
  | nil => rfl
  | cons s a ih => simp only [List.cons_append, encodeStrings, List.append_eq, ih, List.append_assoc]

/-- The string scanner away from the end of the file. Let the bytes at `offset` be the
non-empty NUL-terminated strings `ss` followed by `rest`, in a source of less than `2^63`
bytes, and let `count ≥ 1` and `bufferSize ≥ 1`.
If `ss` has at least `count` strings and `bufferSize` bytes of the file follow the first
`count` of them, `readStringsAt` returns exactly these `count` strings and the number of
their bytes, the sum of `len(s) + 1`.
If `ss` is not empty, has fewer than `count` strings, is followed by a second NUL, and
`bufferSize` bytes of the file follow that NUL, `readStringsAt` returns exactly `ss` and
the number of their bytes plus one. -/
theorem readStringsAt_inside (r : Reader) (offset count bufferSize : Nat) (ss : List GoString)
    (rest : List Byte) (hsz : r.rangeReader.length < 9223372036854775808)
    (hcount : 1 ≤ count) (hb : 1 ≤ bufferSize)
    (hss : ∀ s ∈ ss, s ≠ [] ∧ (0 : Byte) ∉ s)
    (hsrc : r.rangeReader.drop offset = encodeStrings ss ++ rest) :
    (count ≤ ss.length →
      offset + encodedLength (ss.take count) + bufferSize ≤ r.rangeReader.length →
      r.readStringsAt offset count bufferSize
        = .ok (ss.take count, (encodedLength (ss.take count) : Int))) ∧
    (ss.length < count → ss ≠ [] → rest.head? = some 0 →
      offset + encodedLength ss + 1 + bufferSize ≤ r.rangeReader.length →
      r.readStringsAt offset count bufferSize = .ok (ss, (encodedLength ss : Int) + 1)) := by
  have hneg : ¬ ((count : Int) < 0) := by omega
  have hinit : (offset : Int) + ({} : ScanState).read = (offset : Int) := by
    show (offset : Int) + 0 = offset
    omega
  constructor
  · intro hle hfit
    have hss1 : ∀ s ∈ ss.take count, s ≠ [] ∧ (0 : Byte) ∉ s :=
      fun s hs => hss s (List.mem_of_mem_take hs)
    have hlen1 : (ss.take count).length = count := by
      rw [List.length_take]
      omega
    have hne1 : ss.take count ≠ [] := by
      intro h
      rw [h] at hlen1
      simp at hlen1
      omega
    have htake : (r.rangeReader.drop offset).take (encodedLength (ss.take count))
        = encodeStrings (ss.take count) := by
      have hsplit : encodeStrings ss
          = encodeStrings (ss.take count) ++ encodeStrings (ss.drop count) := by
        rw [← encodeStrings_append, List.take_append_drop]
      rw [hsrc, hsplit, List.append_assoc]
      exact List.take_left' (encodeStrings_length _)
    have hscan := scanChunk_strings_count (count : Int) [] (ss.take count) hss1 hne1 [] 0 false
      (by simp only [List.length_nil, Nat.zero_add, hlen1])
    rw [List.append_nil, List.nil_append, Int.zero_add] at hscan
    unfold Reader.readStringsAt
    rw [if_neg hneg]
    exact readStringsLoop_inside r offset count bufferSize (by omega) hsz _
      (encodedLength (ss.take count)) {} offset _ hinit hfit (by rw [htake]; exact hscan) (by omega)
  · intro hlt hne hhead hfit
    obtain ⟨rest', hrest⟩ : ∃ rest', rest = 0 :: rest' := by
      cases rest with
      | nil => simp at hhead
      | cons x xs =>
        simp only [List.head?_cons, Option.some.injEq] at hhead
        exact ⟨xs, by rw [hhead]⟩
    have htake : (r.rangeReader.drop offset).take (encodedLength ss + 1)
        = encodeStrings ss ++ [0] := by
      rw [hsrc, hrest]
      have : encodeStrings ss ++ 0 :: rest' = (encodeStrings ss ++ [0]) ++ rest' := by simp
      rw [this]
      exact List.take_left' (by rw [List.length_append, encodeStrings_length]; rfl)
    have hscan := scanChunk_strings_end (count : Int) [] ss hss hne [] 0 false
      (by simp only [List.length_nil, Nat.zero_add]; omega)
    rw [List.nil_append, Int.zero_add] at hscan
    unfold Reader.readStringsAt
    rw [if_neg hneg]
    exact readStringsLoop_inside r offset count bufferSize (by omega) hsz _
      (encodedLength ss + 1) {} offset _ hinit hfit (by rw [htake]; exact hscan) (by omega)


set_option maxRecDepth 1000000 in
/-- In the sample archive the two strings `a` and `T` at offset 228 are followed by more than
16 bytes of the file: with chunks of 16 bytes `readStringsAt(228, 2, 16)` returns both
strings, with 4 bytes consumed. -/
theorem readStringsAt_inside_sample :
    sampleReader.readStringsAt 228 2 16 = .ok ([[97], [84]], 4) :=
  (readStringsAt_inside sampleReader 228 2 16 [[97], [84]] (sampleArchive.drop 232)
    (by decide) (by decide) (by decide) (by decide) (by decide)).1 (by decide) (by decide)

/-- The first component of `EntryAt` does not depend on the cache. -/
theorem EntryAt_fst (r : Reader) (c c2 : Cache) (idx : Int) :
    (r.EntryAt c idx).1 = (r.EntryAt c2 idx).1 := by
  unfold Reader.EntryAt
  by_cases hg : idx ≥ r.urlIndex.length ∨ idx < 0
  · rw [if_pos hg, if_pos hg]
  · rw [if_neg hg, if_neg hg]
    cases h : r.parseEntryAt (toInt64 (r.urlIndex.getD idx.toNat 0)) <;> simp only [h]

/-- With an empty URL pointer table and the entry count 0, the first `Next()` of a fresh
iterator asks for entry 0, since `entryCount-1` is `0xFFFFFFFF` on `uint32`, and stores
`ErrInvalidIndex`. -/
theorem Next_entryCount_zero (r : Reader) (c : Cache) (h0 : r.entryCount = 0)
    (hlen : r.urlIndex.length = 0) :
    r.Entries.Next r c = (false, { index := 0, entry := none, err := some .invalidIndex }, c) := by
  have hE : r.EntryAt c (0 : Int) = (.error .invalidIndex, c) := by
    unfold Reader.EntryAt
    rw [if_pos (by rw [hlen]; left; exact Int.le_refl _)]
  unfold EntryIterator.Next Reader.Entries Reader.EntryCount
  rw [h0]
  simp only [Option.isSome_none, Bool.false_eq_true, if_false]
  rw [if_neg (by decide), hE]

/-- One round of the loop of `preload`. -/
theorem preloadLoop_succ (r : Reader) (fuel : Nat) (it : EntryIterator) (c : Cache)
    (urls : List (GoString × Int)) :
    preloadLoop r (fuel + 1) it c urls =
      match it.Next r c with
      | (false, it', c') => some (it', c', urls)
      | (true, it', c') =>
        match it'.Entry with
        | none => none
        | some entry => preloadLoop r fuel it' c' (mapInsert urls entry.FullURL it'.Index) := rfl

/-- An archive whose header gives the entry count 0 does not open: `preload` returns the
`ErrInvalidIndex` of the iterator. -/
theorem NewReader_entryCount_zero (fuel : Nat) (src : List Byte) (opts : Options) (r : Reader)
    (hparse : Reader.parse { rangeReader := src } fuel = some (.ok r))
    (h0 : r.entryCount = 0) (hopts : 0 < opts.CacheSize) :
    NewReader fuel src opts = some (.error .invalidIndex) := by
  have hlen : r.urlIndex.length = 0 := by
    rw [(parse_ok _ r fuel hparse).1, h0]
  have hloop : preloadLoop r (r.urlIndex.length + 1) r.Entries { size := opts.CacheSize.toNat } []
      = some ({ index := 0, entry := none, err := some .invalidIndex },
          { size := opts.CacheSize.toNat }, []) := by
    rw [hlen, preloadLoop_succ, Next_entryCount_zero r _ h0 hlen]
  unfold NewReader
  rw [if_neg (by omega), hparse]
  show some (preloadFinish r (preloadLoop r (r.urlIndex.length + 1) r.Entries _ [])) = _
  rw [hloop]
  rfl

set_option maxRecDepth 1000000 in
/-- C28, the code at the failing input. The header of `emptyArchive` gives the entry count
0, and `parse` succeeds with an empty URL pointer table. The first `Next()` of a fresh
iterator returns false with `Err() = ErrInvalidIndex`, not nil, and `NewReader` fails with
`ErrInvalidIndex`. -/
theorem empty_archive_does_not_open :
    leValue (slice emptyArchive 24 28) = 0 ∧
    (Reader.parse { rangeReader := emptyArchive } 4).map (fun res => res.toOption.map
      (fun r => (r.EntryCount, r.urlIndex, (r.Entries.Next r emptyCache).1,
        (r.Entries.Next r emptyCache).2.1.Err)))
      = some (some (0, [], false, some .invalidIndex)) ∧
    NewReader 4 emptyArchive {} = some (.error .invalidIndex) :=
  ⟨by decide, by decide, by decide⟩

/-- Go `CompressedBlobReader.Close` returns nil and changes no field. -/
theorem Close_changes_nothing (b : CompressedBlobReader) : b.Close = (none, b) := rfl

/-- Serving a call does not change the bytes behind the `bytes.Reader`. -/
theorem serve_same_bytes (data : BytesReader) (op : BlobOp) : (op.serve data).2.s = data.s := by
  cases op with
  | read n =>
    simp only [BlobOp.serve, BytesReader.Read]
    split <;> rfl
  | size => rfl
  | seek offset whence =>
    simp only [BlobOp.serve, BytesReader.Seek]
    split
    · rfl
    · split <;> rfl

/-- The calls that the function passed to `loadCluster.Do` makes: none when `make` panics
on the length of the cluster, the read of the cluster alone when it fails, and the read
followed by the decoder factory on the bytes read when it succeeds. -/
theorem loadBodyTraced_events (r : Reader) (b : CompressedBlobReader) :
    (b.loadBodyTraced r).1 =
      if subU64 b.clusterEndOffset b.clusterStartOffset > maxAlloc then []
      else
        match r.readRangeE (toInt64 (u64 (b.clusterStartOffset + 1)))
            (subU64 b.clusterEndOffset b.clusterStartOffset) with
        | .error _ => [.readCluster (toInt64 (u64 (b.clusterStartOffset + 1)))
            (subU64 b.clusterEndOffset b.clusterStartOffset)]
        | .ok c => [.readCluster (toInt64 (u64 (b.clusterStartOffset + 1)))
            (subU64 b.clusterEndOffset b.clusterStartOffset), .decode c] := by
  unfold CompressedBlobReader.loadBodyTraced
  simp only []
  by_cases hn : subU64 b.clusterEndOffset b.clusterStartOffset > maxAlloc
  · rw [if_pos hn, if_pos hn]
  · rw [if_neg hn, if_neg hn]
    cases r.readRangeE (toInt64 (u64 (b.clusterStartOffset + 1)))
      (subU64 b.clusterEndOffset b.clusterStartOffset) with
    | error e => rfl
    | ok c => rfl

/-- The function passed to `loadCluster.Do` reads the cluster at most once and calls the
decoder factory at most once. -/
theorem loadBodyTraced_counts (r : Reader) (b : CompressedBlobReader) :
    clusterReadCount (b.loadBodyTraced r).1 ≤ 1 ∧ decoderCallCount (b.loadBodyTraced r).1 ≤ 1 := by
  rw [loadBodyTraced_events]
  split
  · exact ⟨Nat.zero_le _, Nat.zero_le _⟩
  · split
    · exact ⟨Nat.le_refl _, Nat.zero_le _⟩
    · exact ⟨Nat.le_refl _, Nat.le_refl _⟩

/-- The calls that one `loadClusterData` makes outside the blob reader: none, or those of
the function passed to `loadCluster.Do`. -/
theorem loadClusterDataTraced_events (r : Reader) (b : CompressedBlobReader) :
    (b.loadClusterDataTraced r).1 = [] ∨
    (b.loadClusterDataTraced r).1 = (b.loadBodyTraced r).1 := by
  unfold CompressedBlobReader.loadClusterDataTraced
  split
  · exact Or.inl rfl
  · split
    · exact Or.inl rfl
    · right
      cases hb : b.loadBodyTraced r with
      | mk events res =>
        cases res with
        | ok data => rfl
        | error e => cases e <;> rfl

/-- Once the `sync.Once` is done, `loadClusterData` returns the stored error and changes
nothing. -/
theorem loadClusterData_done (r : Reader) (b : CompressedBlobReader)
    (hc : b.closed = false) (hl : b.loadCluster = true) :
    b.loadClusterData r = (b.loadClusterErr, b) := by
  rw [loadClusterData_eq]
  simp only [hc, hl, Bool.false_eq_true, if_false, if_true]

/-- Once the `sync.Once` is done, a call does not read the cluster and does not invoke the
decoder factory. -/
theorem loadEvents_done (r : Reader) (b : CompressedBlobReader) (hl : b.loadCluster = true) :
    b.loadEvents r = (0, 0) := by
  unfold CompressedBlobReader.loadEvents CompressedBlobReader.loadClusterDataTraced
  by_cases hc : b.closed = true
  · rw [if_pos hc]
    rfl
  · rw [if_neg hc, if_pos hl]
    rfl

/-- A call on a reader whose load has stored the error `e` fails with `e` and changes
nothing. -/
theorem call_failed (r : Reader) (b : CompressedBlobReader) (e : Error)
    (hc : b.closed = false) (hl : b.loadCluster = true) (he : b.loadClusterErr = some e)
    (op : BlobOp) : b.call r op = (op.failure e, b) := by
  have hd := loadClusterData_done r b hc hl
  rw [he] at hd
  cases op with
  | read n => simp only [CompressedBlobReader.call, CompressedBlobReader.Read, hd, BlobOp.failure]
  | size => simp only [CompressedBlobReader.call, CompressedBlobReader.Size, hd, BlobOp.failure]
  | seek o w => simp only [CompressedBlobReader.call, CompressedBlobReader.Seek, hd, BlobOp.failure]

/-- A call on a reader whose load has panicked (the `sync.Once` is done, no error and no
blob are stored) panics, and changes nothing. -/
theorem call_panicked (r : Reader) (b : CompressedBlobReader)
    (hc : b.closed = false) (hl : b.loadCluster = true) (he : b.loadClusterErr = none)
    (hdata : b.data = none) (op : BlobOp) : b.call r op = (op.failure .panic, b) := by
  have hd := loadClusterData_done r b hc hl
  rw [he] at hd
  cases op with
  | read n =>
    simp only [CompressedBlobReader.call, CompressedBlobReader.Read, hd, hdata, BlobOp.failure]
  | size =>
    simp only [CompressedBlobReader.call, CompressedBlobReader.Size, hd, hdata, BlobOp.failure]
  | seek o w =>
    simp only [CompressedBlobReader.call, CompressedBlobReader.Seek, hd, hdata, BlobOp.failure]

/-- A call on a reader whose load has stored a blob is served by the `bytes.Reader` over
the blob. -/
theorem call_loaded (r : Reader) (b : CompressedBlobReader) (data : BytesReader)
    (hc : b.closed = false) (hl : b.loadCluster = true) (he : b.loadClusterErr = none)
    (hdata : b.data = some data) (op : BlobOp) :
    b.call r op = ((op.serve data).1, { b with data := some (op.serve data).2 }) := by
  have hd := loadClusterData_done r b hc hl
  rw [he] at hd
  cases op with
  | read n =>
    simp only [CompressedBlobReader.call, CompressedBlobReader.Read, hd, hdata, BlobOp.serve]
  | size =>
    simp only [CompressedBlobReader.call, CompressedBlobReader.Size, hd, hdata, BlobOp.serve]
    cases b
    simp only at hdata
    subst hdata
    rfl
  | seek o w =>
    simp only [CompressedBlobReader.call, CompressedBlobReader.Seek, hd, hdata, BlobOp.serve]

/-- A call on a reader whose `sync.Once` is done leaves it done, and its result and the
reader afterwards do not depend on the byte source. -/
theorem call_done (r r2 : Reader) (b : CompressedBlobReader)
    (hc : b.closed = false) (hl : b.loadCluster = true) (op : BlobOp) :
    (b.call r op).2.closed = false ∧ (b.call r op).2.loadCluster = true ∧
    b.call r2 op = b.call r op := by
  cases he : b.loadClusterErr with
  | some e =>
    rw [call_failed r b e hc hl he op, call_failed r2 b e hc hl he op]
    exact ⟨hc, hl, rfl⟩
  | none =>
    cases hd : b.data with
    | none =>
      rw [call_panicked r b hc hl he hd op, call_panicked r2 b hc hl he hd op]
      exact ⟨hc, hl, rfl⟩
    | some data =>
      rw [call_loaded r b data hc hl he hd op, call_loaded r2 b data hc hl he hd op]
      exact ⟨hc, hl, rfl⟩

/-- A sequence of calls on a reader whose `sync.Once` is done reads no cluster, invokes no
decoder, and does not depend on the byte source. -/
theorem calls_done (r r2 : Reader) (ops : List BlobOp) :
    ∀ b : CompressedBlobReader, b.closed = false → b.loadCluster = true →
      b.callsEvents r ops = (0, 0) ∧ b.calls r2 ops = b.calls r ops := by
  induction ops with
  | nil =>
    intro b _ _
    exact ⟨rfl, rfl⟩
  | cons op ops ih =>
    intro b hc hl
    obtain ⟨hc', hl', hsame⟩ := call_done r r2 b hc hl op
    obtain ⟨hev, hcalls⟩ := ih _ hc' hl'
    constructor
    · simp only [CompressedBlobReader.callsEvents, loadEvents_done r b hl, hev]
    · simp only [CompressedBlobReader.calls, hsame, hcalls]

/-- A sequence of calls on a reader whose load has stored the error `e`: every call fails
with `e`. -/
theorem calls_failed (r : Reader) (e : Error) (ops : List BlobOp) (b : CompressedBlobReader)
    (hc : b.closed = false) (hl : b.loadCluster = true) (he : b.loadClusterErr = some e) :
    b.calls r ops = (ops.map (BlobOp.failure e), b) := by
  induction ops with
  | nil => rfl
  | cons op ops ih =>
    simp only [CompressedBlobReader.calls, call_failed r b e hc hl he op, ih, List.map_cons]

/-- A sequence of calls on a reader whose load has panicked: every call panics. -/
theorem calls_panicked (r : Reader) (ops : List BlobOp) (b : CompressedBlobReader)
    (hc : b.closed = false) (hl : b.loadCluster = true) (he : b.loadClusterErr = none)
    (hdata : b.data = none) :
    b.calls r ops = (ops.map (BlobOp.failure .panic), b) := by
  induction ops with
  | nil => rfl
  | cons op ops ih =>
    simp only [CompressedBlobReader.calls, call_panicked r b hc hl he hdata op, ih, List.map_cons]

/-- A sequence of calls on a reader whose load has stored a blob: the calls are served by
the one `bytes.Reader` over the blob. -/
theorem calls_loaded (r : Reader) (ops : List BlobOp) :
    ∀ (b : CompressedBlobReader) (data : BytesReader),
      b.closed = false → b.loadCluster = true → b.loadClusterErr = none → b.data = some data →
      b.calls r ops = ((BlobOp.serveAll data ops).1,
        { b with data := some (BlobOp.serveAll data ops).2 }) := by
  induction ops with
  | nil =>
    intro b data _ _ _ hdata
    simp only [CompressedBlobReader.calls, BlobOp.serveAll, ← hdata]
  | cons op ops ih =>
    intro b data hc hl he hdata
    simp only [CompressedBlobReader.calls, call_loaded r b data hc hl he hdata op,
      BlobOp.serveAll]
    rw [ih { b with data := some (op.serve data).2 } (op.serve data).2 hc hl he rfl]

/-- The bytes behind the `bytes.Reader` stay the same through a sequence of calls. -/
theorem serveAll_same_bytes (ops : List BlobOp) :
    ∀ data : BytesReader, (BlobOp.serveAll data ops).2.s = data.s := by
  induction ops with
  | nil => intro data; rfl
  | cons op ops ih =>
    intro data
    simp only [BlobOp.serveAll]
    rw [ih, serve_same_bytes]

/-- The first `loadClusterData` of a fresh reader runs the function passed to
`loadCluster.Do` and sets the `sync.Once` done. -/
theorem loadClusterData_fresh (r : Reader) (b : CompressedBlobReader)
    (hc : b.closed = false) (hl : b.loadCluster = false) :
    (b.loadClusterData r).2.closed = false ∧ (b.loadClusterData r).2.loadCluster = true ∧
    (∀ s, b.loadBody r = .ok s →
      b.loadClusterData r = (none, { b with loadCluster := true, data := some { s := s } })) ∧
    (b.loadBody r = .error .panic →
      b.loadClusterData r = (some .panic, { b with loadCluster := true })) ∧
    (∀ e, e ≠ .panic → b.loadBody r = .error e →
      b.loadClusterData r = (some e, { b with loadCluster := true, loadClusterErr := some e })) := by
  rw [loadClusterData_eq]
  rw [if_neg (by rw [hc]; decide), if_neg (by rw [hl]; decide)]
  cases hb : b.loadBody r with
  | ok s =>
    refine ⟨hc, rfl, fun s' hs' => ?_, fun h => Except.noConfusion h, fun e _ h => Except.noConfusion h⟩
    cases hs'
    rfl
  | error e =>
    cases e <;>
      exact ⟨hc, rfl, fun s h => Except.noConfusion h,
        fun h => by first | rfl | exact absurd (Except.error.inj h) (by decide),
        fun e' hne h => by
          have := Except.error.inj h
          subst this
          first | rfl | exact absurd rfl hne⟩

/-- A call of `loadClusterData` reads the cluster at most once and invokes the decoder
factory at most once. -/
theorem loadEvents_le (r : Reader) (b : CompressedBlobReader) :
    (b.loadEvents r).1 ≤ 1 ∧ (b.loadEvents r).2 ≤ 1 := by
  have htr := loadClusterDataTraced_events r b
  unfold CompressedBlobReader.loadEvents
  rcases htr with h | h
  · rw [h]
    exact ⟨Nat.zero_le _, Nat.zero_le _⟩
  · rw [h]
    exact loadBodyTraced_counts r b

/-- The first call on a fresh reader whose load returns the blob `s`: the call is served
by a new `bytes.Reader` over `s`. -/
theorem first_call_loaded (r : Reader) (b : CompressedBlobReader)
    (hc : b.closed = false) (hl : b.loadCluster = false) (s : List Byte)
    (hs : b.loadBody r = .ok s) (op : BlobOp) :
    b.call r op = ((op.serve { s := s }).1,
      { b with loadCluster := true, data := some (op.serve { s := s }).2 }) := by
  have hd := (loadClusterData_fresh r b hc hl).2.2.1 s hs
  cases op with
  | read n => simp only [CompressedBlobReader.call, CompressedBlobReader.Read, hd, BlobOp.serve]
  | size => simp only [CompressedBlobReader.call, CompressedBlobReader.Size, hd, BlobOp.serve]
  | seek o w => simp only [CompressedBlobReader.call, CompressedBlobReader.Seek, hd, BlobOp.serve]

/-- The first call on a fresh reader whose load fails with `e`: the call fails with `e`,
and the reader afterwards has its `sync.Once` done. -/
theorem first_call_failed (r : Reader) (b : CompressedBlobReader)
    (hc : b.closed = false) (hl : b.loadCluster = false) (e : Error)
    (hs : b.loadBody r = .error e) (op : BlobOp) :
    b.call r op = (op.failure e, (b.loadClusterData r).2) ∧
    (e = .panic → (b.loadClusterData r).2 = { b with loadCluster := true }) ∧
    (e ≠ .panic → (b.loadClusterData r).2 = { b with loadCluster := true, loadClusterErr := some e }) := by
  have hfst : (b.loadClusterData r).1 = some e := by
    by_cases hp : e = .panic
    · subst hp
      rw [(loadClusterData_fresh r b hc hl).2.2.2.1 hs]
    · rw [(loadClusterData_fresh r b hc hl).2.2.2.2 e hp hs]
  refine ⟨?_, ?_, ?_⟩
  · cases hd : b.loadClusterData r with
    | mk err b1 =>
      rw [hd] at hfst
      simp only at hfst
      subst hfst
      cases op with
      | read n => simp only [CompressedBlobReader.call, CompressedBlobReader.Read, hd, BlobOp.failure]
      | size => simp only [CompressedBlobReader.call, CompressedBlobReader.Size, hd, BlobOp.failure]
      | seek o w => simp only [CompressedBlobReader.call, CompressedBlobReader.Seek, hd, BlobOp.failure]
  · intro hp
    subst hp
    rw [(loadClusterData_fresh r b hc hl).2.2.2.1 hs]
  · intro hp
    rw [(loadClusterData_fresh r b hc hl).2.2.2.2 e hp hs]

/-- C25. Sticky, one-shot loading. For every fresh compressed blob reader (not closed, its
`sync.Once` not done, no error and no blob stored) and every sequence of `Read`, `Seek` and
`Size` calls made one after another: the cluster is read at most once and the decoder
factory is invoked at most once; the calls after the first one read no cluster, invoke no
decoder, and their results do not depend on the byte source; if the load of the first call
fails with `e`, every call fails with `e`; if it returns the blob `s`, the results are
those of the same calls on one `bytes.Reader` over `s`, which the reader still holds at
the end. -/
theorem sticky_one_shot_loading (r : Reader) (b : CompressedBlobReader)
    (hc : b.closed = false) (hl : b.loadCluster = false) (he : b.loadClusterErr = none)
    (hd : b.data = none) (op : BlobOp) (ops : List BlobOp) :
    (b.callsEvents r (op :: ops)).1 ≤ 1 ∧ (b.callsEvents r (op :: ops)).2 ≤ 1 ∧
    (b.call r op).2.callsEvents r ops = (0, 0) ∧
    (∀ r2 : Reader, (b.call r op).2.calls r2 ops = (b.call r op).2.calls r ops) ∧
    (∀ e, b.loadBody r = .error e →
      (b.calls r (op :: ops)).1 = (op :: ops).map (BlobOp.failure e)) ∧
    (∀ s, b.loadBody r = .ok s →
      (b.calls r (op :: ops)).1 = (BlobOp.serveAll { s := s } (op :: ops)).1 ∧
      ∃ i, (b.calls r (op :: ops)).2.data = some { s := s, i := i }) := by
  have hdone : (b.call r op).2.closed = false ∧ (b.call r op).2.loadCluster = true := by
    cases hb : b.loadBody r with
    | ok s =>
      rw [first_call_loaded r b hc hl s hb op]
      exact ⟨hc, rfl⟩
    | error e =>
      rw [(first_call_failed r b hc hl e hb op).1]
      exact ⟨(loadClusterData_fresh r b hc hl).1, (loadClusterData_fresh r b hc hl).2.1⟩
  have hrest := fun r2 => calls_done r r2 ops (b.call r op).2 hdone.1 hdone.2
  have hev := (hrest r).1
  refine ⟨?_, ?_, hev, fun r2 => (hrest r2).2, ?_, ?_⟩
  · simp only [CompressedBlobReader.callsEvents, hev, Nat.add_zero]
    exact (loadEvents_le r b).1
  · simp only [CompressedBlobReader.callsEvents, hev, Nat.add_zero]
    exact (loadEvents_le r b).2
  · intro e hb
    obtain ⟨hcall, hp, hnp⟩ := first_call_failed r b hc hl e hb op
    simp only [CompressedBlobReader.calls, hcall, List.map_cons]
    congr 1
    by_cases hpanic : e = .panic
    · rw [hp hpanic, hpanic, calls_panicked r ops { b with loadCluster := true } hc rfl he hd]
    · rw [hnp hpanic, calls_failed r e ops { b with loadCluster := true, loadClusterErr := some e } hc rfl rfl]
  · intro s hb
    have hcall := first_call_loaded r b hc hl s hb op
    simp only [CompressedBlobReader.calls, hcall, BlobOp.serveAll]
    rw [calls_loaded r ops { b with loadCluster := true, data := some (op.serve { s := s }).2 } (op.serve { s := s }).2 hc rfl he rfl]
    refine ⟨rfl, (BlobOp.serveAll (op.serve { s := s }).2 ops).2.i, ?_⟩
    have hbytes : (BlobOp.serveAll (op.serve { s := s }).2 ops).2.s = s := by
      rw [serveAll_same_bytes, serve_same_bytes]
    show some (BlobOp.serveAll (op.serve { s := s }).2 ops).2 = _
    generalize (BlobOp.serveAll (op.serve { s := s }).2 ops).2 = y at hbytes
    cases y with
    | mk s' i' =>
      simp only at hbytes
      rw [hbytes]

set_option maxRecDepth 1000000 in
/-- Witness for C25: the zstd blob reader of blob 0 of the sample archive's third cluster,
with the calls `Size`, `Read` of 1 byte, `Seek` to the start, `Read` of 5 bytes, `Read`
of 1 byte: one cluster read and one decoder invocation, and the results are those of a
`bytes.Reader` over the blob `ok`. -/
theorem sticky_one_shot_loading_witness :
    (NewZStdBlobReader sampleCodecs 451 469 0 8).loadBody sampleReader = .ok [111, 107] ∧
    (NewZStdBlobReader sampleCodecs 451 469 0 8).callsEvents sampleReader
      [.size, .read 1, .seek 0 0, .read 5, .read 1] = (1, 1) ∧
    ((NewZStdBlobReader sampleCodecs 451 469 0 8).calls sampleReader
      [.size, .read 1, .seek 0 0, .read 5, .read 1]).1
      = (BlobOp.serveAll { s := [111, 107] } [.size, .read 1, .seek 0 0, .read 5, .read 1]).1 ∧
    (BlobOp.serveAll { s := [111, 107] } [.size, .read 1, .seek 0 0, .read 5, .read 1]).1
      = [.size (.ok 2), .read [111] none, .seek (.ok 0), .read [111, 107] none,
         .read [] (some .eof)] :=
  ⟨by decide, by decide,
   ((sticky_one_shot_loading sampleReader (NewZStdBlobReader sampleCodecs 451 469 0 8)
      rfl rfl rfl rfl .size [.read 1, .seek 0 0, .read 5, .read 1]).2.2.2.2.2
      [111, 107] (by decide)).1,
   by rfl⟩

set_option maxRecDepth 1000000 in
/-- C24. `Close` on a compressed blob reader returns success and leaves the reader as it
was: the field `closed`, which `loadClusterData` tests, is not set. On the zstd blob
reader of blob 0 of the sample archive's third cluster, `Size`, `Read` and `Seek` issued
after `Close` serve the blob `ok`; none of them fails with `os.ErrClosed`. -/
theorem closed_blob_reader_serves_data :
    (∀ b : CompressedBlobReader, b.Close = (none, b)) ∧
    (NewZStdBlobReader sampleCodecs 451 469 0 8).Close.1 = none ∧
    (NewZStdBlobReader sampleCodecs 451 469 0 8).Close.2.closed = false ∧
    ((NewZStdBlobReader sampleCodecs 451 469 0 8).Close.2.Size sampleReader).1 = .ok 2 ∧
    ((NewZStdBlobReader sampleCodecs 451 469 0 8).Close.2.Read sampleReader 5).1
      = ([111, 107], none) ∧
    ((NewZStdBlobReader sampleCodecs 451 469 0 8).Close.2.Seek sampleReader 1 0).1 = .ok 1 ∧
    (((NewZStdBlobReader sampleCodecs 451 469 0 8).Size sampleReader).2.Close.2.Read
      sampleReader 5).1 = ([111, 107], none) :=
  ⟨fun _ => rfl, rfl, rfl, by decide, by decide, by decide, by decide⟩

/-- The cluster reads and decoder invocations of the first `loadClusterData` of a fresh
reader: none when the length of the cluster is above the allocation limit (`make` panics), else
one read, and one decoder invocation when the read succeeded. -/
theorem loadEvents_fresh (r : Reader) (b : CompressedBlobReader)
    (hc : b.closed = false) (hl : b.loadCluster = false) :
    ((b.loadEvents r).2 = 1 ↔
      subU64 b.clusterEndOffset b.clusterStartOffset ≤ maxAlloc ∧
      ∃ c, r.readRangeE (toInt64 (u64 (b.clusterStartOffset + 1)))
        (subU64 b.clusterEndOffset b.clusterStartOffset) = .ok c) ∧
    ((b.loadEvents r).1 = 1 ↔
      subU64 b.clusterEndOffset b.clusterStartOffset ≤ maxAlloc) := by
  have htr : (b.loadClusterDataTraced r).1 = (b.loadBodyTraced r).1 := by
    unfold CompressedBlobReader.loadClusterDataTraced
    rw [if_neg (by rw [hc]; decide), if_neg (by rw [hl]; decide)]
    cases hb : b.loadBodyTraced r with
    | mk events res =>
      cases res with
      | ok data => rfl
      | error e => cases e <;> rfl
  unfold CompressedBlobReader.loadEvents
  rw [htr, loadBodyTraced_events]
  by_cases hn : subU64 b.clusterEndOffset b.clusterStartOffset > maxAlloc
  · rw [if_pos hn]
    exact ⟨⟨fun h => absurd (show (0 : Nat) = 1 from h) (by decide), fun h => absurd h.1 (by omega)⟩,
      ⟨fun h => absurd (show (0 : Nat) = 1 from h) (by decide), fun h => absurd h (by omega)⟩⟩
  · rw [if_neg hn]
    cases hrd : r.readRangeE (toInt64 (u64 (b.clusterStartOffset + 1)))
        (subU64 b.clusterEndOffset b.clusterStartOffset) with
    | error e =>
      exact ⟨⟨fun h => absurd (show (0 : Nat) = 1 from h) (by decide), fun h => by
        obtain ⟨_, c, hc2⟩ := h
        exact Except.noConfusion hc2⟩, ⟨fun _ => by omega, fun _ => rfl⟩⟩
    | ok c =>
      exact ⟨⟨fun _ => ⟨by omega, c, rfl⟩, fun _ => rfl⟩, ⟨fun _ => by omega, fun _ => rfl⟩⟩

/-- The entries of a list after `set`. -/
theorem getElem?_set_cases {α : Type} (l : List α) (t : Nat) (x c : α) (hc : l[t]? = some c)
    (u : Nat) (y : α) (h : (l.set t x)[u]? = some y) :
    (u = t ∧ y = x) ∨ (u ≠ t ∧ l[u]? = some y) := by
  by_cases hut : u = t
  · subst hut
    left
    have hlt : u < l.length := (List.getElem?_eq_some_iff.mp hc).1
    rw [List.getElem?_set_self hlt] at h
    exact ⟨rfl, (Option.some.inj h).symm⟩
  · right
    refine ⟨hut, ?_⟩
    rw [List.getElem?_set_ne (fun h2 => hut h2.symm)] at h
    exact h

/-- The calls that the function passed to `loadCluster.Do` makes when `make` panics on
the length of the cluster. -/
theorem loadBodyTraced_panic (r : Reader) (b : CompressedBlobReader)
    (hn : subU64 b.clusterEndOffset b.clusterStartOffset > maxAlloc) :
    b.loadBodyTraced r = ([], .error .panic) := by
  unfold CompressedBlobReader.loadBodyTraced
  simp only []
  rw [if_pos hn]

/-- The calls that the function passed to `loadCluster.Do` makes when the read of the
cluster fails. -/
theorem loadBodyTraced_read_error (r : Reader) (b : CompressedBlobReader) (e : Error)
    (hn : ¬ subU64 b.clusterEndOffset b.clusterStartOffset > maxAlloc)
    (hr : r.readRangeE (toInt64 (u64 (b.clusterStartOffset + 1)))
      (subU64 b.clusterEndOffset b.clusterStartOffset) = .error e) :
    b.loadBodyTraced r = ([.readCluster (toInt64 (u64 (b.clusterStartOffset + 1)))
      (subU64 b.clusterEndOffset b.clusterStartOffset)], .error e) := by
  unfold CompressedBlobReader.loadBodyTraced
  simp only []
  rw [if_neg hn, hr]

/-- The calls that the function passed to `loadCluster.Do` makes when the cluster is
read. -/
theorem loadBodyTraced_read_ok (r : Reader) (b : CompressedBlobReader) (c : List Byte)
    (hn : ¬ subU64 b.clusterEndOffset b.clusterStartOffset > maxAlloc)
    (hr : r.readRangeE (toInt64 (u64 (b.clusterStartOffset + 1)))
      (subU64 b.clusterEndOffset b.clusterStartOffset) = .ok c) :
    b.loadBodyTraced r = ([.readCluster (toInt64 (u64 (b.clusterStartOffset + 1)))
      (subU64 b.clusterEndOffset b.clusterStartOffset), .decode c], b.decodeBody c) := by
  unfold CompressedBlobReader.loadBodyTraced
  simp only []
  rw [if_neg hn, hr]

/-- A caller that stands before `Lock` is in its place at every stage. -/
theorem pcOK_of_not_holds (r : Reader) (b0 : CompressedBlobReader) (ph ph2 : Phase) (op : BlobOp)
    (pc : Pc) (h : ph.pcOK r b0 op pc) (hh : pc.holds = false)
    (hph : ph = .done → ph2 = .done) : ph2.pcOK r b0 op pc := by
  cases pc with
  | start => trivial
  | onceCheck => trivial
  | onceLock => trivial
  | onceLocked => exact absurd hh (by decide)
  | loadRead => exact absurd hh (by decide)
  | loadDecode c => exact absurd hh (by simp [Pc.holds])
  | onceStore p => exact absurd hh (by simp [Pc.holds])
  | onceUnlock p => exact absurd hh (by simp [Pc.holds])
  | afterDo => exact hph h
  | operate => exact ⟨hph h.1, h.2⟩
  | readCopy n => exact ⟨hph h.1, h.2⟩
  | readLoad got => exact ⟨hph h.1, h.2⟩
  | readStore got v => exact ⟨hph h.1, h.2⟩
  | seekStore abs => exact ⟨hph h.1, h.2⟩
  | returned res => exact ⟨hph h.1, h.2⟩

/-- A step leaves the calls of the callers as they are. -/
theorem move_ops (w : FirstCalls) (t : Nat) (c : Caller) (pc : Pc)
    (hc : w.callers[t]? = some c) :
    (w.move t c pc).callers.map Caller.op = w.callers.map Caller.op := by
  unfold FirstCalls.move
  simp only [List.map_set]
  apply List.ext_getElem?
  intro u
  by_cases hut : t = u
  · subst hut
    rw [List.getElem?_map, hc]
    have hlt : t < (w.callers.map Caller.op).length := by
      rw [List.length_map]
      exact (List.getElem?_eq_some_iff.mp hc).1
    rw [List.getElem?_set_self hlt]
    rfl
  · rw [List.getElem?_set_ne hut]

/-- The three outcomes of the function passed to `loadCluster.Do`. -/
theorem loadBody_cases (r : Reader) (b0 : CompressedBlobReader) :
    (∃ s, b0.loadBody r = .ok s) ∨ b0.loadBody r = .error .panic ∨
    (∃ e, e ≠ .panic ∧ b0.loadBody r = .error e) := by
  cases h : b0.loadBody r with
  | ok s => exact Or.inl ⟨s, rfl⟩
  | error e =>
    by_cases hp : e = .panic
    · subst hp
      exact Or.inr (Or.inl rfl)
    · exact Or.inr (Or.inr ⟨e, hp, rfl⟩)

/-- The shared reader is not closed at any stage. -/
theorem fields_closed (r : Reader) (b0 : CompressedBlobReader) (ph : Phase)
    (b : CompressedBlobReader) (tr : List LoadEvent) (h : ph.fields r b0 b tr) :
    b.closed = b0.closed := by
  cases ph with
  | idle => rw [h.1]
  | read c0 => rw [h.1]
  | ran p =>
    obtain ⟨-, h1, h2, h3⟩ := h
    rcases loadBody_cases r b0 with ⟨s, hs⟩ | hp | ⟨e, hne, he⟩
    · rw [(h1 s hs).2]
    · rw [(h2 hp).2]
    · rw [(h3 e hne he).2]
  | done =>
    obtain ⟨-, h1, h2, h3⟩ := h
    rcases loadBody_cases r b0 with ⟨s, hs⟩ | hp | ⟨e, hne, he⟩
    · obtain ⟨i, -, hi⟩ := h1 s hs
      rw [hi]
    · rw [h2 hp]
    · rw [h3 e hne he]

/-- The flag `done` of the `sync.Once` is set at the last stage only. -/
theorem fields_loadCluster (r : Reader) (b0 : CompressedBlobReader) (hl0 : b0.loadCluster = false)
    (ph : Phase) (b : CompressedBlobReader) (tr : List LoadEvent) (h : ph.fields r b0 b tr) :
    b.loadCluster = true ↔ ph = .done := by
  cases ph with
  | idle =>
    rw [h.1, hl0]
    exact ⟨fun h => Bool.noConfusion h, fun h => Phase.noConfusion h⟩
  | read c0 =>
    rw [h.1, hl0]
    exact ⟨fun h => Bool.noConfusion h, fun h => Phase.noConfusion h⟩
  | ran p =>
    obtain ⟨-, h1, h2, h3⟩ := h
    have hb : b.loadCluster = false := by
      rcases loadBody_cases r b0 with ⟨s, hs⟩ | hp | ⟨e, hne, he⟩
      · rw [(h1 s hs).2]
        exact hl0
      · rw [(h2 hp).2]
        exact hl0
      · rw [(h3 e hne he).2]
        exact hl0
    rw [hb]
    exact ⟨fun h => Bool.noConfusion h, fun h => Phase.noConfusion h⟩
  | done =>
    obtain ⟨-, h1, h2, h3⟩ := h
    have hb : b.loadCluster = true := by
      rcases loadBody_cases r b0 with ⟨s, hs⟩ | hp | ⟨e, hne, he⟩
      · obtain ⟨i, -, hi⟩ := h1 s hs
        rw [hi]
      · rw [h2 hp]
      · rw [h3 e hne he]
    exact ⟨fun _ => rfl, fun _ => hb⟩

/-- The invariant after a step of the caller `t`, from its parts. -/
theorem Inv_rebuild (r : Reader) (b0 : CompressedBlobReader) (w : FirstCalls) (t : Nat)
    (c : Caller) (hc : w.callers[t]? = some c) (pc2 : Pc) (b2 : CompressedBlobReader)
    (m2 : Option Nat) (tr2 : List LoadEvent) (ph2 : Phase)
    (hlock : ∀ (u : Nat) (y : Caller), u ≠ t → w.callers[u]? = some y →
      (y.pc.holds = true ↔ m2 = some u))
    (hme : pc2.holds = true ↔ m2 = some t)
    (hown : ∀ u : Nat, m2 = some u → u = t ∨ ∃ y : Caller, w.callers[u]? = some y)
    (hf : ph2.fields r b0 b2 tr2)
    (hm : m2 = none → ph2 = .idle ∨ ph2 = .done)
    (hpc : ph2.pcOK r b0 c.op pc2)
    (hothers : ∀ (u : Nat) (y : Caller), u ≠ t → w.callers[u]? = some y →
      ph2.pcOK r b0 y.op y.pc) :
    FirstCalls.Inv r b0
      { b := b2, mutex := m2, callers := w.callers.set t { c with pc := pc2 }, trace := tr2 } := by
  have hlt : t < w.callers.length := (List.getElem?_eq_some_iff.mp hc).1
  refine ⟨?_, ?_, ph2, hf, hm, ?_⟩
  · intro u y hy
    rcases getElem?_set_cases _ _ _ _ hc u y hy with ⟨hu, hyx⟩ | ⟨hu, hyo⟩
    · subst hu
      subst hyx
      exact hme
    · exact hlock u y hu hyo
  · intro u hu
    rcases hown u hu with h1 | ⟨y, hy⟩
    · subst h1
      exact ⟨_, List.getElem?_set_self hlt⟩
    · by_cases hut : u = t
      · subst hut
        exact ⟨_, List.getElem?_set_self hlt⟩
      · exact ⟨y, by
          show (w.callers.set t _)[u]? = some y
          rw [List.getElem?_set_ne (fun h2 => hut h2.symm)]
          exact hy⟩
  · intro u y hy
    rcases getElem?_set_cases _ _ _ _ hc u y hy with ⟨hu, hyx⟩ | ⟨hu, hyo⟩
    · subst hu
      subst hyx
      exact hpc
    · exact hothers u y hu hyo

/-- The invariant after a step of the caller `t` that changes its place only, and neither
takes nor releases the mutex. -/
theorem Inv_move (r : Reader) (b0 : CompressedBlobReader) (w : FirstCalls) (t : Nat)
    (c : Caller) (hc : w.callers[t]? = some c) (pc2 : Pc) (hinv : w.Inv r b0)
    (hh : pc2.holds = c.pc.holds)
    (hok : ∀ ph : Phase, ph.fields r b0 w.b w.trace → ph.pcOK r b0 c.op c.pc →
      ph.pcOK r b0 c.op pc2) :
    (w.move t c pc2).Inv r b0 := by
  obtain ⟨hlock, hown, ph, hf, hm, hpcs⟩ := hinv
  exact Inv_rebuild r b0 w t c hc pc2 w.b w.mutex w.trace ph
    (fun u y _ hy => hlock u y hy)
    (by rw [hh]; exact hlock t c hc)
    (fun u hu => Or.inr (hown u hu))
    hf hm (hok ph hf (hpcs t c hc))
    (fun u y _ hy => hpcs u y hy)

/-- A position that `Seek` returns is not negative. -/
theorem Seek_ok_nonneg (d : BytesReader) (offset whence abs : Int)
    (h : (d.Seek offset whence).1 = .ok abs) : 0 ≤ abs := by
  unfold BytesReader.Seek at h
  simp only [] at h
  split at h
  · exact Except.noConfusion h
  · split at h
    · exact Except.noConfusion h
    · rename_i hneg
      rw [← Except.ok.inj h]
      exact Int.not_lt.mp hneg

/-- The shared reader once the flag `done` is stored, when the load returned the blob
`s`: it holds a `bytes.Reader` over `s` at a position that is not negative. -/
theorem done_ok (r : Reader) (b0 : CompressedBlobReader) (b : CompressedBlobReader)
    (tr : List LoadEvent) (s : List Byte) (hf : Phase.fields r b0 .done b tr)
    (hs : b0.loadBody r = .ok s) :
    ∃ i : Int, 0 ≤ i ∧ b.data = some { s := s, i := i } ∧
      b = { b0 with loadCluster := true, data := some { s := s, i := i } } := by
  obtain ⟨i, hi0, hi⟩ := hf.2.1 s hs
  exact ⟨i, hi0, by rw [hi], hi⟩

/-- A store of a read position that is not negative keeps the shared reader that of the
last stage. -/
theorem fields_done_store (r : Reader) (b0 : CompressedBlobReader) (b : CompressedBlobReader)
    (tr : List LoadEvent) (s : List Byte) (hf : Phase.fields r b0 .done b tr)
    (hs : b0.loadBody r = .ok s) (v : Int) (hv : 0 ≤ v) :
    ∀ i : Int, Phase.fields r b0 .done
      { b with data := some { ({ s := s, i := i } : BytesReader) with i := v } } tr := by
  intro i
  obtain ⟨htr, h1, h2, h3⟩ := hf
  refine ⟨htr, fun s2 hs2 => ?_, fun h => ?_, fun e hne he => ?_⟩
  · rw [hs] at hs2
    rw [← Except.ok.inj hs2]
    obtain ⟨i2, -, hi2⟩ := h1 s hs
    exact ⟨v, hv, by rw [hi2]⟩
  · rw [hs] at h
    exact Except.noConfusion h
  · rw [hs] at he
    exact Except.noConfusion he

/-- A caller other than the one that holds the mutex does not hold it. -/
theorem other_not_holds (w : FirstCalls) (t u : Nat) (y : Caller)
    (hlock : ∀ (t : Nat) (c : Caller), w.callers[t]? = some c →
      (c.pc.holds = true ↔ w.mutex = some t))
    (hm : w.mutex = some t) (hu : u ≠ t) (hy : w.callers[u]? = some y) :
    y.pc.holds = false := by
  cases hh : y.pc.holds with
  | false => rfl
  | true =>
    have h1 := (hlock u y hy).mp hh
    rw [hm] at h1
    exact absurd (Option.some.inj h1).symm hu

/-- Every step of a caller keeps the invariant. -/
theorem step_inv (r : Reader) (b0 : CompressedBlobReader)
    (hc0 : b0.closed = false) (hl0 : b0.loadCluster = false)
    (he0 : b0.loadClusterErr = none) (hd0 : b0.data = none)
    (w : FirstCalls) (hinv : w.Inv r b0) (t : Nat) : (w.step r t).Inv r b0 := by
  unfold FirstCalls.step
  cases hct : w.callers[t]? with
  | none => exact hinv
  | some c =>
    simp only []
    have hinv2 := hinv
    obtain ⟨hlock, hown, ph, hf, hm, hpcs⟩ := hinv2
    have hme := hpcs t c hct
    have hmel := hlock t c hct
    have hclosed : w.b.closed = false := by rw [fields_closed r b0 ph w.b w.trace hf, hc0]
    have hdone := fields_loadCluster r b0 hl0 ph w.b w.trace hf
    cases hpc : c.pc with
    | start =>
      simp only [hclosed, Bool.false_eq_true, if_false]
      exact Inv_move r b0 w t c hct .onceCheck hinv (by rw [hpc]; rfl) (fun _ _ _ => trivial)
    | onceCheck =>
      simp only []
      by_cases hlc : w.b.loadCluster = true
      · rw [if_pos hlc]
        refine Inv_move r b0 w t c hct .afterDo hinv (by rw [hpc]; rfl) (fun ph2 hf2 _ => ?_)
        exact (fields_loadCluster r b0 hl0 ph2 w.b w.trace hf2).mp hlc
      · rw [if_neg hlc]
        exact Inv_move r b0 w t c hct .onceLock hinv (by rw [hpc]; rfl) (fun _ _ _ => trivial)
    | onceLock =>
      simp only []
      cases hmx : w.mutex with
      | some u => exact hinv
      | none =>
        simp only []
        refine Inv_rebuild r b0 w t c hct .onceLocked w.b (some t) w.trace ph ?_ ?_ ?_ hf
          (fun h => Option.noConfusion h) (hm hmx) (fun u y _ hy => hpcs u y hy)
        · intro u y hu hy
          have h1 := hlock u y hy
          rw [hmx] at h1
          constructor
          · intro h
            exact Option.noConfusion (h1.mp h)
          · intro h
            exact absurd (Option.some.inj h).symm hu
        · exact ⟨fun _ => rfl, fun _ => rfl⟩
        · intro u hu
          exact Or.inl (Option.some.inj hu).symm
    | onceLocked =>
      simp only []
      rw [hpc] at hme hmel
      by_cases hlc : w.b.loadCluster = true
      · rw [if_pos hlc]
        refine Inv_move r b0 w t c hct (.onceUnlock false) hinv (by rw [hpc]; rfl)
          (fun ph2 hf2 _ => ?_)
        exact ⟨(fields_loadCluster r b0 hl0 ph2 w.b w.trace hf2).mp hlc,
          fun h => Bool.noConfusion h⟩
      · rw [if_neg hlc]
        refine Inv_move r b0 w t c hct .loadRead hinv (by rw [hpc]; rfl)
          (fun ph2 hf2 hp2 => ?_)
        rw [hpc] at hp2
        rcases hp2 with h | h
        · exact h
        · exact absurd ((fields_loadCluster r b0 hl0 ph2 w.b w.trace hf2).mpr h) hlc
    | loadRead =>
      simp only []
      rw [hpc] at hme hmel
      have hmx : w.mutex = some t := hmel.mp rfl
      have hph : ph = .idle := hme
      subst hph
      obtain ⟨hb, htr⟩ := hf
      have hoth : ∀ (ph2 : Phase) (u : Nat) (y : Caller), u ≠ t → w.callers[u]? = some y →
          ph2.pcOK r b0 y.op y.pc := fun ph2 u y hu hy =>
        pcOK_of_not_holds r b0 .idle ph2 y.op y.pc (hpcs u y hy)
          (other_not_holds w t u y hlock hmx hu hy) (fun h => Phase.noConfusion h)
      have hlk : ∀ (u : Nat) (y : Caller), u ≠ t → w.callers[u]? = some y →
          (y.pc.holds = true ↔ w.mutex = some u) := fun u y _ hy => hlock u y hy
      have hmt : ∀ p : Bool, ((Pc.onceStore p).holds = true ↔ w.mutex = some t) :=
        fun p => ⟨fun _ => hmx, fun _ => rfl⟩
      have hnn : ∀ ph2 : Phase, w.mutex = none → ph2 = .idle ∨ ph2 = .done := fun ph2 h => by
        rw [hmx] at h
        exact Option.noConfusion h
      rw [hb, htr]
      by_cases hn : subU64 b0.clusterEndOffset b0.clusterStartOffset > maxAlloc
      · rw [if_pos hn]
        have hLB := loadBodyTraced_panic r b0 hn
        have hLB2 : b0.loadBody r = .error .panic := by
          unfold CompressedBlobReader.loadBody
          rw [hLB]
        refine Inv_rebuild r b0 w t c hct (.onceStore true) w.b w.mutex w.trace (.ran true)
          hlk (hmt true) (fun u hu => Or.inr (hown u hu)) ?_ (hnn _) rfl (hoth _)
        refine ⟨by rw [htr, hLB], fun s hs => ?_, fun _ => ⟨rfl, hb⟩, fun e hne he => ?_⟩
        · rw [hLB2] at hs
          exact Except.noConfusion hs
        · rw [hLB2] at he
          exact absurd (Except.error.inj he).symm hne
      · rw [if_neg hn]
        cases hrd : r.readRangeE (toInt64 (u64 (b0.clusterStartOffset + 1)))
            (subU64 b0.clusterEndOffset b0.clusterStartOffset) with
        | error e =>
          have hLB := loadBodyTraced_read_error r b0 e hn hrd
          have hLB2 : b0.loadBody r = .error e := by
            unfold CompressedBlobReader.loadBody
            rw [hLB]
          by_cases hp : e = .panic
          · subst hp
            simp only [List.nil_append]
            refine Inv_rebuild r b0 w t c hct (.onceStore true) w.b w.mutex _ (.ran true)
              hlk (hmt true) (fun u hu => Or.inr (hown u hu)) ?_ (hnn _) rfl (hoth _)
            refine ⟨by rw [hLB], fun s hs => ?_, fun _ => ⟨rfl, hb⟩, fun e hne he => ?_⟩
            · rw [hLB2] at hs
              exact Except.noConfusion hs
            · rw [hLB2] at he
              exact absurd (Except.error.inj he).symm hne
          · have hgoal : FirstCalls.Inv r b0
                { b := { b0 with loadClusterErr := some e }, mutex := w.mutex,
                  callers := w.callers.set t { c with pc := .onceStore false },
                  trace := [.readCluster (toInt64 (u64 (b0.clusterStartOffset + 1)))
                    (subU64 b0.clusterEndOffset b0.clusterStartOffset)] } := by
              refine Inv_rebuild r b0 w t c hct (.onceStore false) _ w.mutex _ (.ran false)
                hlk (hmt false) (fun u hu => Or.inr (hown u hu)) ?_ (hnn _) rfl (hoth _)
              refine ⟨by rw [hLB], fun s hs => ?_, fun h => ?_, fun e2 hne he => ?_⟩
              · rw [hLB2] at hs
                exact Except.noConfusion hs
              · rw [hLB2] at h
                exact absurd (Except.error.inj h) hp
              · rw [hLB2] at he
                rw [Except.error.inj he]
                exact ⟨rfl, rfl⟩
            cases e <;> first | exact absurd rfl hp | exact hgoal
        | ok c1 =>
          simp only [List.nil_append]
          refine Inv_rebuild r b0 w t c hct (.loadDecode c1) w.b w.mutex _ (.read c1)
            hlk ⟨fun _ => hmx, fun _ => rfl⟩ (fun u hu => Or.inr (hown u hu)) ?_ (hnn _) rfl
            (hoth _)
          exact ⟨hb, hn, hrd, rfl⟩
    | loadDecode c1 =>
      simp only []
      rw [hpc] at hme hmel
      have hmx : w.mutex = some t := hmel.mp rfl
      have hph : ph = .read c1 := hme
      subst hph
      obtain ⟨hb, hn, hrd, htr⟩ := hf
      have hoth : ∀ (ph2 : Phase) (u : Nat) (y : Caller), u ≠ t → w.callers[u]? = some y →
          ph2.pcOK r b0 y.op y.pc := fun ph2 u y hu hy =>
        pcOK_of_not_holds r b0 (.read c1) ph2 y.op y.pc (hpcs u y hy)
          (other_not_holds w t u y hlock hmx hu hy) (fun h => Phase.noConfusion h)
      have hlk : ∀ (u : Nat) (y : Caller), u ≠ t → w.callers[u]? = some y →
          (y.pc.holds = true ↔ w.mutex = some u) := fun u y _ hy => hlock u y hy
      have hmt : ∀ p : Bool, ((Pc.onceStore p).holds = true ↔ w.mutex = some t) :=
        fun p => ⟨fun _ => hmx, fun _ => rfl⟩
      have hnn : ∀ ph2 : Phase, w.mutex = none → ph2 = .idle ∨ ph2 = .done := fun ph2 h => by
        rw [hmx] at h
        exact Option.noConfusion h
      have hLB := loadBodyTraced_read_ok r b0 c1 hn hrd
      have hLB2 : b0.loadBody r = b0.decodeBody c1 := by
        unfold CompressedBlobReader.loadBody
        rw [hLB]
      rw [hb, htr]
      simp only [List.singleton_append]
      cases hdec : b0.decodeBody c1 with
      | ok data =>
        rw [hdec] at hLB2
        simp only []
        refine Inv_rebuild r b0 w t c hct (.onceStore false) _ w.mutex _ (.ran false)
          hlk (hmt false) (fun u hu => Or.inr (hown u hu)) ?_ (hnn _) rfl (hoth _)
        refine ⟨by rw [hLB], fun s hs => ?_, fun h => ?_, fun e2 hne he => ?_⟩
        · rw [hLB2] at hs
          rw [Except.ok.inj hs]
          exact ⟨rfl, rfl⟩
        · rw [hLB2] at h
          exact Except.noConfusion h
        · rw [hLB2] at he
          exact Except.noConfusion he
      | error e =>
        rw [hdec] at hLB2
        by_cases hp : e = .panic
        · subst hp
          simp only []
          refine Inv_rebuild r b0 w t c hct (.onceStore true) w.b w.mutex _ (.ran true)
            hlk (hmt true) (fun u hu => Or.inr (hown u hu)) ?_ (hnn _) rfl (hoth _)
          refine ⟨by rw [hLB], fun s hs => ?_, fun _ => ⟨rfl, hb⟩, fun e hne he => ?_⟩
          · rw [hLB2] at hs
            exact Except.noConfusion hs
          · rw [hLB2] at he
            exact absurd (Except.error.inj he).symm hne
        · have hgoal : FirstCalls.Inv r b0
              { b := { b0 with loadClusterErr := some e }, mutex := w.mutex,
                callers := w.callers.set t { c with pc := .onceStore false },
                trace := [.readCluster (toInt64 (u64 (b0.clusterStartOffset + 1)))
                  (subU64 b0.clusterEndOffset b0.clusterStartOffset), .decode c1] } := by
            refine Inv_rebuild r b0 w t c hct (.onceStore false) _ w.mutex _ (.ran false)
              hlk (hmt false) (fun u hu => Or.inr (hown u hu)) ?_ (hnn _) rfl (hoth _)
            refine ⟨by rw [hLB], fun s hs => ?_, fun h => ?_, fun e2 hne he => ?_⟩
            · rw [hLB2] at hs
              exact Except.noConfusion hs
            · rw [hLB2] at h
              exact absurd (Except.error.inj h) hp
            · rw [hLB2] at he
              rw [Except.error.inj he]
              exact ⟨rfl, rfl⟩
          cases e <;> first | exact absurd rfl hp | exact hgoal
    | onceStore p =>
      simp only []
      rw [hpc] at hme hmel
      have hmx : w.mutex = some t := hmel.mp rfl
      have hph : ph = .ran p := hme
      subst hph
      obtain ⟨htr, h1, h2, h3⟩ := hf
      refine Inv_rebuild r b0 w t c hct (.onceUnlock p) _ w.mutex w.trace .done
        (fun u y _ hy => hlock u y hy) ⟨fun _ => hmx, fun _ => rfl⟩
        (fun u hu => Or.inr (hown u hu)) ?_ (fun _ => Or.inr rfl) ?_
        (fun u y hu hy => pcOK_of_not_holds r b0 (.ran p) .done y.op y.pc (hpcs u y hy)
          (other_not_holds w t u y hlock hmx hu hy) (fun _ => rfl))
      · refine ⟨htr, fun s hs => ⟨0, Int.le_refl 0, ?_⟩, fun h => ?_, fun e hne he => ?_⟩
        · rw [(h1 s hs).2]
        · rw [(h2 h).2]
        · rw [(h3 e hne he).2]
      · refine ⟨rfl, fun hpt => ?_⟩
        rcases loadBody_cases r b0 with ⟨s, hs⟩ | hp | ⟨e, hne, he⟩
        · rw [(h1 s hs).1] at hpt
          exact Bool.noConfusion hpt
        · exact hp
        · rw [(h3 e hne he).1] at hpt
          exact Bool.noConfusion hpt
    | onceUnlock p =>
      simp only []
      rw [hpc] at hme hmel
      have hmx : w.mutex = some t := hmel.mp rfl
      obtain ⟨hph, hpp⟩ := hme
      subst hph
      refine Inv_rebuild r b0 w t c hct
        (if p = true then .returned (c.op.failure .panic) else .afterDo) w.b none w.trace .done
        ?_ ?_ (fun u hu => Option.noConfusion hu) hf (fun _ => Or.inr rfl) ?_
        (fun u y _ hy => hpcs u y hy)
      · intro u y hu hy
        rw [other_not_holds w t u y hlock hmx hu hy]
        exact ⟨fun h => Bool.noConfusion h, fun h => Option.noConfusion h⟩
      · cases p <;> exact ⟨fun h => Bool.noConfusion h, fun h => Option.noConfusion h⟩
      · cases p with
        | false => exact rfl
        | true =>
          have hLB := hpp rfl
          refine ⟨rfl, fun e he => ?_, fun s hs => ?_⟩
          · rw [hLB] at he
            rw [← Except.error.inj he]
          · rw [hLB] at hs
            exact Except.noConfusion hs
    | afterDo =>
      simp only []
      rw [hpc] at hme hmel
      have hph : ph = .done := hme
      subst hph
      obtain ⟨htr, h1, h2, h3⟩ := hf
      cases herr : w.b.loadClusterErr with
      | some e =>
        simp only []
        refine Inv_move r b0 w t c hct (.returned (c.op.failure e)) hinv (by rw [hpc]; rfl)
          (fun ph2 hf2 hp2 => ?_)
        rw [hpc] at hp2
        refine ⟨hp2, ?_⟩
        rcases loadBody_cases r b0 with ⟨s, hs⟩ | hp | ⟨e2, hne, he2⟩
        · obtain ⟨i, -, hi⟩ := h1 s hs
          rw [hi] at herr
          rw [he0] at herr
          exact Option.noConfusion herr
        · rw [h2 hp] at herr
          rw [he0] at herr
          exact Option.noConfusion herr
        · rw [h3 e2 hne he2] at herr
          have hee : e2 = e := Option.some.inj herr
          subst hee
          refine ⟨fun e3 he3 => ?_, fun s hs => ?_⟩
          · rw [he2] at he3
            rw [Except.error.inj he3]
          · rw [he2] at hs
            exact Except.noConfusion hs
      | none =>
        simp only []
        refine Inv_move r b0 w t c hct .operate hinv (by rw [hpc]; rfl)
          (fun ph2 hf2 hp2 => ?_)
        rw [hpc] at hp2
        refine ⟨hp2, fun e he => ?_⟩
        by_cases hp : e = .panic
        · exact hp
        · rw [h3 e hp he] at herr
          exact Option.noConfusion herr
    | operate =>
      simp only []
      rw [hpc] at hme hmel
      obtain ⟨hph, hnp⟩ := hme
      subst hph
      obtain ⟨htr, h1, h2, h3⟩ := hf
      cases hdat : w.b.data with
      | none =>
        simp only []
        refine Inv_move r b0 w t c hct (.returned (c.op.failure .panic)) hinv (by rw [hpc]; rfl)
          (fun ph2 hf2 hp2 => ?_)
        rw [hpc] at hp2
        refine ⟨hp2.1, fun e he => ?_, fun s hs => ?_⟩
        · rw [hnp e he]
        · obtain ⟨i, -, hi⟩ := h1 s hs
          rw [hi] at hdat
          exact Option.noConfusion hdat
      | some d =>
        simp only []
        have hLB : ∃ s, b0.loadBody r = .ok s := by
          rcases loadBody_cases r b0 with hs | hp | ⟨e2, hne, he2⟩
          · exact hs
          · rw [h2 hp] at hdat
            rw [hd0] at hdat
            exact Option.noConfusion hdat
          · exact absurd (hnp e2 he2) hne
        obtain ⟨s, hs⟩ := hLB
        obtain ⟨i, hi0, hi⟩ := h1 s hs
        have hd : d = { s := s, i := i } := by
          rw [hi] at hdat
          exact (Option.some.inj hdat).symm
        have hobs : ∀ res : BlobResult, c.op.ObservesBlob s res →
            (Phase.done).pcOK r b0 c.op (.returned res) := by
          intro res hres
          refine ⟨rfl, fun e he => ?_, fun s2 hs2 => ?_⟩
          · rw [hs] at he
            exact Except.noConfusion he
          · rw [hs] at hs2
            rw [← Except.ok.inj hs2]
            exact hres
        cases hop : c.op with
        | size =>
          simp only []
          refine Inv_move r b0 w t c hct _ hinv (by rw [hpc]; rfl) (fun ph2 hf2 hp2 => ?_)
          rw [hpc] at hp2
          rw [hp2.1]
          exact hobs (.size (.ok d.Size)) (by rw [hop, hd]; rfl)
        | seek offset whence =>
          simp only []
          cases hsk : (d.Seek offset whence).1 with
          | error e =>
            simp only []
            refine Inv_move r b0 w t c hct _ hinv (by rw [hpc]; rfl) (fun ph2 hf2 hp2 => ?_)
            rw [hpc] at hp2
            rw [hp2.1]
            exact hobs (.seek (.error e)) (by
              rw [hop]
              exact ⟨i, hi0, by rw [← hd, hsk]⟩)
          | ok abs =>
            simp only []
            refine Inv_move r b0 w t c hct _ hinv (by rw [hpc]; rfl) (fun ph2 hf2 hp2 => ?_)
            rw [hpc] at hp2
            rw [hp2.1]
            exact ⟨rfl, Seek_ok_nonneg d offset whence abs hsk, s, i, offset, whence, hs, hop,
              hi0, by rw [← hd]; exact hsk⟩
        | read n =>
          simp only []
          by_cases hend : d.i ≥ d.s.length
          · rw [if_pos hend]
            refine Inv_move r b0 w t c hct _ hinv (by rw [hpc]; rfl) (fun ph2 hf2 hp2 => ?_)
            rw [hpc] at hp2
            rw [hp2.1]
            exact hobs (.read [] (some .eof)) (by rw [hop]; exact Or.inl rfl)
          · rw [if_neg hend]
            refine Inv_move r b0 w t c hct _ hinv (by rw [hpc]; rfl) (fun ph2 hf2 hp2 => ?_)
            rw [hpc] at hp2
            rw [hp2.1]
            exact ⟨rfl, ⟨s, hs⟩, hop⟩
    | readCopy n =>
      simp only []
      rw [hpc] at hme hmel
      obtain ⟨hph, ⟨s, hs⟩, hop⟩ := hme
      subst hph
      obtain ⟨i, hi0, hdat, -⟩ := done_ok r b0 w.b w.trace s hf hs
      rw [hdat]
      simp only []
      by_cases hout : i < 0 ∨ i > s.length
      · rw [if_pos hout]
        refine Inv_move r b0 w t c hct _ hinv (by rw [hpc]; rfl) (fun ph2 hf2 hp2 => ?_)
        rw [hpc] at hp2
        refine ⟨hp2.1, fun e he => ?_, fun s2 hs2 => ?_⟩
        · rw [hs] at he
          exact Except.noConfusion he
        · rw [hop]
          exact Or.inr (Or.inl rfl)
      · rw [if_neg hout]
        refine Inv_move r b0 w t c hct _ hinv (by rw [hpc]; rfl) (fun ph2 hf2 hp2 => ?_)
        rw [hpc] at hp2
        exact ⟨hp2.1, s, i, n, hs, hop, hi0, Int.not_lt.mp (fun h => hout (Or.inr h)), rfl⟩
    | readLoad got =>
      simp only []
      rw [hpc] at hme hmel
      obtain ⟨hph, s, i1, n, hs, hop, hi1, hi2, hgot⟩ := hme
      subst hph
      obtain ⟨i, hi0, hdat, -⟩ := done_ok r b0 w.b w.trace s hf hs
      rw [hdat]
      simp only []
      refine Inv_move r b0 w t c hct _ hinv (by rw [hpc]; rfl) (fun ph2 hf2 hp2 => ?_)
      rw [hpc] at hp2
      exact ⟨hp2.1, Int.add_nonneg hi0 (Int.ofNat_nonneg _), s, i1, n, hs, hop, hi1, hi2, hgot⟩
    | readStore got v =>
      simp only []
      rw [hpc] at hme hmel
      obtain ⟨hph, hv, s, i1, n, hs, hop, hi1, hi2, hgot⟩ := hme
      subst hph
      obtain ⟨i, hi0, hdat, hb⟩ := done_ok r b0 w.b w.trace s hf hs
      rw [hdat]
      simp only []
      have hmh : (Pc.returned (.read got none)).holds = true ↔ w.mutex = some t := by
        rw [← hmel]
        exact ⟨fun h => Bool.noConfusion h, fun h => Bool.noConfusion h⟩
      refine Inv_rebuild r b0 w t c hct (.returned (.read got none)) _ w.mutex w.trace .done
        (fun u y _ hy => hlock u y hy) hmh (fun u hu => Or.inr (hown u hu))
        (fields_done_store r b0 w.b w.trace s hf hs v hv i) hm ?_
        (fun u y _ hy => hpcs u y hy)
      refine ⟨rfl, fun e he => ?_, fun s2 hs2 => ?_⟩
      · rw [hs] at he
        exact Except.noConfusion he
      · rw [hs] at hs2
        rw [← Except.ok.inj hs2, hop]
        exact Or.inr (Or.inr ⟨i1, hi1, hi2, by rw [hgot]⟩)
    | seekStore abs =>
      simp only []
      rw [hpc] at hme hmel
      obtain ⟨hph, hv, s, i1, offset, whence, hs, hop, hi1, hsk⟩ := hme
      subst hph
      obtain ⟨i, hi0, hdat, hb⟩ := done_ok r b0 w.b w.trace s hf hs
      rw [hdat]
      simp only []
      have hmh : (Pc.returned (.seek (.ok abs))).holds = true ↔ w.mutex = some t := by
        rw [← hmel]
        exact ⟨fun h => Bool.noConfusion h, fun h => Bool.noConfusion h⟩
      refine Inv_rebuild r b0 w t c hct (.returned (.seek (.ok abs))) _ w.mutex w.trace .done
        (fun u y _ hy => hlock u y hy) hmh (fun u hu => Or.inr (hown u hu))
        (fields_done_store r b0 w.b w.trace s hf hs abs hv i) hm ?_
        (fun u y _ hy => hpcs u y hy)
      refine ⟨rfl, fun e he => ?_, fun s2 hs2 => ?_⟩
      · rw [hs] at he
        exact Except.noConfusion he
      · rw [hs] at hs2
        rw [← Except.ok.inj hs2, hop]
        exact ⟨i1, hi1, by rw [hsk]⟩
    | returned res => exact hinv

/-- A caller that has not returned and does not wait for the mutex moves on, and has fewer
steps left. -/
theorem step_moves (r : Reader) (w : FirstCalls) (t : Nat) (c : Caller)
    (hct : w.callers[t]? = some c) (h1 : ∀ res, c.pc ≠ .returned res)
    (h2 : c.pc = .onceLock → w.mutex = none) :
    ∃ pc : Pc, (w.step r t).callers = w.callers.set t { c with pc := pc } ∧
      pc.rank < c.pc.rank := by
  unfold FirstCalls.step
  rw [hct]
  simp only []
  cases hpc : c.pc with
  | start =>
    simp only []
    split
    · exact ⟨_, rfl, by simp [Pc.rank]⟩
    · exact ⟨_, rfl, by simp [Pc.rank]⟩
  | onceCheck =>
    simp only []
    split
    · exact ⟨_, rfl, by simp [Pc.rank]⟩
    · exact ⟨_, rfl, by simp [Pc.rank]⟩
  | onceLock =>
    simp only []
    rw [h2 hpc]
    exact ⟨_, rfl, by simp [Pc.rank]⟩
  | onceLocked =>
    simp only []
    split
    · exact ⟨_, rfl, by simp [Pc.rank]⟩
    · exact ⟨_, rfl, by simp [Pc.rank]⟩
  | loadRead =>
    simp only []
    split
    · exact ⟨_, rfl, by simp [Pc.rank]⟩
    · split
      · exact ⟨_, rfl, by simp [Pc.rank]⟩
      · exact ⟨_, rfl, by simp [Pc.rank]⟩
      · exact ⟨_, rfl, by simp [Pc.rank]⟩
  | loadDecode c1 =>
    simp only []
    split
    · exact ⟨_, rfl, by simp [Pc.rank]⟩
    · exact ⟨_, rfl, by simp [Pc.rank]⟩
    · exact ⟨_, rfl, by simp [Pc.rank]⟩
  | onceStore p => exact ⟨_, rfl, by simp [Pc.rank]⟩
  | onceUnlock p =>
    cases p
    · exact ⟨_, rfl, by simp [Pc.rank]⟩
    · exact ⟨_, rfl, by simp [Pc.rank]⟩
  | afterDo =>
    simp only []
    split
    · exact ⟨_, rfl, by simp [Pc.rank]⟩
    · exact ⟨_, rfl, by simp [Pc.rank]⟩
  | operate =>
    simp only []
    split
    · exact ⟨_, rfl, by simp [Pc.rank]⟩
    · split
      · exact ⟨_, rfl, by simp [Pc.rank]⟩
      · split
        · exact ⟨_, rfl, by simp [Pc.rank]⟩
        · exact ⟨_, rfl, by simp [Pc.rank]⟩
      · split
        · exact ⟨_, rfl, by simp [Pc.rank]⟩
        · exact ⟨_, rfl, by simp [Pc.rank]⟩
  | readCopy n =>
    simp only []
    split
    · exact ⟨_, rfl, by simp [Pc.rank]⟩
    · split
      · exact ⟨_, rfl, by simp [Pc.rank]⟩
      · exact ⟨_, rfl, by simp [Pc.rank]⟩
  | readLoad got =>
    simp only []
    split
    · exact ⟨_, rfl, by simp [Pc.rank]⟩
    · exact ⟨_, rfl, by simp [Pc.rank]⟩
  | readStore got v =>
    simp only []
    split
    · exact ⟨_, rfl, by simp [Pc.rank]⟩
    · exact ⟨_, rfl, by simp [Pc.rank]⟩
  | seekStore abs =>
    simp only []
    split
    · exact ⟨_, rfl, by simp [Pc.rank]⟩
    · exact ⟨_, rfl, by simp [Pc.rank]⟩
  | returned res => exact absurd hpc (h1 res)

/-- A step of a caller changes nothing, or moves that caller on. -/
theorem step_callers (r : Reader) (w : FirstCalls) (t : Nat) :
    w.step r t = w ∨
    ∃ (c : Caller) (pc : Pc), w.callers[t]? = some c ∧
      (w.step r t).callers = w.callers.set t { c with pc := pc } ∧ pc.rank < c.pc.rank := by
  cases hct : w.callers[t]? with
  | none =>
    left
    unfold FirstCalls.step
    rw [hct]
  | some c =>
    by_cases h1 : ∃ res, c.pc = .returned res
    · left
      obtain ⟨res, hres⟩ := h1
      unfold FirstCalls.step
      rw [hct]
      simp only [hres]
    · by_cases h2 : c.pc = .onceLock → w.mutex = none
      · right
        obtain ⟨pc, hpc⟩ := step_moves r w t c hct (fun res hres => h1 ⟨res, hres⟩) h2
        exact ⟨c, pc, rfl, hpc⟩
      · left
        have hl : c.pc = .onceLock := by
          by_contra hne
          exact h2 (fun h => absurd h hne)
        have hm : w.mutex ≠ none := fun h => h2 (fun _ => h)
        unfold FirstCalls.step
        rw [hct]
        simp only [hl]
        cases hmx : w.mutex with
        | none => exact absurd hmx hm
        | some u => rfl

/-- A step leaves the calls of the callers as they are. -/
theorem step_ops (r : Reader) (w : FirstCalls) (t : Nat) :
    (w.step r t).callers.map Caller.op = w.callers.map Caller.op := by
  rcases step_callers r w t with h | ⟨c, pc, hct, hset, -⟩
  · rw [h]
  · rw [hset]
    exact move_ops w t c pc hct

/-- A schedule leaves the calls of the callers as they are. -/
theorem run_ops (r : Reader) (sched : List Nat) :
    ∀ w : FirstCalls, (w.run r sched).callers.map Caller.op = w.callers.map Caller.op := by
  induction sched with
  | nil => intro w; rfl
  | cons t ts ih =>
    intro w
    show ((w.step r t).run r ts).callers.map Caller.op = _
    rw [ih, step_ops]

/-- Every schedule keeps the invariant. -/
theorem run_inv (r : Reader) (b0 : CompressedBlobReader)
    (hc0 : b0.closed = false) (hl0 : b0.loadCluster = false)
    (he0 : b0.loadClusterErr = none) (hd0 : b0.data = none) (sched : List Nat) :
    ∀ w : FirstCalls, w.Inv r b0 → (w.run r sched).Inv r b0 := by
  induction sched with
  | nil => intro w h; exact h
  | cons t ts ih =>
    intro w h
    exact ih (w.step r t) (step_inv r b0 hc0 hl0 he0 hd0 w h t)

/-- The callers before any step satisfy the invariant. -/
theorem init_inv (r : Reader) (b0 : CompressedBlobReader) (ops : List BlobOp) :
    (FirstCalls.init b0 ops).Inv r b0 := by
  have hstart : ∀ (t : Nat) (c : Caller), (FirstCalls.init b0 ops).callers[t]? = some c →
      c.pc = .start := by
    intro t c hc
    unfold FirstCalls.init at hc
    simp only [List.getElem?_map] at hc
    cases hop : ops[t]? with
    | none =>
      rw [hop] at hc
      exact Option.noConfusion hc
    | some op =>
      rw [hop] at hc
      rw [← Option.some.inj hc]
  refine ⟨fun t c hc => ?_, fun t ht => Option.noConfusion ht, .idle, ⟨rfl, rfl⟩,
    fun _ => Or.inl rfl, fun t c hc => ?_⟩
  · rw [hstart t c hc]
    exact ⟨fun h => Bool.noConfusion h, fun h => Option.noConfusion h⟩
  · rw [hstart t c hc]
    trivial

/-- A run in two parts. -/
theorem run_append (r : Reader) (s1 s2 : List Nat) :
    ∀ w : FirstCalls, w.run r (s1 ++ s2) = (w.run r s1).run r s2 := by
  induction s1 with
  | nil => intro w; rfl
  | cons t ts ih =>
    intro w
    show (w.step r t).run r (ts ++ s2) = _
    rw [ih]
    rfl

/-- The sum over a list after `set`. -/
theorem sum_map_set (f : Caller → Nat) (l : List Caller) :
    ∀ (t : Nat) (c x : Caller), l[t]? = some c →
      ((l.set t x).map f).sum + f c = (l.map f).sum + f x := by
  induction l with
  | nil =>
    intro t c x hc
    exact Option.noConfusion hc
  | cons a l ih =>
    intro t c x hc
    cases t with
    | zero =>
      rw [List.getElem?_cons_zero] at hc
      have hac : a = c := Option.some.inj hc
      subst hac
      simp only [List.set_cons_zero, List.map_cons, List.sum_cons]
      omega
    | succ t =>
      rw [List.getElem?_cons_succ] at hc
      have hc2 : l[t]? = some c := hc
      have h := ih t c x hc2
      simp only [List.set_cons_succ, List.map_cons, List.sum_cons]
      omega

/-- A sum of naturals that is not zero has an entry that is not zero. -/
theorem sum_map_ne_zero (f : Caller → Nat) (l : List Caller) (h : (l.map f).sum ≠ 0) :
    ∃ (t : Nat) (c : Caller), l[t]? = some c ∧ f c ≠ 0 := by
  induction l with
  | nil => exact absurd rfl h
  | cons a l ih =>
    by_cases ha : f a = 0
    · have h2 : (l.map f).sum ≠ 0 := by
        simp only [List.map_cons, List.sum_cons, ha, Nat.zero_add] at h
        exact h
      obtain ⟨t, c, hc, hfc⟩ := ih h2
      exact ⟨t + 1, c, by rw [List.getElem?_cons_succ]; exact hc, hfc⟩
    · exact ⟨0, a, List.getElem?_cons_zero, ha⟩

/-- A sum of naturals that is zero has zero entries only. -/
theorem sum_map_eq_zero (f : Caller → Nat) (l : List Caller) (h : (l.map f).sum = 0) :
    ∀ c ∈ l, f c = 0 := by
  induction l with
  | nil =>
    intro c hc
    exact absurd hc (List.not_mem_nil c)
  | cons a l ih =>
    simp only [List.map_cons, List.sum_cons] at h
    intro c hc
    rcases List.mem_cons.mp hc with h1 | h1
    · rw [h1]
      omega
    · exact ih (by omega) c h1

/-- A caller with no step left has returned. -/
theorem rank_zero_returned (pc : Pc) (h : pc.rank = 0) : ∃ res, pc = .returned res := by
  cases pc with
  | returned res => exact ⟨res, rfl⟩
  | start => exact absurd h (by decide)
  | onceCheck => exact absurd h (by decide)
  | onceLock => exact absurd h (by decide)
  | onceLocked => exact absurd h (by decide)
  | loadRead => exact absurd h (by decide)
  | loadDecode c => exact absurd h (by simp [Pc.rank])
  | onceStore p => exact absurd h (by simp [Pc.rank])
  | onceUnlock p => exact absurd h (by simp [Pc.rank])
  | afterDo => exact absurd h (by decide)
  | operate => exact absurd h (by decide)
  | readCopy n => exact absurd h (by simp [Pc.rank])
  | readLoad got => exact absurd h (by simp [Pc.rank])
  | readStore got v => exact absurd h (by simp [Pc.rank])
  | seekStore abs => exact absurd h (by simp [Pc.rank])

/-- No deadlock: while a caller has not returned, some caller can make a step, and the
callers then have fewer steps left. -/
theorem progress (r : Reader) (b0 : CompressedBlobReader) (w : FirstCalls)
    (hinv : w.Inv r b0) (hr : w.rank ≠ 0) : ∃ t : Nat, (w.step r t).rank < w.rank := by
  obtain ⟨hlock, hown, -⟩ := hinv
  obtain ⟨t, c, hct, hrc⟩ := sum_map_ne_zero (fun c => c.pc.rank) w.callers hr
  have hstep : ∀ (u : Nat) (y : Caller), w.callers[u]? = some y →
      (∀ res, y.pc ≠ .returned res) → (y.pc = .onceLock → w.mutex = none) →
      (w.step r u).rank < w.rank := by
    intro u y hy h1 h2
    obtain ⟨pc, hset, hlt⟩ := step_moves r w u y hy h1 h2
    have hsum := sum_map_set (fun c => c.pc.rank) w.callers u y { y with pc := pc } hy
    unfold FirstCalls.rank
    rw [hset]
    simp only [] at hsum
    omega
  have hnr : ∀ res, c.pc ≠ .returned res := by
    intro res hres
    rw [hres] at hrc
    exact hrc rfl
  by_cases h2 : c.pc = .onceLock → w.mutex = none
  · exact ⟨t, hstep t c hct hnr h2⟩
  · have hm : w.mutex ≠ none := fun h => h2 (fun _ => h)
    cases hmx : w.mutex with
    | none => exact absurd hmx hm
    | some u =>
      obtain ⟨y, hy⟩ := hown u hmx
      have hh : y.pc.holds = true := (hlock u y hy).mpr hmx
      refine ⟨u, hstep u y hy (fun res hres => ?_) (fun hl => ?_)⟩
      · rw [hres] at hh
        exact Bool.noConfusion hh
      · rw [hl] at hh
        exact Bool.noConfusion hh

/-- From every state that the callers reach, some schedule lets all of them return. -/
theorem run_complete (r : Reader) (b0 : CompressedBlobReader)
    (hc0 : b0.closed = false) (hl0 : b0.loadCluster = false)
    (he0 : b0.loadClusterErr = none) (hd0 : b0.data = none) :
    ∀ (n : Nat) (w : FirstCalls), w.Inv r b0 → w.rank ≤ n →
      ∃ more : List Nat, (w.run r more).rank = 0 := by
  intro n
  induction n with
  | zero =>
    intro w _ hn
    exact ⟨[], Nat.le_zero.mp hn⟩
  | succ n ih =>
    intro w hinv hn
    by_cases hr : w.rank = 0
    · exact ⟨[], hr⟩
    · obtain ⟨t, ht⟩ := progress r b0 w hinv hr
      obtain ⟨more, hmore⟩ := ih (w.step r t) (step_inv r b0 hc0 hl0 he0 hd0 w hinv t) (by omega)
      exact ⟨t :: more, hmore⟩

/-- The calls made outside the blob reader at each stage: the cluster is read at most
once and the decoder factory is called at most once. -/
theorem fields_counts (r : Reader) (b0 : CompressedBlobReader) (ph : Phase)
    (b : CompressedBlobReader) (tr : List LoadEvent) (h : ph.fields r b0 b tr) :
    clusterReadCount tr ≤ 1 ∧ decoderCallCount tr ≤ 1 := by
  cases ph with
  | idle =>
    rw [h.2]
    exact ⟨Nat.zero_le _, Nat.zero_le _⟩
  | read c0 =>
    rw [h.2.2.2]
    exact ⟨Nat.le_refl _, Nat.zero_le _⟩
  | ran p =>
    rw [h.1]
    exact loadBodyTraced_counts r b0
  | done =>
    rw [h.1]
    exact loadBodyTraced_counts r b0

/-- The decoder factory is called in the function passed to `loadCluster.Do` when, and
only when, `make` does not panic on the length of the cluster and the read of the cluster
succeeds. -/
theorem loadBodyTraced_decoder (r : Reader) (b : CompressedBlobReader) :
    decoderCallCount (b.loadBodyTraced r).1 = 1 ↔
      subU64 b.clusterEndOffset b.clusterStartOffset ≤ maxAlloc ∧
      ∃ c, r.readRangeE (toInt64 (u64 (b.clusterStartOffset + 1)))
        (subU64 b.clusterEndOffset b.clusterStartOffset) = .ok c := by
  rw [loadBodyTraced_events]
  by_cases hn : subU64 b.clusterEndOffset b.clusterStartOffset > maxAlloc
  · rw [if_pos hn]
    exact ⟨fun h => absurd (show (0 : Nat) = 1 from h) (by decide), fun h => absurd h.1 (by omega)⟩
  · rw [if_neg hn]
    cases hrd : r.readRangeE (toInt64 (u64 (b.clusterStartOffset + 1)))
        (subU64 b.clusterEndOffset b.clusterStartOffset) with
    | error e =>
      exact ⟨fun h => absurd (show (0 : Nat) = 1 from h) (by decide), fun h => by
        obtain ⟨_, c, hc2⟩ := h
        exact Except.noConfusion hc2⟩
    | ok c => exact ⟨fun _ => ⟨by omega, c, rfl⟩, fun _ => rfl⟩

/-- C26, amended. At-most-once decode under concurrency. Several callers make their first
`Read`, `Size` or `Seek` call on one fresh compressed blob reader, and their steps through
`loadClusterData`, `sync.Once.Do`, the function passed to it and the calls on the shared
`bytes.Reader` are interleaved in an arbitrary schedule, statement by statement. In every
state that the callers reach: each caller still makes its
own call; the cluster has been read at most once and the decoder factory has been invoked
at most once. When a caller has returned, the calls made outside the blob reader are those
of the one load of the fresh reader, so the decoder factory has been invoked exactly once
when `make` did not panic on the length of the cluster and the cluster could be read, and
not at all otherwise; the caller has got the error of that load when it failed (a panic of
the load included), and otherwise what a `bytes.Reader` over the blob of that load returns
while other callers move its read position (`ObservesBlob`): the length of the blob for
`Size`, and for `Read` bytes of the blob, `io.EOF`, or a panic on a read position past the
end. From every state that the callers reach, some schedule lets all callers return. -/
theorem concurrent_first_calls (r : Reader) (b0 : CompressedBlobReader) (ops : List BlobOp)
    (hc : b0.closed = false) (hl : b0.loadCluster = false) (he : b0.loadClusterErr = none)
    (hd : b0.data = none) (sched : List Nat) :
    ((FirstCalls.init b0 ops).run r sched).callers.map Caller.op = ops ∧
    clusterReadCount ((FirstCalls.init b0 ops).run r sched).trace ≤ 1 ∧
    decoderCallCount ((FirstCalls.init b0 ops).run r sched).trace ≤ 1 ∧
    (∀ (t : Nat) (c : Caller) (res : BlobResult),
      ((FirstCalls.init b0 ops).run r sched).callers[t]? = some c → c.pc = .returned res →
      ((FirstCalls.init b0 ops).run r sched).trace = (b0.loadBodyTraced r).1 ∧
      (decoderCallCount ((FirstCalls.init b0 ops).run r sched).trace = 1 ↔
        subU64 b0.clusterEndOffset b0.clusterStartOffset ≤ maxAlloc ∧
        ∃ cd, r.readRangeE (toInt64 (u64 (b0.clusterStartOffset + 1)))
          (subU64 b0.clusterEndOffset b0.clusterStartOffset) = .ok cd) ∧
      (∀ e, b0.loadBody r = .error e → res = c.op.failure e) ∧
      (∀ s, b0.loadBody r = .ok s → c.op.ObservesBlob s res)) ∧
    (∃ more : List Nat, ∀ c ∈ ((FirstCalls.init b0 ops).run r (sched ++ more)).callers,
      ∃ res, c.pc = .returned res) := by
  have hinv := run_inv r b0 hc hl he hd sched _ (init_inv r b0 ops)
  have hops : ((FirstCalls.init b0 ops).run r sched).callers.map Caller.op = ops := by
    rw [run_ops]
    unfold FirstCalls.init
    simp only [List.map_map]
    exact List.map_id _
  obtain ⟨more, hmore⟩ := run_complete r b0 hc hl he hd _ _ hinv (Nat.le_refl _)
  obtain ⟨-, -, ph, hf, -, hpcs⟩ := hinv
  have hcnt := fields_counts r b0 ph _ _ hf
  refine ⟨hops, hcnt.1, hcnt.2, fun t c res hct hres => ?_, more, fun c hcm => ?_⟩
  · have hok := hpcs t c hct
    rw [hres] at hok
    obtain ⟨hph, hobs⟩ := hok
    subst hph
    have htr := hf.1
    refine ⟨htr, ?_, hobs.1, hobs.2⟩
    rw [htr]
    exact loadBodyTraced_decoder r b0
  · rw [run_append] at hcm
    exact rank_zero_returned c.pc (sum_map_eq_zero (fun c => c.pc.rank) _ hmore c hcm)

/-- The two outcomes of `Seek`: an error and the `bytes.Reader` as it was, or the new
position, stored. -/
theorem Seek_cases (d : BytesReader) (offset whence : Int) :
    (∃ e, (d.Seek offset whence).1 = .error e ∧ (d.Seek offset whence).2 = d) ∨
    (∃ a, (d.Seek offset whence).1 = .ok a ∧ (d.Seek offset whence).2 = { d with i := a }) := by
  unfold BytesReader.Seek
  simp only []
  split
  · exact Or.inl ⟨_, rfl, rfl⟩
  · split
    · exact Or.inl ⟨_, rfl, rfl⟩
    · exact Or.inr ⟨_, rfl, rfl⟩

/-- One caller alone on a loaded reader: the statements of its call on the `bytes.Reader`
give the result of the call and leave the `bytes.Reader` that the call leaves. -/
theorem solo_operate (r : Reader) (b : CompressedBlobReader) (d : BytesReader)
    (hi : 0 ≤ d.i) (op : BlobOp) (tr : List LoadEvent) :
    FirstCalls.run r (FirstCalls.mk { b with data := some d } none
        [Caller.mk op .operate] tr) [0, 0, 0, 0, 0]
      = FirstCalls.mk { b with data := some (op.serve d).2 } none
          [Caller.mk op (.returned (op.serve d).1)] tr := by
  cases op with
  | size =>
    simp [FirstCalls.run, FirstCalls.step, FirstCalls.move, BlobOp.serve]
  | seek offset whence =>
    rcases Seek_cases d offset whence with ⟨e, h1, h2⟩ | ⟨a, h1, h2⟩
    · simp [FirstCalls.run, FirstCalls.step, FirstCalls.move, BlobOp.serve, h1, h2]
    · simp [FirstCalls.run, FirstCalls.step, FirstCalls.move, BlobOp.serve, h1, h2]
  | read n =>
    by_cases hend : d.i ≥ d.s.length
    · simp [FirstCalls.run, FirstCalls.step, FirstCalls.move, BlobOp.serve, BytesReader.Read, hend]
    · have hin : ¬ (d.i < 0 ∨ d.i > d.s.length) := by
        intro h
        rcases h with h | h
        · exact absurd hi (Int.not_le.mpr h)
        · exact hend (Int.le_of_lt h)
      simp [FirstCalls.run, FirstCalls.step, FirstCalls.move, BlobOp.serve, BytesReader.Read, hend,
        hin]

/-- One caller alone: its steps through the statements give the result of the call and
leave the reader that the call leaves, with the calls outside the blob reader that
`loadClusterData` makes. -/
theorem solo_call (r : Reader) (b : CompressedBlobReader) (op : BlobOp)
    (hc : b.closed = false) (hl : b.loadCluster = false) (he : b.loadClusterErr = none)
    (hd : b.data = none) :
    ((FirstCalls.init b [op]).run r [0, 0, 0, 0, 0, 0, 0, 0, 0, 0, 0, 0, 0, 0]).results
      = [some (b.call r op).1] ∧
    ((FirstCalls.init b [op]).run r [0, 0, 0, 0, 0, 0, 0, 0, 0, 0, 0, 0, 0, 0]).b = (b.call r op).2 ∧
    ((FirstCalls.init b [op]).run r [0, 0, 0, 0, 0, 0, 0, 0, 0, 0, 0, 0, 0, 0]).trace
      = (b.loadClusterDataTraced r).1 ∧
    ((FirstCalls.init b [op]).run r [0, 0, 0, 0, 0, 0, 0, 0, 0, 0, 0, 0, 0, 0]).mutex = none := by
  have htr : (b.loadClusterDataTraced r).1 = (b.loadBodyTraced r).1 := by
    unfold CompressedBlobReader.loadClusterDataTraced
    rw [if_neg (by rw [hc]; decide), if_neg (by rw [hl]; decide)]
    cases hb : b.loadBodyTraced r with
    | mk events res =>
      cases res with
      | ok data => rfl
      | error e => cases e <;> rfl
  rw [htr]
  by_cases hn : subU64 b.clusterEndOffset b.clusterStartOffset > maxAlloc
  · have hLB := loadBodyTraced_panic r b hn
    have hLB2 : b.loadBody r = .error .panic := by
      unfold CompressedBlobReader.loadBody
      rw [hLB]
    obtain ⟨hcall, hp, -⟩ := first_call_failed r b hc hl .panic hLB2 op
    rw [hcall, hp rfl, hLB]
    simp [FirstCalls.run, FirstCalls.step, FirstCalls.init, FirstCalls.move,
      FirstCalls.results, hc, hl, hn]
  · cases hrd : r.readRangeE (toInt64 (u64 (b.clusterStartOffset + 1)))
        (subU64 b.clusterEndOffset b.clusterStartOffset) with
    | error e =>
      have hLB := loadBodyTraced_read_error r b e hn hrd
      have hLB2 : b.loadBody r = .error e := by
        unfold CompressedBlobReader.loadBody
        rw [hLB]
      obtain ⟨hcall, hp, hnp⟩ := first_call_failed r b hc hl e hLB2 op
      rw [hcall, hLB]
      by_cases hpe : e = .panic
      · subst hpe
        rw [hp rfl]
        simp [FirstCalls.run, FirstCalls.step, FirstCalls.init, FirstCalls.move,
          FirstCalls.results, hc, hl, hn, hrd]
      · rw [hnp hpe]
        cases e <;> first
          | exact absurd rfl hpe
          | simp [FirstCalls.run, FirstCalls.step, FirstCalls.init, FirstCalls.move,
              FirstCalls.results, hc, hl, hn, hrd]
    | ok c1 =>
      have hLB := loadBodyTraced_read_ok r b c1 hn hrd
      have hLB2 : b.loadBody r = b.decodeBody c1 := by
        unfold CompressedBlobReader.loadBody
        rw [hLB]
      rw [hLB]
      cases hdec : b.decodeBody c1 with
      | ok data =>
        rw [hdec] at hLB2
        rw [first_call_loaded r b hc hl data hLB2 op]
        have h9 : (FirstCalls.init b [op]).run r [0, 0, 0, 0, 0, 0, 0, 0, 0]
            = FirstCalls.mk { ({ b with loadCluster := true } : CompressedBlobReader) with
                data := some { s := data } } none [Caller.mk op .operate]
              [.readCluster (toInt64 (u64 (b.clusterStartOffset + 1)))
                (subU64 b.clusterEndOffset b.clusterStartOffset), .decode c1] := by
          simp [FirstCalls.run, FirstCalls.step, FirstCalls.init, FirstCalls.move,
            hc, hl, he, hn, hrd, hdec]
        have h14 : (FirstCalls.init b [op]).run r [0, 0, 0, 0, 0, 0, 0, 0, 0, 0, 0, 0, 0, 0]
            = ((FirstCalls.init b [op]).run r [0, 0, 0, 0, 0, 0, 0, 0, 0]).run r
                [0, 0, 0, 0, 0] :=
          run_append r [0, 0, 0, 0, 0, 0, 0, 0, 0] [0, 0, 0, 0, 0] _
        rw [h14, h9, solo_operate r _ { s := data } (Int.le_refl 0) op]
        exact ⟨rfl, rfl, rfl, rfl⟩
      | error e =>
        rw [hdec] at hLB2
        obtain ⟨hcall, hp, hnp⟩ := first_call_failed r b hc hl e hLB2 op
        rw [hcall]
        by_cases hpe : e = .panic
        · subst hpe
          rw [hp rfl]
          simp [FirstCalls.run, FirstCalls.step, FirstCalls.init, FirstCalls.move,
            FirstCalls.results, hc, hl, he, hd, hn, hrd, hdec]
        · rw [hnp hpe]
          cases e <;> first
            | exact absurd rfl hpe
            | simp [FirstCalls.run, FirstCalls.step, FirstCalls.init, FirstCalls.move,
                FirstCalls.results, hc, hl, hn, hrd, hdec]

set_option maxRecDepth 1000000 in
/-- Witness for C26 (amended): three callers with the calls `Size`, `Read` of 1 byte and
`Read` of 5 bytes on the zstd blob reader of blob 0 of the sample archive's third
cluster, under `sampleSchedule`. The cluster is read once and the decoder factory is
invoked once; `Size` returns 2, the `Read` of 5 bytes, served first, returns the blob `ok`,
and the `Read` of 1 byte, served after it, finds the read position at the end. -/
theorem concurrent_first_calls_witness :
    (NewZStdBlobReader sampleCodecs 451 469 0 8).closed = false ∧
    (NewZStdBlobReader sampleCodecs 451 469 0 8).loadCluster = false ∧
    (NewZStdBlobReader sampleCodecs 451 469 0 8).loadClusterErr = none ∧
    (NewZStdBlobReader sampleCodecs 451 469 0 8).data = none ∧
    clusterReadCount ((FirstCalls.init (NewZStdBlobReader sampleCodecs 451 469 0 8)
      [.size, .read 1, .read 5]).run sampleReader sampleSchedule).trace ≤ 1 ∧
    decoderCallCount ((FirstCalls.init (NewZStdBlobReader sampleCodecs 451 469 0 8)
      [.size, .read 1, .read 5]).run sampleReader sampleSchedule).trace ≤ 1 ∧
    (BlobOp.read 5).ObservesBlob [111, 107] (.read [111, 107] none) ∧
    (BlobOp.read 1).ObservesBlob [111, 107] (.read [] (some .eof)) ∧
    BlobOp.size.ObservesBlob [111, 107] (.size (.ok 2)) ∧
    ((FirstCalls.init (NewZStdBlobReader sampleCodecs 451 469 0 8)
      [.size, .read 1, .read 5]).run sampleReader sampleSchedule).results
      = [some (.size (.ok 2)), some (.read [] (some .eof)), some (.read [111, 107] none)] ∧
    ((FirstCalls.init (NewZStdBlobReader sampleCodecs 451 469 0 8)
      [.size, .read 1, .read 5]).run sampleReader sampleSchedule).trace
      = [.readCluster 452 18,
         .decode [16, 0, 0, 0, 0, 0, 0, 0, 18, 0, 0, 0, 0, 0, 0, 0, 111, 107]] ∧
    ((FirstCalls.init (NewZStdBlobReader sampleCodecs 451 469 0 8)
      [.size, .read 1, .read 5]).run sampleReader (sampleSchedule.take 12)).results
      = [none, none, none] ∧
    ((FirstCalls.init (NewZStdBlobReader sampleCodecs 451 469 0 8)
      [.size, .read 1, .read 5]).run sampleReader (sampleSchedule.take 12)).mutex = some 1 ∧
    ((FirstCalls.init (NewZStdBlobReader sampleCodecs 451 469 0 8)
      [.size, .read 1, .read 5]).run sampleReader sampleSchedule).allReturned = true :=
  have h := concurrent_first_calls sampleReader (NewZStdBlobReader sampleCodecs 451 469 0 8)
    [.size, .read 1, .read 5] rfl rfl rfl rfl sampleSchedule
  ⟨rfl, rfl, rfl, rfl, h.2.1, h.2.2.1,
   (h.2.2.2.1 2 ⟨.read 5, .returned (.read [111, 107] none)⟩ (.read [111, 107] none)
     (by rfl) rfl).2.2.2 [111, 107] (by decide),
   (h.2.2.2.1 1 ⟨.read 1, .returned (.read [] (some .eof))⟩ (.read [] (some .eof))
     (by rfl) rfl).2.2.2 [111, 107] (by decide),
   (h.2.2.2.1 0 ⟨.size, .returned (.size (.ok 2))⟩ (.size (.ok 2))
     (by rfl) rfl).2.2.2 [111, 107] (by decide),
   by rfl, by decide, by rfl, by decide, by decide⟩

set_option maxRecDepth 1000000 in
/-- C26, counterexample. Two callers make their first calls, `Size` and `Read` of 1 byte,
on a fresh zstd blob reader over a cluster that ends at the offset 5000, past the end of
the 486 bytes of the sample archive. The read of the cluster fails with `io.EOF`, the
function passed to `loadCluster.Do` returns before it calls the decoder factory, and both
callers return with `io.EOF`: the decoder factory is invoked zero times, not exactly
once. -/
theorem concurrent_first_calls_without_decoder :
    (NewZStdBlobReader sampleCodecs 451 5000 0 8).closed = false ∧
    (NewZStdBlobReader sampleCodecs 451 5000 0 8).loadCluster = false ∧
    (NewZStdBlobReader sampleCodecs 451 5000 0 8).loadClusterErr = none ∧
    (NewZStdBlobReader sampleCodecs 451 5000 0 8).data = none ∧
    sampleReader.readRangeE 452 4549 = .error .eof ∧
    (NewZStdBlobReader sampleCodecs 451 5000 0 8).loadBody sampleReader = .error .eof ∧
    ((FirstCalls.init (NewZStdBlobReader sampleCodecs 451 5000 0 8)
      [.size, .read 1]).run sampleReader alternateSchedule).allReturned = true ∧
    ((FirstCalls.init (NewZStdBlobReader sampleCodecs 451 5000 0 8)
      [.size, .read 1]).run sampleReader alternateSchedule).results
      = [some (.size (.error .eof)), some (.read [] (some .eof))] ∧
    ((FirstCalls.init (NewZStdBlobReader sampleCodecs 451 5000 0 8)
      [.size, .read 1]).run sampleReader alternateSchedule).trace
      = [.readCluster 452 4549] ∧
    decoderCallCount ((FirstCalls.init (NewZStdBlobReader sampleCodecs 451 5000 0 8)
      [.size, .read 1]).run sampleReader alternateSchedule).trace = 0 ∧
    ¬ decoderCallCount ((FirstCalls.init (NewZStdBlobReader sampleCodecs 451 5000 0 8)
      [.size, .read 1]).run sampleReader alternateSchedule).trace = 1 :=
  ⟨rfl, rfl, rfl, rfl, by decide, by decide, by decide, by rfl, by decide, by decide,
   by decide⟩

set_option maxRecDepth 1000000 in
/-- Concurrent first `Read` calls race on the read position of the one `bytes.Reader`. On
the zstd blob reader of blob 0 of the sample archive's third cluster, whose blob is `ok`,
with every caller reading into a buffer of 5 bytes and past `loadClusterData`: when two
callers both copy before either of them stores the position, both return `ok`; when the
second caller tests the position before the first one stores it and copies after, it
returns no bytes and no error; and with three callers, when the first two both copy
before they store and each adds the two bytes to the position it then loads, the position
becomes 4 and the third caller, which has tested the position before, panics in
`r.s[r.i:]`. The decoder factory is invoked once in each of these runs. -/
theorem concurrent_reads_race :
    ((FirstCalls.init (NewZStdBlobReader sampleCodecs 451 469 0 8)
      [.read 5, .read 5, .read 5]).run sampleReader
      (toOperate ++ [0, 1, 0, 1, 0, 1, 0, 1])).results
      = [some (.read [111, 107] none), some (.read [111, 107] none), none] ∧
    ((FirstCalls.init (NewZStdBlobReader sampleCodecs 451 469 0 8)
      [.read 5, .read 5, .read 5]).run sampleReader
      (toOperate ++ [0, 1, 0, 0, 0, 1, 1, 1])).results
      = [some (.read [111, 107] none), some (.read [] none), none] ∧
    ((FirstCalls.init (NewZStdBlobReader sampleCodecs 451 469 0 8)
      [.read 5, .read 5, .read 5]).run sampleReader
      (toOperate ++ [0, 1, 2, 0, 1, 0, 0, 1, 1, 2])).results
      = [some (.read [111, 107] none), some (.read [111, 107] none),
         some (.read [] (some .panic))] ∧
    ((FirstCalls.init (NewZStdBlobReader sampleCodecs 451 469 0 8)
      [.read 5, .read 5, .read 5]).run sampleReader
      (toOperate ++ [0, 1, 2, 0, 1, 0, 0, 1, 1, 2])).b.data
      = some { s := [111, 107], i := 4 } ∧
    decoderCallCount ((FirstCalls.init (NewZStdBlobReader sampleCodecs 451 469 0 8)
      [.read 5, .read 5, .read 5]).run sampleReader
      (toOperate ++ [0, 1, 2, 0, 1, 0, 0, 1, 1, 2])).trace = 1 :=
  ⟨by rfl, by rfl, by rfl, by decide, by decide⟩


/-- The assignments of URL and title leave the namespace as it was. -/
theorem setStrings_namespace (base : BaseEntry) (strs : List GoString) :
    (setStrings base strs).namespace_ = base.namespace_ := by
  unfold setStrings
  by_cases h0 : strs.length > 0 <;> by_cases h1 : strs.length > 1 <;> simp only [h0, h1, if_true, if_false]

/-- The one-byte slice `data[3:4]` of a buffer of at least 4 bytes. -/
theorem slice_three_four (data : List Byte) (h : 4 ≤ data.length) :
    slice data 3 4 = [data.getD 3 0] := by
  match data, h with
  | _ :: _ :: _ :: _ :: _, _ => rfl

/-- The namespace of a parsed entry. For a content entry it is the one byte at
`offset + 3` of the record, which `parseContentEntry` takes from `data[3:4]`. For a
redirect entry it stays what `parseBaseEntry` has set: the conversion `string(b)` of
the byte `b` at `offset + 2`, which has two bytes when `b ≥ 128`. -/
theorem parseEntryAt_namespace (r : Reader) (offset : Int) (entry : Entry)
    (h : r.parseEntryAt offset = .ok entry) :
    (∀ e, entry = .content e →
      ∃ data : List Byte, r.readRangeE offset 16 = .ok data ∧
        entry.Namespace = [data.getD 3 0]) ∧
    (∀ e, entry = .redirect e →
      ∃ data : List Byte, r.readRangeE offset 3 = .ok data ∧
        entry.Namespace = runeString (data.getD 2 0).val ∧
        ((data.getD 2 0).val < 128 → entry.Namespace = [data.getD 2 0]) ∧
        (128 ≤ (data.getD 2 0).val → entry.Namespace.length = 2)) := by
  constructor
  · intro e he
    subst he
    unfold Reader.parseEntryAt at h
    simp only [bind_eq_ok_iff] at h
    obtain ⟨base, -, h⟩ := h
    by_cases hred : base.mimeTypeIndex = zimRedirect
    · simp only [hred, if_true, bind_eq_ok_iff, pure, Except.pure, Except.ok.injEq] at h
      obtain ⟨e', -, hentry⟩ := h
      exact Entry.noConfusion hentry
    · simp only [hred, if_false, bind_eq_ok_iff, pure, Except.pure, Except.ok.injEq] at h
      obtain ⟨e', he', hentry⟩ := h
      have hentry := Entry.content.inj hentry
      subst hentry
      unfold Reader.parseContentEntry at he'
      simp only [bind_eq_ok_iff] at he'
      obtain ⟨data, hdata, idx, -, he'⟩ := he'
      have hlen : data.length = 16 := (readRangeE_ok _ _ _ _ hdata).2.2.1
      refine ⟨data, hdata, ?_⟩
      by_cases hm : idx ≥ r.mimeTypes.length % 65536
      · simp only [hm, if_true, bind_eq_ok_iff, throw, throwThe, MonadExceptOf.throw] at he'
        obtain ⟨_, hx, -⟩ := he'
        exact Except.noConfusion hx
      · simp only [hm, if_false, bind_eq_ok_iff, pure, Except.pure, Except.ok.injEq] at he'
        obtain ⟨_, -, ci, -, bi, -, strs, -, he'⟩ := he'
        subst he'
        show (setStrings _ strs.1).namespace_ = _
        rw [setStrings_namespace]
        exact slice_three_four data (by omega)
  · intro e he
    obtain ⟨data3, hdata3, -, hall⟩ := parseEntryAt_redirect r offset entry h
    obtain ⟨_, _, -, -, -, hbase⟩ := hall e he
    subst he
    have hns : (Entry.redirect e).Namespace = runeString (data3.getD 2 0).val := by
      show e.base.namespace_ = _
      rw [hbase, setStrings_namespace]
    refine ⟨data3, hdata3, hns, ?_, ?_⟩
    · intro hlt
      rw [hns]
      unfold runeString
      rw [if_pos hlt]
      congr 1
      apply Fin.ext
      show (data3.getD 2 0).val % 256 = _
      omega
    · intro hge
      rw [hns]
      unfold runeString
      rw [if_neg (by omega)]
      rfl

set_option maxRecDepth 1000000 in
/-- C29, the code at the failing inputs. Entry 1 of the sample archive is the redirect
record `FF FF 00 41 …` at offset 232: its namespace byte, at offset 3 of the record, is
`A`, and the entry parsed has the namespace `00`, the byte at offset 2. Entry 0 of
`redirectArchive` is the redirect record `FF FF C8 41 …` at offset 115: the namespace of
the entry parsed is the two bytes `C3 88`. The content record `00 00 00 41 …` at offset
212 of the sample archive has the namespace `A`. -/
theorem redirect_namespace_is_not_the_record_byte :
    slice sampleArchive 232 236 = [255, 255, 0, 65] ∧
    (sampleReader.parseEntryAt 232).map Entry.Namespace = .ok [0] ∧
    slice redirectArchive 115 119 = [255, 255, 200, 65] ∧
    (NewReader 4 redirectArchive {}).map (fun res => res.toOption.map
      (fun p => (p.1.parseEntryAt 115).map (fun e => (e.Namespace, e.Namespace.length))))
      = some (some (.ok ([195, 136], 2))) ∧
    slice sampleArchive 212 216 = [0, 0, 0, 65] ∧
    (sampleReader.parseEntryAt 212).map Entry.Namespace = .ok [65] :=
  ⟨by decide, by decide, by decide, by decide, by decide, by decide⟩

/-- Away from the end of the file the chunk size does not matter: when `count` non-empty
NUL-terminated strings start at `offset` and both `b1` and `b2` bytes of the file follow
them, `readStringsAt` returns the same strings and the same number of bytes consumed with
chunks of `b1` and of `b2` bytes. -/
theorem readStringsAt_chunk_size_inside (r : Reader) (offset count b1 b2 : Nat)
    (ss : List GoString) (rest : List Byte)
    (hsz : r.rangeReader.length < 9223372036854775808)
    (hcount : 1 ≤ count) (hb1 : 1 ≤ b1) (hb2 : 1 ≤ b2)
    (hss : ∀ s ∈ ss, s ≠ [] ∧ (0 : Byte) ∉ s)
    (hsrc : r.rangeReader.drop offset = encodeStrings ss ++ rest)
    (hle : count ≤ ss.length)
    (hfit1 : offset + encodedLength (ss.take count) + b1 ≤ r.rangeReader.length)
    (hfit2 : offset + encodedLength (ss.take count) + b2 ≤ r.rangeReader.length) :
    r.readStringsAt offset count b1 = r.readStringsAt offset count b2 := by
  rw [(readStringsAt_inside r offset count b1 ss rest hsz hcount hb1 hss hsrc).1 hle hfit1,
    (readStringsAt_inside r offset count b2 ss rest hsz hcount hb2 hss hsrc).1 hle hfit2]

set_option maxRecDepth 1000000 in
/-- C30, the code at the failing inputs, in the sample archive of 486 bytes. At offset 263
the file holds the string `big`, its NUL and a second NUL: with chunks of 1024 bytes, which
reach past the end of the file, `readStringsAt(263, 2, b)` returns 4 bytes consumed,
with chunks of 5 bytes it returns 5. At offset 228 the file holds the strings `a`, `T` and
the bytes `FF FF 00`: `readStringsAt(228, 3, b)` returns the one string `a` and 2 bytes
consumed with chunks of 1024 bytes, and three strings and 7 bytes consumed with chunks of
7 bytes. -/
theorem readStringsAt_chunk_size_matters :
    sampleArchive.length = 486 ∧
    slice sampleArchive 263 268 = [98, 105, 103, 0, 0] ∧
    sampleReader.readStringsAt 263 2 1024 = .ok ([[98, 105, 103]], 4) ∧
    sampleReader.readStringsAt 263 2 5 = .ok ([[98, 105, 103]], 5) ∧
    slice sampleArchive 228 235 = [97, 0, 84, 0, 255, 255, 0] ∧
    sampleReader.readStringsAt 228 3 1024 = .ok ([[97]], 2) ∧
    sampleReader.readStringsAt 228 3 7 = .ok ([[97], [84], [255, 255]], 7) :=
  ⟨by decide, by decide, by decide, by decide, by decide, by decide, by decide⟩


/-- A `Next()` below the bound on an entry that parses returns true, stores the entry and
moves the index up by one. -/
theorem Next_step (r : Reader) (c : Cache) (it : EntryIterator) (i : Nat) (e : Entry)
    (herr : it.err = none) (hidx : it.index = (i : Int))
    (hi : (i : Int) < ((subU32 r.EntryCount 1 : Nat) : Int))
    (he : (r.EntryAt c (i : Int)).1 = .ok e) :
    (it.Next r c).1 = true ∧
    (it.Next r c).2.1 = { index := (i : Int) + 1, entry := some e, err := none } := by
  unfold EntryIterator.Next
  rw [if_neg (by rw [herr]; decide)]
  simp only []
  rw [if_neg (by rw [hidx]; omega), hidx]
  cases hE : r.EntryAt c (i : Int) with
  | mk res c2 =>
    rw [hE] at he
    simp only at he
    subst he
    simp only [herr, true_and]

/-- A `Next()` at the bound returns false and changes nothing. -/
theorem Next_at_end (r : Reader) (c : Cache) (it : EntryIterator)
    (hidx : it.index ≥ ((subU32 r.EntryCount 1 : Nat) : Int)) :
    it.Next r c = (false, it, c) := by
  unfold EntryIterator.Next
  by_cases herr : it.err.isSome
  · rw [if_pos herr]
  · rw [if_neg herr]
    simp only []
    rw [if_pos hidx]

/-- Calls of `Next()` at the bound: all return false and the iterator stays as it is. -/
theorem nexts_at_end (r : Reader) (j : Nat) (c : Cache) (it : EntryIterator)
    (hidx : it.index ≥ ((subU32 r.EntryCount 1 : Nat) : Int)) :
    it.nexts r j c = (List.replicate j false, it, c) := by
  induction j with
  | zero => rfl
  | succ j ih =>
    simp only [EntryIterator.nexts, Next_at_end r c it hidx, ih, List.replicate_succ]

/-- The calls of `nexts` split: first `k` calls, then `j` more. -/
theorem nexts_add (r : Reader) (k j : Nat) :
    ∀ (c : Cache) (it : EntryIterator),
      it.nexts r (k + j) c =
        ((it.nexts r k c).1 ++ ((it.nexts r k c).2.1.nexts r j (it.nexts r k c).2.2).1,
         ((it.nexts r k c).2.1.nexts r j (it.nexts r k c).2.2).2) := by
  induction k with
  | zero =>
    intro c it
    simp only [Nat.zero_add, EntryIterator.nexts, List.nil_append]
  | succ k ih =>
    intro c it
    rw [Nat.succ_add]
    simp only [EntryIterator.nexts, ih, List.cons_append]

/-- Calls of `Next()` below the bound on entries that parse: `k` calls from index `i` all
return true and leave the iterator at index `i + k` holding entry `i + k - 1`. -/
theorem nexts_below (r : Reader) (bound : Nat)
    (hb : subU32 r.EntryCount 1 = bound)
    (hparse : ∀ i : Nat, i < bound → ∃ e, (r.EntryAt emptyCache (i : Int)).1 = .ok e)
    (k : Nat) :
    ∀ (i : Nat) (c : Cache) (it : EntryIterator), it.err = none → it.index = (i : Int) →
      i + k ≤ bound → 1 ≤ k →
      (it.nexts r k c).1 = List.replicate k true ∧
      (it.nexts r k c).2.1.err = none ∧
      (it.nexts r k c).2.1.index = ((i + k : Nat) : Int) ∧
      ∃ e, (it.nexts r k c).2.1.entry = some e ∧
        (r.EntryAt emptyCache ((i + k - 1 : Nat) : Int)).1 = .ok e := by
  induction k with
  | zero =>
    intro i c it _ _ _ h1
    omega
  | succ k ih =>
    intro i c it herr hidx hle _
    obtain ⟨e, he⟩ := hparse i (by omega)
    have he2 : (r.EntryAt c (i : Int)).1 = .ok e := by rw [EntryAt_fst r c emptyCache, he]
    obtain ⟨h1, h2⟩ := Next_step r c it i e herr hidx (by rw [hb]; omega) he2
    by_cases hk : k = 0
    · subst hk
      refine ⟨?_, ?_, ?_, e, ?_, ?_⟩
      · show [(it.Next r c).1] = [true]
        rw [h1]
      · show (it.Next r c).2.1.err = none
        rw [h2]
      · show (it.Next r c).2.1.index = _
        rw [h2]
        rfl
      · show (it.Next r c).2.1.entry = some e
        rw [h2]
      · exact he
    · have hrec := ih (i + 1) (it.Next r c).2.2 (it.Next r c).2.1 (by rw [h2])
        (by rw [h2]; rfl) (by omega) (by omega)
      have e1 : i + 1 + k = i + (k + 1) := by omega
      rw [e1] at hrec
      obtain ⟨r1, r2, r3, e', r4, r5⟩ := hrec
      refine ⟨?_, r2, r3, e', r4, r5⟩
      show (it.Next r c).1 :: ((it.Next r c).2.1.nexts r k (it.Next r c).2.2).1 = _
      rw [r1, h1]
      rfl

/-- C23. Iterator range: for every reader with `entry_count = n ≥ 1` whose URL pointer
table has `n` elements, and in which the entries `0 … n - 2` parse, and for every entry
cache: the first `k` calls of `Next()` on a fresh `Entries()` iterator, `1 ≤ k ≤ n - 1`,
all return true, and after them `Index()` is `k - 1`, `Entry()` is the entry that
`EntryAt(k - 1)` returns and `Err()` is nil; of the first `n - 1 + j` calls the first
`n - 1` return true and the `j` later ones false, and `Err()` is nil afterwards and the
index is still `n - 1`: index `n - 1` is not emitted. -/
theorem iterator_range (r : Reader) (n : Nat) (hn : 1 ≤ n) (hn2 : n < 4294967296)
    (hcount : r.entryCount = n)
    (hparse : ∀ i : Nat, i + 1 < n → ∃ e, (r.EntryAt emptyCache (i : Int)).1 = .ok e)
    (c : Cache) :
    (∀ k, 1 ≤ k → k ≤ n - 1 →
      (r.Entries.nexts r k c).1 = List.replicate k true ∧
      (r.Entries.nexts r k c).2.1.Index = (k : Int) - 1 ∧
      (∃ e, (r.Entries.nexts r k c).2.1.Entry = some e ∧
        ∀ c2, (r.EntryAt c2 ((k : Int) - 1)).1 = .ok e) ∧
      (r.Entries.nexts r k c).2.1.Err = none) ∧
    (∀ j, (r.Entries.nexts r (n - 1 + j) c).1
        = List.replicate (n - 1) true ++ List.replicate j false ∧
      (r.Entries.nexts r (n - 1 + j) c).2.1.Err = none ∧
      (r.Entries.nexts r (n - 1 + j) c).2.1.index = ((n - 1 : Nat) : Int)) := by
  have hb : subU32 r.EntryCount 1 = n - 1 := by
    unfold subU32 Reader.EntryCount
    rw [hcount]
    omega
  have hp : ∀ i : Nat, i < n - 1 → ∃ e, (r.EntryAt emptyCache (i : Int)).1 = .ok e :=
    fun i hi => hparse i (by omega)
  have hbelow := fun k => nexts_below r (n - 1) hb hp k 0 c r.Entries rfl rfl
  constructor
  · intro k hk1 hk2
    obtain ⟨h1, h2, h3, e, h4, h5⟩ := hbelow k (by omega) hk1
    refine ⟨h1, ?_, ⟨e, h4, fun c2 => ?_⟩, h2⟩
    · show (r.Entries.nexts r k c).2.1.index - 1 = _
      rw [h3]
      omega
    · have e1 : ((0 + k - 1 : Nat) : Int) = (k : Int) - 1 := by omega
      rw [EntryAt_fst r c2 emptyCache, ← h5, e1]
  · intro j
    rw [nexts_add]
    by_cases hn1 : n - 1 = 0
    · rw [hn1]
      simp only [EntryIterator.nexts, List.replicate_zero, List.nil_append]
      rw [nexts_at_end r j c r.Entries (by rw [hb, hn1]; exact Int.le_refl _)]
      exact ⟨rfl, rfl, rfl⟩
    · obtain ⟨h1, h2, h3, -⟩ := hbelow (n - 1) (by omega) (by omega)
      rw [nexts_at_end r j _ _ (by rw [h3, hb]; simp)]
      exact ⟨by rw [h1], h2, by rw [h3]; simp⟩

set_option maxRecDepth 1000000 in
/-- Witness for C23 on the sample archive, which has 11 entries: of 12 calls of `Next()` the
first 10 return true and the last 2 false, with `Err()` nil; after the third call
`Index()` is 2. -/
theorem iterator_range_witness :
    sampleReader.entryCount = 11 ∧
    (sampleReader.Entries.nexts sampleReader (11 - 1 + 2) emptyCache).1
      = List.replicate (11 - 1) true ++ List.replicate 2 false ∧
    (sampleReader.Entries.nexts sampleReader (11 - 1 + 2) emptyCache).2.1.Err = none ∧
    (sampleReader.Entries.nexts sampleReader 3 emptyCache).2.1.Index = 2 ∧
    (sampleReader.Entries.nexts sampleReader 3 emptyCache).2.1.Entry
      = some (.content sampleContentBig) ∧
    (sampleReader.EntryAt emptyCache 2).1 = .ok (.content sampleContentBig) :=
  ⟨by decide,
   ((iterator_range sampleReader 11 (by decide) (by decide) (by decide)
      (fun i hi => by
        have hi2 : i < 10 := by omega
        interval_cases i <;> exact ⟨_, rfl⟩)
      emptyCache).2 2).1,
   by decide, by decide, by decide, by decide⟩


/-- The value returned by `Next` and the iterator it leaves do not depend on the cache. -/
theorem Next_fst (r : Reader) (c c2 : Cache) (it : EntryIterator) :
    (it.Next r c).1 = (it.Next r c2).1 ∧ (it.Next r c).2.1 = (it.Next r c2).2.1 := by
  unfold EntryIterator.Next
  by_cases herr : it.err.isSome
  · rw [if_pos herr, if_pos herr]
    exact ⟨rfl, rfl⟩
  · rw [if_neg herr, if_neg herr]
    simp only []
    by_cases hidx : it.index ≥ ((subU32 r.EntryCount 1 : Nat) : Int)
    · rw [if_pos hidx, if_pos hidx]
      exact ⟨rfl, rfl⟩
    · rw [if_neg hidx, if_neg hidx]
      have h := EntryAt_fst r c c2 it.index
      cases h1 : r.EntryAt c it.index with
      | mk res1 c1 =>
        cases h2 : r.EntryAt c2 it.index with
        | mk res2 c3 =>
          rw [h1, h2] at h
          simp only at h
          subst h
          cases res1 <;> exact ⟨rfl, rfl⟩

/-- The equation of `entryWithTitleLoop` for one more iteration. -/
theorem entryWithTitleLoop_succ (r : Reader) (ns : Namespace) (title : GoString) (fuel : Nat)
    (it : EntryIterator) (c : Cache) :
    entryWithTitleLoop r ns title (fuel + 1) it c =
      (match it.Next r c with
      | (false, it', c') =>
        match it'.Err with
        | some e => some (.error e, c')
        | none => some (.error .notFound, c')
      | (true, it', c') =>
        match it'.Entry with
        | none => none
        | some entry =>
          if entry.Title = title ∧ entry.Namespace = ns then some (.ok entry, c')
          else entryWithTitleLoop r ns title fuel it' c') := rfl

/-- The result of the linear scan of `EntryWithTitle` does not depend on the cache. -/
theorem entryWithTitleLoop_fst (r : Reader) (ns : Namespace) (title : GoString) (fuel : Nat) :
    ∀ (it : EntryIterator) (c c2 : Cache),
      (entryWithTitleLoop r ns title fuel it c).map Prod.fst
        = (entryWithTitleLoop r ns title fuel it c2).map Prod.fst := by
  induction fuel with
  | zero =>
    intro it c c2
    rfl
  | succ fuel ih =>
    intro it c c2
    rw [entryWithTitleLoop_succ, entryWithTitleLoop_succ]
    obtain ⟨h1, h2⟩ := Next_fst r c c2 it
    cases hn1 : it.Next r c with
    | mk b1 p1 =>
      cases p1 with
      | mk it1 c1 =>
        cases hn2 : it.Next r c2 with
        | mk b2 p2 =>
          cases p2 with
          | mk it2 c3 =>
            rw [hn1, hn2] at h1 h2
            simp only at h1 h2
            subst h1 h2
            cases b1 with
            | false =>
              simp only []
              cases it1.Err <;> rfl
            | true =>
              simp only []
              cases hent : it1.Entry with
              | none => rfl
              | some entry =>
                simp only []
                by_cases hm : entry.Title = title ∧ entry.Namespace = ns
                · rw [if_pos hm, if_pos hm]
                  rfl
                · rw [if_neg hm, if_neg hm]
                  exact ih it1 c1 c3

/-- On a cache miss `EntryWithTitle` runs the linear scan. -/
theorem EntryWithTitle_scan (r : Reader) (c : Cache) (ns : Namespace) (title : GoString)
    (hmiss : c.items.lookup (getTitleCacheKey ns title) = none) :
    r.EntryWithTitle c ns title =
      entryWithTitleFinish c
        (entryWithTitleLoop r ns title (r.urlIndex.length + 1) r.Entries c) := by
  have hget : getEntryByTitleFromCache c ns title = (none, c) := by
    unfold getEntryByTitleFromCache Cache.Get
    rw [hmiss]
  unfold Reader.EntryWithTitle
  rw [hget]

/-- On a cache miss `EntryWithTitle` returns the result of the linear scan, which is the
result it returns with an empty cache. -/
theorem EntryWithTitle_miss (r : Reader) (c : Cache) (ns : Namespace) (title : GoString)
    (hmiss : c.items.lookup (getTitleCacheKey ns title) = none) :
    (r.EntryWithTitle c ns title).1 = (r.EntryWithTitle emptyCache ns title).1 := by
  have h := entryWithTitleLoop_fst r ns title (r.urlIndex.length + 1) r.Entries c emptyCache
  rw [EntryWithTitle_scan r c ns title hmiss, EntryWithTitle_scan r emptyCache ns title rfl]
  cases h1 : entryWithTitleLoop r ns title (r.urlIndex.length + 1) r.Entries c with
  | none =>
    cases h2 : entryWithTitleLoop r ns title (r.urlIndex.length + 1) r.Entries emptyCache with
    | none => rfl
    | some b =>
      rw [h1, h2] at h
      exact Option.noConfusion h
  | some a =>
    cases h2 : entryWithTitleLoop r ns title (r.urlIndex.length + 1) r.Entries emptyCache with
    | none =>
      rw [h1, h2] at h
      exact Option.noConfusion h
    | some b =>
      rw [h1, h2] at h
      exact Option.some.inj h

set_option maxRecDepth 1000000 in
/-- C22, the code at the failing inputs. In the sample archive entry 10, the last one, is
the content entry `A/last`. With an empty cache `EntryWithTitle(A, last)` scans the
entries 0 to 9 and returns `ErrNotFound`; after `EntryAt(10)`, which puts entry 10 in the
cache, the same call returns entry 10. In `titleArchive` the entries 0 and 1, `A/x` and
`A/y`, both have the title `T`: on the reader that `NewReader` returns, whose cache
`preload` has filled, `EntryWithTitle(A, T)` returns `A/y`; with an empty cache it returns
`A/x`, the first entry of the scan. -/
theorem EntryWithTitle_depends_on_cache :
    (sampleReader.EntryAt emptyCache 10).1 = .ok (.content sampleContentLast) ∧
    (sampleReader.EntryWithTitle emptyCache [65] [108, 97, 115, 116]).1 = .error .notFound ∧
    (sampleReader.EntryWithTitle (sampleReader.EntryAt emptyCache 10).2
      [65] [108, 97, 115, 116]).1 = .ok (.content sampleContentLast) ∧
    (NewReader 4 titleArchive {}).map (fun res => res.toOption.map (fun p =>
      [(p.1.EntryAt emptyCache 0).1.map (fun e => (e.FullURL, e.Title)),
       (p.1.EntryAt emptyCache 1).1.map (fun e => (e.FullURL, e.Title)),
       (p.1.EntryWithTitle p.2 [65] [84]).1.map (fun e => (e.FullURL, e.Title)),
       (p.1.EntryWithTitle emptyCache [65] [84]).1.map (fun e => (e.FullURL, e.Title))]))
      = some (some [.ok ([65, 47, 120], [84]), .ok ([65, 47, 121], [84]),
          .ok ([65, 47, 121], [84]), .ok ([65, 47, 120], [84])]) :=
  ⟨by decide, by decide, by decide, by decide⟩


/-- A Go slice expression past the first byte. -/
theorem slice_cons_succ (x : Byte) (b : List Byte) (lo hi : Nat) :
    slice (x :: b) (lo + 1) (hi + 1) = slice b lo hi := by
  unfold slice
  rw [List.take_succ_cons, List.drop_succ_cons]

/-- The offsets of the blob `2^29 - 1` with the width 8: the slice indices `b*w` and
`b*w + w` are `2^32 - 8` and 0 on `uint32`, and the slice expression panics whatever the
buffer. -/
theorem decodeOffsets_wrapped (d : BlobDecoderFactory) (buf : Buffer) :
    CompressedBlobReader.decodeOffsets
      { decoderFactory := d, clusterStartOffset := 0,
        clusterEndOffset := 4294967304, blobIndex := 536870911, blobSize := 8,
        readOffset := 0 } buf = .error .panic := by
  unfold CompressedBlobReader.decodeOffsets
  simp only []
  have hlo : u32 (536870911 * u32 8) = 4294967288 := by decide
  have hmid : u32 (4294967288 + u32 8) = 0 := by decide
  rw [hlo, hmid, if_pos True.intro]
  have hg : goSlice buf 4294967288 0 = .error .panic := by
    unfold goSlice
    rw [if_neg (by omega)]
  rw [hg]
  rfl

/-- A `Size` whose `loadClusterData` returns an error returns that error. -/
theorem Size_load_error (r : Reader) (b b2 : CompressedBlobReader) (e : Error)
    (h : b.loadClusterData r = (some e, b2)) : (b.Size r).1 = .error e := by
  unfold CompressedBlobReader.Size
  rw [h]

/-- Reading a compressed blob whose `loadClusterData` returns an error returns that
error. -/
theorem ReadAll_load_error (r : Reader) (b b2 : CompressedBlobReader) (e : Error)
    (h : b.loadClusterData r = (some e, b2)) :
    BlobReader.ReadAll r (.compressed b) = .error e := by
  unfold BlobReader.ReadAll
  simp only [h]

/-- The load of a compressed blob whose cluster is read and decoded and whose offsets
cannot be decoded fails as the decoding of the offsets does. -/
theorem loadBody_offsets_error (r : Reader) (b : CompressedBlobReader) (c : List Byte)
    (buf : Buffer) (e : Error)
    (hn : ¬ subU64 b.clusterEndOffset b.clusterStartOffset > maxAlloc)
    (hread : r.readRangeE (toInt64 (u64 (b.clusterStartOffset + 1)))
      (subU64 b.clusterEndOffset b.clusterStartOffset) = .ok c)
    (hd : b.decoderFactory c = .ok buf) (ho : b.decodeOffsets buf = .error e) :
    b.loadBody r = .error e := by
  rw [loadBody_eq, if_neg hn, hread]
  simp only [bind, Except.bind, hd, ho]

/-- The two paths on a cluster payload `P` of `2^32 + 8` bytes whose last 16 bytes are zero,
behind the header byte `0x11` (uncompressed, offsets of 8 bytes), for the blob index
`2^29 - 1`: `Reader()` returns the uncompressed reader of the empty blob at the start of
the payload; the compressed reader with the identity decoder panics, whatever the capacity
of the decoded buffer, the slice index `b*w + w` being 0 on `uint32`. -/
theorem offset_paths_huge_payload (codecs : Codecs) (slack : Nat → Nat) (P : List Byte)
    (hlen : P.length = 4294967304)
    (hz1 : slice P 4294967288 4294967296 = List.replicate 8 0)
    (hz2 : slice P 4294967296 4294967304 = List.replicate 8 0) :
    payloadEntry.Reader codecs (payloadReader P)
      = .ok (.uncompressed (NewUncompressedBlobReader 1 1 8)) ∧
    BlobReader.ReadAll (payloadReader P)
      (.uncompressed (NewUncompressedBlobReader 1 1 8)) = .ok [] ∧
    (NewCompressedBlobReader (identityDecoderWith slack) 0 4294967304 536870911 8).loadBody
      (payloadReader P) = .error .panic ∧
    ((NewCompressedBlobReader (identityDecoderWith slack) 0 4294967304 536870911 8).Size
      (payloadReader P)).1 = .error .panic ∧
    BlobReader.ReadAll (payloadReader P)
      (.compressed (NewCompressedBlobReader (identityDecoderWith slack) 0 4294967304 536870911 8))
      = .error .panic := by
  generalize hr : payloadReader P = r
  have hrr : r.rangeReader = 17 :: P := by rw [← hr]; rfl
  have hci : r.clusterIndex = [0, 4294967305] := by rw [← hr]; rfl
  have hrlen : r.rangeReader.length = 4294967305 := by
    rw [hrr, List.length_cons, hlen]
  have hsz : r.rangeReader.length < 9223372036854775808 := by rw [hrlen]; decide
  have hext : extendedOf (17 : Byte).val = true := by decide
  have hle0 : leValue (List.replicate 8 (0 : Byte)) = 0 := by decide
  have hs1 : slice r.rangeReader (0 + 1 + 536870911 * 8) (0 + 1 + 536870911 * 8 + 8)
      = List.replicate 8 0 := by
    rw [hrr, ← hz1]
    exact slice_cons_succ 17 P 4294967288 4294967296
  have hs2 : slice r.rangeReader (0 + 1 + 536870911 * 8 + 8) (0 + 1 + 536870911 * 8 + 2 * 8)
      = List.replicate 8 0 := by
    rw [hrr, ← hz2]
    exact slice_cons_succ 17 P 4294967296 4294967304
  have hcb : (NewCompressedBlobReader (identityDecoderWith slack) 0 4294967304 536870911 8).loadBody r
      = .error .panic := by
    have hP : (r.rangeReader.drop 1).take 4294967304 = P := by
      rw [hrr, List.drop_succ_cons, List.drop_zero, List.take_of_length_le (le_of_eq hlen)]
    generalize hb : NewCompressedBlobReader (identityDecoderWith slack) 0 4294967304 536870911 8 = b
    have hcs : b.clusterStartOffset = 0 := by rw [← hb]; rfl
    have hce : b.clusterEndOffset = 4294967304 := by rw [← hb]; rfl
    have hdf : b.decoderFactory = identityDecoderWith slack := by rw [← hb]; rfl
    have hn : subU64 4294967304 0 = 4294967304 := by decide
    have hoff : toInt64 (u64 (0 + 1)) = ((1 : Nat) : Int) := by decide
    refine loadBody_offsets_error r b P { data := P, slack := List.replicate (slack P.length) 0 }
      .panic ?_ ?_ ?_ ?_
    · rw [hcs, hce, hn]
      decide
    · rw [hcs, hce, hn, hoff, readRangeE_inside r 1 4294967304 (by rw [hrlen]), hP]
    · rw [hdf]
      rfl
    · rw [← hb]
      exact decodeOffsets_wrapped _ _
  have hfresh := (loadClusterData_fresh r
    (NewCompressedBlobReader (identityDecoderWith slack) 0 4294967304 536870911 8) rfl rfl).2.2.2.1 hcb
  refine ⟨?_, ?_, hcb, ?_, ?_⟩
  · have h := Reader_uncompressed_in_range codecs r payloadEntry 0 4294967305 17
      (by rw [hci]; rfl) (by rw [hci]; rfl) (by rw [hrr]; exact List.getElem?_cons_zero)
      (Or.inr (by decide)) hsz
      (by rw [hext]; decide) (by rw [hext, hrlen]; decide)
    rw [h]
    have hbi : payloadEntry.blobIndex = 536870911 := rfl
    simp only [hbi, hext, if_true, hs1, hs2, hle0]
    rfl
  · have h := uncompressed_round_trip r hsz 1 1 8 (Nat.le_refl _) (by rw [hrlen]; decide)
      (by decide)
    rw [h.2.1, List.length_eq_zero.mp h.2.2]
  · exact Size_load_error r _ _ _ hfresh
  · exact ReadAll_load_error r _ _ _ hfresh

/-- Both paths when the slice indices fit 32 bits. For a cluster `[cs, next)` of at most
`maxAlloc` bytes inside a source of fewer than `2^63` bytes, with the header byte `h` of
kind 0 or 1 at `cs` and the payload `P` behind it, width `w` and blob index `b` with
`(b+2)*w < 2^32`, whose offsets `s` and `t` decoded from `P[b*w .. (b+2)*w]` satisfy
`s ≤ t ≤ len(P)`: the uncompressed reader that `Reader()` builds and the compressed reader
with the identity decoder over the same cluster, whatever the capacity of the decoded
buffer, have the same `Size()`, `t - s`, and yield the same bytes, `P[s .. t]`. -/
theorem same_offset_arithmetic_in_range (codecs : Codecs) (slack : Nat → Nat) (r : Reader)
    (e : ContentEntry)
    (cs next : Nat) (h : Byte) (w s t : Nat)
    (hc1 : r.clusterIndex[e.clusterIndex]? = some cs)
    (hc2 : r.clusterIndex[e.clusterIndex + 1]? = some next)
    (hh : r.rangeReader[cs]? = some h)
    (hk : h.val % 16 = 0 ∨ h.val % 16 = 1)
    (hw : w = if extendedOf h.val then 8 else 4)
    (hsz : r.rangeReader.length < 9223372036854775808)
    (hin : next ≤ r.rangeReader.length)
    (hcm : next - cs ≤ maxAlloc)
    (hb : e.blobIndex * w + 2 * w < 4294967296)
    (hlen : cs + 1 + (e.blobIndex * w + 2 * w) ≤ next)
    (hs : s = leValue (slice (slice r.rangeReader (cs + 1) next)
      (e.blobIndex * w) (e.blobIndex * w + w)))
    (ht : t = leValue (slice (slice r.rangeReader (cs + 1) next)
      (e.blobIndex * w + w) (e.blobIndex * w + 2 * w)))
    (hst : s ≤ t) (hend : cs + 1 + t ≤ next) :
    ∃ ub, e.Reader codecs r = .ok (.uncompressed ub) ∧
      ub.Size = .ok ((t - s : Nat) : Int) ∧
      ((NewCompressedBlobReader (identityDecoderWith slack) cs (subU64 next 1) e.blobIndex w).Size r).1
        = .ok ((t - s : Nat) : Int) ∧
      BlobReader.ReadAll r (.uncompressed ub)
        = .ok (slice (slice r.rangeReader (cs + 1) next) s t) ∧
      BlobReader.ReadAll r
        (.compressed (NewCompressedBlobReader (identityDecoderWith slack) cs (subU64 next 1) e.blobIndex w))
        = .ok (slice (slice r.rangeReader (cs + 1) next) s t) := by
  have hw48 : w = 4 ∨ w = 8 := by
    rw [hw]
    split <;> simp
  have hs2 : s = leValue (slice r.rangeReader (cs + 1 + e.blobIndex * w)
      (cs + 1 + e.blobIndex * w + w)) := by
    rw [hs, slice_inner _ _ _ _ _ (by omega), Nat.add_assoc (cs + 1)]
  have ht2 : t = leValue (slice r.rangeReader (cs + 1 + e.blobIndex * w + w)
      (cs + 1 + e.blobIndex * w + 2 * w)) := by
    rw [ht, slice_inner _ _ _ _ _ (by omega), Nat.add_assoc (cs + 1), Nat.add_assoc (cs + 1)]
  have hP : ∀ a b, cs + 1 + b ≤ next →
      slice (slice r.rangeReader (cs + 1) next) a b = slice r.rangeReader (cs + 1 + a) (cs + 1 + b) :=
    fun a b hab => slice_inner _ _ _ _ _ hab
  have hR := Reader_uncompressed_in_range codecs r e cs next h hc1 hc2 hh hk hsz
    (by rw [← hw]; omega) (by rw [← hw]; omega)
  rw [← hw, ← hs2, ← ht2] at hR
  have hu1 : u64 (cs + 1 + s) = cs + 1 + s := by unfold u64; omega
  have hu2 : u64 (cs + 1 + t) = cs + 1 + t := by unfold u64; omega
  rw [hu1, hu2] at hR
  have hU := uncompressed_round_trip r hsz (cs + 1 + s) (cs + 1 + t) w (by omega) (by omega)
    (by omega)
  have hsub : subU64 next 1 = next - 1 := subU64_of_le next 1 (by omega) (by omega)
  have hnext1 : next - 1 + 1 = next := by omega
  have hC := compressed_in_range r
    (NewCompressedBlobReader (identityDecoderWith slack) cs (subU64 next 1) e.blobIndex w)
    { data := slice r.rangeReader (cs + 1) next,
      slack := List.replicate (slack (slice r.rangeReader (cs + 1) next).length) 0 }
    (slice r.rangeReader (cs + 1) next) rfl hsz rfl rfl
    (by show cs ≤ subU64 next 1; omega)
    (by show subU64 next 1 - cs ≤ _; omega)
    (by show subU64 next 1 + 1 ≤ _; omega)
    (by show (identityDecoderWith slack) (slice r.rangeReader (cs + 1) (subU64 next 1 + 1)) = _
        rw [hsub, hnext1]; rfl)
    (by rw [slice_length _ _ _ (by omega) hin]; omega)
    hw48 (by show e.blobIndex * w + 2 * w < _; exact hb)
    (by show e.blobIndex * w + 2 * w ≤ _
        rw [slice_length _ _ _ (by omega) hin]; omega)
    (by show leValue (slice _ (e.blobIndex * w) (e.blobIndex * w + w))
          ≤ leValue (slice _ (e.blobIndex * w + w) (e.blobIndex * w + 2 * w))
        rw [← hs, ← ht]; exact hst)
    (by show leValue (slice _ (e.blobIndex * w + w) (e.blobIndex * w + 2 * w)) ≤ _
        rw [← ht, slice_length _ _ _ (by omega) hin]; omega)
  have hC2 : ((NewCompressedBlobReader (identityDecoderWith slack) cs (subU64 next 1) e.blobIndex w).Size r).1
        = .ok ((t - s : Nat) : Int) ∧
      BlobReader.ReadAll r
        (.compressed (NewCompressedBlobReader (identityDecoderWith slack) cs (subU64 next 1) e.blobIndex w))
        = .ok (slice (slice r.rangeReader (cs + 1) next) s t) := by
    rw [hs, ht]
    exact ⟨hC.2.1, hC.2.2⟩
  refine ⟨_, hR, ?_, hC2.1, ?_, hC2.2⟩
  · have hd : cs + 1 + t - (cs + 1 + s) = t - s := by omega
    rw [hU.1, hd]
  · rw [hU.2.1, hP s t hend]

/-- A Go slice expression of a constant sequence. -/
theorem slice_replicate (n lo hi : Nat) (x : Byte) :
    slice (List.replicate n x) lo hi = List.replicate (min hi n - lo) x := by
  unfold slice
  rw [List.take_replicate, List.drop_replicate]

/-- C27, the code at the failing input. The cluster payload `P` is `2^32 + 8` zero bytes,
the offset width `w` is 8 and the blob index `b` is `2^29 - 1`, so that
`b*w = 2^32 - 8 < 2^32`; the offsets decoded from `P[b*w .. (b+2)*w]` are `start = 0` and
`end = 0`, inside the payload. With `P` behind the header byte `0x11`, `Reader()` returns
the uncompressed reader of the empty blob `P[0 .. 0]`: `Size()` is 0 and reading it gives
no bytes. The compressed reader with the identity decoder over the same cluster panics
in `Size()` and in `Read`, whatever the capacity of the decoded buffer: the slice indices
of `loadClusterData` are computed on `uint32`, where `b*w + w` is 0. -/
theorem offset_arithmetic_differs_on_huge_payload :
    (List.replicate 4294967304 (0 : Byte)).length = 4294967304 ∧
    536870911 * 8 < 4294967296 ∧
    leValue (slice (List.replicate 4294967304 0) (536870911 * 8) (536870911 * 8 + 8)) = 0 ∧
    leValue (slice (List.replicate 4294967304 0) (536870911 * 8 + 8) (536870911 * 8 + 16)) = 0 ∧
    (payloadReader (List.replicate 4294967304 0)).getClusterOffsets 0 = .ok (0, 4294967304) ∧
    payloadEntry.Reader sampleCodecs (payloadReader (List.replicate 4294967304 0))
      = .ok (.uncompressed (NewUncompressedBlobReader 1 1 8)) ∧
    (NewUncompressedBlobReader 1 1 8).Size = .ok 0 ∧
    BlobReader.ReadAll (payloadReader (List.replicate 4294967304 0))
      (.uncompressed (NewUncompressedBlobReader 1 1 8)) = .ok [] ∧
    u32 (536870911 * u32 8 + u32 8) = 0 ∧
    ((NewCompressedBlobReader identityDecoder 0 4294967304 536870911 8).Size
      (payloadReader (List.replicate 4294967304 0))).1 = .error .panic ∧
    BlobReader.ReadAll (payloadReader (List.replicate 4294967304 0))
      (.compressed (NewCompressedBlobReader identityDecoder 0 4294967304 536870911 8))
      = .error .panic ∧
    (∀ slack : Nat → Nat,
      ((NewCompressedBlobReader (identityDecoderWith slack) 0 4294967304 536870911 8).Size
        (payloadReader (List.replicate 4294967304 0))).1 = .error .panic ∧
      BlobReader.ReadAll (payloadReader (List.replicate 4294967304 0))
        (.compressed (NewCompressedBlobReader (identityDecoderWith slack) 0 4294967304
          536870911 8)) = .error .panic) := by
  have hz1 : slice (List.replicate 4294967304 (0 : Byte)) 4294967288 4294967296
      = List.replicate 8 0 := by
    rw [slice_replicate]
    exact congrArg (fun n => List.replicate n (0 : Byte))
      (by decide : min 4294967296 4294967304 - 4294967288 = 8)
  have hz2 : slice (List.replicate 4294967304 (0 : Byte)) 4294967296 4294967304
      = List.replicate 8 0 := by
    rw [slice_replicate]
    exact congrArg (fun n => List.replicate n (0 : Byte))
      (by decide : min 4294967304 4294967304 - 4294967296 = 8)
  have hall := fun slack : Nat → Nat => offset_paths_huge_payload sampleCodecs slack
    (List.replicate 4294967304 0) (List.length_replicate _ _) hz1 hz2
  have hgen := hall (fun n => 512 - n)
  have hle0 : leValue (List.replicate 8 (0 : Byte)) = 0 := by decide
  refine ⟨List.length_replicate _ _, by decide, ?_, ?_, ?_, hgen.1, by decide, hgen.2.1,
    by decide, hgen.2.2.2.1, hgen.2.2.2.2, fun slack => ⟨(hall slack).2.2.2.1, (hall slack).2.2.2.2⟩⟩
  · show leValue (slice (List.replicate 4294967304 0) 4294967288 4294967296) = 0
    rw [hz1, hle0]
  · show leValue (slice (List.replicate 4294967304 0) 4294967296 4294967304) = 0
    rw [hz2, hle0]
  · rfl


/-- A fixed point of the loop of `parseMimeTypes`: when the call of `readStringsAt` at
`offset + read` returns the byte count `read` again, with a first string that is not
empty, the loop makes the same call for ever: no fuel is enough. -/
theorem parseMimeTypesLoop_cycle (r : Reader) (offset read : Int) (found : List GoString)
    (h : r.readStringsAt (wrapInt64 (offset + read)) 64 1024 = .ok (found, read))
    (hne : ¬ (found.length = 0 ∨ found.head? = some [])) (fuel : Nat) :
    ∀ acc : List GoString, parseMimeTypesLoop r offset fuel read acc = none := by
  induction fuel with
  | zero =>
    intro acc
    rfl
  | succ fuel ih =>
    intro acc
    rw [parseMimeTypesLoop_succ, h]
    simp only []
    rw [if_neg hne]
    exact ih _

/-- The end of the loop of `parseMimeTypes`: when the call of `readStringsAt` at
`offset + read` returns no string or an empty first string, the loop ends with the table
collected so far. -/
theorem parseMimeTypesLoop_stop (r : Reader) (offset read read2 : Int) (found : List GoString)
    (h : r.readStringsAt (wrapInt64 (offset + read)) 64 1024 = .ok (found, read2))
    (hend : found.length = 0 ∨ found.head? = some []) (fuel : Nat) (acc : List GoString) :
    parseMimeTypesLoop r offset (fuel + 1) read acc = some (.ok acc) := by
  rw [parseMimeTypesLoop_succ, h]
  simp only []
  rw [if_pos hend]

set_option maxRecDepth 1000000 in
/-- The two calls of `readStringsAt` that `parseMimeTypes` makes on `loopArchive`: at the
start of the MIME type list, and 3 bytes further. -/
theorem loopArchive_steps (r : Reader) (h : r.rangeReader = loopArchive) :
    r.readStringsAt (wrapInt64 (80 + 0)) 64 1024 = .ok ([[97]], 3) ∧
    r.readStringsAt (wrapInt64 (80 + 3)) 64 1024 = .ok ([[107]], 3) := by
  rw [readStringsAt_congr r { rangeReader := loopArchive } h,
    readStringsAt_congr r { rangeReader := loopArchive } h]
  decide

set_option maxRecDepth 1000000 in
/-- C31, the code at the failing input. `loopArchive` has 1251 bytes; its MIME type list, at
offset 80, is the string `a` and the empty string, and more than 1024 bytes of the file
follow it, so no read fails and no chunk reaches the end of the file. The first call of
`readStringsAt`, at offset 80, returns `a` and 3 bytes read; the second call, at offset
83, returns the string `k` made of the first byte of the URL pointer table, and 3 bytes
read again; every later call is made at offset 83 again. Neither `parseMimeTypes` nor
`NewReader` returns, whatever the fuel. -/
theorem parseMimeTypes_does_not_terminate :
    loopArchive.length = 1251 ∧
    slice loopArchive 80 86 = [97, 0, 0, 107, 0, 0] ∧
    leValue (slice loopArchive 56 64) = 80 ∧
    ({ rangeReader := loopArchive } : Reader).readStringsAt 80 64 1024 = .ok ([[97]], 3) ∧
    ({ rangeReader := loopArchive } : Reader).readStringsAt 83 64 1024 = .ok ([[107]], 3) ∧
    (∃ r, Reader.parseHeader { rangeReader := loopArchive } = .ok r ∧
      ∀ fuel, r.parseMimeTypes fuel = none) ∧
    (∀ fuel, NewReader fuel loopArchive {} = none) := by
  have hhead : ∃ r, Reader.parseHeader { rangeReader := loopArchive } = .ok r ∧
      r.rangeReader = loopArchive ∧ toInt64 r.mimeListPos = 80 := by
    rw [parseHeader_eq _ (by decide), if_neg (by decide)]
    exact ⟨_, rfl, rfl, by decide⟩
  obtain ⟨r, hr, hsrc, hpos⟩ := hhead
  have hnone : ∀ fuel, r.parseMimeTypes fuel = none := by
    intro fuel
    unfold Reader.parseMimeTypes
    rw [hpos]
    cases fuel with
    | zero => rfl
    | succ fuel =>
      rw [parseMimeTypesLoop_succ, (loopArchive_steps r hsrc).1]
      simp only []
      rw [if_neg (by decide),
        parseMimeTypesLoop_cycle r 80 3 [[107]] (loopArchive_steps r hsrc).2 (by decide) fuel]
  refine ⟨by decide, by decide, by decide, by decide, by decide, ⟨r, hr, hnone⟩, ?_⟩
  intro fuel
  unfold NewReader
  rw [if_neg (by decide)]
  unfold Reader.parse
  rw [hr]
  simp only []
  rw [hnone fuel]

end Zim
